import Mathlib

/-!
# vterm: the terminal core of `main.go`

A shallow embedding of the byte decoder, the escape-sequence parser, the screen
grid and the scrollback store of `src/main.go`, followed by theorems about them.

Conventions of the embedding.

* A Go `string` or `[]byte` is a list of bytes, a byte being a natural number
  below 256.
* A Go `int` is an `Int`.  Where an operand comes from the input stream (a CSI
  parameter, the `delta` of `ScrollView`) the 64-bit wrap-around of the
  addition is explicit (`wrap64`); the remaining additions are on grid
  coordinates, which stay far below `2^63` on every grid that can be allocated.
* Every slice access of the source is a checked access of the model: a function
  returns `none` exactly where the Go runtime panics (index out of range).
* `for` loops over an index range are `forRange`; the two `for cond { .. }`
  loops carry a fuel that exceeds their number of iterations.
-/

namespace VTerm

/-- A Go string or byte slice. -/
abbrev Bytes := List Nat

/-- `type Cell struct { char string; width int }` -/
structure Cell where
  char : Bytes
  width : Int
deriving DecidableEq, Repr

/-- `Cell{char: " ", width: 1}` -/
def blank : Cell := { char := [32], width := 1 }

/-- The fields of `type Terminal struct` used by the core (the process, pty,
mutex and blink fields are left out). -/
structure Terminal where
  output : List Bytes
  cursorX : Int
  cursorY : Int
  screenBuffer : List (List Cell)
  screenWidth : Int
  screenHeight : Int
  escapeBuffer : Bytes
  inEscape : Bool
  utf8Buffer : Bytes
  totalBuffer : List (List Cell)
  totalLines : Int
  viewOffset : Int
  maxHistory : Int
deriving DecidableEq, Repr

/-! ## Machine arithmetic and slices -/

/-- Two's-complement wrap-around of a 64-bit Go `int`. -/
def wrap64 (x : Int) : Int := (x + 2 ^ 63) % 2 ^ 64 - 2 ^ 63

/-- `xs[i]` for a Go index: `none` is the runtime panic. -/
def idx? {α : Type} (xs : List α) (i : Int) : Option α :=
  if 0 ≤ i then xs[i.toNat]? else none

/-- `xs[i] = a` for a Go index: `none` is the runtime panic. -/
def setIdx? {α : Type} (xs : List α) (i : Int) (a : α) : Option (List α) :=
  if 0 ≤ i ∧ i < xs.length then some (xs.set i.toNat a) else none

/-- `buf[y][x]` -/
def getCell (buf : List (List Cell)) (y x : Int) : Option Cell :=
  (idx? buf y).bind (fun row => idx? row x)

/-- `buf[y][x] = c` -/
def setCell (buf : List (List Cell)) (y x : Int) (c : Cell) : Option (List (List Cell)) :=
  (idx? buf y).bind (fun row => (setIdx? row x c).bind (fun row1 => setIdx? buf y row1))

/-- The builtin `copy(dst, src)`: the new contents of `dst`. -/
def copy {α : Type} (dst src : List α) : List α :=
  src.take dst.length ++ dst.drop src.length

/-- `copy(buf[d], src[s])` on two slices of rows. -/
def copyRow (buf : List (List Cell)) (d : Int) (src : List (List Cell)) (s : Int) :
    Option (List (List Cell)) :=
  (idx? buf d).bind (fun dst => (idx? src s).bind (fun from1 => setIdx? buf d (copy dst from1)))

/-- The body `f` run for `x, x+1, ...`, `n` times. -/
def forRangeAux {σ : Type} (f : Int → σ → Option σ) : Nat → Int → σ → Option σ
  | 0, _, s => some s
  | n + 1, x, s => (f x s).bind (forRangeAux f n (x + 1))

/-- `for x := lo; x < hi; x++ { s = f x s }` -/
def forRange {σ : Type} (lo hi : Int) (f : Int → σ → Option σ) (s : σ) : Option σ :=
  forRangeAux f (hi - lo).toNat lo s

/-- `for x := 0; x < w; x++ { buf[y][x] = Cell{char: " ", width: 1} }` and its
variants with other bounds. -/
def blankCells (buf : List (List Cell)) (y lo hi : Int) : Option (List (List Cell)) :=
  forRange lo hi (fun x b => setCell b y x blank) buf

/-! ## `unicode/utf8` and `strconv` -/

/-- The tables `first` and `acceptRanges` of `unicode/utf8`: for a leading byte
of a multi-byte encoding, its size and the accepted range of the second byte. -/
def leadInfo (b : Nat) : Option (Nat × Nat × Nat) :=
  if 0xC2 ≤ b ∧ b ≤ 0xDF then some (2, 0x80, 0xBF)
  else if b = 0xE0 then some (3, 0xA0, 0xBF)
  else if 0xE1 ≤ b ∧ b ≤ 0xEC then some (3, 0x80, 0xBF)
  else if b = 0xED then some (3, 0x80, 0x9F)
  else if 0xEE ≤ b ∧ b ≤ 0xEF then some (3, 0x80, 0xBF)
  else if b = 0xF0 then some (4, 0x90, 0xBF)
  else if 0xF1 ≤ b ∧ b ≤ 0xF3 then some (4, 0x80, 0xBF)
  else if b = 0xF4 then some (4, 0x80, 0x8F)
  else none

/-- A continuation byte, `locb <= c <= hicb`. -/
def isCont (c : Nat) : Bool := decide (0x80 ≤ c ∧ c ≤ 0xBF)

/-- `utf8.RuneError` -/
def RuneError : Nat := 0xFFFD

/-- `utf8.DecodeRuneInString`: the first rune of `s` and its size in bytes. -/
def DecodeRuneInString (s : Bytes) : Nat × Nat :=
  match s with
  | [] => (RuneError, 0)
  | s0 :: rest =>
    if s0 < 0x80 then (s0, 1)
    else
      match leadInfo s0 with
      | none => (RuneError, 1)
      | some (sz, lo, hi) =>
        if rest.length + 1 < sz then (RuneError, 1)
        else
          match rest with
          | [] => (RuneError, 1)
          | s1 :: rest1 =>
            if s1 < lo ∨ hi < s1 then (RuneError, 1)
            else if sz ≤ 2 then ((s0 % 32) * 64 + s1 % 64, 2)
            else
              match rest1 with
              | [] => (RuneError, 1)
              | s2 :: rest2 =>
                if ¬ isCont s2 then (RuneError, 1)
                else if sz ≤ 3 then ((s0 % 16) * 4096 + (s1 % 64) * 64 + s2 % 64, 3)
                else
                  match rest2 with
                  | [] => (RuneError, 1)
                  | s3 :: _ =>
                    if ¬ isCont s3 then (RuneError, 1)
                    else ((s0 % 8) * 262144 + (s1 % 64) * 4096 + (s2 % 64) * 64 + s3 % 64, 4)

/-- The loop of `utf8.Valid`, one encoded rune per round; the fuel is the
number of bytes, which no run exhausts. -/
def validAux : Nat → Bytes → Bool
  | _, [] => true
  | 0, _ :: _ => false
  | fuel + 1, p0 :: rest =>
    if p0 < 0x80 then validAux fuel rest
    else
      match leadInfo p0 with
      | none => false
      | some (sz, lo, hi) =>
        if rest.length + 1 < sz then false
        else
          match rest with
          | [] => false
          | c1 :: rest1 =>
            if c1 < lo ∨ hi < c1 then false
            else if sz = 2 then validAux fuel rest1
            else
              match rest1 with
              | [] => false
              | c2 :: rest2 =>
                if ¬ isCont c2 then false
                else if sz = 3 then validAux fuel rest2
                else
                  match rest2 with
                  | [] => false
                  | c3 :: rest3 =>
                    if ¬ isCont c3 then false else validAux fuel rest3

/-- `utf8.Valid` -/
def Valid (p : Bytes) : Bool := validAux p.length p

/-- `string(b)` for a byte `b`: the UTF-8 encoding of the code point `b`. -/
def byteToString (b : Nat) : Bytes :=
  if b < 0x80 then [b] else [0xC0 + b / 64, 0x80 + b % 64]

/-- A decimal digit byte. -/
def isDigit (c : Nat) : Bool := decide (48 ≤ c ∧ c ≤ 57)

/-- The value of a string of decimal digits. -/
def digitsValue (ds : Bytes) : Nat := ds.foldl (fun a d => a * 10 + (d - 48)) 0

/-- `strconv.Atoi` on a 64-bit platform: `none` is a non-nil error (syntax or
range). -/
def Atoi (s : Bytes) : Option Int :=
  let neg : Bool := match s with
    | 45 :: _ => true
    | _ => false
  let ds : Bytes := match s with
    | 43 :: r => r
    | 45 :: r => r
    | _ => s
  if ds = [] then none
  else if ds.all isDigit then
    let n := digitsValue ds
    if neg then (if n ≤ 2 ^ 63 then some (-(n : Int)) else none)
    else (if n < 2 ^ 63 then some (n : Int) else none)
  else none

/-- `strings.Split(s, sep)` for a one-byte separator. -/
def split (sep : Nat) : Bytes → List Bytes
  | [] => [[]]
  | c :: cs =>
    if c = sep then [] :: split sep cs
    else
      match split sep cs with
      | p :: ps => (c :: p) :: ps
      | [] => [[c]]

/-- `strings.HasPrefix(seq, "\x1b[")` -/
def hasCsiPrefix (seq : Bytes) : Bool :=
  match seq with
  | 27 :: 91 :: _ => true
  | _ => false

/-! ## `getCharWidth`, `isPrintableChar` -/

/-- `func getCharWidth(char string) int` -/
def getCharWidth (char : Bytes) : Int :=
  if char.length = 0 then 0
  else
    let r := (DecodeRuneInString char).1
    if 0x4e00 ≤ r ∧ r ≤ 0x9fff then 2
    else if 0x3000 ≤ r ∧ r ≤ 0x303f then 2
    else if 0xff00 ≤ r ∧ r ≤ 0xffef then 2
    else if 0x1100 ≤ r ∧ r ≤ 0x11ff then 2
    else if 0x2e80 ≤ r ∧ r ≤ 0x2eff then 2
    else if 0x2f00 ≤ r ∧ r ≤ 0x2fdf then 2
    else if 0x3100 ≤ r ∧ r ≤ 0x312f then 2
    else if 0x3200 ≤ r ∧ r ≤ 0x32ff then 2
    else if 0x3400 ≤ r ∧ r ≤ 0x4dbf then 2
    else if 0xac00 ≤ r ∧ r ≤ 0xd7af then 2
    else if 0xf900 ≤ r ∧ r ≤ 0xfaff then 2
    else 1

/-- `func isPrintableChar(char string) bool` -/
def isPrintableChar (char : Bytes) : Bool :=
  match char with
  | [] => false
  | [b] => if b < 32 ∨ b = 127 then false else true
  | _ =>
    let r := (DecodeRuneInString char).1
    if r < 32 ∨ (127 ≤ r ∧ r ≤ 159) then false
    else if r = 0xFEFF ∨ (0x200B ≤ r ∧ r ≤ 0x200F) ∨ (0x2028 ≤ r ∧ r ≤ 0x2029) ∨
        (0xE000 ≤ r ∧ r ≤ 0xF8FF) then false
    else true

/-! ## Construction, scrolling and the history view -/

/-- The grid and history rows built by `NewTerminal`. -/
def blankRows (n w : Int) : List (List Cell) :=
  List.replicate n.toNat (List.replicate w.toNat blank)

/-- The state built by `NewTerminal` for a history of `maxHistory` rows. -/
def newTerminalWith (maxHistory screenWidth screenHeight : Int) : Terminal :=
  { output := []
    cursorX := 0
    cursorY := 0
    screenBuffer := blankRows screenHeight screenWidth
    screenWidth := screenWidth
    screenHeight := screenHeight
    escapeBuffer := []
    inEscape := false
    utf8Buffer := []
    totalBuffer := blankRows maxHistory screenWidth
    totalLines := 0
    viewOffset := 0
    maxHistory := maxHistory }

/-- `func NewTerminal(screenWidth, screenHeight int)`: the terminal state it
builds (`maxHistory := 1000`). -/
def NewTerminal (screenWidth screenHeight : Int) : Terminal :=
  newTerminalWith 1000 screenWidth screenHeight

/-- `func (t *Terminal) scrollUp()` -/
def scrollUp (t : Terminal) : Option Terminal :=
  (if t.totalLines ≥ t.maxHistory then
      (forRange 0 (t.maxHistory - 1) (fun y tb => copyRow tb y tb (y + 1)) t.totalBuffer).bind
        (fun tb => (blankCells tb (t.maxHistory - 1) 0 t.screenWidth).bind
          (fun tb1 => some { t with totalBuffer := tb1 }))
    else some { t with totalLines := t.totalLines + 1 }).bind (fun t1 =>
  let targetLine := min (t1.totalLines - 1) (t1.maxHistory - 1)
  (if targetLine ≥ 0 then
      (copyRow t1.totalBuffer targetLine t1.screenBuffer 0).bind
        (fun tb => some { t1 with totalBuffer := tb })
    else some t1).bind (fun t2 =>
  (forRange 0 (t2.screenHeight - 1) (fun y sb => copyRow sb y sb (y + 1)) t2.screenBuffer).bind
    (fun sb => (blankCells sb (t2.screenHeight - 1) 0 t2.screenWidth).bind (fun sb1 =>
  let t3 : Terminal := { t2 with screenBuffer := sb1, cursorY := t2.screenHeight - 1 }
  let maxOffset := max 0 (t3.totalLines - 1)
  if t3.viewOffset > maxOffset then some { t3 with viewOffset := maxOffset } else some t3))))

/-- `func (t *Terminal) updateDisplayBuffer()` -/
def updateDisplayBuffer (t : Terminal) : Option Terminal :=
  if t.viewOffset = 0 ∨ t.totalLines = 0 then some t
  else
    let startLine := max 0 (t.totalLines - t.viewOffset - t.screenHeight)
    (forRange 0 t.screenHeight (fun y sb =>
        let historyLine := startLine + y
        if historyLine ≥ 0 ∧ historyLine < t.totalLines ∧ historyLine < t.maxHistory then
          copyRow sb y t.totalBuffer historyLine
        else blankCells sb y 0 t.screenWidth) t.screenBuffer).bind
      (fun sb => some { t with screenBuffer := sb })

/-- `func (t *Terminal) ScrollView(delta int)` -/
def ScrollView (t : Terminal) (delta : Int) : Option Terminal :=
  let oldOffset := t.viewOffset
  let v := wrap64 (t.viewOffset + delta)
  let maxOffset := max 0 (t.totalLines - 1)
  let t1 : Terminal :=
    if v < 0 then { t with viewOffset := 0 }
    else if v > maxOffset then { t with viewOffset := maxOffset }
    else { t with viewOffset := v }
  if t1.viewOffset ≠ oldOffset then updateDisplayBuffer t1 else some t1

/-! ## Escape sequences -/

/-- `func (t *Terminal) isEscapeComplete(b byte) bool`, on the escape buffer
that already holds `b`. -/
def isEscapeComplete (t : Terminal) (b : Nat) : Bool :=
  let escSeq := t.escapeBuffer
  if escSeq.length < 2 then false
  else if hasCsiPrefix escSeq then
    decide ((65 ≤ b ∧ b ≤ 90) ∨ (97 ≤ b ∧ b ≤ 122))
  else decide (escSeq.length ≥ 2)

/-- `func (t *Terminal) parseNumber(s string, defaultVal int) int` -/
def parseNumber (s : Bytes) (defaultVal : Int) : Int :=
  if s = [] then defaultVal
  else
    match Atoi s with
    | some n => n
    | none => defaultVal

/-- `func (t *Terminal) setCursorPosition(params string)` -/
def setCursorPosition (t : Terminal) (params : Bytes) : Option Terminal :=
  let parts := split 59 params
  (idx? parts 0).bind (fun p0 =>
  let row := wrap64 (parseNumber p0 1 - 1)
  (if parts.length > 1 then
      (idx? parts 1).bind (fun p1 => some (wrap64 (parseNumber p1 1 - 1)))
    else some 0).bind (fun col =>
  some { t with
    cursorY := max 0 (min (t.screenHeight - 1) row)
    cursorX := max 0 (min (t.screenWidth - 1) col) }))

/-- `func (t *Terminal) clearScreen(params string)` -/
def clearScreen (t : Terminal) (params : Bytes) : Option Terminal :=
  let n := parseNumber params 0
  if n = 0 then
    (forRange t.cursorY t.screenHeight (fun y sb =>
        let startX := if y = t.cursorY then t.cursorX else 0
        blankCells sb y startX t.screenWidth) t.screenBuffer).bind
      (fun sb => some { t with screenBuffer := sb })
  else if n = 1 then
    (forRange 0 (t.cursorY + 1) (fun y sb =>
        let endX := if y = t.cursorY then t.cursorX + 1 else t.screenWidth
        blankCells sb y 0 endX) t.screenBuffer).bind
      (fun sb => some { t with screenBuffer := sb })
  else if n = 2 then
    (forRange 0 t.screenHeight (fun y sb => blankCells sb y 0 t.screenWidth) t.screenBuffer).bind
      (fun sb => some { t with screenBuffer := sb, cursorX := 0, cursorY := 0 })
  else some t

/-- `func (t *Terminal) clearLine(params string)` -/
def clearLine (t : Terminal) (params : Bytes) : Option Terminal :=
  let n := parseNumber params 0
  if n = 0 then
    (blankCells t.screenBuffer t.cursorY t.cursorX t.screenWidth).bind
      (fun sb => some { t with screenBuffer := sb })
  else if n = 1 then
    (blankCells t.screenBuffer t.cursorY 0 (t.cursorX + 1)).bind
      (fun sb => some { t with screenBuffer := sb })
  else if n = 2 then
    (blankCells t.screenBuffer t.cursorY 0 t.screenWidth).bind
      (fun sb => some { t with screenBuffer := sb })
  else some t

/-- `func (t *Terminal) processEscapeSequence(seq string)` -/
def processEscapeSequence (t : Terminal) (seq : Bytes) : Option Terminal :=
  if seq.length < 2 then some t
  else if hasCsiPrefix seq then
    if seq.length < 3 then none
    else
      let params := (seq.drop 2).take (seq.length - 3)
      (idx? seq (seq.length - 1)).bind (fun cmd =>
      if cmd = 72 ∨ cmd = 102 then setCursorPosition t params
      else if cmd = 65 then
        let n := parseNumber params 1
        if n > 0 then some { t with cursorY := max 0 (wrap64 (t.cursorY - n)) } else some t
      else if cmd = 66 then
        let n := parseNumber params 1
        if n > 0 then some { t with cursorY := min (t.screenHeight - 1) (wrap64 (t.cursorY + n)) }
        else some t
      else if cmd = 67 then
        let n := parseNumber params 1
        if n > 0 then some { t with cursorX := min (t.screenWidth - 1) (wrap64 (t.cursorX + n)) }
        else some t
      else if cmd = 68 then
        let n := parseNumber params 1
        if n > 0 then some { t with cursorX := max 0 (wrap64 (t.cursorX - n)) } else some t
      else if cmd = 74 then clearScreen t params
      else if cmd = 75 then clearLine t params
      else some t)
  else some t

/-! ## Backspace, characters and bytes -/

/-- The scan loop of `handleBackspace`:
`for t.cursorX >= 0 && (cell.char == " " || cell.width == 0) { t.cursorX-- }`. -/
def scanBack : Nat → Terminal → Option Terminal
  | 0, t => some t
  | fuel + 1, t =>
    if t.cursorX ≥ 0 then
      (getCell t.screenBuffer t.cursorY t.cursorX).bind (fun c =>
        if c.char = [32] ∨ c.width = 0 then scanBack fuel { t with cursorX := t.cursorX - 1 }
        else some t)
    else some t

/-- `func (t *Terminal) handleBackspace()` -/
def handleBackspace (t : Terminal) : Option Terminal :=
  if t.cursorX > 0 then
    let targetX := t.cursorX - 1
    if targetX ≥ 0 ∧ targetX < t.screenWidth then
      (getCell t.screenBuffer t.cursorY targetX).bind (fun targetCell =>
      if targetCell.width = 2 then
        (setCell t.screenBuffer t.cursorY targetX blank).bind (fun sb =>
        (if targetX + 1 < t.screenWidth then setCell sb t.cursorY (targetX + 1) blank
          else some sb).bind (fun sb1 =>
        some { t with screenBuffer := sb1, cursorX := targetX }))
      else if targetCell.width = 0 then
        let realCharX := targetX - 1
        (if realCharX ≥ 0 then
            (getCell t.screenBuffer t.cursorY realCharX).bind (fun c => some (decide (c.width = 2)))
          else some false).bind (fun found =>
        if found then
          (setCell t.screenBuffer t.cursorY realCharX blank).bind (fun sb =>
          (setCell sb t.cursorY targetX blank).bind (fun sb1 =>
          some { t with screenBuffer := sb1, cursorX := realCharX }))
        else
          (setCell t.screenBuffer t.cursorY targetX blank).bind (fun sb =>
          some { t with screenBuffer := sb, cursorX := targetX }))
      else
        (setCell t.screenBuffer t.cursorY targetX blank).bind (fun sb =>
        some { t with screenBuffer := sb, cursorX := targetX }))
    else some t
  else if t.cursorY > 0 then
    let t1 : Terminal := { t with cursorY := t.cursorY - 1, cursorX := t.screenWidth - 1 }
    (scanBack (t1.screenWidth.toNat + 1) t1).bind (fun t2 =>
    (if t2.cursorX ≥ 0 then
        (getCell t2.screenBuffer t2.cursorY t2.cursorX).bind (fun c =>
          if c.width = 2 then some { t2 with cursorX := t2.cursorX + 2 }
          else some { t2 with cursorX := t2.cursorX + 1 })
      else some { t2 with cursorX := 0 }).bind (fun t3 =>
    if t3.cursorX ≥ t3.screenWidth then some { t3 with cursorX := t3.screenWidth - 1 }
    else some t3))
  else some t

/-- The loop of the tab case of `processChar`:
`for t.cursorX < nextTab && t.cursorX < t.screenWidth { write a blank; t.cursorX++ }`. -/
def tabLoop (nextTab : Int) : Nat → Terminal → Option Terminal
  | 0, t => some t
  | fuel + 1, t =>
    if t.cursorX < nextTab ∧ t.cursorX < t.screenWidth then
      (setCell t.screenBuffer t.cursorY t.cursorX blank).bind (fun sb =>
        tabLoop nextTab fuel { t with screenBuffer := sb, cursorX := t.cursorX + 1 })
    else some t

/-- The line-feed step that `processChar` performs in two places (the `'\n'`
case and the wrap before a write):
`t.cursorX = 0; t.cursorY++; if t.cursorY >= t.screenHeight { t.scrollUp() }`. -/
def lineFeed (t : Terminal) : Option Terminal :=
  let t1 : Terminal := { t with cursorX := 0, cursorY := t.cursorY + 1 }
  if t1.cursorY ≥ t1.screenHeight then scrollUp t1 else some t1

/-- The wrap of `processChar` before a write:
`if t.cursorX+charWidth > t.screenWidth { <line feed> }`. -/
def wrapLine (t : Terminal) (charWidth : Int) : Option Terminal :=
  if t.cursorX + charWidth > t.screenWidth then lineFeed t else some t

/-- The write of `processChar` (`if t.cursorY < t.screenHeight { ... }`): the
cell, the placeholder of a wide glyph, and the cursor advance. -/
def placeGlyph (t : Terminal) (char : Bytes) (charWidth : Int) : Option Terminal :=
  if t.cursorY < t.screenHeight then
    (setCell t.screenBuffer t.cursorY t.cursorX { char := char, width := charWidth }).bind
      (fun sb =>
    (if charWidth = 2 ∧ t.cursorX + 1 < t.screenWidth then
        setCell sb t.cursorY (t.cursorX + 1) { char := [], width := 0 }
      else some sb).bind (fun sb1 =>
    some { t with screenBuffer := sb1, cursorX := t.cursorX + charWidth }))
  else some t

/-- The last part of `processChar` (from `if char != "\x00" && ...`): the write
of a printable fragment. -/
def writeChar (t : Terminal) (char : Bytes) : Option Terminal :=
  if char ≠ [0] ∧ char ≠ [127] ∧ char ≠ [8] ∧ t.inEscape = false ∧ isPrintableChar char = true then
    let charWidth := getCharWidth char
    (wrapLine t charWidth).bind (fun t1 => placeGlyph t1 char charWidth)
  else some t

/-- `func (t *Terminal) processChar(char string)` -/
def processChar (t : Terminal) (char : Bytes) : Option Terminal :=
  match char with
  | [b] =>
    if t.inEscape then
      let t1 : Terminal := { t with escapeBuffer := t.escapeBuffer ++ [b] }
      if isEscapeComplete t1 b then
        (processEscapeSequence t1 t1.escapeBuffer).bind (fun t2 =>
          some { t2 with escapeBuffer := [], inEscape := false })
      else some t1
    else if b = 27 then
      some { t with inEscape := true, escapeBuffer := t.escapeBuffer ++ [b] }
    else if b = 10 then lineFeed t
    else if b = 8 then handleBackspace t
    else if b = 13 then some { t with cursorX := 0 }
    else if b = 9 then
      let nextTab := (t.cursorX.tdiv 8 + 1) * 8
      tabLoop nextTab 16 t
    else writeChar t char
  | _ => writeChar t char

/-- `func (t *Terminal) processByte(b byte)` -/
def processByte (t : Terminal) (b : Nat) : Option Terminal :=
  let buf := t.utf8Buffer ++ [b]
  if Valid buf then processChar { t with utf8Buffer := [] } buf
  else if buf.length > 4 then
    match buf with
    | firstByte :: rest => processChar { t with utf8Buffer := rest } (byteToString firstByte)
    | [] => none
  else some { t with utf8Buffer := buf }

/-- The loop of `readOutput` on one chunk: `for i := 0; i < n; i++ { t.processByte(buf[i]) }`. -/
def feed (t : Terminal) : Bytes → Option Terminal
  | [] => some t
  | b :: bs => (processByte t b).bind (fun t1 => feed t1 bs)

/-- `func (t *Terminal) updateOutput()` -/
def updateOutput (t : Terminal) : Option Terminal :=
  (forRange 0 t.screenHeight (fun y out =>
      (forRange 0 t.screenWidth (fun x line =>
          (getCell t.screenBuffer y x).bind (fun c => some (line ++ c.char))) []).bind
        (fun line => some (out ++ [line]))) []).bind
    (fun out => some { t with output := out })

/-! ## Predicates used in the statements -/

/-- A slice of `h` rows of `w` cells each, as `NewTerminal` allocates them. -/
def Shaped (buf : List (List Cell)) (h w : Int) : Prop :=
  (buf.length : Int) = h ∧ ∀ row ∈ buf, (row.length : Int) = w

/-- A row of `w` blank cells. -/
def blankRow (w : Int) : List Cell := List.replicate w.toNat blank

/-- What `NewTerminal` establishes and every operation keeps: a grid of
`screenHeight` rows and a history of `maxHistory` rows, all `screenWidth` wide,
and a stored-row count within the history. -/
def Allocated (t : Terminal) : Prop :=
  1 ≤ t.screenWidth ∧ 1 ≤ t.screenHeight ∧ 1 ≤ t.maxHistory ∧
  Shaped t.screenBuffer t.screenHeight t.screenWidth ∧
  Shaped t.totalBuffer t.maxHistory t.screenWidth ∧
  0 ≤ t.totalLines ∧ t.totalLines ≤ t.maxHistory

/-- The cell written for a printable ASCII byte. -/
def asciiCell (b : Nat) : Cell := { char := [b], width := 1 }

/-- The text of a grid row: the concatenation of its cells' fragments. -/
def rowText (row : List Cell) : Bytes := (row.map Cell.char).flatten

/-- No 64-bit overflow is pending in a cursor move: the number denoted by the
CSI parameter string accumulated so far (`1` when it is empty or not a number),
added to either cursor coordinate, stays below `2^63`. -/
def ParamFits (t : Terminal) : Prop :=
  t.cursorX + parseNumber (t.escapeBuffer.drop 2) 1 < 2 ^ 63 ∧
  t.cursorY + parseNumber (t.escapeBuffer.drop 2) 1 < 2 ^ 63

instance (t : Terminal) : Decidable (ParamFits t) := by
  unfold ParamFits; infer_instance

/-- `ParamFits` holds in every state in which a byte of the input is processed. -/
def fitsAlong : Terminal → Bytes → Bool
  | _, [] => true
  | t, b :: bs =>
    decide (ParamFits t) &&
      (match processByte t b with
        | some t1 => fitsAlong t1 bs
        | none => true)

/-- The cursor range the code maintains: the row is a grid row; the column is a
grid column or the position just after a write (`screenWidth`, or `2` after a
wide glyph on a one-column grid). -/
def CursorOK (t : Terminal) : Prop :=
  (0 ≤ t.cursorY ∧ t.cursorY < t.screenHeight) ∧ 0 ≤ t.cursorX ∧ t.cursorX ≤ max t.screenWidth 2

/-- The invariant of the read loop on a grid of `w` columns and `h` rows with a
history of `m` rows. -/
def Inv (w h m : Int) (t : Terminal) : Prop :=
  t.screenWidth = w ∧ t.screenHeight = h ∧ t.maxHistory = m ∧ Allocated t ∧ CursorOK t

/-- `scrollUp` invoked `n` times in a row. -/
def scrollUpTimes : Nat → Terminal → Option Terminal
  | 0, t => some t
  | n + 1, t => (scrollUp t).bind (scrollUpTimes n)

instance (buf : List (List Cell)) (h w : Int) : Decidable (Shaped buf h w) := by
  unfold Shaped; infer_instance

instance (t : Terminal) : Decidable (Allocated t) := by
  unfold Allocated; infer_instance

instance (t : Terminal) : Decidable (CursorOK t) := by
  unfold CursorOK; infer_instance

/-- The view offset `ScrollView(delta)` settles on: `t.viewOffset += delta`
followed by the two range checks. -/
def newOffset (t : Terminal) (delta : Int) : Int :=
  if wrap64 (t.viewOffset + delta) < 0 then 0
  else if wrap64 (t.viewOffset + delta) > max 0 (t.totalLines - 1) then max 0 (t.totalLines - 1)
  else wrap64 (t.viewOffset + delta)

/-- An ASCII letter, the final byte of a CSI sequence. -/
def isLetter (b : Nat) : Bool := decide ((65 ≤ b ∧ b ≤ 90) ∨ (97 ≤ b ∧ b ≤ 122))

/-- What `processChar` does when a byte completes the escape sequence `seq`:
dispatch, then `escapeBuffer.Reset()` and `inEscape = false`. -/
def finishEscape (t : Terminal) (seq : Bytes) : Option Terminal :=
  (processEscapeSequence { t with escapeBuffer := seq } seq).bind (fun t2 =>
    some { t2 with escapeBuffer := [], inEscape := false })

/-- The grid of `rows` rows and `cols` columns that shows the ASCII text `s`
left-aligned on row 0 and blanks elsewhere. -/
def textGrid (cols rows : Int) (s : Bytes) : List (List Cell) :=
  (s.map asciiCell ++ List.replicate (cols.toNat - s.length) blank) ::
    List.replicate (rows.toNat - 1) (List.replicate cols.toNat blank)

/-- The decoder of `processByte`, without the call of `processChar`: the
fragment handed to `processChar` on byte `b` (if any) and the accumulation
buffer left behind, from the buffer `buf0` before the byte. -/
def decodeStep (buf0 : Bytes) (b : Nat) : Option Bytes × Bytes :=
  let buf := buf0 ++ [b]
  if Valid buf then (some buf, [])
  else if buf.length > 4 then
    match buf with
    | firstByte :: rest => (some (byteToString firstByte), rest)
    | [] => (none, [])
  else (none, buf)

/-- The fragments handed to `processChar`, in order, while the bytes `bs` are fed
from the accumulation buffer `buf`, and the buffer left at the end. -/
def decodeAll : Bytes → Bytes → List Bytes × Bytes
  | buf, [] => ([], buf)
  | buf, b :: bs =>
    match decodeStep buf b with
    | (some frag, rest) => (frag :: (decodeAll rest bs).1, (decodeAll rest bs).2)
    | (none, rest) => decodeAll rest bs

/-- `processChar` called on each fragment of a list in turn. -/
def feedChars (t : Terminal) : List Bytes → Option Terminal
  | [] => some t
  | c :: cs => (processChar t c).bind (fun t1 => feedChars t1 cs)

/-- A Unicode scalar value: a code point outside the surrogate range. -/
def isScalar (r : Nat) : Prop := r < 0xD800 ∨ (0xE000 ≤ r ∧ r < 0x110000)

instance (r : Nat) : Decidable (isScalar r) := by
  unfold isScalar; infer_instance

/-- The UTF-8 encoding of a code point (`utf8.AppendRune` on a scalar value). -/
def encodeRune (r : Nat) : Bytes :=
  if r < 0x80 then [r]
  else if r < 0x800 then [0xC0 + r / 64, 0x80 + r % 64]
  else if r < 0x10000 then [0xE0 + r / 4096, 0x80 + r / 64 % 64, 0x80 + r % 64]
  else [0xF0 + r / 262144, 0x80 + r / 4096 % 64, 0x80 + r / 64 % 64, 0x80 + r % 64]

/-- The fields that only `scrollUp` and `ScrollView` write are the same in both
states, and so is the decoder buffer. -/
def SameHistory (t t1 : Terminal) : Prop :=
  t1.utf8Buffer = t.utf8Buffer ∧ t1.maxHistory = t.maxHistory ∧
  t1.totalLines = t.totalLines ∧ t1.viewOffset = t.viewOffset

/-- The bounds on the view offset and the stored-row count. -/
def ViewOK (t : Terminal) : Prop :=
  (0 ≤ t.viewOffset ∧ t.viewOffset ≤ max 0 (t.totalLines - 1)) ∧
  0 ≤ t.totalLines ∧ t.totalLines ≤ t.maxHistory

instance (t : Terminal) : Decidable (ViewOK t) := by
  unfold ViewOK; infer_instance

/-- An event of a session: a byte read from the pty, or a `ScrollView` call of
the key handler. -/
inductive Event where
  | byte (b : Nat)
  | scroll (delta : Int)
deriving DecidableEq, Repr

/-- The terminal after a sequence of events. -/
def run (t : Terminal) : List Event → Option Terminal
  | [] => some t
  | Event.byte b :: es => (processByte t b).bind (fun t1 => run t1 es)
  | Event.scroll delta :: es => (ScrollView t delta).bind (fun t1 => run t1 es)

/-- What processing a fragment may do to the history fields: nothing, or the
bookkeeping of one `scrollUp` (one more stored row unless the store is full;
the view offset lowered to the new maximum if it exceeds it). -/
def HistStep (t t1 : Terminal) : Prop :=
  t1.utf8Buffer = t.utf8Buffer ∧ t1.maxHistory = t.maxHistory ∧
  ((t1.totalLines = t.totalLines ∧ t1.viewOffset = t.viewOffset) ∨
    (t1.totalLines = (if t.totalLines ≥ t.maxHistory then t.totalLines else t.totalLines + 1) ∧
      t1.viewOffset = (if t.viewOffset > max 0 (t1.totalLines - 1) then max 0 (t1.totalLines - 1)
        else t.viewOffset)))

/-- The part of a parameter string before its first `;`. -/
def firstField : Bytes → Bytes
  | [] => []
  | c :: cs => if c = 59 then [] else c :: firstField cs

/-- The part of a parameter string after its first `;`, if it has one. -/
def afterSep : Bytes → Option Bytes
  | [] => none
  | c :: cs => if c = 59 then some cs else afterSep cs

/-- The value of the first `;`-separated field of a CSI parameter string, an
empty field or one that `strconv.Atoi` rejects counting as 1. -/
def rowParam (p : Bytes) : Int := parseNumber (firstField p) 1

/-- The value of the second `;`-separated field of a CSI parameter string, with
the same default; 1 when there is no second field. -/
def colParam (p : Bytes) : Int :=
  match afterSep p with
  | none => 1
  | some q => parseNumber (firstField q) 1

/-- The number a CSI parameter of decimal digits denotes, an empty parameter
meaning 1. -/
def paramValue (ds : Bytes) : Int := if ds = [] then 1 else (digitsValue ds : Int)

/-- A cell that the scan of `handleBackspace` steps over: a blank or the
placeholder of a wide glyph. -/
def Vacant (c : Cell) : Prop := c.char = [32] ∨ c.width = 0

instance (c : Cell) : Decidable (Vacant c) := by
  unfold Vacant; infer_instance

/-- Every placeholder cell (width 0) of a grid directly follows a wide glyph
(width 2) of its row. -/
def Paired (sb : List (List Cell)) : Prop :=
  ∀ y x c, getCell sb y x = some c → c.width = 0 →
    ∃ g, getCell sb y (x - 1) = some g ∧ g.width = 2

/-- Every cell of width 2 holds a text other than a single space and has a cell
after it in its row. -/
def WideCells (sb : List (List Cell)) : Prop :=
  ∀ y x c, getCell sb y x = some c → c.width = 2 →
    c.char ≠ [32] ∧ ∃ c1, getCell sb y (x + 1) = some c1

/-- From the position `(cy, cx)` on, in reading order (the rest of row `cy` and
the rows below), no cell has width 2, and past that position no cell has
width 0: no wide glyph and no placeholder lies ahead of the position. -/
def Ahead (sb : List (List Cell)) (cy cx : Int) : Prop :=
  ∀ y x c, getCell sb y x = some c → (cy < y ∨ (y = cy ∧ cx ≤ x)) →
    c.width ≠ 2 ∧ ((cy < y ∨ cx < x) → c.width ≠ 0)

/-- Every placeholder follows its wide glyph, every wide glyph is a text with a
cell after it, and no wide glyph or placeholder lies ahead of the cursor. -/
def Tidy (t : Terminal) : Prop :=
  Paired t.screenBuffer ∧ WideCells t.screenBuffer ∧
  Ahead t.screenBuffer t.cursorY t.cursorX

/-- The cursor of `t1` stands before the cursor of `t` in reading order (an
earlier row, or the same row and an earlier column), a cursor of `t` past the
last column counting as one on the last column. -/
def cursorBefore (t1 t : Terminal) : Bool :=
  decide (t1.cursorY < t.cursorY ∨
    (t1.cursorY = t.cursorY ∧ t1.cursorX < min t.cursorX (t.screenWidth - 1)))

/-- The fragment `char`, processed in state `t`, sets the cursor back without
erasing: it is a carriage return in Normal state, or in escape state the final
byte of a cursor sequence (`A`, `B`, `C`, `D`, `H`, `f`), and the cursor it
leaves stands before the cursor of `t`. -/
def movesBack (t : Terminal) (char : Bytes) : Bool :=
  match char with
  | [b] =>
    (if t.inEscape then decide (b = 72 ∨ b = 102 ∨ (65 ≤ b ∧ b ≤ 68)) else decide (b = 13)) &&
      (match processChar t char with
        | some t1 => cursorBefore t1 t
        | none => false)
  | _ => false

/-- No byte of the input hands `processChar` a fragment that sets the cursor
back (`movesBack`), in the state in which the byte is processed. -/
def forwardOnly : Terminal → Bytes → Bool
  | _, [] => true
  | t, b :: bs =>
    (match decodeStep t.utf8Buffer b with
      | (some frag, rest) => !(movesBack { t with utf8Buffer := rest } frag)
      | (none, _) => true) &&
      (match processByte t b with
        | some t1 => forwardOnly t1 bs
        | none => true)

/-- No row of the grid starts with a placeholder cell (width 0). -/
def NoLeadingPlaceholder (sb : List (List Cell)) : Prop :=
  ∀ row ∈ sb, ∀ c, idx? row 0 = some c → c.width ≠ 0

/-! # Lemmas on slices and grids -/

theorem idx?_eq_some {α : Type} {xs : List α} {i : Int} {a : α} :
    idx? xs i = some a ↔ 0 ≤ i ∧ xs[i.toNat]? = some a := by
  unfold idx?
  split <;> simp_all

theorem idx?_eq_none {α : Type} {xs : List α} {i : Int} :
    idx? xs i = none ↔ i < 0 ∨ (xs.length : Int) ≤ i := by
  unfold idx?
  split
  · rename_i h
    simp only [List.getElem?_eq_none_iff]
    omega
  · simp; omega

theorem idx?_lt {α : Type} {xs : List α} {i : Int} {a : α} (h : idx? xs i = some a) :
    0 ≤ i ∧ i < xs.length := by
  rw [idx?_eq_some] at h
  obtain ⟨h0, h1⟩ := h
  have := (List.getElem?_eq_some_iff.mp h1).1
  omega

theorem idx?_isSome {α : Type} {xs : List α} {i : Int} (h0 : 0 ≤ i) (h1 : i < xs.length) :
    ∃ a, idx? xs i = some a := by
  cases h : idx? xs i with
  | some a => exact ⟨a, rfl⟩
  | none => rw [idx?_eq_none] at h; omega

theorem idx?_mem {α : Type} {xs : List α} {i : Int} {a : α} (h : idx? xs i = some a) :
    a ∈ xs := by
  rw [idx?_eq_some] at h
  exact List.getElem?_mem h.2

theorem setIdx?_eq_some {α : Type} {xs ys : List α} {i : Int} {a : α} :
    setIdx? xs i a = some ys ↔ (0 ≤ i ∧ i < xs.length) ∧ ys = xs.set i.toNat a := by
  unfold setIdx?
  split <;> simp_all [eq_comm]

theorem setIdx?_isSome {α : Type} {xs : List α} {i : Int} (a : α) (h0 : 0 ≤ i)
    (h1 : i < xs.length) : setIdx? xs i a = some (xs.set i.toNat a) := by
  unfold setIdx?
  simp [h0, h1]

theorem idx?_setIdx? {α : Type} {xs ys : List α} {i : Int} {a : α}
    (h : setIdx? xs i a = some ys) (j : Int) :
    idx? ys j = if j = i then some a else idx? xs j := by
  rw [setIdx?_eq_some] at h
  obtain ⟨⟨h0, h1⟩, rfl⟩ := h
  unfold idx?
  by_cases hj : 0 ≤ j
  · simp only [hj, if_true, List.getElem?_set]
    by_cases hji : j = i
    · subst hji
      have : j.toNat < xs.length := by omega
      simp [this]
    · have : ¬ i.toNat = j.toNat := by omega
      simp [this, hji]
  · have : ¬ j = i := by omega
    simp [hj, this]

theorem length_setIdx? {α : Type} {xs ys : List α} {i : Int} {a : α}
    (h : setIdx? xs i a = some ys) : ys.length = xs.length := by
  rw [setIdx?_eq_some] at h
  obtain ⟨_, rfl⟩ := h
  simp

theorem mem_setIdx? {α : Type} {xs ys : List α} {i : Int} {a : α}
    (h : setIdx? xs i a = some ys) {b : α} (hb : b ∈ ys) : b ∈ xs ∨ b = a := by
  rw [setIdx?_eq_some] at h
  obtain ⟨_, rfl⟩ := h
  exact List.mem_or_eq_of_mem_set hb

/-! ### Shaped grids -/

theorem Shaped.row_length {buf : List (List Cell)} {h w : Int} (hs : Shaped buf h w)
    {y : Int} {row : List Cell} (hr : idx? buf y = some row) : (row.length : Int) = w :=
  hs.2 row (idx?_mem hr)

theorem Shaped.row_exists {buf : List (List Cell)} {h w : Int} (hs : Shaped buf h w)
    {y : Int} (h0 : 0 ≤ y) (h1 : y < h) : ∃ row, idx? buf y = some row ∧ (row.length : Int) = w := by
  obtain ⟨row, hr⟩ := @idx?_isSome _ buf _ h0 (by rw [hs.1]; exact h1)
  exact ⟨row, hr, hs.row_length hr⟩

theorem shaped_setRow {buf buf1 : List (List Cell)} {h w : Int} (hs : Shaped buf h w)
    {y : Int} {row : List Cell} (hl : (row.length : Int) = w)
    (h1 : setIdx? buf y row = some buf1) : Shaped buf1 h w := by
  refine ⟨by rw [length_setIdx? h1]; exact hs.1, ?_⟩
  intro r hr
  rcases mem_setIdx? h1 hr with hm | rfl
  · exact hs.2 r hm
  · exact hl

theorem getCell_eq_some {buf : List (List Cell)} {y x : Int} {c : Cell} :
    getCell buf y x = some c ↔ ∃ row, idx? buf y = some row ∧ idx? row x = some c := by
  unfold getCell
  simp [Option.bind_eq_some]

theorem Shaped.getCell_exists {buf : List (List Cell)} {h w : Int} (hs : Shaped buf h w)
    {y x : Int} (hy0 : 0 ≤ y) (hy1 : y < h) (hx0 : 0 ≤ x) (hx1 : x < w) :
    ∃ c, getCell buf y x = some c := by
  obtain ⟨row, hr, hl⟩ := hs.row_exists hy0 hy1
  obtain ⟨c, hc⟩ := @idx?_isSome _ row _ hx0 (by rw [hl]; exact hx1)
  exact ⟨c, getCell_eq_some.mpr ⟨row, hr, hc⟩⟩

theorem Shaped.getCell_range {buf : List (List Cell)} {h w : Int} (hs : Shaped buf h w)
    {y x : Int} {c : Cell} (hc : getCell buf y x = some c) : (0 ≤ y ∧ y < h) ∧ 0 ≤ x ∧ x < w := by
  obtain ⟨row, hr, hx⟩ := getCell_eq_some.mp hc
  have h1 := idx?_lt hr
  have h2 := idx?_lt hx
  have h3 := hs.row_length hr
  have h4 := hs.1
  omega

theorem setCell_eq_some {buf buf1 : List (List Cell)} {y x : Int} {c : Cell} :
    setCell buf y x c = some buf1 ↔
      ∃ row row1, idx? buf y = some row ∧ setIdx? row x c = some row1 ∧
        setIdx? buf y row1 = some buf1 := by
  unfold setCell
  simp [Option.bind_eq_some]

theorem getCell_setCell {buf buf1 : List (List Cell)} {y x : Int} {c : Cell}
    (h : setCell buf y x c = some buf1) (y1 x1 : Int) :
    getCell buf1 y1 x1 = if y1 = y ∧ x1 = x then some c else getCell buf y1 x1 := by
  obtain ⟨row, row1, hr, hs, hb⟩ := setCell_eq_some.mp h
  unfold getCell
  rw [idx?_setIdx? hb y1]
  by_cases hy : y1 = y
  · subst hy
    simp only [if_true, Option.some_bind, true_and, hr]
    rw [idx?_setIdx? hs x1]
  · simp [hy]

theorem shaped_setCell {buf buf1 : List (List Cell)} {h w : Int} (hs : Shaped buf h w)
    {y x : Int} {c : Cell} (h1 : setCell buf y x c = some buf1) : Shaped buf1 h w := by
  obtain ⟨row, row1, hr, hs1, hb⟩ := setCell_eq_some.mp h1
  refine shaped_setRow hs ?_ hb
  rw [length_setIdx? hs1]
  exact hs.row_length hr

theorem shaped_setCell_exists {buf : List (List Cell)} {h w : Int} (hs : Shaped buf h w)
    {y x : Int} (c : Cell) (hy0 : 0 ≤ y) (hy1 : y < h) (hx0 : 0 ≤ x) (hx1 : x < w) :
    ∃ buf1, setCell buf y x c = some buf1 := by
  obtain ⟨row, hr, hl⟩ := hs.row_exists hy0 hy1
  refine ⟨buf.set y.toNat (row.set x.toNat c),
    setCell_eq_some.mpr ⟨row, row.set x.toNat c, hr, ?_, ?_⟩⟩
  · exact setIdx?_isSome c hx0 (by rw [hl]; exact hx1)
  · exact setIdx?_isSome _ hy0 (by rw [hs.1]; exact hy1)

/-- Two grids of the same shape with the same cells are equal. -/
theorem Shaped.ext {b1 b2 : List (List Cell)} {h w : Int} (h1 : Shaped b1 h w)
    (h2 : Shaped b2 h w) (hc : ∀ y x, getCell b1 y x = getCell b2 y x) : b1 = b2 := by
  apply List.ext_getElem?
  intro i
  by_cases hi : (i : Int) < h
  · obtain ⟨r1, hr1, hl1⟩ := h1.row_exists (y := i) (by omega) hi
    obtain ⟨r2, hr2, hl2⟩ := h2.row_exists (y := i) (by omega) hi
    have e1 := (idx?_eq_some.mp hr1).2
    have e2 := (idx?_eq_some.mp hr2).2
    simp only [Int.toNat_ofNat] at e1 e2
    rw [e1, e2]
    congr 1
    apply List.ext_getElem?
    intro j
    have := hc i j
    unfold getCell at this
    rw [hr1, hr2] at this
    simp only [Option.some_bind] at this
    unfold idx? at this
    simpa using this
  · have l1 := h1.1
    have l2 := h2.1
    rw [List.getElem?_eq_none (by omega), List.getElem?_eq_none (by omega)]

/-! ### Loops -/

/-- Loop rule: an invariant indexed by the number of completed rounds. -/
theorem forRangeAux_inv {σ : Type} (f : Int → σ → Option σ) :
    ∀ (n : Nat) (P : Nat → σ → Prop) (lo : Int) (s : σ), P 0 s →
      (∀ k : Nat, k < n → ∀ s1, P k s1 → ∃ s2, f (lo + k) s1 = some s2 ∧ P (k + 1) s2) →
      ∃ s2, forRangeAux f n lo s = some s2 ∧ P n s2 := by
  intro n
  induction n with
  | zero => intro P lo s h0 _; exact ⟨s, rfl, h0⟩
  | succ n ih =>
    intro P lo s h0 hstep
    obtain ⟨s1, hf, hp⟩ := hstep 0 (by omega) s h0
    simp only [Nat.cast_zero, add_zero] at hf
    obtain ⟨s2, hr, hp2⟩ := ih (fun k => P (k + 1)) (lo + 1) s1 hp (by
      intro k hk s3 hp3
      obtain ⟨s4, hf4, hp4⟩ := hstep (k + 1) (by omega) s3 hp3
      refine ⟨s4, ?_, hp4⟩
      rw [← hf4]
      congr 1
      push_cast
      ring)
    refine ⟨s2, ?_, hp2⟩
    simp [forRangeAux, hf, hr]

theorem forRange_inv {σ : Type} (f : Int → σ → Option σ) (P : Nat → σ → Prop) (lo hi : Int)
    (s : σ) (h0 : P 0 s)
    (hstep : ∀ k : Nat, lo + k < hi → ∀ s1, P k s1 →
      ∃ s2, f (lo + k) s1 = some s2 ∧ P (k + 1) s2) :
    ∃ s2, forRange lo hi f s = some s2 ∧ P (hi - lo).toNat s2 := by
  unfold forRange
  exact forRangeAux_inv f _ P lo s h0 (fun k hk => hstep k (by omega))

/-- Partial-correctness loop rule: a property every round preserves. -/
theorem forRangeAux_preserves {σ : Type} (f : Int → σ → Option σ) (P : σ → Prop)
    (hstep : ∀ x s1 s2, P s1 → f x s1 = some s2 → P s2) :
    ∀ (n : Nat) (lo : Int) (s s2 : σ), P s → forRangeAux f n lo s = some s2 → P s2 := by
  intro n
  induction n with
  | zero => intro lo s s2 h0 h; simp only [forRangeAux, Option.some.injEq] at h; exact h ▸ h0
  | succ n ih =>
    intro lo s s2 h0 h
    simp only [forRangeAux, Option.bind_eq_some] at h
    obtain ⟨s1, hf, hr⟩ := h
    exact ih _ s1 s2 (hstep lo s s1 h0 hf) hr

theorem forRange_zero {σ : Type} (f : Int → σ → Option σ) (lo hi : Int) (s : σ)
    (h : hi ≤ lo) : forRange lo hi f s = some s := by
  unfold forRange
  have : (hi - lo).toNat = 0 := by omega
  rw [this]
  rfl

/-- The blanking loops: cells `lo .. hi-1` of row `y` become blank, nothing else changes. -/
theorem blankCells_spec {buf : List (List Cell)} {h w : Int} (hs : Shaped buf h w)
    {y lo hi : Int} (hy0 : 0 ≤ y) (hy1 : y < h) (hlo : 0 ≤ lo) (hhi : hi ≤ w) :
    ∃ b1, blankCells buf y lo hi = some b1 ∧ Shaped b1 h w ∧
      ∀ y1 x1, getCell b1 y1 x1 =
        if y1 = y ∧ lo ≤ x1 ∧ x1 < hi then some blank else getCell buf y1 x1 := by
  unfold blankCells
  obtain ⟨b1, hb, hsh, hc⟩ := forRange_inv (fun x b => setCell b y x blank)
    (fun k b => Shaped b h w ∧ ∀ y1 x1, getCell b y1 x1 =
        if y1 = y ∧ lo ≤ x1 ∧ x1 < lo + k then some blank else getCell buf y1 x1)
    lo hi buf ⟨hs, by
      intro y1 x1
      have : ¬ (y1 = y ∧ lo ≤ x1 ∧ x1 < lo + ((0 : Nat) : Int)) := by push_cast; omega
      rw [if_neg this]⟩ (by
      intro k hk b ⟨hsb, hcb⟩
      obtain ⟨b2, hb2⟩ := shaped_setCell_exists hsb blank hy0 hy1 (x := lo + k) (by omega) (by omega)
      refine ⟨b2, hb2, shaped_setCell hsb hb2, ?_⟩
      intro y1 x1
      rw [getCell_setCell hb2, hcb]
      by_cases hy : y1 = y
      · by_cases hx : x1 = lo + k
        · have : lo ≤ x1 ∧ x1 < lo + ((k + 1 : Nat) : Int) := by push_cast; omega
          simp [hy, hx, this]
        · have e : (lo ≤ x1 ∧ x1 < lo + ((k + 1 : Nat) : Int)) ↔ (lo ≤ x1 ∧ x1 < lo + (k : Int)) := by
            push_cast; omega
          simp only [hy, hx, and_false, if_false, true_and, e]
      · simp [hy])
  refine ⟨b1, hb, hsh, ?_⟩
  intro y1 x1
  rw [hc]
  by_cases hle : lo ≤ hi
  · have : lo + (((hi - lo).toNat : Nat) : Int) = hi := by omega
    rw [this]
  · have e : (lo ≤ x1 ∧ x1 < lo + (((hi - lo).toNat : Nat) : Int)) ↔ (lo ≤ x1 ∧ x1 < hi) := by
      omega
    simp only [e]

theorem copy_eq_of_length {α : Type} {dst src : List α} (h : dst.length = src.length) :
    copy dst src = src := by
  unfold copy
  rw [h, List.take_length, List.drop_of_length_le (le_of_eq h), List.append_nil]

theorem copyRow_eq_some {buf src b1 : List (List Cell)} {d s : Int} :
    copyRow buf d src s = some b1 ↔
      ∃ dst r, idx? buf d = some dst ∧ idx? src s = some r ∧
        setIdx? buf d (copy dst r) = some b1 := by
  unfold copyRow
  simp [Option.bind_eq_some]

/-- `copy(buf[d], src[s])` between rows of one width replaces row `d` by row `s`. -/
theorem copyRow_spec {buf src : List (List Cell)} {h w : Int} (hs : Shaped buf h w)
    {d s : Int} {r : List Cell} (hd0 : 0 ≤ d) (hd1 : d < h) (hr : idx? src s = some r)
    (hl : (r.length : Int) = w) :
    ∃ b1, copyRow buf d src s = some b1 ∧ Shaped b1 h w ∧
      ∀ y, idx? b1 y = if y = d then some r else idx? buf y := by
  obtain ⟨dst, hdst, hdl⟩ := hs.row_exists hd0 hd1
  have hcopy : copy dst r = r := copy_eq_of_length (by omega)
  have hset : setIdx? buf d r = some (buf.set d.toNat r) :=
    setIdx?_isSome r hd0 (by rw [hs.1]; exact hd1)
  refine ⟨buf.set d.toNat r, ?_, shaped_setRow hs hl hset, fun y => idx?_setIdx? hset y⟩
  rw [copyRow_eq_some]
  exact ⟨dst, r, hdst, hr, by rw [hcopy]; exact hset⟩

/-- The shifting loops of `scrollUp`: every row but the last takes the content of the next. -/
theorem shiftRows_spec {buf : List (List Cell)} {h w : Int} (hs : Shaped buf h w) :
    ∃ b1, forRange 0 (h - 1) (fun y b => copyRow b y b (y + 1)) buf = some b1 ∧ Shaped b1 h w ∧
      ∀ y, idx? b1 y = if 0 ≤ y ∧ y < h - 1 then idx? buf (y + 1) else idx? buf y := by
  obtain ⟨b1, hb, hsh, hc⟩ := forRange_inv (fun y b => copyRow b y b (y + 1))
    (fun k b => Shaped b h w ∧
      ∀ y, idx? b y = if 0 ≤ y ∧ y < (k : Int) then idx? buf (y + 1) else idx? buf y)
    0 (h - 1) buf ⟨hs, by
      intro y
      have : ¬ (0 ≤ y ∧ y < ((0 : Nat) : Int)) := by push_cast; omega
      rw [if_neg this]⟩ (by
      intro k hk b ⟨hsb, hcb⟩
      have hsrc : idx? b (0 + (k : Int) + 1) = idx? buf (0 + (k : Int) + 1) := by
        have : ¬ (0 ≤ 0 + (k : Int) + 1 ∧ 0 + (k : Int) + 1 < (k : Int)) := by omega
        rw [hcb, if_neg this]
      obtain ⟨r, hr, hrl⟩ := hs.row_exists (y := 0 + (k : Int) + 1) (by omega) (by omega)
      obtain ⟨b2, hb2, hsb2, hcb2⟩ := copyRow_spec hsb (d := 0 + (k : Int)) (by omega) (by omega)
        (hsrc.trans hr) hrl
      refine ⟨b2, hb2, hsb2, ?_⟩
      intro y
      rw [hcb2, hcb]
      by_cases hy : y = 0 + (k : Int)
      · subst hy
        have : (0 : Int) ≤ 0 + (k : Int) ∧ 0 + (k : Int) < ((k + 1 : Nat) : Int) := by
          push_cast; omega
        simp only [if_true, this, and_self]
        exact hr.symm
      · have e : (0 ≤ y ∧ y < ((k + 1 : Nat) : Int)) ↔ (0 ≤ y ∧ y < (k : Int)) := by
          push_cast; omega
        simp only [hy, if_false, e])
  refine ⟨b1, hb, hsh, ?_⟩
  intro y
  rw [hc]
  have h1 := hs.1
  by_cases hh : 1 ≤ h
  · have : (((h - 1 - 0).toNat : Nat) : Int) = h - 1 := by omega
    rw [this]
  · have e : (0 ≤ y ∧ y < (((h - 1 - 0).toNat : Nat) : Int)) ↔ (0 ≤ y ∧ y < h - 1) := by omega
    simp only [e]


/-! ### Rows and `scrollUp` -/

theorem idx?_replicate {α : Type} (n : Nat) (a : α) (i : Int) :
    idx? (List.replicate n a) i = if 0 ≤ i ∧ i < n then some a else none := by
  unfold idx?
  by_cases h0 : 0 ≤ i
  · by_cases h1 : i < n
    · have : i.toNat < n := by omega
      simp [h0, h1, List.getElem?_replicate, this]
    · have : ¬ i.toNat < n := by omega
      simp [h0, h1, List.getElem?_replicate, this]
  · simp [h0]

theorem getCell_of_row {buf : List (List Cell)} {y : Int} {row : List Cell}
    (h : idx? buf y = some row) (x : Int) : getCell buf y x = idx? row x := by
  unfold getCell
  rw [h]
  rfl

theorem getCell_of_none {buf : List (List Cell)} {y : Int}
    (h : idx? buf y = none) (x : Int) : getCell buf y x = none := by
  unfold getCell
  rw [h]
  rfl

/-- A whole row blanked by the loop is the blank row. -/
theorem blankCells_row {buf : List (List Cell)} {h w : Int} (hs : Shaped buf h w)
    {y : Int} (hy0 : 0 ≤ y) (hy1 : y < h) (hw : 0 ≤ w) :
    ∃ b1, blankCells buf y 0 w = some b1 ∧ Shaped b1 h w ∧
      ∀ y1, idx? b1 y1 = if y1 = y then some (blankRow w) else idx? buf y1 := by
  obtain ⟨b1, hb, hsh, hc⟩ := blankCells_spec hs hy0 hy1 (le_refl 0) (le_refl w)
  have hlen : ((blankRow w).length : Int) = w := by
    unfold blankRow; simp; omega
  have hset : setIdx? buf y (blankRow w) = some (buf.set y.toNat (blankRow w)) :=
    setIdx?_isSome _ hy0 (by rw [hs.1]; exact hy1)
  have hsh2 := shaped_setRow hs hlen hset
  have : b1 = buf.set y.toNat (blankRow w) := by
    apply Shaped.ext hsh hsh2
    intro y1 x1
    rw [hc]
    by_cases hy : y1 = y
    · subst hy
      have hrow := idx?_setIdx? hset y1
      simp only [if_true] at hrow
      rw [getCell_of_row hrow]
      unfold blankRow
      rw [idx?_replicate]
      by_cases hx : 0 ≤ x1 ∧ x1 < w
      · have : 0 ≤ x1 ∧ x1 < ((w.toNat : Nat) : Int) := by omega
        simp [hx, this]
      · have h2 : ¬ (0 ≤ x1 ∧ x1 < ((w.toNat : Nat) : Int)) := by omega
        simp only [true_and, hx, if_false, h2]
        cases hg : getCell buf y1 x1 with
        | none => rfl
        | some c => exact absurd (hs.getCell_range hg).2 hx
    · have hrow := idx?_setIdx? hset y1
      simp only [hy, if_false] at hrow
      simp only [hy, false_and, if_false]
      unfold getCell
      rw [hrow]
  refine ⟨b1, hb, hsh, ?_⟩
  intro y1
  rw [this]
  exact idx?_setIdx? hset y1


/-- The grid part of `scrollUp`: rows move up by one and the last row is blank. -/
theorem scrollGrid_spec {buf : List (List Cell)} {h w : Int} (hs : Shaped buf h w)
    (hh : 1 ≤ h) (hw : 0 ≤ w) :
    ∃ b2, (forRange 0 (h - 1) (fun y sb => copyRow sb y sb (y + 1)) buf).bind
        (fun sb => blankCells sb (h - 1) 0 w) = some b2 ∧ Shaped b2 h w ∧
      ∀ y, idx? b2 y = if y = h - 1 then some (blankRow w)
        else if 0 ≤ y then idx? buf (y + 1) else none := by
  obtain ⟨b1, hb1, hs1, hc1⟩ := shiftRows_spec hs
  obtain ⟨b2, hb2, hs2, hc2⟩ := blankCells_row hs1 (y := h - 1) (by omega) (by omega) hw
  refine ⟨b2, by rw [hb1]; exact hb2, hs2, ?_⟩
  intro y
  rw [hc2, hc1]
  by_cases hy : y = h - 1
  · simp [hy]
  · simp only [hy, if_false]
    by_cases h0 : 0 ≤ y
    · by_cases h1 : y < h - 1
      · simp [h0, h1]
      · simp only [h0, h1, and_false, if_false, if_true]
        have l := hs.1
        rw [idx?_eq_none.mpr (by omega), idx?_eq_none.mpr (by omega)]
    · simp only [h0, false_and, if_false]
      exact idx?_eq_none.mpr (by omega)

theorem scrollUp_spec {t : Terminal} (ha : Allocated t) :
    ∃ t1, scrollUp t = some t1 ∧ Allocated t1 ∧
      t1.screenWidth = t.screenWidth ∧ t1.screenHeight = t.screenHeight ∧
      t1.maxHistory = t.maxHistory ∧ t1.cursorX = t.cursorX ∧
      t1.cursorY = t.screenHeight - 1 ∧ t1.escapeBuffer = t.escapeBuffer ∧
      t1.inEscape = t.inEscape ∧ t1.utf8Buffer = t.utf8Buffer ∧ t1.output = t.output ∧
      t1.totalLines = min (t.totalLines + 1) t.maxHistory ∧
      t1.viewOffset = min t.viewOffset (max 0 (t1.totalLines - 1)) ∧
      (∀ y, idx? t1.screenBuffer y =
        if y = t.screenHeight - 1 then some (blankRow t.screenWidth)
        else if 0 ≤ y then idx? t.screenBuffer (y + 1) else none) ∧
      (∀ i, idx? t1.totalBuffer i =
        if i = t1.totalLines - 1 then idx? t.screenBuffer 0
        else if t.totalLines < t.maxHistory then idx? t.totalBuffer i
        else if 0 ≤ i then idx? t.totalBuffer (i + 1) else none) := by
  obtain ⟨hw, hh, hm, hsb, htb, htl0, htl1⟩ := ha
  obtain ⟨r0, hr0, hr0l⟩ := hsb.row_exists (y := 0) (le_refl 0) (by omega)
  obtain ⟨s2, hs2, hss2, hsc2⟩ := scrollGrid_spec hsb hh (by omega)
  by_cases hfull : t.totalLines ≥ t.maxHistory
  · have htl : t.totalLines = t.maxHistory := by omega
    obtain ⟨b2, hb2, hsb2, hbc2⟩ := scrollGrid_spec htb hm (w := t.screenWidth) (by omega)
    obtain ⟨b3, hb3, hsb3, hbc3⟩ := copyRow_spec hsb2 (d := t.maxHistory - 1) (by omega) (by omega)
      hr0 hr0l
    rw [Option.bind_eq_some] at hb2 hs2
    obtain ⟨b1, hb1, hb2⟩ := hb2
    obtain ⟨s1, hs1, hs2⟩ := hs2
    have hmin : min (t.totalLines - 1) (t.maxHistory - 1) = t.maxHistory - 1 := by omega
    have hmin2 : min (t.totalLines + 1) t.maxHistory = t.maxHistory := by omega
    have hres : ∃ v, scrollUp t = some
        { t with totalBuffer := b3, screenBuffer := s2, cursorY := t.screenHeight - 1, viewOffset := v } ∧
        v = min t.viewOffset (max 0 (t.maxHistory - 1)) := by
      unfold scrollUp
      simp only [hfull, if_true, hb1, Option.some_bind, hb2, hmin, hb3, hs1, hs2,
        show t.maxHistory - 1 ≥ 0 from by omega]
      split
      · exact ⟨_, rfl, by omega⟩
      · refine ⟨t.viewOffset, rfl, by omega⟩
    obtain ⟨v, hres, hv⟩ := hres
    refine ⟨_, hres, ⟨hw, hh, hm, hss2, hsb3, htl0, htl1⟩, rfl, rfl, rfl, rfl, rfl, rfl, rfl,
      rfl, rfl, ?_, ?_, hsc2, ?_⟩
    · show t.totalLines = min (t.totalLines + 1) t.maxHistory
      omega
    · show v = min t.viewOffset (max 0 (t.totalLines - 1))
      rw [hv, htl]
    · intro i
      show idx? b3 i = _
      rw [hbc3, hbc2]
      have : ¬ t.totalLines < t.maxHistory := by omega
      simp only [this, if_false]
      by_cases hi : i = t.maxHistory - 1
      · have h2 : i = t.totalLines - 1 := by omega
        rw [if_pos hi, if_pos h2]
        exact hr0.symm
      · have h2 : ¬ i = t.totalLines - 1 := by omega
        rw [if_neg hi, if_neg h2, if_neg hi]
  · have hlt : t.totalLines < t.maxHistory := by omega
    obtain ⟨b3, hb3, hsb3, hbc3⟩ := copyRow_spec htb (d := t.totalLines) (by omega) (by omega)
      hr0 hr0l
    rw [Option.bind_eq_some] at hs2
    obtain ⟨s1, hs1, hs2⟩ := hs2
    have hmin : min (t.totalLines + 1 - 1) (t.maxHistory - 1) = t.totalLines := by omega
    have hmin2 : min (t.totalLines + 1) t.maxHistory = t.totalLines + 1 := by omega
    have hres : ∃ v, scrollUp t = some
        { t with totalLines := t.totalLines + 1, totalBuffer := b3, screenBuffer := s2, cursorY := t.screenHeight - 1, viewOffset := v } ∧
        v = min t.viewOffset (max 0 (t.totalLines + 1 - 1)) := by
      unfold scrollUp
      simp only [hfull, if_false, Option.some_bind, hmin, hb3, hs1, hs2,
        show t.totalLines ≥ 0 from htl0, if_true]
      split
      · exact ⟨_, rfl, by omega⟩
      · refine ⟨t.viewOffset, rfl, by omega⟩
    obtain ⟨v, hres, hv⟩ := hres
    refine ⟨_, hres, ⟨hw, hh, hm, hss2, hsb3, by show 0 ≤ t.totalLines + 1; omega,
      by show t.totalLines + 1 ≤ t.maxHistory; omega⟩, rfl, rfl, rfl, rfl, rfl, rfl, rfl,
      rfl, rfl, ?_, ?_, hsc2, ?_⟩
    · exact hmin2.symm
    · exact hv
    · intro i
      show idx? b3 i = if i = t.totalLines + 1 - 1 then _ else _
      rw [hbc3]
      by_cases hi : i = t.totalLines
      · have h2 : i = t.totalLines + 1 - 1 := by omega
        rw [if_pos hi, if_pos h2]
        exact hr0.symm
      · have h2 : ¬ i = t.totalLines + 1 - 1 := by omega
        rw [if_neg hi, if_neg h2, if_pos hlt]

/-! ### Line feed and the write of a glyph -/

theorem lineFeed_noscroll {t : Terminal} (h : t.cursorY + 1 < t.screenHeight) :
    lineFeed t = some { t with cursorX := 0, cursorY := t.cursorY + 1 } := by
  unfold lineFeed
  have : ¬ (t.cursorY + 1 ≥ t.screenHeight) := by omega
  simp only [this, if_false]

theorem lineFeed_scroll {t : Terminal} (h : t.screenHeight ≤ t.cursorY + 1) :
    lineFeed t = scrollUp { t with cursorX := 0, cursorY := t.cursorY + 1 } := by
  unfold lineFeed
  have : t.cursorY + 1 ≥ t.screenHeight := by omega
  simp only [this, if_true]

/-- The write of a glyph at an in-grid cursor: the cell, the placeholder when
the glyph is wide and a next column exists, the cursor advance; nothing else. -/
theorem placeGlyph_spec {t : Terminal} (hs : Shaped t.screenBuffer t.screenHeight t.screenWidth)
    (hy0 : 0 ≤ t.cursorY) (hy1 : t.cursorY < t.screenHeight)
    (hx0 : 0 ≤ t.cursorX) (hx1 : t.cursorX < t.screenWidth) (char : Bytes) (cw : Int) :
    ∃ sb, placeGlyph t char cw =
        some { t with screenBuffer := sb, cursorX := t.cursorX + cw } ∧
      Shaped sb t.screenHeight t.screenWidth ∧
      ∀ y x, getCell sb y x =
        if y = t.cursorY ∧ x = t.cursorX + 1 ∧ cw = 2 ∧ t.cursorX + 1 < t.screenWidth then
          some { char := [], width := 0 }
        else if y = t.cursorY ∧ x = t.cursorX then some { char := char, width := cw }
        else getCell t.screenBuffer y x := by
  obtain ⟨sb, hsb⟩ := shaped_setCell_exists hs { char := char, width := cw } hy0 hy1 hx0 hx1
  have hs1 := shaped_setCell hs hsb
  by_cases hp : cw = 2 ∧ t.cursorX + 1 < t.screenWidth
  · obtain ⟨sb1, hsb1⟩ := shaped_setCell_exists hs1 { char := [], width := 0 } hy0 hy1
      (x := t.cursorX + 1) (by omega) hp.2
    refine ⟨sb1, ?_, shaped_setCell hs1 hsb1, ?_⟩
    · unfold placeGlyph
      rw [if_pos hy1, hsb, Option.some_bind, if_pos hp, hsb1, Option.some_bind]
    · intro y x
      rw [getCell_setCell hsb1, getCell_setCell hsb]
      by_cases h1 : y = t.cursorY ∧ x = t.cursorX + 1
      · have : y = t.cursorY ∧ x = t.cursorX + 1 ∧ cw = 2 ∧ t.cursorX + 1 < t.screenWidth :=
          ⟨h1.1, h1.2, hp.1, hp.2⟩
        rw [if_pos h1, if_pos this]
      · have : ¬ (y = t.cursorY ∧ x = t.cursorX + 1 ∧ cw = 2 ∧ t.cursorX + 1 < t.screenWidth) :=
          fun h => h1 ⟨h.1, h.2.1⟩
        rw [if_neg h1, if_neg this]
  · refine ⟨sb, ?_, hs1, ?_⟩
    · unfold placeGlyph
      rw [if_pos hy1, hsb, Option.some_bind, if_neg hp, Option.some_bind]
    · intro y x
      rw [getCell_setCell hsb]
      have : ¬ (y = t.cursorY ∧ x = t.cursorX + 1 ∧ cw = 2 ∧ t.cursorX + 1 < t.screenWidth) :=
        fun h => hp ⟨h.2.2.1, h.2.2.2⟩
      rw [if_neg this]

/-! ### Single ASCII bytes -/

theorem Valid_ascii {b : Nat} (h : b < 128) : Valid [b] = true := by
  simp [Valid, validAux, h]

theorem getCharWidth_ascii {b : Nat} (h : b < 128) : getCharWidth [b] = 1 := by
  have h1 : (DecodeRuneInString [b]).1 = b := by simp [DecodeRuneInString, h]
  unfold getCharWidth
  rw [h1]
  have : ¬ (([b] : Bytes).length = 0) := by simp
  rw [if_neg this]
  repeat (first | rw [if_neg (by omega)] | rfl)

theorem isPrintableChar_ascii {b : Nat} (h0 : 32 ≤ b) (h1 : b ≤ 126) :
    isPrintableChar [b] = true := by
  have : ¬ (b < 32 ∨ b = 127) := by omega
  simp [isPrintableChar, this]

/-- A byte below 128 arriving on an empty decoder buffer is handed to
`processChar` at once. -/
theorem processByte_ascii {t : Terminal} {b : Nat} (hb : b < 128) (hu : t.utf8Buffer = []) :
    processByte t b = processChar t [b] := by
  unfold processByte
  simp only [hu, List.nil_append, Valid_ascii hb, if_true]
  congr 1
  cases t
  simp_all

/-- A printable ASCII byte in Normal state is written as a cell of width 1. -/
theorem processChar_printable {t : Terminal} {b : Nat} (h0 : 32 ≤ b) (h1 : b ≤ 126)
    (he : t.inEscape = false) :
    processChar t [b] = (wrapLine t 1).bind (fun t1 => placeGlyph t1 [b] 1) := by
  unfold processChar
  have e1 : ¬ b = 27 := by omega
  have e2 : ¬ b = 10 := by omega
  have e3 : ¬ b = 8 := by omega
  have e4 : ¬ b = 13 := by omega
  have e5 : ¬ b = 9 := by omega
  have e6 : ¬ b = 0 := by omega
  have e7 : ¬ b = 127 := by omega
  simp only [he, e1, e2, e3, e4, e5, if_false, Bool.false_eq_true]
  unfold writeChar
  simp [he, isPrintableChar_ascii h0 h1, getCharWidth_ascii (show b < 128 by omega), e6, e7, e3]

/-! ### Runs of printable ASCII -/

/-- A printable ASCII string without wrap: the cells from the cursor on hold the
bytes, the cursor advances by the length, nothing else changes. -/
theorem feed_printable (s : Bytes) :
    ∀ (t : Terminal), Shaped t.screenBuffer t.screenHeight t.screenWidth →
      t.inEscape = false → t.utf8Buffer = [] →
      0 ≤ t.cursorY → t.cursorY < t.screenHeight → 0 ≤ t.cursorX →
      t.cursorX + s.length ≤ t.screenWidth → (∀ b ∈ s, 32 ≤ b ∧ b ≤ 126) →
      ∃ sb, feed t s = some { t with screenBuffer := sb, cursorX := t.cursorX + s.length } ∧
        Shaped sb t.screenHeight t.screenWidth ∧
        ∀ y x, getCell sb y x =
          if y = t.cursorY ∧ t.cursorX ≤ x ∧ x < t.cursorX + s.length then
            (idx? s (x - t.cursorX)).map asciiCell
          else getCell t.screenBuffer y x := by
  induction s with
  | nil =>
    intro t hs _ _ _ _ _ _ _
    refine ⟨t.screenBuffer, ?_, hs, ?_⟩
    · simp [feed]
    · intro y x
      have : ¬ (y = t.cursorY ∧ t.cursorX ≤ x ∧ x < t.cursorX + (([] : Bytes).length : Int)) := by
        simp only [List.length_nil, Nat.cast_zero]; omega
      rw [if_neg this]
  | cons b s ih =>
    intro t hs he hu hy0 hy1 hx0 hx1 hp
    have hb := hp b (List.mem_cons_self _ _)
    have hlen : ((b :: s).length : Int) = (s.length : Int) + 1 := by simp
    rw [hlen] at hx1
    obtain ⟨sb1, hsb1, hs1, hc1⟩ := placeGlyph_spec hs hy0 hy1 hx0 (by omega) [b] 1
    have hstep : processByte t b =
        some { t with screenBuffer := sb1, cursorX := t.cursorX + 1 } := by
      rw [processByte_ascii (by omega) hu, processChar_printable hb.1 hb.2 he]
      unfold wrapLine
      have : ¬ (t.cursorX + 1 > t.screenWidth) := by omega
      rw [if_neg this, Option.some_bind]
      exact hsb1
    obtain ⟨sb2, hsb2, hs2, hc2⟩ := ih { t with screenBuffer := sb1, cursorX := t.cursorX + 1 }
      hs1 he hu hy0 hy1 (by show 0 ≤ t.cursorX + 1; omega)
      (by show t.cursorX + 1 + (s.length : Int) ≤ t.screenWidth; omega)
      (fun c hc => hp c (List.mem_cons_of_mem _ hc))
    refine ⟨sb2, ?_, hs2, ?_⟩
    · simp only [feed, hstep, Option.some_bind, hsb2]
      rw [hlen]
      congr 2
      omega
    · intro y x
      rw [hc2, hc1, hlen]
      show (if y = t.cursorY ∧ t.cursorX + 1 ≤ x ∧ x < t.cursorX + 1 + (s.length : Int) then
          (idx? s (x - (t.cursorX + 1))).map asciiCell else _) = _
      have hne : ¬ ((1 : Int) = 2 ∧ t.cursorX + 1 < t.screenWidth) := by omega
      have hne2 : ¬ (y = t.cursorY ∧ x = t.cursorX + 1 ∧ (1 : Int) = 2 ∧
          t.cursorX + 1 < t.screenWidth) := fun h => hne ⟨h.2.2.1, h.2.2.2⟩
      rw [if_neg hne2]
      by_cases hy : y = t.cursorY
      · by_cases hx : x = t.cursorX
        · have n1 : ¬ (y = t.cursorY ∧ t.cursorX + 1 ≤ x ∧ x < t.cursorX + 1 + (s.length : Int)) := by
            omega
          have p1 : y = t.cursorY ∧ t.cursorX ≤ x ∧ x < t.cursorX + ((s.length : Int) + 1) := by
            omega
          rw [if_neg n1, if_pos ⟨hy, hx⟩, if_pos p1]
          have : x - t.cursorX = 0 := by omega
          rw [this]
          simp [idx?, asciiCell]
        · by_cases hr : t.cursorX + 1 ≤ x ∧ x < t.cursorX + 1 + (s.length : Int)
          · have p1 : y = t.cursorY ∧ t.cursorX ≤ x ∧ x < t.cursorX + ((s.length : Int) + 1) := by
              omega
            rw [if_pos ⟨hy, hr⟩, if_pos p1]
            congr 1
            have h0 : 0 ≤ x - (t.cursorX + 1) := by omega
            have h1 : 0 ≤ x - t.cursorX := by omega
            have h2 : (x - t.cursorX).toNat = (x - (t.cursorX + 1)).toNat + 1 := by omega
            simp only [idx?, h0, h1, if_true, h2, List.getElem?_cons_succ]
          · have n1 : ¬ (y = t.cursorY ∧ t.cursorX + 1 ≤ x ∧ x < t.cursorX + 1 + (s.length : Int)) :=
              fun h => hr h.2
            have n2 : ¬ (y = t.cursorY ∧ t.cursorX ≤ x ∧ x < t.cursorX + ((s.length : Int) + 1)) := by
              omega
            have n3 : ¬ (y = t.cursorY ∧ x = t.cursorX) := fun h => hx h.2
            rw [if_neg n1, if_neg n3, if_neg n2]
      · have n1 : ¬ (y = t.cursorY ∧ t.cursorX + 1 ≤ x ∧ x < t.cursorX + 1 + (s.length : Int)) :=
          fun h => hy h.1
        have n2 : ¬ (y = t.cursorY ∧ t.cursorX ≤ x ∧ x < t.cursorX + ((s.length : Int) + 1)) :=
          fun h => hy h.1
        have n3 : ¬ (y = t.cursorY ∧ x = t.cursorX) := fun h => hy h.1
        rw [if_neg n1, if_neg n3, if_neg n2]


/-! ### The snapshot -/

theorem idx?_natCast {α : Type} (xs : List α) (k : Nat) : idx? xs (k : Int) = xs[k]? := by
  simp [idx?]

/-- On a well-shaped grid `updateOutput` succeeds and the snapshot is the text of each row. -/
theorem updateOutput_spec {t : Terminal}
    (hs : Shaped t.screenBuffer t.screenHeight t.screenWidth) :
    updateOutput t = some { t with output := t.screenBuffer.map rowText } := by
  have hrow : ∀ (y : Int) (row : List Cell), idx? t.screenBuffer y = some row →
      forRange 0 t.screenWidth (fun x line =>
        (getCell t.screenBuffer y x).bind (fun c => some (line ++ c.char))) [] =
        some (rowText row) := by
    intro y row hr
    have hl := hs.row_length hr
    obtain ⟨line, hline, hp⟩ := forRange_inv (fun x line =>
        (getCell t.screenBuffer y x).bind (fun c => some (line ++ c.char)))
      (fun k line => line = rowText (row.take k)) 0 t.screenWidth [] (by simp [rowText]) (by
        intro k hk line hline
        obtain ⟨c, hc⟩ := @idx?_isSome _ row (0 + (k : Int)) (by omega) (by omega)
        refine ⟨line ++ c.char, ?_, ?_⟩
        · beta_reduce; rw [getCell_of_row hr, hc]; rfl
        · subst hline
          simp only [zero_add, idx?_natCast] at hc
          rw [List.take_succ, hc]
          simp [rowText])
    rw [hline, hp]
    have : (t.screenWidth - 0).toNat = row.length := by omega
    rw [this, List.take_length]
  obtain ⟨out, hout, hp⟩ := forRange_inv (fun y out =>
      (forRange 0 t.screenWidth (fun x line =>
          (getCell t.screenBuffer y x).bind (fun c => some (line ++ c.char))) []).bind
        (fun line => some (out ++ [line])))
    (fun k out => out = (t.screenBuffer.take k).map rowText) 0 t.screenHeight [] (by simp) (by
      intro k hk out hout
      have hlen := hs.1
      obtain ⟨row, hr⟩ := @idx?_isSome _ t.screenBuffer (0 + (k : Int)) (by omega)
        (by omega)
      refine ⟨out ++ [rowText row], ?_, ?_⟩
      · beta_reduce; rw [hrow _ row hr]; rfl
      · subst hout
        simp only [zero_add, idx?_natCast] at hr
        rw [List.take_succ, hr]
        simp)
  unfold updateOutput
  rw [hout, hp]
  have hlen := hs.1
  have : (t.screenHeight - 0).toNat = t.screenBuffer.length := by omega
  rw [this, List.take_length]
  rfl

/-! ### The initial grid -/

theorem shaped_blankRows {h w : Int} (hh : 0 ≤ h) (hw : 0 ≤ w) : Shaped (blankRows h w) h w := by
  unfold blankRows Shaped
  constructor
  · simp; omega
  · intro row hr
    rw [List.eq_of_mem_replicate hr]
    simp; omega

theorem idx?_cons {α : Type} (a : α) (xs : List α) (y : Int) :
    idx? (a :: xs) y = if y = 0 then some a else idx? xs (y - 1) := by
  by_cases h0 : y = 0
  · subst h0; simp [idx?]
  · by_cases h1 : 0 < y
    · have e : y.toNat = (y - 1).toNat + 1 := by omega
      have h2 : 0 ≤ y := by omega
      have h3 : 0 ≤ y - 1 := by omega
      simp only [idx?, h0, h2, h3, if_true, if_false, e, List.getElem?_cons_succ]
    · have h2 : ¬ 0 ≤ y := by omega
      have h3 : ¬ 0 ≤ y - 1 := by omega
      simp only [idx?, h0, h2, h3, if_false]

theorem idx?_append {α : Type} (xs ys : List α) (i : Int) :
    idx? (xs ++ ys) i = if i < xs.length then idx? xs i else idx? ys (i - xs.length) := by
  unfold idx?
  by_cases h0 : 0 ≤ i
  · by_cases h1 : i < xs.length
    · have : i.toNat < xs.length := by omega
      simp only [h0, h1, if_true, List.getElem?_append_left this]
    · have h2 : xs.length ≤ i.toNat := by omega
      have h3 : 0 ≤ i - xs.length := by omega
      have h4 : (i - (xs.length : Int)).toNat = i.toNat - xs.length := by omega
      simp only [h0, h1, h3, if_true, if_false, List.getElem?_append_right h2, h4]
  · have : i < xs.length := by omega
    simp [h0, this]

theorem idx?_map {α β : Type} (f : α → β) (xs : List α) (i : Int) :
    idx? (xs.map f) i = (idx? xs i).map f := by
  unfold idx?
  split <;> simp

theorem getCell_blankRows (h w y x : Int) :
    getCell (blankRows h w) y x =
      if (0 ≤ y ∧ y < h) ∧ 0 ≤ x ∧ x < w then some blank else none := by
  unfold getCell blankRows
  rw [idx?_replicate]
  by_cases hy : 0 ≤ y ∧ y < h
  · have : 0 ≤ y ∧ y < ((h.toNat : Nat) : Int) := by omega
    rw [if_pos this, Option.some_bind, idx?_replicate]
    by_cases hx : 0 ≤ x ∧ x < w
    · have : 0 ≤ x ∧ x < ((w.toNat : Nat) : Int) := by omega
      rw [if_pos this, if_pos ⟨hy, hx⟩]
    · have : ¬ (0 ≤ x ∧ x < ((w.toNat : Nat) : Int)) := by omega
      rw [if_neg this, if_neg (fun h => hx h.2)]
  · have : ¬ (0 ≤ y ∧ y < ((h.toNat : Nat) : Int)) := by omega
    rw [if_neg this, if_neg (fun h => hy h.1)]
    rfl

theorem allocated_newTerminalWith {m w h : Int} (hm : 1 ≤ m) (hw : 1 ≤ w) (hh : 1 ≤ h) :
    Allocated (newTerminalWith m w h) :=
  ⟨hw, hh, hm, shaped_blankRows (by omega) (by omega), shaped_blankRows (by omega) (by omega),
    le_refl 0, by show (0 : Int) ≤ m; omega⟩

theorem flatten_replicate_singleton {α : Type} (n : Nat) (a : α) :
    (List.replicate n [a]).flatten = List.replicate n a := by
  induction n with
  | zero => rfl
  | succ n ih => simp [List.replicate_succ, ih]

theorem rowText_replicate_blank (n : Nat) :
    rowText (List.replicate n blank) = List.replicate n 32 := by
  unfold rowText
  rw [List.map_replicate]
  exact flatten_replicate_singleton n 32

theorem rowText_ascii (s : Bytes) : rowText (s.map asciiCell) = s := by
  unfold rowText
  induction s with
  | nil => rfl
  | cons b s ih => simp [asciiCell] at ih ⊢; exact ih

theorem rowText_append (r1 r2 : List Cell) : rowText (r1 ++ r2) = rowText r1 ++ rowText r2 := by
  simp [rowText]

/-! ### Printable text fed to the initial state -/

theorem shaped_textGrid {cols rows : Int} {s : Bytes} (hrows : 1 ≤ rows)
    (hlen : (s.length : Int) ≤ cols) : Shaped (textGrid cols rows s) rows cols := by
  unfold textGrid
  constructor
  · simp; omega
  · intro row hr
    rcases List.mem_cons.mp hr with rfl | hr
    · simp; omega
    · rw [List.eq_of_mem_replicate hr]; simp; omega

theorem textGrid_output (cols rows : Int) (s : Bytes) :
    (textGrid cols rows s).map rowText =
      (s ++ List.replicate (cols.toNat - s.length) 32) ::
        List.replicate (rows.toNat - 1) (List.replicate cols.toNat 32) := by
  unfold textGrid
  simp only [List.map_cons, rowText_append, rowText_ascii, rowText_replicate_blank,
    List.map_replicate]

/-- A printable ASCII string no longer than the grid width, fed from the initial
state, ends in the initial state with the text on row 0 and the cursor after it. -/
theorem initial_printable_grid (cols rows : Int) (s : Bytes) (hrows : 1 ≤ rows)
    (hlen : (s.length : Int) ≤ cols) (hs : ∀ b ∈ s, 32 ≤ b ∧ b ≤ 126) :
    feed (NewTerminal cols rows) s =
      some { NewTerminal cols rows with screenBuffer := textGrid cols rows s, cursorX := s.length } := by
  have hsh : Shaped (NewTerminal cols rows).screenBuffer rows cols :=
    shaped_blankRows (by omega) (by omega)
  obtain ⟨sb, hfeed, hsb, hcell⟩ := feed_printable s (NewTerminal cols rows) hsh rfl rfl
    (le_refl 0) (by show (0 : Int) < rows; omega) (le_refl 0)
    (by show (0 : Int) + s.length ≤ cols; omega) hs
  have hE : sb = textGrid cols rows s := by
    apply Shaped.ext (h := rows) (w := cols) hsb (shaped_textGrid hrows hlen)
    intro y x
    rw [hcell]
    show (if y = 0 ∧ 0 ≤ x ∧ x < 0 + (s.length : Int) then (idx? s (x - 0)).map asciiCell
      else getCell (blankRows rows cols) y x) = _
    rw [getCell_blankRows]
    unfold getCell textGrid
    rw [idx?_cons]
    by_cases hy : y = 0
    · subst hy
      rw [if_pos rfl, Option.some_bind, idx?_append, idx?_map]
      simp only [List.length_map, sub_zero, zero_add, true_and]
      by_cases hx : 0 ≤ x ∧ x < (s.length : Int)
      · rw [if_pos hx, if_pos hx.2]
      · rw [if_neg hx]
        by_cases hx0 : 0 ≤ x
        · have : ¬ x < (s.length : Int) := fun h => hx ⟨hx0, h⟩
          rw [if_neg this, idx?_replicate]
          by_cases hx1 : x < cols
          · rw [if_pos (by omega), if_pos (by omega)]
          · rw [if_neg (by omega), if_neg (by omega)]
        · have : x < (s.length : Int) := by omega
          rw [if_pos this, if_neg (by omega)]
          simp [idx?, hx0]
    · have n1 : ¬ (y = 0 ∧ 0 ≤ x ∧ x < 0 + (s.length : Int)) := fun h => hy h.1
      rw [if_neg n1, if_neg hy, idx?_replicate]
      by_cases hy1 : 0 ≤ y - 1 ∧ y - 1 < ((rows.toNat - 1 : Nat) : Int)
      · rw [if_pos hy1, Option.some_bind, idx?_replicate]
        by_cases hx : 0 ≤ x ∧ x < cols
        · rw [if_pos (by omega), if_pos (by omega)]
        · rw [if_neg (by omega), if_neg (by omega)]
      · rw [if_neg hy1, if_neg (by omega)]
        rfl
  rw [hfeed, hE]
  congr 2
  show (0 : Int) + s.length = s.length
  omega

/-! # C1: printable text is read back by the snapshot -/

/-- C1: a printable ASCII string shorter than the grid width, fed byte by byte
from the initial state, is read back by the snapshot left-aligned on row 0, all
other rows blank, with the cursor just after the text. -/
theorem C1_printable_snapshot (cols rows : Int) (s : Bytes) (hrows : 1 ≤ rows)
    (hlen : (s.length : Int) < cols) (hs : ∀ b ∈ s, 32 ≤ b ∧ b ≤ 126) :
    ∃ t t1, feed (NewTerminal cols rows) s = some t ∧ updateOutput t = some t1 ∧
      t1.output = (s ++ List.replicate (cols.toNat - s.length) 32) ::
        List.replicate (rows.toNat - 1) (List.replicate cols.toNat 32) ∧
      t1.cursorY = 0 ∧ t1.cursorX = s.length := by
  refine ⟨_, _, initial_printable_grid cols rows s hrows (by omega) hs,
    updateOutput_spec (shaped_textGrid hrows (by omega)), ?_, rfl, rfl⟩
  exact textGrid_output cols rows s

theorem C1_printable_snapshot_witness :
    ∃ t t1, feed (NewTerminal 4 2) [104, 105] = some t ∧ updateOutput t = some t1 ∧
      t1.output = ([104, 105] ++ List.replicate ((4 : Int).toNat - ([104, 105] : Bytes).length) 32) ::
        List.replicate ((2 : Int).toNat - 1) (List.replicate (4 : Int).toNat 32) ∧
      t1.cursorY = 0 ∧ t1.cursorX = (([104, 105] : Bytes).length : Int) :=
  C1_printable_snapshot 4 2 [104, 105] (by decide) (by decide) (by decide)

/-! # C2: an erase with the cursor past the last column indexes outside the row -/

/-- C2 (the code fails): on a 3-column grid, after three printable bytes the
cursor column is 3, and the erase-to-cursor sequence `ESC [ 1 K` then indexes
`screenBuffer[0][3]`: the first six bytes are processed, the seventh panics. -/
theorem C2_erase_to_cursor_panics :
    (feed (NewTerminal 3 2) [97, 98, 99, 27, 91, 49]).map (fun t => (t.cursorY, t.cursorX)) =
        some (0, 3) ∧
      feed (NewTerminal 3 2) [97, 98, 99, 27, 91, 49, 75] = none := by
  constructor <;> rfl

/-! ### Machine integers -/

theorem wrap64_eq {x : Int} (h0 : -2 ^ 63 ≤ x) (h1 : x < 2 ^ 63) : wrap64 x = x := by
  unfold wrap64
  omega

theorem Atoi_range {s : Bytes} {n : Int} (h : Atoi s = some n) : -2 ^ 63 ≤ n ∧ n < 2 ^ 63 := by
  unfold Atoi at h
  simp only at h
  split at h
  · exact absurd h (by simp)
  · split at h
    · split at h
      · split at h
        · simp only [Option.some.injEq] at h; omega
        · exact absurd h (by simp)
      · split at h
        · simp only [Option.some.injEq] at h; omega
        · exact absurd h (by simp)
    · exact absurd h (by simp)

theorem parseNumber_range (s : Bytes) {d : Int} (h0 : -2 ^ 63 ≤ d) (h1 : d < 2 ^ 63) :
    -2 ^ 63 ≤ parseNumber s d ∧ parseNumber s d < 2 ^ 63 := by
  unfold parseNumber
  split
  · exact ⟨h0, h1⟩
  · split
    · rename_i n hn; exact Atoi_range hn
    · exact ⟨h0, h1⟩

theorem getCharWidth_range (char : Bytes) : 0 ≤ getCharWidth char ∧ getCharWidth char ≤ 2 := by
  generalize hg : getCharWidth char = g
  unfold getCharWidth at hg
  generalize (DecodeRuneInString char).1 = r at hg
  generalize char.length = n at hg
  simp only at hg
  repeat (first | omega | split at hg)

/-! ### The invariant of the read loop -/

theorem inv_withGrid {w h m : Int} {t : Terminal} (hi : Inv w h m t) {sb : List (List Cell)}
    {cx cy : Int} (hs : Shaped sb h w) (hy : 0 ≤ cy ∧ cy < h) (hx : 0 ≤ cx ∧ cx ≤ max w 2) :
    Inv w h m { t with screenBuffer := sb, cursorX := cx, cursorY := cy } := by
  obtain ⟨rfl, rfl, rfl, ha, _⟩ := hi
  obtain ⟨h1, h2, h3, _, h5, h6, h7⟩ := ha
  exact ⟨rfl, rfl, rfl, ⟨h1, h2, h3, hs, h5, h6, h7⟩, ⟨hy, hx⟩⟩

theorem inv_shaped {w h m : Int} {t : Terminal} (hi : Inv w h m t) :
    Shaped t.screenBuffer h w := by
  obtain ⟨rfl, rfl, rfl, ha, _⟩ := hi
  exact ha.2.2.2.1

theorem inv_cursor {w h m : Int} {t : Terminal} (hi : Inv w h m t) :
    (0 ≤ t.cursorY ∧ t.cursorY < h) ∧ 0 ≤ t.cursorX ∧ t.cursorX ≤ max w 2 := by
  obtain ⟨rfl, rfl, rfl, _, hc⟩ := hi
  exact hc

theorem inv_dims {w h m : Int} {t : Terminal} (hi : Inv w h m t) : 1 ≤ w ∧ 1 ≤ h := by
  obtain ⟨rfl, rfl, rfl, ha, _⟩ := hi
  exact ⟨ha.1, ha.2.1⟩

/-- A change of the cursor alone keeps the invariant when the new cursor is in range. -/
theorem inv_withCursor {w h m : Int} {t : Terminal} (hi : Inv w h m t) {cx cy : Int}
    (hy : 0 ≤ cy ∧ cy < h) (hx : 0 ≤ cx ∧ cx ≤ max w 2) :
    Inv w h m { t with cursorX := cx, cursorY := cy } :=
  inv_withGrid hi (inv_shaped hi) hy hx

theorem shaped_blankCells_some {b b1 : List (List Cell)} {y lo hi h w : Int}
    (hb : blankCells b y lo hi = some b1) (hs : Shaped b h w) : Shaped b1 h w := by
  unfold blankCells forRange at hb
  exact forRangeAux_preserves _ (fun s => Shaped s h w)
    (fun _ _ _ hs1 hf => shaped_setCell hs1 hf) _ _ _ _ hs hb

theorem copy_length {α : Type} (dst src : List α) : (copy dst src).length = dst.length := by
  unfold copy
  simp only [List.length_append, List.length_take, List.length_drop]
  omega

theorem shaped_copyRow_some {b src b1 : List (List Cell)} {d s h w : Int}
    (hb : copyRow b d src s = some b1) (hs : Shaped b h w) : Shaped b1 h w := by
  obtain ⟨dst, r, hd, _, hset⟩ := copyRow_eq_some.mp hb
  refine shaped_setRow hs ?_ hset
  rw [copy_length]
  exact hs.row_length hd

/-- A loop over rows whose body blanks cells keeps the shape. -/
theorem shaped_rowLoop_some {b b1 : List (List Cell)} {lo hi h w : Int}
    (f : Int → List (List Cell) → Option (List (List Cell)))
    (hf : ∀ y s1 s2, Shaped s1 h w → f y s1 = some s2 → Shaped s2 h w)
    (hb : forRange lo hi f b = some b1) (hs : Shaped b h w) : Shaped b1 h w := by
  unfold forRange at hb
  exact forRangeAux_preserves f (fun s => Shaped s h w) hf _ _ _ _ hs hb

theorem clearScreen_some {w h m : Int} {t t1 : Terminal} {params : Bytes}
    (hi : Inv w h m t) (hc : clearScreen t params = some t1) : Inv w h m t1 := by
  have hs := inv_shaped hi
  have hcur := inv_cursor hi
  have hd := inv_dims hi
  unfold clearScreen at hc
  simp only at hc
  split at hc
  · rw [Option.bind_eq_some] at hc
    obtain ⟨sb, hsb, ht⟩ := hc
    simp only [Option.some.injEq] at ht
    subst ht
    exact inv_withGrid hi (shaped_rowLoop_some _
      (fun _ _ _ hs1 hf => shaped_blankCells_some hf hs1) hsb hs) hcur.1 hcur.2
  · split at hc
    · rw [Option.bind_eq_some] at hc
      obtain ⟨sb, hsb, ht⟩ := hc
      simp only [Option.some.injEq] at ht
      subst ht
      exact inv_withGrid hi (shaped_rowLoop_some _
        (fun _ _ _ hs1 hf => shaped_blankCells_some hf hs1) hsb hs) hcur.1 hcur.2
    · split at hc
      · rw [Option.bind_eq_some] at hc
        obtain ⟨sb, hsb, ht⟩ := hc
        simp only [Option.some.injEq] at ht
        subst ht
        exact inv_withGrid hi (shaped_rowLoop_some _
          (fun _ _ _ hs1 hf => shaped_blankCells_some hf hs1) hsb hs)
          ⟨le_refl 0, by omega⟩ ⟨le_refl 0, by omega⟩
      · simp only [Option.some.injEq] at hc
        subst hc
        exact hi

theorem clearLine_some {w h m : Int} {t t1 : Terminal} {params : Bytes}
    (hi : Inv w h m t) (hc : clearLine t params = some t1) : Inv w h m t1 := by
  have hs := inv_shaped hi
  have hcur := inv_cursor hi
  unfold clearLine at hc
  simp only at hc
  split at hc
  · rw [Option.bind_eq_some] at hc
    obtain ⟨sb, hsb, ht⟩ := hc
    simp only [Option.some.injEq] at ht
    subst ht
    exact inv_withGrid hi (shaped_blankCells_some hsb hs) hcur.1 hcur.2
  · split at hc
    · rw [Option.bind_eq_some] at hc
      obtain ⟨sb, hsb, ht⟩ := hc
      simp only [Option.some.injEq] at ht
      subst ht
      exact inv_withGrid hi (shaped_blankCells_some hsb hs) hcur.1 hcur.2
    · split at hc
      · rw [Option.bind_eq_some] at hc
        obtain ⟨sb, hsb, ht⟩ := hc
        simp only [Option.some.injEq] at ht
        subst ht
        exact inv_withGrid hi (shaped_blankCells_some hsb hs) hcur.1 hcur.2
      · simp only [Option.some.injEq] at hc
        subst hc
        exact hi

theorem setCursorPosition_some {w h m : Int} {t t1 : Terminal} {params : Bytes}
    (hi : Inv w h m t) (hc : setCursorPosition t params = some t1) : Inv w h m t1 := by
  have hd := inv_dims hi
  have hw : t.screenWidth = w := hi.1
  have hh : t.screenHeight = h := hi.2.1
  unfold setCursorPosition at hc
  simp only [Option.bind_eq_some] at hc
  obtain ⟨p0, _, col, _, ht⟩ := hc
  simp only [Option.some.injEq] at ht
  subst ht
  exact inv_withCursor hi (by rw [hh]; omega) (by rw [hw]; omega)

theorem processEscapeSequence_some {w h m : Int} {t t1 : Terminal} {seq : Bytes}
    (hi : Inv w h m t)
    (hfit : t.cursorX + parseNumber ((seq.drop 2).take (seq.length - 3)) 1 < 2 ^ 63 ∧
      t.cursorY + parseNumber ((seq.drop 2).take (seq.length - 3)) 1 < 2 ^ 63)
    (hc : processEscapeSequence t seq = some t1) : Inv w h m t1 := by
  have hcur := inv_cursor hi
  have hd := inv_dims hi
  have hw : t.screenWidth = w := hi.1
  have hh : t.screenHeight = h := hi.2.1
  have hn := parseNumber_range ((seq.drop 2).take (seq.length - 3)) (d := 1)
    (by norm_num) (by norm_num)
  unfold processEscapeSequence at hc
  by_cases h1 : seq.length < 2
  · rw [if_pos h1] at hc
    simp only [Option.some.injEq] at hc; subst hc; exact hi
  rw [if_neg h1] at hc
  by_cases h2 : hasCsiPrefix seq = true
  swap
  · rw [if_neg h2] at hc
    simp only [Option.some.injEq] at hc; subst hc; exact hi
  rw [if_pos h2] at hc
  by_cases h3 : seq.length < 3
  · rw [if_pos h3] at hc
    exact absurd hc (by simp)
  rw [if_neg h3] at hc
  simp only [Option.bind_eq_some] at hc
  obtain ⟨cmd, _, hc⟩ := hc
  generalize parseNumber ((seq.drop 2).take (seq.length - 3)) 1 = n at hc hfit hn
  by_cases c1 : cmd = 72 ∨ cmd = 102
  · rw [if_pos c1] at hc
    exact setCursorPosition_some hi hc
  rw [if_neg c1] at hc
  by_cases c2 : cmd = 65
  · rw [if_pos c2] at hc
    by_cases hpos : n > 0
    · rw [if_pos hpos] at hc
      simp only [Option.some.injEq] at hc; subst hc
      have e : wrap64 (t.cursorY - n) = t.cursorY - n := wrap64_eq (by omega) (by omega)
      exact inv_withCursor hi (by rw [e]; omega) hcur.2
    · rw [if_neg hpos] at hc
      simp only [Option.some.injEq] at hc; subst hc; exact hi
  rw [if_neg c2] at hc
  by_cases c3 : cmd = 66
  · rw [if_pos c3] at hc
    by_cases hpos : n > 0
    · rw [if_pos hpos] at hc
      simp only [Option.some.injEq] at hc; subst hc
      have e : wrap64 (t.cursorY + n) = t.cursorY + n := wrap64_eq (by omega) (by omega)
      exact inv_withCursor hi (by rw [e, hh]; omega) hcur.2
    · rw [if_neg hpos] at hc
      simp only [Option.some.injEq] at hc; subst hc; exact hi
  rw [if_neg c3] at hc
  by_cases c4 : cmd = 67
  · rw [if_pos c4] at hc
    by_cases hpos : n > 0
    · rw [if_pos hpos] at hc
      simp only [Option.some.injEq] at hc; subst hc
      have e : wrap64 (t.cursorX + n) = t.cursorX + n := wrap64_eq (by omega) (by omega)
      exact inv_withCursor hi hcur.1 (by rw [e, hw]; omega)
    · rw [if_neg hpos] at hc
      simp only [Option.some.injEq] at hc; subst hc; exact hi
  rw [if_neg c4] at hc
  by_cases c5 : cmd = 68
  · rw [if_pos c5] at hc
    by_cases hpos : n > 0
    · rw [if_pos hpos] at hc
      simp only [Option.some.injEq] at hc; subst hc
      have e : wrap64 (t.cursorX - n) = t.cursorX - n := wrap64_eq (by omega) (by omega)
      exact inv_withCursor hi hcur.1 (by rw [e]; omega)
    · rw [if_neg hpos] at hc
      simp only [Option.some.injEq] at hc; subst hc; exact hi
  rw [if_neg c5] at hc
  by_cases c6 : cmd = 74
  · rw [if_pos c6] at hc
    exact clearScreen_some hi hc
  rw [if_neg c6] at hc
  by_cases c7 : cmd = 75
  · rw [if_pos c7] at hc
    exact clearLine_some hi hc
  rw [if_neg c7] at hc
  simp only [Option.some.injEq] at hc; subst hc; exact hi

theorem tabLoop_some {w h m : Int} (nextTab : Int) :
    ∀ (fuel : Nat) (t t1 : Terminal), Inv w h m t → tabLoop nextTab fuel t = some t1 →
      Inv w h m t1 := by
  intro fuel
  induction fuel with
  | zero =>
    intro t t1 hi hc
    simp only [tabLoop, Option.some.injEq] at hc
    subst hc; exact hi
  | succ fuel ih =>
    intro t t1 hi hc
    have hcur := inv_cursor hi
    have hw : t.screenWidth = w := hi.1
    unfold tabLoop at hc
    split at hc
    · rename_i hcond
      rw [Option.bind_eq_some] at hc
      obtain ⟨sb, hsb, hc⟩ := hc
      refine ih _ t1 ?_ hc
      exact inv_withGrid hi (shaped_setCell (inv_shaped hi) hsb) hcur.1 (by omega)
    · simp only [Option.some.injEq] at hc
      subst hc; exact hi

/-- The scan of `handleBackspace` only lowers the cursor column, and not below `-1`. -/
theorem scanBack_some :
    ∀ (fuel : Nat) (t t1 : Terminal), scanBack fuel t = some t1 →
      ∃ cx, t1 = { t with cursorX := cx } ∧ cx ≤ t.cursorX ∧ (-1 ≤ t.cursorX → -1 ≤ cx) := by
  intro fuel
  induction fuel with
  | zero =>
    intro t t1 hc
    simp only [scanBack, Option.some.injEq] at hc
    exact ⟨t.cursorX, hc.symm, le_refl _, fun h => h⟩
  | succ fuel ih =>
    intro t t1 hc
    unfold scanBack at hc
    split at hc
    · rw [Option.bind_eq_some] at hc
      obtain ⟨c, _, hc⟩ := hc
      split at hc
      · obtain ⟨cx, h1, h2, h3⟩ := ih _ t1 hc
        refine ⟨cx, h1, ?_, ?_⟩
        · have : cx ≤ t.cursorX - 1 := h2
          omega
        · intro _
          exact h3 (by show -1 ≤ t.cursorX - 1; omega)
      · simp only [Option.some.injEq] at hc
        exact ⟨t.cursorX, hc.symm, le_refl _, fun h => h⟩
    · simp only [Option.some.injEq] at hc
      exact ⟨t.cursorX, hc.symm, le_refl _, fun h => h⟩

theorem handleBackspace_some {w h m : Int} {t t1 : Terminal} (hi : Inv w h m t)
    (hc : handleBackspace t = some t1) : Inv w h m t1 := by
  have hcur := inv_cursor hi
  have hs := inv_shaped hi
  have hd := inv_dims hi
  have hw : t.screenWidth = w := hi.1
  unfold handleBackspace at hc
  by_cases hx : t.cursorX > 0
  · rw [if_pos hx] at hc
    simp only at hc
    by_cases hr : t.cursorX - 1 ≥ 0 ∧ t.cursorX - 1 < t.screenWidth
    · rw [if_pos hr] at hc
      rw [Option.bind_eq_some] at hc
      obtain ⟨c, _, hc⟩ := hc
      by_cases w2 : c.width = 2
      · rw [if_pos w2] at hc
        simp only [Option.bind_eq_some] at hc
        obtain ⟨sb, hsb, sb1, hsb1, ht⟩ := hc
        simp only [Option.some.injEq] at ht
        subst ht
        have hs1 := shaped_setCell hs hsb
        have hs2 : Shaped sb1 h w := by
          split at hsb1
          · exact shaped_setCell hs1 hsb1
          · simp only [Option.some.injEq] at hsb1; subst hsb1; exact hs1
        exact inv_withGrid hi hs2 hcur.1 (by omega)
      · rw [if_neg w2] at hc
        by_cases w0 : c.width = 0
        · rw [if_pos w0] at hc
          simp only [Option.bind_eq_some] at hc
          obtain ⟨found, hfound, hc⟩ := hc
          cases found with
          | true =>
            simp only [if_true, Option.bind_eq_some] at hc
            obtain ⟨sb, hsb, sb1, hsb1, ht⟩ := hc
            simp only [Option.some.injEq] at ht
            subst ht
            have hreal : t.cursorX - 1 - 1 ≥ 0 := by
              by_contra hneg
              rw [if_neg hneg] at hfound
              simp at hfound
            exact inv_withGrid hi (shaped_setCell (shaped_setCell hs hsb) hsb1) hcur.1
              (by omega)
          | false =>
            simp only [Bool.false_eq_true, if_false, Option.bind_eq_some] at hc
            obtain ⟨sb, hsb, ht⟩ := hc
            simp only [Option.some.injEq] at ht
            subst ht
            exact inv_withGrid hi (shaped_setCell hs hsb) hcur.1 (by omega)
        · rw [if_neg w0] at hc
          simp only [Option.bind_eq_some] at hc
          obtain ⟨sb, hsb, ht⟩ := hc
          simp only [Option.some.injEq] at ht
          subst ht
          exact inv_withGrid hi (shaped_setCell hs hsb) hcur.1 (by omega)
    · rw [if_neg hr] at hc
      simp only [Option.some.injEq] at hc
      subst hc; exact hi
  · rw [if_neg hx] at hc
    by_cases hy : t.cursorY > 0
    · rw [if_pos hy] at hc
      simp only [Option.bind_eq_some] at hc
      obtain ⟨t2, ht2, t3, ht3, hc⟩ := hc
      obtain ⟨cx, rfl, hcx1, hcx2⟩ := scanBack_some _ _ _ ht2
      have hcx1 : cx ≤ t.screenWidth - 1 := hcx1
      have hcx2 : -1 ≤ cx := hcx2 (by show -1 ≤ t.screenWidth - 1; omega)
      have h3 : ∃ cx3, t3 = { t with cursorY := t.cursorY - 1, cursorX := cx3 } ∧
          0 ≤ cx3 ∧ cx3 ≤ t.screenWidth + 1 := by
        by_cases hge : cx ≥ 0
        · rw [if_pos hge] at ht3
          rw [Option.bind_eq_some] at ht3
          obtain ⟨c, _, ht3⟩ := ht3
          split at ht3
          · simp only [Option.some.injEq] at ht3
            exact ⟨cx + 2, ht3.symm, by omega, by omega⟩
          · simp only [Option.some.injEq] at ht3
            exact ⟨cx + 1, ht3.symm, by omega, by omega⟩
        · rw [if_neg hge] at ht3
          simp only [Option.some.injEq] at ht3
          exact ⟨0, ht3.symm, le_refl 0, by omega⟩
      obtain ⟨cx3, rfl, h30, h31⟩ := h3
      split at hc
      · simp only [Option.some.injEq] at hc
        subst hc
        exact inv_withCursor hi (by omega) (by rw [hw]; omega)
      · rename_i hlt
        have hlt : ¬ cx3 ≥ t.screenWidth := hlt
        simp only [Option.some.injEq] at hc
        subst hc
        exact inv_withCursor hi (by omega) (by omega)
    · rw [if_neg hy] at hc
      simp only [Option.some.injEq] at hc
      subst hc; exact hi

theorem lineFeed_some {w h m : Int} {t t1 : Terminal} (hi : Inv w h m t)
    (hc : lineFeed t = some t1) : Inv w h m t1 ∧ t1.cursorX = 0 := by
  have hcur := inv_cursor hi
  have hd := inv_dims hi
  have hh : t.screenHeight = h := hi.2.1
  by_cases hlast : t.cursorY + 1 < t.screenHeight
  · rw [lineFeed_noscroll hlast] at hc
    simp only [Option.some.injEq] at hc
    subst hc
    exact ⟨inv_withCursor hi (by omega) (by omega), rfl⟩
  · rw [lineFeed_scroll (by omega)] at hc
    obtain ⟨e1, e2, e3, ha, _⟩ := hi
    have ha0 : Allocated { t with cursorX := 0, cursorY := t.cursorY + 1 } := ha
    obtain ⟨t2, ht2, ha2, f1, f2, f3, f4, f5, _⟩ := scrollUp_spec ha0
    rw [ht2] at hc
    simp only [Option.some.injEq] at hc
    subst hc
    have f1 : t2.screenWidth = t.screenWidth := f1
    have f2 : t2.screenHeight = t.screenHeight := f2
    have f3 : t2.maxHistory = t.maxHistory := f3
    have f4 : t2.cursorX = 0 := f4
    have f5 : t2.cursorY = t.screenHeight - 1 := f5
    refine ⟨⟨f1.trans e1, f2.trans e2, f3.trans e3, ha2, ⟨?_, ?_⟩⟩, f4⟩
    · rw [f5, f2]; omega
    · rw [f4]; omega

theorem placeGlyph_some {w h m : Int} {t t1 : Terminal} {char : Bytes} {cw : Int}
    (hi : Inv w h m t) (hcw : 0 ≤ cw ∧ cw ≤ 2)
    (hfit : t.cursorX + cw ≤ w ∨ t.cursorX = 0)
    (hc : placeGlyph t char cw = some t1) : Inv w h m t1 := by
  have hcur := inv_cursor hi
  have hs := inv_shaped hi
  have hh : t.screenHeight = h := hi.2.1
  unfold placeGlyph at hc
  rw [if_pos (by rw [hh]; exact hcur.1.2)] at hc
  simp only [Option.bind_eq_some] at hc
  obtain ⟨sb, hsb, sb1, hsb1, ht⟩ := hc
  simp only [Option.some.injEq] at ht
  subst ht
  have hs1 := shaped_setCell hs hsb
  have hs2 : Shaped sb1 h w := by
    split at hsb1
    · exact shaped_setCell hs1 hsb1
    · simp only [Option.some.injEq] at hsb1; subst hsb1; exact hs1
  exact inv_withGrid hi hs2 hcur.1 (by omega)

theorem writeChar_some {w h m : Int} {t t1 : Terminal} {char : Bytes}
    (hi : Inv w h m t) (hc : writeChar t char = some t1) : Inv w h m t1 := by
  have hcur := inv_cursor hi
  have hw : t.screenWidth = w := hi.1
  have hcw := getCharWidth_range char
  unfold writeChar at hc
  split at hc
  · simp only [Option.bind_eq_some] at hc
    obtain ⟨t2, ht2, hc⟩ := hc
    unfold wrapLine at ht2
    split at ht2
    · obtain ⟨hi2, hx2⟩ := lineFeed_some hi ht2
      exact placeGlyph_some hi2 hcw (Or.inr hx2) hc
    · rename_i hnw
      simp only [Option.some.injEq] at ht2
      subst ht2
      exact placeGlyph_some hi hcw (Or.inl (by omega)) hc
  · simp only [Option.some.injEq] at hc
    subst hc; exact hi

/-- A change of the parser or decoder fields alone keeps the invariant. -/
theorem inv_withParser {w h m : Int} {t : Terminal} (hi : Inv w h m t) (eb : Bytes) (ie : Bool)
    (ub : Bytes) : Inv w h m { t with escapeBuffer := eb, inEscape := ie, utf8Buffer := ub } :=
  hi

theorem processChar_some {w h m : Int} {t t1 : Terminal} {char : Bytes}
    (hi : Inv w h m t) (hfit : ParamFits t)
    (hc : processChar t char = some t1) : Inv w h m t1 := by
  have hcur := inv_cursor hi
  unfold processChar at hc
  split at hc
  · rename_i b
    by_cases he : t.inEscape = true
    · rw [if_pos he] at hc
      simp only at hc
      split at hc
      · rename_i hcomp
        rw [Option.bind_eq_some] at hc
        obtain ⟨t2, ht2, hc⟩ := hc
        simp only [Option.some.injEq] at hc
        subst hc
        have hlen : 2 ≤ (t.escapeBuffer ++ [b]).length := by
          unfold isEscapeComplete at hcomp
          simp only at hcomp
          by_contra hlt
          rw [if_pos (by omega)] at hcomp
          exact absurd hcomp (by simp)
        have hparams : ((t.escapeBuffer ++ [b]).drop 2).take ((t.escapeBuffer ++ [b]).length - 3) =
            t.escapeBuffer.drop 2 := by
          simp only [List.length_append, List.length_singleton] at hlen ⊢
          by_cases h2 : 2 ≤ t.escapeBuffer.length
          · rw [List.drop_append_of_le_length h2]
            have : t.escapeBuffer.length + 1 - 3 = (t.escapeBuffer.drop 2).length := by
              simp only [List.length_drop]; omega
            rw [this, List.take_left]
          · have h1 : t.escapeBuffer.length = 1 := by omega
            rw [List.drop_of_length_le (by omega : t.escapeBuffer.length ≤ 2), h1]
            simp
        have hi2 : Inv w h m t2 := by
          refine processEscapeSequence_some
            (t := { t with escapeBuffer := t.escapeBuffer ++ [b] }) hi ?_ ht2
          rw [hparams]
          exact hfit
        exact hi2
      · simp only [Option.some.injEq] at hc
        subst hc; exact hi
    · rw [if_neg he] at hc
      by_cases b1 : b = 27
      · rw [if_pos b1] at hc
        simp only [Option.some.injEq] at hc
        subst hc; exact hi
      rw [if_neg b1] at hc
      by_cases b2 : b = 10
      · rw [if_pos b2] at hc
        exact (lineFeed_some hi hc).1
      rw [if_neg b2] at hc
      by_cases b3 : b = 8
      · rw [if_pos b3] at hc
        exact handleBackspace_some hi hc
      rw [if_neg b3] at hc
      by_cases b4 : b = 13
      · rw [if_pos b4] at hc
        simp only [Option.some.injEq] at hc
        subst hc
        exact inv_withCursor hi hcur.1 ⟨le_refl 0, by omega⟩
      rw [if_neg b4] at hc
      by_cases b5 : b = 9
      · rw [if_pos b5] at hc
        exact tabLoop_some _ _ _ _ hi hc
      rw [if_neg b5] at hc
      exact writeChar_some hi hc
  · exact writeChar_some hi hc

theorem processByte_some {w h m : Int} {t t1 : Terminal} {b : Nat}
    (hi : Inv w h m t) (hfit : ParamFits t)
    (hc : processByte t b = some t1) : Inv w h m t1 := by
  unfold processByte at hc
  simp only at hc
  generalize t.utf8Buffer ++ [b] = buf at hc
  by_cases hv : Valid buf = true
  · rw [if_pos hv] at hc
    have hi1 : Inv w h m { t with utf8Buffer := [] } := hi
    have hf1 : ParamFits { t with utf8Buffer := [] } := hfit
    exact processChar_some hi1 hf1 hc
  · rw [if_neg hv] at hc
    by_cases hl : buf.length > 4
    · rw [if_pos hl] at hc
      cases buf with
      | nil => exact absurd hc (by simp)
      | cons fb rest =>
        have hi1 : Inv w h m { t with utf8Buffer := rest } := hi
        have hf1 : ParamFits { t with utf8Buffer := rest } := hfit
        exact processChar_some hi1 hf1 hc
    · rw [if_neg hl] at hc
      simp only [Option.some.injEq] at hc
      subst hc; exact hi

theorem feed_some {w h m : Int} (bs : Bytes) :
    ∀ (t t1 : Terminal), Inv w h m t → fitsAlong t bs = true → feed t bs = some t1 →
      Inv w h m t1 := by
  induction bs with
  | nil =>
    intro t t1 hi _ hc
    simp only [feed, Option.some.injEq] at hc
    subst hc; exact hi
  | cons b bs ih =>
    intro t t1 hi hfit hc
    simp only [feed, Option.bind_eq_some] at hc
    obtain ⟨t2, ht2, hc⟩ := hc
    simp only [fitsAlong, ht2, Bool.and_eq_true, decide_eq_true_eq] at hfit
    exact ih t2 t1 (processByte_some hi hfit.1 ht2) hfit.2 hc

/-! # C3: the range of the cursor -/

/-- C3 (as stated, refuted): on a grid of 3 columns, after three printable
bytes the cursor column is 3, which is not below the width. -/
theorem C3_cursor_column_reaches_width :
    ∃ t, feed (NewTerminal 3 2) [97, 98, 99] = some t ∧ t.cursorX = 3 ∧ ¬ t.cursorX < 3 := by
  cases h : feed (NewTerminal 3 2) [97, 98, 99] with
  | none => exact absurd h (by decide)
  | some t =>
    have hx : (feed (NewTerminal 3 2) [97, 98, 99]).map (fun s => s.cursorX) = some 3 := by rfl
    rw [h] at hx
    simp only [Option.map_some', Option.some.injEq] at hx
    exact ⟨t, rfl, hx, by omega⟩

/-- C3 (amended): in every state reached from the initial state of a grid with
at least one row and one column by feeding bytes, as long as the number in a
pending CSI parameter string added to a cursor coordinate stays below `2^63`,
the cursor row is a grid row and the cursor column lies between 0 and the grid
width (or 2, after a wide glyph on a one-column grid), both included. -/
theorem C3_cursor_range (cols rows : Int) (hc : 1 ≤ cols) (hr : 1 ≤ rows) (bs : Bytes)
    (t : Terminal) (hfit : fitsAlong (NewTerminal cols rows) bs = true)
    (hrun : feed (NewTerminal cols rows) bs = some t) :
    (0 ≤ t.cursorY ∧ t.cursorY < rows) ∧ 0 ≤ t.cursorX ∧ t.cursorX ≤ max cols 2 := by
  have h0 : Inv cols rows 1000 (NewTerminal cols rows) :=
    ⟨rfl, rfl, rfl, allocated_newTerminalWith (by norm_num) hc hr,
      ⟨⟨le_refl 0, by show (0 : Int) < rows; omega⟩, le_refl 0, by show (0 : Int) ≤ max cols 2; omega⟩⟩
  exact inv_cursor (feed_some bs _ t h0 hfit hrun)

theorem C3_cursor_range_witness :
    fitsAlong (NewTerminal 3 2) [97, 98, 99, 27, 91, 50, 66] = true ∧
      ∃ t, feed (NewTerminal 3 2) [97, 98, 99, 27, 91, 50, 66] = some t ∧
        (0 ≤ t.cursorY ∧ t.cursorY < 2) ∧ 0 ≤ t.cursorX ∧ t.cursorX ≤ max 3 2 := by
  refine ⟨by rfl, ?_⟩
  cases h : feed (NewTerminal 3 2) [97, 98, 99, 27, 91, 50, 66] with
  | none => exact absurd h (by decide)
  | some t =>
    exact ⟨t, rfl, C3_cursor_range 3 2 (by decide) (by decide) [97, 98, 99, 27, 91, 50, 66] t
      (by rfl) h⟩

/-! # C4: the history store is a FIFO of the scrolled-off lines -/

theorem scrollUpTimes_total (n : Nat) :
    ∀ t : Terminal, Allocated t →
      ∃ t1, scrollUpTimes n t = some t1 ∧ Allocated t1 ∧ t1.maxHistory = t.maxHistory := by
  induction n with
  | zero => intro t ha; exact ⟨t, rfl, ha, rfl⟩
  | succ n ih =>
    intro t ha
    obtain ⟨t1, h1, ha1, _, _, hm, _⟩ := scrollUp_spec ha
    obtain ⟨t2, h2, ha2, hm2⟩ := ih t1 ha1
    exact ⟨t2, by simp only [scrollUpTimes, h1, Option.some_bind, h2], ha2, hm2.trans hm⟩

theorem scrollUpTimes_succ (n : Nat) :
    ∀ t : Terminal, scrollUpTimes (n + 1) t = (scrollUpTimes n t).bind scrollUp := by
  induction n with
  | zero =>
    intro t
    simp only [scrollUpTimes, Option.some_bind]
    cases scrollUp t <;> rfl
  | succ n ih =>
    intro t
    show (scrollUp t).bind (scrollUpTimes (n + 1)) = _
    cases h : scrollUp t with
    | none => simp [scrollUpTimes, h]
    | some t1 =>
      simp only [Option.some_bind, ih t1]
      simp only [scrollUpTimes, h, Option.some_bind]

/-- The state of the history after `n` scrolls from an empty store. -/
theorem scrollUpTimes_history (t : Terminal) (ha : Allocated t) (h0 : t.totalLines = 0)
    (n : Nat) :
    ∃ tn, scrollUpTimes n t = some tn ∧ Allocated tn ∧ tn.maxHistory = t.maxHistory ∧
      tn.totalLines = min (n : Int) t.maxHistory ∧
      ∀ i : Nat, (i : Int) < tn.totalLines →
        idx? tn.totalBuffer i =
          (scrollUpTimes (n - t.maxHistory.toNat + i) t).bind (fun s => idx? s.screenBuffer 0) := by
  have hm1 : 1 ≤ t.maxHistory := ha.2.2.1
  induction n with
  | zero =>
    refine ⟨t, rfl, ha, rfl, by rw [h0]; simp; omega, ?_⟩
    intro i hi
    rw [h0] at hi
    omega
  | succ n ih =>
    obtain ⟨tn, hn, han, hmn, htl, hrows⟩ := ih
    obtain ⟨t1, h1, ha1, _, _, hm, _, _, _, _, _, _, htl1, _, _, htb⟩ := scrollUp_spec han
    refine ⟨t1, by rw [scrollUpTimes_succ, hn]; exact h1, ha1, hm.trans hmn, ?_, ?_⟩
    · rw [htl1, htl, hmn]
      push_cast
      omega
    · intro i hi
      have hline : idx? tn.screenBuffer 0 =
          (scrollUpTimes n t).bind (fun s => idx? s.screenBuffer 0) := by
        rw [hn]; rfl
      rw [htb i]
      rw [htl1, htl, hmn] at hi
      by_cases hlast : (i : Int) = t1.totalLines - 1
      · rw [if_pos hlast, hline]
        rw [htl1, htl, hmn] at hlast
        congr 2
        omega
      · rw [if_neg hlast]
        rw [htl1, htl, hmn] at hlast
        by_cases hfull : tn.totalLines < tn.maxHistory
        · rw [if_pos hfull]
          rw [htl, hmn] at hfull
          rw [hrows i (by rw [htl]; omega)]
          congr 2
          omega
        · rw [if_neg hfull, if_pos (by omega)]
          rw [htl, hmn] at hfull
          have := hrows (i + 1) (by rw [htl]; push_cast; omega)
          rw [show ((i : Int) + 1) = ((i + 1 : Nat) : Int) by push_cast; rfl, this]
          congr 2
          omega

/-- C4: after `N` consecutive scrolls from an empty history store the store holds
`min N maxHistory` rows, and stored row `i` is the line scrolled off by scroll
number `max 0 (N - maxHistory) + i + 1`, that is row 0 of the grid after
`max 0 (N - maxHistory) + i` scrolls: the oldest lines are dropped first. -/
theorem C4_history_fifo (t : Terminal) (ha : Allocated t) (h0 : t.totalLines = 0) (N : Nat) :
    ∃ tN, scrollUpTimes N t = some tN ∧ tN.totalLines = min (N : Int) t.maxHistory ∧
      ∀ i : Nat, (i : Int) < tN.totalLines →
        ∃ tk row, scrollUpTimes (N - t.maxHistory.toNat + i) t = some tk ∧
          idx? tk.screenBuffer 0 = some row ∧ idx? tN.totalBuffer i = some row := by
  obtain ⟨tN, hN, _, _, htl, hrows⟩ := scrollUpTimes_history t ha h0 N
  refine ⟨tN, hN, htl, ?_⟩
  intro i hi
  obtain ⟨tk, hk, hak, _⟩ := scrollUpTimes_total (N - t.maxHistory.toNat + i) t ha
  obtain ⟨row, hrow, _⟩ := hak.2.2.2.1.row_exists (y := 0) (le_refl 0) (by have := hak.2.1; omega)
  refine ⟨tk, row, hk, hrow, ?_⟩
  rw [hrows i hi, hk]
  exact hrow


theorem C4_history_fifo_witness :
    Allocated { newTerminalWith 2 2 2 with
        screenBuffer := [[asciiCell 97, asciiCell 98], [asciiCell 99, asciiCell 100]] } ∧
      ∃ tN, scrollUpTimes 3 { newTerminalWith 2 2 2 with
          screenBuffer := [[asciiCell 97, asciiCell 98], [asciiCell 99, asciiCell 100]] } =
          some tN ∧
        tN.totalLines = min ((3 : Nat) : Int) 2 ∧
        ∀ i : Nat, (i : Int) < tN.totalLines →
          ∃ tk row, scrollUpTimes (3 - (2 : Int).toNat + i) { newTerminalWith 2 2 2 with
              screenBuffer := [[asciiCell 97, asciiCell 98], [asciiCell 99, asciiCell 100]] } =
              some tk ∧
            idx? tk.screenBuffer 0 = some row ∧ idx? tN.totalBuffer i = some row :=
  ⟨by decide, C4_history_fifo _ (by decide) rfl 3⟩

/-! # C5: scrolling the view back and forth -/

set_option maxRecDepth 100000 in
/-- C5 (refuted by the code): on a 2 x 2 grid after `a LF b LF c LF` two lines are
stored and the view offset is 0; `ScrollView(1)` then `ScrollView(-1)` both
succeed and return the view offset to 0, but cell (0,0), which held `c`, now
holds the history glyph `a`: `updateDisplayBuffer` drew the history rows over
the only copy of the live grid and draws nothing back at view offset 0. The
same with the key handler's own `ScrollView(3)` and `ScrollView(-3)`. -/
theorem C5_roundtrip_loses_live_grid :
    (feed (NewTerminal 2 2) [97, 10, 98, 10, 99, 10]).bind (fun t =>
      (ScrollView t 1).bind (fun t1 =>
        (ScrollView t1 (-1)).map (fun t2 =>
          (t.viewOffset, t2.viewOffset, getCell t.screenBuffer 0 0, getCell t2.screenBuffer 0 0)))) =
      some (0, 0, some (asciiCell 99), some (asciiCell 97)) ∧
    (feed (NewTerminal 2 2) [97, 10, 98, 10, 99, 10]).bind (fun t =>
      (ScrollView t 3).bind (fun t1 =>
        (ScrollView t1 (-3)).map (fun t2 =>
          (t.viewOffset, t2.viewOffset, getCell t.screenBuffer 0 0, getCell t2.screenBuffer 0 0)))) =
      some (0, 0, some (asciiCell 99), some (asciiCell 97)) := by
  constructor
  · rfl
  · rfl

/-- On an allocated terminal `updateDisplayBuffer` succeeds and changes the grid only. -/
theorem updateDisplayBuffer_total {t : Terminal} (ha : Allocated t) :
    ∃ sb, updateDisplayBuffer t = some { t with screenBuffer := sb } ∧
      Shaped sb t.screenHeight t.screenWidth := by
  obtain ⟨hw, hh, hm, hsb, htb, htl0, htl1⟩ := ha
  unfold updateDisplayBuffer
  split
  · exact ⟨t.screenBuffer, rfl, hsb⟩
  · simp only
    obtain ⟨sb, hsb1, hp⟩ := forRange_inv (fun y sb =>
        if max 0 (t.totalLines - t.viewOffset - t.screenHeight) + y ≥ 0 ∧
            max 0 (t.totalLines - t.viewOffset - t.screenHeight) + y < t.totalLines ∧
            max 0 (t.totalLines - t.viewOffset - t.screenHeight) + y < t.maxHistory then
          copyRow sb y t.totalBuffer (max 0 (t.totalLines - t.viewOffset - t.screenHeight) + y)
        else blankCells sb y 0 t.screenWidth)
      (fun _ sb => Shaped sb t.screenHeight t.screenWidth) 0 t.screenHeight t.screenBuffer hsb (by
        intro k hk sb hs
        beta_reduce
        split
        · rename_i hc
          obtain ⟨r, hr, hrl⟩ := htb.row_exists (y := max 0 (t.totalLines - t.viewOffset -
            t.screenHeight) + (0 + (k : Int))) hc.1 hc.2.2
          obtain ⟨b1, hb1, hs1, _⟩ := copyRow_spec hs (d := 0 + (k : Int)) (by omega) hk hr hrl
          exact ⟨b1, hb1, hs1⟩
        · obtain ⟨b1, hb1, hs1, _⟩ := @blankCells_spec _ _ _ hs (0 + (k : Int)) 0
            t.screenWidth (by omega) hk (le_refl 0) (le_refl _)
          exact ⟨b1, hb1, hs1⟩)
    exact ⟨sb, by rw [hsb1]; rfl, hp⟩

/-- `ScrollView` in terms of the offset it settles on. -/
theorem ScrollView_eq (t : Terminal) (delta : Int) :
    ScrollView t delta =
      if newOffset t delta ≠ t.viewOffset then
        updateDisplayBuffer { t with viewOffset := newOffset t delta }
      else some { t with viewOffset := newOffset t delta } := by
  unfold ScrollView newOffset
  simp only
  split
  · rfl
  · split <;> rfl

/-! ### Feeding escape sequences -/

theorem feed_append (xs ys : Bytes) :
    ∀ t : Terminal, feed t (xs ++ ys) = (feed t xs).bind (fun t1 => feed t1 ys) := by
  induction xs with
  | nil => intro t; rfl
  | cons b xs ih =>
    intro t
    simp only [List.cons_append, feed]
    cases h : processByte t b with
    | none => rfl
    | some t1 => exact ih t1

theorem isEscapeComplete_csi (t : Terminal) (b : Nat) (xs : Bytes)
    (h : t.escapeBuffer = 27 :: 91 :: xs) : isEscapeComplete t b = isLetter b := by
  unfold isEscapeComplete isLetter
  simp [h, hasCsiPrefix]

/-- While in an escape sequence a single byte is appended to the escape buffer;
when it completes the sequence the sequence is dispatched. -/
theorem processChar_inEscape (t : Terminal) (b : Nat) (he : t.inEscape = true) :
    processChar t [b] =
      if isEscapeComplete { t with escapeBuffer := t.escapeBuffer ++ [b] } b then
        finishEscape t (t.escapeBuffer ++ [b])
      else some { t with escapeBuffer := t.escapeBuffer ++ [b] } := by
  unfold processChar finishEscape
  simp only [he, if_true]

/-- The ESC byte in Normal state opens an escape sequence. -/
theorem processByte_esc (t : Terminal) (hu : t.utf8Buffer = []) (he : t.inEscape = false) :
    processByte t 27 = some { t with inEscape := true, escapeBuffer := t.escapeBuffer ++ [27] } := by
  rw [processByte_ascii (by norm_num) hu]
  unfold processChar
  simp [he]

/-- Parameter bytes (ASCII, not letters) of a CSI sequence are accumulated. -/
theorem feed_csi_params (ps : Bytes) :
    ∀ (t : Terminal) (xs : Bytes), t.utf8Buffer = [] → t.inEscape = true →
      t.escapeBuffer = 27 :: 91 :: xs → (∀ p ∈ ps, p < 128 ∧ isLetter p = false) →
      feed t ps = some { t with escapeBuffer := t.escapeBuffer ++ ps } := by
  induction ps with
  | nil =>
    intro t xs _ _ _ _
    simp only [feed, List.append_nil]
  | cons p ps ih =>
    intro t xs hu he hb hp
    have hp1 := hp p (List.mem_cons_self _ _)
    have hstep : processByte t p = some { t with escapeBuffer := t.escapeBuffer ++ [p] } := by
      rw [processByte_ascii hp1.1 hu, processChar_inEscape t p he,
        isEscapeComplete_csi _ p (xs ++ [p]) (by show t.escapeBuffer ++ [p] = _; rw [hb]; rfl),
        hp1.2]
      rfl
    simp only [feed, hstep, Option.some_bind]
    rw [ih { t with escapeBuffer := t.escapeBuffer ++ [p] } (xs ++ [p]) hu he
      (by show t.escapeBuffer ++ [p] = _; rw [hb]; rfl)
      (fun q hq => hp q (List.mem_cons_of_mem _ hq))]
    simp only [List.append_assoc, List.singleton_append]

/-- A whole CSI sequence fed in Normal state: `ESC [`, parameter bytes, a final
letter.  The sequence is dispatched with the parser state it was collected in. -/
theorem feed_csi (t : Terminal) (ps : Bytes) (f : Nat) (hu : t.utf8Buffer = [])
    (he : t.inEscape = false) (hb : t.escapeBuffer = [])
    (hp : ∀ p ∈ ps, p < 128 ∧ isLetter p = false) (hf : isLetter f = true) :
    feed t (27 :: 91 :: (ps ++ [f])) =
      finishEscape { t with inEscape := true } (27 :: 91 :: (ps ++ [f])) := by
  have hf128 : f < 128 := by
    unfold isLetter at hf
    simp only [decide_eq_true_eq] at hf
    omega
  have h1 := processByte_esc t hu he
  rw [hb] at h1
  have h2 : processByte { t with inEscape := true, escapeBuffer := [27] } 91 =
      some { t with inEscape := true, escapeBuffer := [27, 91] } := by
    rw [processByte_ascii (t := { t with inEscape := true, escapeBuffer := [27] }) (b := 91)
      (by norm_num) hu, processChar_inEscape _ 91 rfl]
    rfl
  have h3 : feed { t with inEscape := true, escapeBuffer := [27, 91] } ps =
      some { t with inEscape := true, escapeBuffer := [27, 91] ++ ps } :=
    feed_csi_params ps { t with inEscape := true, escapeBuffer := [27, 91] } [] hu rfl rfl hp
  have h4 : processByte { t with inEscape := true, escapeBuffer := [27, 91] ++ ps } f =
      finishEscape { t with inEscape := true } (27 :: 91 :: (ps ++ [f])) := by
    rw [processByte_ascii (t := { t with inEscape := true, escapeBuffer := [27, 91] ++ ps })
      hf128 hu, processChar_inEscape _ f rfl,
      isEscapeComplete_csi _ f (ps ++ [f]) (by simp), hf]
    simp [finishEscape]
  have h5 : feed t (27 :: 91 :: (ps ++ [f])) =
      feed { t with inEscape := true, escapeBuffer := [27, 91] } (ps ++ [f]) := by
    simp only [feed, h1, List.nil_append, Option.some_bind, h2]
  rw [h5, feed_append, h3, Option.some_bind]
  simp only [feed]
  rw [h4]
  cases finishEscape { t with inEscape := true } (27 :: 91 :: (ps ++ [f])) <;> rfl

/-- The parameter string and final byte `processEscapeSequence` extracts from a CSI sequence. -/
theorem processEscapeSequence_csi (t : Terminal) (ps : Bytes) (f : Nat) :
    processEscapeSequence t (27 :: 91 :: (ps ++ [f])) =
      if f = 72 ∨ f = 102 then setCursorPosition t ps
      else if f = 65 then
        (if parseNumber ps 1 > 0 then
          some { t with cursorY := max 0 (wrap64 (t.cursorY - parseNumber ps 1)) } else some t)
      else if f = 66 then
        (if parseNumber ps 1 > 0 then
          some { t with cursorY := min (t.screenHeight - 1) (wrap64 (t.cursorY + parseNumber ps 1)) }
        else some t)
      else if f = 67 then
        (if parseNumber ps 1 > 0 then
          some { t with cursorX := min (t.screenWidth - 1) (wrap64 (t.cursorX + parseNumber ps 1)) }
        else some t)
      else if f = 68 then
        (if parseNumber ps 1 > 0 then
          some { t with cursorX := max 0 (wrap64 (t.cursorX - parseNumber ps 1)) } else some t)
      else if f = 74 then clearScreen t ps
      else if f = 75 then clearLine t ps
      else some t := by
  unfold processEscapeSequence
  have hl : ¬ ((27 :: 91 :: (ps ++ [f])).length < 2) := by simp
  have hl3 : ¬ ((27 :: 91 :: (ps ++ [f])).length < 3) := by simp
  have hpar : ((27 :: 91 :: (ps ++ [f])).drop 2).take ((27 :: 91 :: (ps ++ [f])).length - 3) = ps := by
    simp
  have hcmd : idx? (27 :: 91 :: (ps ++ [f])) (((27 :: 91 :: (ps ++ [f])).length : Int) - 1) = some f := by
    rw [idx?_eq_some]
    constructor
    · simp; omega
    · have : (((27 :: 91 :: (ps ++ [f])).length : Int) - 1).toNat = ps.length + 2 := by
        simp; omega
      rw [this]
      simp
  have hpre : hasCsiPrefix (27 :: 91 :: (ps ++ [f])) = true := rfl
  rw [if_neg hl, if_pos hpre, if_neg hl3]
  simp only [hcmd, Option.some_bind, hpar]

/-! # C6: `ESC [ 2 J` blanks the grid and homes the cursor -/

/-- Two slices with the same elements at every Go index are equal. -/
theorem ext_idx? {α : Type} {xs ys : List α} (h : ∀ i : Int, idx? xs i = idx? ys i) : xs = ys := by
  apply List.ext_getElem?
  intro n
  have := h (n : Int)
  rwa [idx?_natCast, idx?_natCast] at this

/-- The loop of `clearScreen` case 2 turns a well-shaped grid into the blank grid. -/
theorem blankAll_spec {buf : List (List Cell)} {h w : Int} (hs : Shaped buf h w) :
    forRange 0 h (fun y sb => blankCells sb y 0 w) buf = some (blankRows h w) := by
  obtain ⟨b1, hb1, hs1, hc1⟩ := forRange_inv (fun y sb => blankCells sb y 0 w)
    (fun k b => Shaped b h w ∧
      ∀ y, idx? b y = if 0 ≤ y ∧ y < (k : Int) then some (blankRow w) else idx? buf y)
    0 h buf ⟨hs, by
      intro y
      have : ¬ (0 ≤ y ∧ y < ((0 : Nat) : Int)) := by push_cast; omega
      rw [if_neg this]⟩ (by
      intro k hk b ⟨hsb, hcb⟩
      have hw : 0 ≤ w := by
        obtain ⟨row, _, hl⟩ := hs.row_exists (y := 0 + (k : Int)) (by omega) hk
        omega
      obtain ⟨b2, hb2, hsb2, hcb2⟩ := blankCells_row hsb (y := 0 + (k : Int)) (by omega) hk hw
      refine ⟨b2, hb2, hsb2, ?_⟩
      intro y
      rw [hcb2, hcb]
      by_cases hy : y = 0 + (k : Int)
      · rw [if_pos hy, if_pos (by push_cast; omega)]
      · rw [if_neg hy]
        by_cases hlt : 0 ≤ y ∧ y < (k : Int)
        · rw [if_pos hlt, if_pos (by push_cast; omega)]
        · rw [if_neg hlt, if_neg (by push_cast; omega)])
  rw [hb1]
  congr 1
  apply ext_idx?
  intro y
  rw [hc1]
  have hlen := hs.1
  unfold blankRows
  rw [idx?_replicate]
  by_cases hy : 0 ≤ y ∧ y < h
  · rw [if_pos (by omega), if_pos (by omega)]
    rfl
  · rw [if_neg (by omega), if_neg (by omega)]
    exact idx?_eq_none.mpr (by omega)

theorem rowText_blankRows (h w : Int) :
    (blankRows h w).map rowText = List.replicate h.toNat (List.replicate w.toNat 32) := by
  unfold blankRows
  rw [List.map_replicate, rowText_replicate_blank]

/-- C6: from every state with a well-shaped grid, an empty decoder buffer and the
parser in Normal state (escape buffer empty), the bytes `ESC [ 2 J` are processed
without failure, leave every cell of the grid blank and the cursor at (0,0), and
the snapshot then rebuilt is `rows` strings of `cols` spaces. -/
theorem C6_erase_display (t : Terminal)
    (hs : Shaped t.screenBuffer t.screenHeight t.screenWidth)
    (hu : t.utf8Buffer = []) (he : t.inEscape = false) (hb : t.escapeBuffer = []) :
    ∃ t1 t2, feed t [27, 91, 50, 74] = some t1 ∧
      t1.screenBuffer = blankRows t.screenHeight t.screenWidth ∧
      (∀ y x, 0 ≤ y → y < t.screenHeight → 0 ≤ x → x < t.screenWidth →
        getCell t1.screenBuffer y x = some blank) ∧
      t1.cursorX = 0 ∧ t1.cursorY = 0 ∧
      updateOutput t1 = some t2 ∧
      t2.output = List.replicate t.screenHeight.toNat (List.replicate t.screenWidth.toNat 32) := by
  have hfeed : feed t [27, 91, 50, 74] =
      some { t with screenBuffer := blankRows t.screenHeight t.screenWidth, cursorX := 0,
                    cursorY := 0, escapeBuffer := [], inEscape := false } := by
    have h1 := feed_csi t [50] 74 hu he hb (by decide) (by decide)
    have hn : parseNumber [50] 0 = 2 := by decide
    rw [show (27 :: 91 :: ([50] ++ [74]) : Bytes) = [27, 91, 50, 74] from rfl] at h1
    rw [h1]
    unfold finishEscape
    rw [show ([27, 91, 50, 74] : Bytes) = 27 :: 91 :: ([50] ++ [74]) from rfl,
      processEscapeSequence_csi]
    simp only [show ¬ ((74 : Nat) = 72 ∨ (74 : Nat) = 102) by decide,
      show ¬ ((74 : Nat) = 65) by decide, show ¬ ((74 : Nat) = 66) by decide,
      show ¬ ((74 : Nat) = 67) by decide, show ¬ ((74 : Nat) = 68) by decide, if_false, if_true]
    unfold clearScreen
    simp only [hn, show ¬ ((2 : Int) = 0) by decide, show ¬ ((2 : Int) = 1) by decide, if_false,
      if_true]
    rw [blankAll_spec (by exact hs)]
    rfl
  have hh : 0 ≤ t.screenHeight := by have := hs.1; omega
  refine ⟨_, _, hfeed, rfl, ?_, rfl, rfl, updateOutput_spec ?_, ?_⟩
  · intro y x hy0 hy1 hx0 hx1
    show getCell (blankRows t.screenHeight t.screenWidth) y x = some blank
    rw [getCell_blankRows, if_pos ⟨⟨hy0, hy1⟩, hx0, hx1⟩]
  · show Shaped (blankRows t.screenHeight t.screenWidth) t.screenHeight t.screenWidth
    by_cases hw : 0 ≤ t.screenWidth
    · exact shaped_blankRows hh hw
    · have h0 : t.screenHeight = 0 := by
        by_contra hne
        obtain ⟨row, _, hl⟩ := hs.row_exists (y := 0) (le_refl 0) (by omega)
        omega
      rw [h0]
      exact ⟨rfl, by intro row hr; simp [blankRows] at hr⟩
  · show (blankRows t.screenHeight t.screenWidth).map rowText = _
    exact rowText_blankRows _ _

theorem C6_erase_display_witness :
    ∃ t1 t2, feed { newTerminalWith 2 3 2 with
          screenBuffer := [[asciiCell 97, asciiCell 98, blank], [asciiCell 99, blank, blank]],
          cursorX := 1, cursorY := 1 } [27, 91, 50, 74] = some t1 ∧
      t1.screenBuffer = blankRows 2 3 ∧
      (∀ y x, 0 ≤ y → y < 2 → 0 ≤ x → x < 3 → getCell t1.screenBuffer y x = some blank) ∧
      t1.cursorX = 0 ∧ t1.cursorY = 0 ∧
      updateOutput t1 = some t2 ∧
      t2.output = List.replicate (2 : Int).toNat (List.replicate (3 : Int).toNat 32) :=
  C6_erase_display { newTerminalWith 2 3 2 with
      screenBuffer := [[asciiCell 97, asciiCell 98, blank], [asciiCell 99, blank, blank]],
      cursorX := 1, cursorY := 1 } (by decide) rfl rfl rfl

/-! ### Wide glyphs -/

theorem leadInfo_size {b sz lo hi : Nat} (h : leadInfo b = some (sz, lo, hi)) : 2 ≤ sz := by
  unfold leadInfo at h
  split_ifs at h <;> (simp only [Option.some.injEq, Prod.mk.injEq] at h; omega)

/-- The rune decoded from a one-byte string is the byte itself when it is ASCII
and `RuneError` otherwise. -/
theorem decodeRune_single (b : Nat) :
    ((DecodeRuneInString [b]).1 = b ∧ b < 128) ∨ (DecodeRuneInString [b]).1 = 0xFFFD := by
  unfold DecodeRuneInString
  by_cases hb : b < 128
  · left
    simp [hb]
  · right
    simp only [hb, if_false]
    cases hl : leadInfo b with
    | none => rfl
    | some p =>
      obtain ⟨sz, lo, hi⟩ := p
      have := leadInfo_size hl
      simp only [List.length_nil, zero_add]
      rw [if_pos (by omega)]
      rfl

theorem getCharWidth_single (b : Nat) : getCharWidth [b] = 1 := by
  unfold getCharWidth
  have hne : ¬ (([b] : Bytes).length = 0) := by simp
  rw [if_neg hne]
  rcases decodeRune_single b with ⟨h1, h2⟩ | h1
  · rw [h1]
    simp only
    repeat (first | rw [if_neg (by omega)] | rfl)
  · rw [h1]
    rfl

/-- A fragment of display width 2 has at least two bytes and is printable. -/
theorem wide_printable {char : Bytes} (hw : getCharWidth char = 2) :
    (∀ b, char ≠ [b]) ∧ isPrintableChar char = true := by
  have hsingle : ∀ b, char ≠ [b] := by
    intro b hb
    rw [hb, getCharWidth_single] at hw
    exact absurd hw (by decide)
  refine ⟨hsingle, ?_⟩
  match char, hw, hsingle with
  | [], hw, _ => exact absurd hw (by decide)
  | [b], _, hs => exact absurd rfl (hs b)
  | a :: b :: rest, hw, _ =>
    unfold isPrintableChar
    unfold getCharWidth at hw
    simp only
    generalize (DecodeRuneInString (a :: b :: rest)).1 = r at hw ⊢
    have hne : ¬ ((a :: b :: rest).length = 0) := by simp
    rw [if_neg hne] at hw
    simp only at hw
    repeat (first
      | exact absurd hw (by decide)
      | (rename_i hr; rw [if_neg (by omega), if_neg (by omega)])
      | split at hw)

theorem processChar_wide {t : Terminal} {char : Bytes} (he : t.inEscape = false)
    (hw : getCharWidth char = 2) :
    processChar t char = (wrapLine t 2).bind (fun t1 => placeGlyph t1 char 2) := by
  obtain ⟨hs, hp⟩ := wide_printable hw
  have hwc : writeChar t char = (wrapLine t 2).bind (fun t1 => placeGlyph t1 char 2) := by
    unfold writeChar
    rw [if_pos ⟨hs 0, hs 127, hs 8, he, hp⟩]
    simp only [hw]
  unfold processChar
  split
  · rename_i b
    exact absurd rfl (hs b)
  · exact hwc

/-- The line feed on an allocated terminal with the cursor on a grid row: it
succeeds, the cursor goes to column 0 of the next row, or stays on the last row
after one scroll. -/
theorem lineFeed_spec {t : Terminal} (ha : Allocated t)
    (hy : 0 ≤ t.cursorY ∧ t.cursorY < t.screenHeight) :
    ∃ t0, lineFeed t = some t0 ∧ Allocated t0 ∧
      t0.screenWidth = t.screenWidth ∧ t0.screenHeight = t.screenHeight ∧
      t0.cursorX = 0 ∧ t0.cursorY = min (t.cursorY + 1) (t.screenHeight - 1) ∧
      (t.cursorY + 1 < t.screenHeight →
        t0 = { t with cursorX := 0, cursorY := t.cursorY + 1 }) ∧
      (t.cursorY + 1 = t.screenHeight →
        scrollUp { t with cursorX := 0, cursorY := t.cursorY + 1 } = some t0) := by
  by_cases hlast : t.cursorY + 1 < t.screenHeight
  · refine ⟨_, lineFeed_noscroll hlast, ha, rfl, rfl, rfl, ?_, fun _ => rfl, fun h => ?_⟩
    · show t.cursorY + 1 = _
      omega
    · omega
  · have ha0 : Allocated { t with cursorX := 0, cursorY := t.cursorY + 1 } := ha
    obtain ⟨t2, ht2, ha2, f1, f2, _, f4, f5, _⟩ := scrollUp_spec ha0
    refine ⟨t2, by rw [lineFeed_scroll (by omega)]; exact ht2, ha2, f1, f2, f4, ?_,
      fun h => absurd h hlast, fun _ => ht2⟩
    rw [f5]
    show t.screenHeight - 1 = _
    omega

/-- The write of a wide glyph on a grid of at least two columns: after the wrap
(if any) the glyph and its placeholder are written at the cursor and the cursor
moves two columns on. -/
theorem writeWide_spec {t : Terminal} {char : Bytes} (ha : Allocated t)
    (hcols : 2 ≤ t.screenWidth)
    (hy : 0 ≤ t.cursorY ∧ t.cursorY < t.screenHeight)
    (hx : 0 ≤ t.cursorX ∧ t.cursorX ≤ t.screenWidth)
    (he : t.inEscape = false) (hw : getCharWidth char = 2) :
    ∃ t0 sb, wrapLine t 2 = some t0 ∧
      processChar t char = some { t0 with screenBuffer := sb, cursorX := t0.cursorX + 2 } ∧
      Allocated t0 ∧ t0.screenWidth = t.screenWidth ∧ t0.screenHeight = t.screenHeight ∧
      (0 ≤ t0.cursorY ∧ t0.cursorY < t.screenHeight) ∧
      (0 ≤ t0.cursorX ∧ t0.cursorX + 2 ≤ t.screenWidth) ∧
      (t.cursorX + 2 ≤ t.screenWidth → t0 = t) ∧
      (t.screenWidth < t.cursorX + 2 → lineFeed t = some t0 ∧ t0.cursorX = 0 ∧
        t0.cursorY = min (t.cursorY + 1) (t.screenHeight - 1)) ∧
      ∀ y x, getCell sb y x =
        if y = t0.cursorY ∧ x = t0.cursorX + 1 then some { char := [], width := 0 }
        else if y = t0.cursorY ∧ x = t0.cursorX then some { char := char, width := 2 }
        else getCell t0.screenBuffer y x := by
  have key : ∀ t0 : Terminal, wrapLine t 2 = some t0 → Allocated t0 →
      t0.screenWidth = t.screenWidth → t0.screenHeight = t.screenHeight →
      (0 ≤ t0.cursorY ∧ t0.cursorY < t.screenHeight) →
      (0 ≤ t0.cursorX ∧ t0.cursorX + 2 ≤ t.screenWidth) →
      ∃ sb, processChar t char = some { t0 with screenBuffer := sb, cursorX := t0.cursorX + 2 } ∧
        ∀ y x, getCell sb y x =
          if y = t0.cursorY ∧ x = t0.cursorX + 1 then some { char := [], width := 0 }
          else if y = t0.cursorY ∧ x = t0.cursorX then some { char := char, width := 2 }
          else getCell t0.screenBuffer y x := by
    intro t0 hwrap ha0 e1 e2 hy0 hx0
    obtain ⟨sb, hsb, _, hc⟩ := placeGlyph_spec (t := t0) ha0.2.2.2.1 hy0.1 (by rw [e2]; exact hy0.2)
      hx0.1 (by rw [e1]; omega) char 2
    refine ⟨sb, by rw [processChar_wide he hw, hwrap]; exact hsb, ?_⟩
    intro y x
    rw [hc]
    by_cases h1 : y = t0.cursorY ∧ x = t0.cursorX + 1
    · rw [if_pos h1, if_pos ⟨h1.1, h1.2, rfl, by rw [e1]; omega⟩]
    · rw [if_neg h1, if_neg (fun h => h1 ⟨h.1, h.2.1⟩)]
  by_cases hfit : t.cursorX + 2 ≤ t.screenWidth
  · have hwrap : wrapLine t 2 = some t := by
      unfold wrapLine
      rw [if_neg (by omega)]
    obtain ⟨sb, h1, h2⟩ := key t hwrap ha rfl rfl hy ⟨hx.1, hfit⟩
    exact ⟨t, sb, hwrap, h1, ha, rfl, rfl, hy, ⟨hx.1, hfit⟩, fun _ => rfl,
      fun h => absurd hfit (by omega), h2⟩
  · obtain ⟨t0, hlf, ha0, e1, e2, e3, e4, _, _⟩ := lineFeed_spec ha hy
    have hwrap : wrapLine t 2 = some t0 := by
      unfold wrapLine
      rw [if_pos (by omega)]
      exact hlf
    have hy0 : 0 ≤ t0.cursorY ∧ t0.cursorY < t.screenHeight := by rw [e4]; omega
    have hx0 : 0 ≤ t0.cursorX ∧ t0.cursorX + 2 ≤ t.screenWidth := by rw [e3]; omega
    obtain ⟨sb, h1, h2⟩ := key t0 hwrap ha0 e1 e2 hy0 hx0
    exact ⟨t0, sb, hwrap, h1, ha0, e1, e2, hy0, hx0, fun h => absurd h hfit,
      fun _ => ⟨hlf, e3, e4⟩, h2⟩

/-! # C7: a wide glyph is followed by its placeholder -/

/-- C7: on a grid of at least two columns, a fragment of display width 2
processed in Normal state with the cursor in the grid is written, at the cursor
or after the wrap at column 0 of the next row, as a cell of width 2 followed by
a placeholder (empty text, width 0); the cursor ends two columns after the
glyph, past the placeholder. -/
theorem C7_wide_glyph_placeholder (t : Terminal) (char : Bytes) (ha : Allocated t)
    (hcols : 2 ≤ t.screenWidth)
    (hy : 0 ≤ t.cursorY ∧ t.cursorY < t.screenHeight)
    (hx : 0 ≤ t.cursorX ∧ t.cursorX ≤ t.screenWidth)
    (he : t.inEscape = false) (hw : getCharWidth char = 2) :
    ∃ t1 r c, processChar t char = some t1 ∧
      r = (if t.cursorX + 2 ≤ t.screenWidth then t.cursorY
        else min (t.cursorY + 1) (t.screenHeight - 1)) ∧
      c = (if t.cursorX + 2 ≤ t.screenWidth then t.cursorX else 0) ∧
      getCell t1.screenBuffer r c = some { char := char, width := 2 } ∧
      getCell t1.screenBuffer r (c + 1) = some { char := [], width := 0 } ∧
      t1.cursorY = r ∧ t1.cursorX = c + 2 := by
  obtain ⟨t0, sb, _, hproc, _, _, _, _, _, hsame, hwrapped, hcell⟩ :=
    writeWide_spec ha hcols hy hx he hw
  have hpos : t0.cursorY = (if t.cursorX + 2 ≤ t.screenWidth then t.cursorY
        else min (t.cursorY + 1) (t.screenHeight - 1)) ∧
      t0.cursorX = (if t.cursorX + 2 ≤ t.screenWidth then t.cursorX else 0) := by
    by_cases hfit : t.cursorX + 2 ≤ t.screenWidth
    · rw [if_pos hfit, if_pos hfit, hsame hfit]
      exact ⟨rfl, rfl⟩
    · rw [if_neg hfit, if_neg hfit]
      obtain ⟨_, e3, e4⟩ := hwrapped (by omega)
      exact ⟨e4, e3⟩
  refine ⟨_, t0.cursorY, t0.cursorX, hproc, hpos.1, hpos.2, ?_, ?_, rfl, rfl⟩
  · show getCell sb t0.cursorY t0.cursorX = _
    rw [hcell, if_neg (by omega), if_pos ⟨rfl, rfl⟩]
  · show getCell sb t0.cursorY (t0.cursorX + 1) = _
    rw [hcell, if_pos ⟨rfl, rfl⟩]

theorem C7_wide_glyph_placeholder_witness :
    ∃ t1 r c, processChar { newTerminalWith 2 3 2 with cursorX := 2 } [228, 184, 173] = some t1 ∧
      r = (if (2 : Int) + 2 ≤ 3 then 0 else min ((0 : Int) + 1) (2 - 1)) ∧
      c = (if (2 : Int) + 2 ≤ 3 then 2 else 0) ∧
      getCell t1.screenBuffer r c = some { char := [228, 184, 173], width := 2 } ∧
      getCell t1.screenBuffer r (c + 1) = some { char := [], width := 0 } ∧
      t1.cursorY = r ∧ t1.cursorX = c + 2 :=
  C7_wide_glyph_placeholder { newTerminalWith 2 3 2 with cursorX := 2 } [228, 184, 173]
    (by decide) (by decide) (by decide) (by decide) rfl (by decide)

/-! # C8: backspace after a wide glyph -/

theorem processByte_backspace {t : Terminal} (hu : t.utf8Buffer = []) (he : t.inEscape = false) :
    processByte t 8 = handleBackspace t := by
  rw [processByte_ascii (by norm_num) hu]
  unfold processChar
  simp [he]

/-- C8: with a wide glyph at (r,c), its placeholder at (r,c+1) and the cursor at
(r,c+2), a backspace byte blanks exactly the cells (r,c) and (r,c+1), leaves
every other cell as it was, and puts the cursor at (r,c). -/
theorem C8_backspace_wide (t : Terminal) (r c : Int) (g p : Cell)
    (hs : Shaped t.screenBuffer t.screenHeight t.screenWidth)
    (hu : t.utf8Buffer = []) (he : t.inEscape = false)
    (hg : getCell t.screenBuffer r c = some g) (hgw : g.width = 2)
    (hp : getCell t.screenBuffer r (c + 1) = some p) (hpw : p.width = 0)
    (hcy : t.cursorY = r) (hcx : t.cursorX = c + 2) :
    ∃ t1, processByte t 8 = some t1 ∧ t1.cursorY = r ∧ t1.cursorX = c ∧
      ∀ y x, getCell t1.screenBuffer y x =
        if y = r ∧ (x = c ∨ x = c + 1) then some blank else getCell t.screenBuffer y x := by
  have hgr := hs.getCell_range hg
  have hpr := hs.getCell_range hp
  obtain ⟨sb, hsb⟩ := shaped_setCell_exists hs blank hgr.1.1 hgr.1.2 hgr.2.1 hgr.2.2
  obtain ⟨sb1, hsb1⟩ := shaped_setCell_exists (shaped_setCell hs hsb) blank hpr.1.1 hpr.1.2
    hpr.2.1 hpr.2.2
  have hres : handleBackspace t = some { t with screenBuffer := sb1, cursorX := c } := by
    unfold handleBackspace
    have e1 : t.cursorX - 1 = c + 1 := by omega
    have e2 : c + 1 - 1 = c := by omega
    rw [if_pos (by omega)]
    simp only [e1, e2, hcy]
    rw [if_pos ⟨by omega, hpr.2.2⟩, hp, Option.some_bind, if_neg (by rw [hpw]; decide),
      if_pos hpw, if_pos hgr.2.1, hg]
    simp only [Option.some_bind, hgw, decide_True, if_true, hsb, hsb1]
  refine ⟨{ t with screenBuffer := sb1, cursorX := c },
    by rw [processByte_backspace hu he]; exact hres, hcy, rfl, ?_⟩
  intro y x
  show getCell sb1 y x = _
  rw [getCell_setCell hsb1, getCell_setCell hsb]
  by_cases h1 : y = r ∧ x = c + 1
  · rw [if_pos h1, if_pos ⟨h1.1, Or.inr h1.2⟩]
  · rw [if_neg h1]
    by_cases h2 : y = r ∧ x = c
    · rw [if_pos h2, if_pos ⟨h2.1, Or.inl h2.2⟩]
    · rw [if_neg h2, if_neg]
      rintro ⟨hy, hx | hx⟩
      · exact h2 ⟨hy, hx⟩
      · exact h1 ⟨hy, hx⟩

theorem C8_backspace_wide_witness :
    ∃ t1, processByte { newTerminalWith 2 3 2 with
          screenBuffer := [[{ char := [228, 184, 173], width := 2 }, { char := [], width := 0 },
            blank], [blank, blank, blank]],
          cursorX := 2 } 8 = some t1 ∧ t1.cursorY = 0 ∧ t1.cursorX = 0 ∧
      ∀ y x, getCell t1.screenBuffer y x =
        if y = 0 ∧ (x = 0 ∨ x = 0 + 1) then some blank
        else getCell [[{ char := [228, 184, 173], width := 2 }, { char := [], width := 0 },
            blank], [blank, blank, blank]] y x :=
  C8_backspace_wide { newTerminalWith 2 3 2 with
      screenBuffer := [[{ char := [228, 184, 173], width := 2 }, { char := [], width := 0 },
        blank], [blank, blank, blank]],
      cursorX := 2 } 0 0 { char := [228, 184, 173], width := 2 } { char := [], width := 0 }
    (by decide) rfl rfl rfl rfl rfl rfl rfl rfl

/-! # C9: escape sequences without a handler change nothing -/

/-- The bytes that `processEscapeSequence` dispatches to a handler:
`H f A B C D J K`. -/
theorem processEscapeSequence_unhandled (t : Terminal) (eb : Bytes) (b : Nat)
    (hlet : hasCsiPrefix (eb ++ [b]) = true → isLetter b = true)
    (hno : hasCsiPrefix (eb ++ [b]) = false ∨
      (b ≠ 72 ∧ b ≠ 102 ∧ b ≠ 65 ∧ b ≠ 66 ∧ b ≠ 67 ∧ b ≠ 68 ∧ b ≠ 74 ∧ b ≠ 75)) :
    processEscapeSequence t (eb ++ [b]) = some t := by
  by_cases hpre : hasCsiPrefix (eb ++ [b]) = true
  · have hb := hlet hpre
    have hh : b ≠ 72 ∧ b ≠ 102 ∧ b ≠ 65 ∧ b ≠ 66 ∧ b ≠ 67 ∧ b ≠ 68 ∧ b ≠ 74 ∧ b ≠ 75 := by
      rcases hno with h | h
      · rw [hpre] at h; exact absurd h (by decide)
      · exact h
    match eb, hpre with
    | [], hpre => simp [hasCsiPrefix] at hpre
    | [x], hpre =>
      have : b = 91 := by
        simp only [List.singleton_append, hasCsiPrefix] at hpre
        split at hpre
        · rename_i heq
          simp only [List.cons.injEq] at heq
          omega
        · exact absurd hpre (by decide)
      subst this
      exact absurd hb (by decide)
    | x :: y :: ps, hpre =>
      have hxy : x = 27 ∧ y = 91 := by
        simp only [List.cons_append, hasCsiPrefix] at hpre
        split at hpre
        · rename_i heq
          simp only [List.cons.injEq] at heq
          omega
        · exact absurd hpre (by decide)
      obtain ⟨rfl, rfl⟩ := hxy
      show processEscapeSequence t (27 :: 91 :: (ps ++ [b])) = some t
      rw [processEscapeSequence_csi]
      obtain ⟨n1, n2, n3, n4, n5, n6, n7, n8⟩ := hh
      rw [if_neg (by omega), if_neg n3, if_neg n4, if_neg n5, if_neg n6, if_neg n7, if_neg n8]
  · unfold processEscapeSequence
    split
    · rfl
    · rfl

theorem feed_csi_ignored (t : Terminal) (ps : Bytes) (f : Nat) (hu : t.utf8Buffer = [])
    (he : t.inEscape = false) (hb : t.escapeBuffer = [])
    (hp : ∀ p ∈ ps, p < 128 ∧ isLetter p = false) (hf : isLetter f = true)
    (hno : f ≠ 72 ∧ f ≠ 102 ∧ f ≠ 65 ∧ f ≠ 66 ∧ f ≠ 67 ∧ f ≠ 68 ∧ f ≠ 74 ∧ f ≠ 75) :
    feed t (27 :: 91 :: (ps ++ [f])) = some t := by
  rw [feed_csi t ps f hu he hb hp hf]
  unfold finishEscape
  have := processEscapeSequence_unhandled
    { t with inEscape := true, escapeBuffer := 27 :: 91 :: (ps ++ [f]) } (27 :: 91 :: ps) f
    (fun _ => hf) (Or.inr hno)
  rw [show (27 :: 91 :: ps ++ [f] : Bytes) = 27 :: 91 :: (ps ++ [f]) from rfl] at this
  rw [this, Option.some_bind]
  congr 1
  cases t
  simp_all

/-- C9: a completed escape sequence without a handler (a CSI sequence whose
final letter is none of `H f A B C D J K`, or a sequence that does not start
with `ESC [`) leaves every field of the state as it was except that the escape
buffer is emptied and the parser is back in Normal state; and the bytes
`ab ESC[31m cd ESC[0m LF` fed to the initial state of a grid with at least 4
columns and 2 rows give the snapshot row 0 `abcd` followed by blanks, the other
rows blank, and the cursor at row 1, column 0. -/
theorem C9_unhandled_escape (t : Terminal) (b : Nat) (cols rows : Int) :
    (t.inEscape = true →
      isEscapeComplete { t with escapeBuffer := t.escapeBuffer ++ [b] } b = true →
      (hasCsiPrefix (t.escapeBuffer ++ [b]) = false ∨
        (b ≠ 72 ∧ b ≠ 102 ∧ b ≠ 65 ∧ b ≠ 66 ∧ b ≠ 67 ∧ b ≠ 68 ∧ b ≠ 74 ∧ b ≠ 75)) →
      processChar t [b] = some { t with escapeBuffer := [], inEscape := false }) ∧
    (4 ≤ cols → 2 ≤ rows →
      ∃ t1 t2, feed (NewTerminal cols rows)
          [97, 98, 27, 91, 51, 49, 109, 99, 100, 27, 91, 48, 109, 10] = some t1 ∧
        updateOutput t1 = some t2 ∧
        t2.output = ([97, 98, 99, 100] ++ List.replicate (cols.toNat - 4) 32) ::
          List.replicate (rows.toNat - 1) (List.replicate cols.toNat 32) ∧
        t1.cursorY = 1 ∧ t1.cursorX = 0 ∧ t1.totalLines = 0) := by
  constructor
  · intro he hcomp hno
    rw [processChar_inEscape t b he, if_pos hcomp]
    unfold finishEscape
    rw [processEscapeSequence_unhandled _ _ _ ?_ hno]
    · rfl
    · intro hpre
      unfold isEscapeComplete at hcomp
      simp only at hcomp
      split at hcomp
      · exact absurd hcomp (by decide)
      · exact hcomp
  · intro hcols hrows
    have hab := initial_printable_grid cols rows [97, 98] (by omega)
      (by simp only [List.length_cons, List.length_nil]; omega) (by decide)
    have habcd := initial_printable_grid cols rows [97, 98, 99, 100] (by omega)
      (by simp only [List.length_cons, List.length_nil]; omega) (by decide)
    rw [show ([97, 98, 99, 100] : Bytes) = [97, 98] ++ [99, 100] from rfl, feed_append, hab,
      Option.some_bind] at habcd
    have hcsi1 := feed_csi_ignored
      { NewTerminal cols rows with screenBuffer := textGrid cols rows [97, 98],
                                   cursorX := (([97, 98] : Bytes).length : Int) }
      [51, 49] 109 rfl rfl rfl (by decide) (by decide) (by decide)
    have hcsi2 := feed_csi_ignored
      { NewTerminal cols rows with screenBuffer := textGrid cols rows ([97, 98] ++ [99, 100]),
                                   cursorX := ((([97, 98] ++ [99, 100] : Bytes)).length : Int) }
      [48] 109 rfl rfl rfl (by decide) (by decide) (by decide)
    have hlf : processByte
        { NewTerminal cols rows with screenBuffer := textGrid cols rows ([97, 98] ++ [99, 100]),
                                     cursorX := ((([97, 98] ++ [99, 100] : Bytes)).length : Int) } 10 =
        some { NewTerminal cols rows with
                 screenBuffer := textGrid cols rows ([97, 98] ++ [99, 100]),
                 cursorX := 0, cursorY := 1 } := by
      rw [processByte_ascii (by norm_num) rfl]
      unfold processChar
      simp only [show (NewTerminal cols rows).inEscape = false from rfl, Bool.false_eq_true,
        if_false, show ¬ ((10 : Nat) = 27) by decide, if_true]
      rw [lineFeed_noscroll (by show (0 : Int) + 1 < rows; omega)]
      rfl
    have hfeed : feed (NewTerminal cols rows)
        [97, 98, 27, 91, 51, 49, 109, 99, 100, 27, 91, 48, 109, 10] =
        some { NewTerminal cols rows with
                 screenBuffer := textGrid cols rows ([97, 98] ++ [99, 100]),
                 cursorX := 0, cursorY := 1 } := by
      rw [show ([97, 98, 27, 91, 51, 49, 109, 99, 100, 27, 91, 48, 109, 10] : Bytes) =
        [97, 98] ++ ((27 :: 91 :: ([51, 49] ++ [109])) ++ ([99, 100] ++
          ((27 :: 91 :: ([48] ++ [109])) ++ [10]))) from rfl]
      rw [feed_append, hab, Option.some_bind, feed_append, hcsi1, Option.some_bind, feed_append,
        habcd, Option.some_bind, feed_append, hcsi2, Option.some_bind]
      simp only [feed, hlf, Option.some_bind]
    refine ⟨_, _, hfeed, updateOutput_spec (shaped_textGrid (by omega)
      (by simp only [List.length_append, List.length_cons, List.length_nil]; omega)), ?_,
      rfl, rfl, rfl⟩
    exact textGrid_output cols rows ([97, 98] ++ [99, 100])

theorem C9_unhandled_escape_witness :
    processChar { newTerminalWith 2 4 2 with inEscape := true, escapeBuffer := [27, 91, 51, 49] }
        [109] =
      some { newTerminalWith 2 4 2 with escapeBuffer := [], inEscape := false } ∧
    ∃ t1 t2, feed (NewTerminal 4 2)
        [97, 98, 27, 91, 51, 49, 109, 99, 100, 27, 91, 48, 109, 10] = some t1 ∧
      updateOutput t1 = some t2 ∧
      t2.output = ([97, 98, 99, 100] ++ List.replicate ((4 : Int).toNat - 4) 32) ::
        List.replicate ((2 : Int).toNat - 1) (List.replicate (4 : Int).toNat 32) ∧
      t1.cursorY = 1 ∧ t1.cursorX = 0 ∧ t1.totalLines = 0 :=
  ⟨(C9_unhandled_escape
      { newTerminalWith 2 4 2 with inEscape := true, escapeBuffer := [27, 91, 51, 49] }
      109 4 2).1 rfl rfl (Or.inr (by decide)),
    (C9_unhandled_escape
      { newTerminalWith 2 4 2 with inEscape := true, escapeBuffer := [27, 91, 51, 49] }
      109 4 2).2 (by decide) (by decide)⟩

/-! # C10: a wide glyph at the last column wraps instead of being split -/

/-- The three UTF-8 bytes of U+4E2D arriving on an empty decoder buffer are
handed to `processChar` as one fragment, on the third byte. -/
theorem feed_U4E2D (t : Terminal) (hu : t.utf8Buffer = []) :
    feed t [228, 184, 173] = processChar t [228, 184, 173] := by
  have h1 : processByte t 228 = some { t with utf8Buffer := [228] } := by
    unfold processByte
    simp only [hu, List.nil_append]
    rw [if_neg (by decide), if_neg (by decide)]
  have h2 : processByte { t with utf8Buffer := [228] } 184 =
      some { t with utf8Buffer := [228, 184] } := by
    unfold processByte
    simp only [List.cons_append, List.nil_append]
    rw [if_neg (by decide), if_neg (by decide)]
  have h3 : processByte { t with utf8Buffer := [228, 184] } 173 =
      processChar { t with utf8Buffer := [] } [228, 184, 173] := by
    unfold processByte
    simp only [List.cons_append, List.nil_append]
    rw [if_pos (by decide)]
  have hself : ({ t with utf8Buffer := [] } : Terminal) = t := by
    cases t; simp_all
  simp only [feed, h1, Option.some_bind, h2, h3, hself]
  cases processChar t [228, 184, 173] <;> rfl

/-- C10: on a grid of at least two columns, with the cursor at the last column of
row `r`, a fragment of display width 2 processed in Normal state is written at
column 0 of the following row (the last row, after one scroll, when `r` was the
last row) with its placeholder at column 1; the cursor ends at column 2 of that
row; the cell at the last column of the row the cursor was on is not modified
(that row is still row `r`, or row `r - 1` after the scroll, or the newest
history row when the grid has a single row).  U+4E2D, fed as the bytes E4 B8 AD,
is such a fragment. -/
theorem C10_wide_glyph_wraps (t : Terminal) (char : Bytes) (ha : Allocated t)
    (hcols : 2 ≤ t.screenWidth)
    (hy : 0 ≤ t.cursorY ∧ t.cursorY < t.screenHeight)
    (hx : t.cursorX = t.screenWidth - 1)
    (he : t.inEscape = false) (hw : getCharWidth char = 2) :
    (∃ t1, processChar t char = some t1 ∧
      t1.cursorY = min (t.cursorY + 1) (t.screenHeight - 1) ∧ t1.cursorX = 2 ∧
      getCell t1.screenBuffer t1.cursorY 0 = some { char := char, width := 2 } ∧
      getCell t1.screenBuffer t1.cursorY 1 = some { char := [], width := 0 } ∧
      (t.cursorY + 1 < t.screenHeight →
        getCell t1.screenBuffer t.cursorY (t.screenWidth - 1) =
          getCell t.screenBuffer t.cursorY (t.screenWidth - 1)) ∧
      (t.cursorY + 1 = t.screenHeight → 2 ≤ t.screenHeight →
        getCell t1.screenBuffer (t.cursorY - 1) (t.screenWidth - 1) =
          getCell t.screenBuffer t.cursorY (t.screenWidth - 1)) ∧
      (t.screenHeight = 1 →
        idx? t1.totalBuffer (t1.totalLines - 1) = idx? t.screenBuffer t.cursorY)) ∧
    getCharWidth [228, 184, 173] = 2 ∧
    (t.utf8Buffer = [] → feed t [228, 184, 173] = processChar t [228, 184, 173]) := by
  refine ⟨?_, by decide, feed_U4E2D t⟩
  obtain ⟨t0, sb, _, hproc, _, _, _, _, _, _, hwrapped, hcell⟩ :=
    writeWide_spec ha hcols hy ⟨by omega, by omega⟩ he hw
  obtain ⟨hlf, e3, e4⟩ := hwrapped (by omega)
  obtain ⟨t0', hlf', _, _, _, _, _, hns, hsc⟩ := lineFeed_spec ha hy
  have ht0 : t0' = t0 := by
    rw [hlf] at hlf'
    exact (Option.some.inj hlf').symm
  subst ht0
  have hc0 : getCell sb t0'.cursorY 0 = some { char := char, width := 2 } := by
    rw [hcell, e3, if_neg (by omega), if_pos ⟨rfl, rfl⟩]
  have hc1 : getCell sb t0'.cursorY 1 = some { char := [], width := 0 } := by
    rw [hcell, e3, if_pos ⟨rfl, by omega⟩]
  refine ⟨_, hproc, e4, by show t0'.cursorX + 2 = 2; omega, hc0, hc1, ?_, ?_, ?_⟩
  · intro hlt
    show getCell sb _ _ = _
    rw [hcell, if_neg (by rw [e4]; omega), if_neg (by rw [e4]; omega), hns hlt]
  · intro hlast h2
    show getCell sb _ _ = _
    rw [hcell, if_neg (by rw [e4]; omega), if_neg (by rw [e4]; omega)]
    have ha0 : Allocated { t with cursorX := 0, cursorY := t.cursorY + 1 } := ha
    obtain ⟨t2, ht2, _, _, _, _, _, _, _, _, _, _, _, _, hrows, _⟩ := scrollUp_spec ha0
    rw [hsc hlast] at ht2
    have : t2 = t0' := (Option.some.inj ht2).symm
    subst this
    have hrow := hrows (t.cursorY - 1)
    rw [if_neg (by show ¬ (t.cursorY - 1 = t.screenHeight - 1); omega),
      if_pos (by omega)] at hrow
    unfold getCell
    rw [hrow]
    congr 2
    omega
  · intro h1
    show idx? t0'.totalBuffer (t0'.totalLines - 1) = _
    have ha0 : Allocated { t with cursorX := 0, cursorY := t.cursorY + 1 } := ha
    obtain ⟨t2, ht2, _, _, _, _, _, _, _, _, _, _, _, _, _, hhist⟩ := scrollUp_spec ha0
    rw [hsc (by omega)] at ht2
    have : t2 = t0' := (Option.some.inj ht2).symm
    subst this
    rw [hhist, if_pos rfl]
    show idx? t.screenBuffer 0 = idx? t.screenBuffer t.cursorY
    congr 1
    omega

theorem C10_wide_glyph_wraps_witness :
    (∃ t1, processChar { newTerminalWith 2 3 2 with cursorX := 2, cursorY := 1 } [228, 184, 173] =
          some t1 ∧
      t1.cursorY = min ((1 : Int) + 1) (2 - 1) ∧ t1.cursorX = 2 ∧
      getCell t1.screenBuffer t1.cursorY 0 = some { char := [228, 184, 173], width := 2 } ∧
      getCell t1.screenBuffer t1.cursorY 1 = some { char := [], width := 0 } ∧
      ((1 : Int) + 1 < 2 →
        getCell t1.screenBuffer 1 (3 - 1) = getCell (blankRows 2 3) 1 (3 - 1)) ∧
      ((1 : Int) + 1 = 2 → (2 : Int) ≤ 2 →
        getCell t1.screenBuffer (1 - 1) (3 - 1) = getCell (blankRows 2 3) 1 (3 - 1)) ∧
      ((2 : Int) = 1 →
        idx? t1.totalBuffer (t1.totalLines - 1) = idx? (blankRows 2 3) 1)) ∧
    getCharWidth [228, 184, 173] = 2 ∧
    (([] : Bytes) = [] →
      feed { newTerminalWith 2 3 2 with cursorX := 2, cursorY := 1 } [228, 184, 173] =
        processChar { newTerminalWith 2 3 2 with cursorX := 2, cursorY := 1 } [228, 184, 173]) :=
  C10_wide_glyph_wraps { newTerminalWith 2 3 2 with cursorX := 2, cursorY := 1 } [228, 184, 173]
    (by decide) (by decide) (by decide) rfl rfl (by decide)

/-! # C11: one wrap after `cols` printable characters -/

/-- With the cursor resting at `screenWidth` after a write in the last column, a
printable ASCII byte is processed as it is from column 0 of the next row (the
wrap, when that row exists). -/
theorem processByte_wrap {t : Terminal} {b : Nat} (h0 : 32 ≤ b) (h1 : b ≤ 126)
    (he : t.inEscape = false) (hu : t.utf8Buffer = []) (hx : t.cursorX = t.screenWidth)
    (hw : 1 ≤ t.screenWidth) (hy : t.cursorY + 1 < t.screenHeight) :
    processByte t b = processByte { t with cursorX := 0, cursorY := t.cursorY + 1 } b := by
  rw [processByte_ascii (by omega) hu, processByte_ascii (by omega) (by exact hu),
    processChar_printable h0 h1 he, processChar_printable h0 h1 (by exact he)]
  have e1 : wrapLine t 1 = some { t with cursorX := 0, cursorY := t.cursorY + 1 } := by
    unfold wrapLine
    rw [if_pos (by omega), lineFeed_noscroll hy]
  have e2 : wrapLine { t with cursorX := 0, cursorY := t.cursorY + 1 } 1 =
      some { t with cursorX := 0, cursorY := t.cursorY + 1 } := by
    unfold wrapLine
    rw [if_neg (by show ¬ ((0 : Int) + 1 > t.screenWidth); omega)]
  rw [e1, e2]

/-- C11: from the initial state of a grid with at least two rows, `cols + k`
printable ASCII bytes with `1 <= k <= cols` leave the first `cols` characters on
row 0 and the remaining `k` on row 1 from column 0, every other cell blank, the
cursor at row 1, column `k`, and the history store, the stored-row count and
every other field as `NewTerminal` built them (one wrap, no scroll). -/
theorem C11_single_wrap (cols rows : Int) (k : Nat) (s : Bytes) (hrows : 2 ≤ rows)
    (hk1 : 1 ≤ k) (hk2 : (k : Int) ≤ cols) (hlen : (s.length : Int) = cols + k)
    (hs : ∀ b ∈ s, 32 ≤ b ∧ b ≤ 126) :
    ∃ sb, feed (NewTerminal cols rows) s =
        some { NewTerminal cols rows with screenBuffer := sb, cursorX := k, cursorY := 1 } ∧
      ∀ y x, getCell sb y x =
        if y = 0 ∧ 0 ≤ x ∧ x < cols then (idx? s x).map asciiCell
        else if y = 1 ∧ 0 ≤ x ∧ x < k then (idx? s (cols + x)).map asciiCell
        else getCell (blankRows rows cols) y x := by
  have hcols : 1 ≤ cols := by omega
  obtain ⟨n, rfl⟩ : ∃ n : Nat, cols = (n : Int) := ⟨cols.toNat, by omega⟩
  have hsplit : s = s.take n ++ s.drop n := (List.take_append_drop n s).symm
  have hl1 : (s.take n).length = n := by rw [List.length_take]; omega
  have hl2 : (s.drop n).length = k := by rw [List.length_drop]; omega
  have hs1 : ∀ b ∈ s.take n, 32 ≤ b ∧ b ≤ 126 := fun b hb => hs b (List.mem_of_mem_take hb)
  have hs2 : ∀ b ∈ s.drop n, 32 ≤ b ∧ b ≤ 126 := fun b hb => hs b (List.mem_of_mem_drop hb)
  have hsh : Shaped (NewTerminal (n : Int) rows).screenBuffer rows (n : Int) :=
    shaped_blankRows (by omega) (by omega)
  obtain ⟨sb1, hf1, hsh1, hc1⟩ := feed_printable (s.take n) (NewTerminal (n : Int) rows) hsh rfl rfl
    (le_refl 0) (by show (0 : Int) < rows; omega) (le_refl 0)
    (by show (0 : Int) + ((s.take n).length : Int) ≤ (n : Int); omega) hs1
  have hx1 : (NewTerminal (n : Int) rows).cursorX + ((s.take n).length : Int) = (n : Int) := by
    show (0 : Int) + _ = _
    omega
  rw [hx1] at hf1
  obtain ⟨sb2, hf2, _, hc2⟩ := feed_printable (s.drop n)
    { NewTerminal (n : Int) rows with screenBuffer := sb1, cursorX := 0, cursorY := 1 } hsh1 rfl rfl
    (show (0 : Int) ≤ 1 by decide) (by show (1 : Int) < rows; omega) (le_refl 0)
    (by show (0 : Int) + ((s.drop n).length : Int) ≤ (n : Int); omega) hs2
  have hfeed2 : feed { NewTerminal (n : Int) rows with screenBuffer := sb1, cursorX := (n : Int) }
      (s.drop n) =
      feed { NewTerminal (n : Int) rows with screenBuffer := sb1, cursorX := 0, cursorY := 1 }
        (s.drop n) := by
    cases hd : s.drop n with
    | nil => rw [hd] at hl2; simp at hl2; omega
    | cons b rest =>
      have hb := hs2 b (by rw [hd]; exact List.mem_cons_self _ _)
      show (processByte _ b).bind _ = (processByte _ b).bind _
      rw [processByte_wrap hb.1 hb.2 rfl rfl rfl (by show (1 : Int) ≤ (n : Int); omega)
        (by show (0 : Int) + 1 < rows; omega)]
      rfl
  refine ⟨sb2, ?_, ?_⟩
  · rw [hsplit, feed_append, hf1, Option.some_bind, hfeed2, hf2]
    congr 1
    have e : (0 : Int) + ((s.drop n).length : Int) = (k : Int) := by omega
    show ({ NewTerminal (n : Int) rows with
              screenBuffer := sb2, cursorX := (0 : Int) + ((s.drop n).length : Int),
              cursorY := 1 } : Terminal) = _
    rw [e]
  · intro y x
    rw [hc2]
    show (if y = 1 ∧ (0 : Int) ≤ x ∧ x < 0 + ((s.drop n).length : Int) then _ else getCell sb1 y x) = _
    rw [hc1]
    show (if y = 1 ∧ (0 : Int) ≤ x ∧ x < 0 + ((s.drop n).length : Int) then _ else
      (if y = 0 ∧ (0 : Int) ≤ x ∧ x < 0 + ((s.take n).length : Int) then _ else _)) = _
    by_cases h0 : y = 0 ∧ 0 ≤ x ∧ x < (n : Int)
    · rw [if_neg (by omega), if_pos (by omega), if_pos h0]
      congr 1
      show idx? (s.take n) (x - 0) = idx? s x
      obtain ⟨j, rfl⟩ : ∃ j : Nat, x = (j : Int) := ⟨x.toNat, by omega⟩
      rw [sub_zero, idx?_natCast, idx?_natCast, List.getElem?_take_of_lt (by omega)]
    · rw [if_neg h0]
      by_cases h1 : y = 1 ∧ 0 ≤ x ∧ x < (k : Int)
      · rw [if_pos (by omega), if_pos h1]
        congr 1
        show idx? (s.drop n) (x - 0) = idx? s ((n : Int) + x)
        obtain ⟨j, rfl⟩ : ∃ j : Nat, x = (j : Int) := ⟨x.toNat, by omega⟩
        rw [sub_zero, show ((n : Int) + (j : Int)) = ((n + j : Nat) : Int) by push_cast; rfl,
          idx?_natCast, idx?_natCast, List.getElem?_drop]
      · rw [if_neg (by omega), if_neg (by omega), if_neg h1]
        rfl

theorem C11_single_wrap_witness :
    ∃ sb, feed (NewTerminal 2 2) [97, 98, 99] =
        some { NewTerminal 2 2 with screenBuffer := sb, cursorX := ((1 : Nat) : Int), cursorY := 1 } ∧
      ∀ y x, getCell sb y x =
        if y = 0 ∧ 0 ≤ x ∧ x < 2 then (idx? [97, 98, 99] x).map asciiCell
        else if y = 1 ∧ 0 ≤ x ∧ x < ((1 : Nat) : Int) then (idx? [97, 98, 99] (2 + x)).map asciiCell
        else getCell (blankRows 2 2) y x :=
  C11_single_wrap 2 2 1 [97, 98, 99] (by decide) (by decide) (by decide) (by decide) (by decide)

/-! # The decoder of `processByte` -/

/-- `processByte` is its decoder followed by `processChar` on the fragment, when
there is one. -/
theorem processByte_decodeStep (t : Terminal) (b : Nat) :
    processByte t b =
      match decodeStep t.utf8Buffer b with
      | (some frag, rest) => processChar { t with utf8Buffer := rest } frag
      | (none, rest) => some { t with utf8Buffer := rest } := by
  unfold processByte decodeStep
  simp only
  by_cases hv : Valid (t.utf8Buffer ++ [b]) = true
  · rw [if_pos hv, if_pos hv]
  · rw [if_neg hv, if_neg hv]
    by_cases hl : (t.utf8Buffer ++ [b]).length > 4
    · rw [if_pos hl, if_pos hl]
      cases h : t.utf8Buffer ++ [b] with
      | nil => simp at h
      | cons a rest => rfl
    · rw [if_neg hl, if_neg hl]

set_option maxRecDepth 100000 in
/-- C12 (refuted by the code): on the bytes `E4 41 42 43 44 45` the decoder hands
`processChar` two fragments, the second being the five characters `ABCDE` at
once; its first rune is only 1 of its 5 bytes.  On an 8 x 2 grid the fragment
ends up in the single cell (0,1) with width 1, and the cursor at column 2. -/
theorem C12_fragment_of_five_characters :
    decodeAll [] [0xE4, 0x41, 0x42, 0x43, 0x44, 0x45] =
        ([[0xC3, 0xA4], [0x41, 0x42, 0x43, 0x44, 0x45]], []) ∧
      DecodeRuneInString [0x41, 0x42, 0x43, 0x44, 0x45] = (0x41, 1) ∧
      (feed (NewTerminal 8 2) [0xE4, 0x41, 0x42, 0x43, 0x44]).bind
          (fun t => (processByte t 0x45).map (fun t1 =>
            (t.utf8Buffer, getCell t1.screenBuffer 0 1, t1.cursorX, t1.utf8Buffer))) =
        some ([0x41, 0x42, 0x43, 0x44],
          some { char := [0x41, 0x42, 0x43, 0x44, 0x45], width := 1 }, 2, []) := by
  refine ⟨by decide, by decide, ?_⟩
  rfl

/-! # C13: well-formed UTF-8 is decoded scalar by scalar -/

theorem leadInfo_two {b : Nat} (h : 0xC2 ≤ b ∧ b ≤ 0xDF) : leadInfo b = some (2, 0x80, 0xBF) := by
  unfold leadInfo
  rw [if_pos h]

theorem leadInfo_three {b : Nat} (h : 0xE0 ≤ b ∧ b ≤ 0xEF) :
    leadInfo b = some (3, if b = 0xE0 then 0xA0 else 0x80, if b = 0xED then 0x9F else 0xBF) := by
  obtain ⟨h0, h1⟩ := h
  interval_cases b <;> rfl

theorem leadInfo_four {b : Nat} (h : 0xF0 ≤ b ∧ b ≤ 0xF4) :
    leadInfo b = some (4, if b = 0xF0 then 0x90 else 0x80, if b = 0xF4 then 0x8F else 0xBF) := by
  obtain ⟨h0, h1⟩ := h
  interval_cases b <;> rfl

/-- A leading byte followed by fewer bytes than its encoding needs is not valid
UTF-8. -/
theorem Valid_short {b0 sz lo hi : Nat} {rest : Bytes} (hb : 0x80 ≤ b0)
    (hl : leadInfo b0 = some (sz, lo, hi)) (hlen : rest.length + 1 < sz) :
    Valid (b0 :: rest) = false := by
  unfold Valid
  simp only [List.length_cons]
  unfold validAux
  rw [if_neg (by omega)]
  simp only [hl]
  rw [if_pos hlen]

theorem Valid_two {b0 b1 : Nat} (h0 : 0xC2 ≤ b0 ∧ b0 ≤ 0xDF) (h1 : 0x80 ≤ b1 ∧ b1 ≤ 0xBF) :
    Valid [b0, b1] = true := by
  unfold Valid
  simp only [List.length_cons, List.length_nil]
  unfold validAux
  rw [if_neg (by omega)]
  simp only [leadInfo_two h0, List.length_cons, List.length_nil]
  rw [if_neg (by omega), if_neg (by omega), if_pos trivial]
  rfl

theorem Valid_three {b0 b1 b2 : Nat} (h0 : 0xE0 ≤ b0 ∧ b0 ≤ 0xEF)
    (h1 : (if b0 = 0xE0 then 0xA0 else 0x80) ≤ b1 ∧ b1 ≤ (if b0 = 0xED then 0x9F else 0xBF))
    (h2 : 0x80 ≤ b2 ∧ b2 ≤ 0xBF) :
    Valid [b0, b1, b2] = true := by
  unfold Valid
  simp only [List.length_cons, List.length_nil]
  unfold validAux
  rw [if_neg (by omega)]
  simp only [leadInfo_three h0, List.length_cons, List.length_nil]
  rw [if_neg (by omega), if_neg (by omega), if_neg (by decide)]
  have hc : isCont b2 = true := by
    unfold isCont
    exact decide_eq_true h2
  simp only [hc, not_true_eq_false, if_false, if_true]
  rfl

theorem Valid_four {b0 b1 b2 b3 : Nat} (h0 : 0xF0 ≤ b0 ∧ b0 ≤ 0xF4)
    (h1 : (if b0 = 0xF0 then 0x90 else 0x80) ≤ b1 ∧ b1 ≤ (if b0 = 0xF4 then 0x8F else 0xBF))
    (h2 : 0x80 ≤ b2 ∧ b2 ≤ 0xBF) (h3 : 0x80 ≤ b3 ∧ b3 ≤ 0xBF) :
    Valid [b0, b1, b2, b3] = true := by
  unfold Valid
  simp only [List.length_cons, List.length_nil]
  unfold validAux
  rw [if_neg (by omega)]
  simp only [leadInfo_four h0, List.length_cons, List.length_nil]
  rw [if_neg (by omega), if_neg (by omega), if_neg (by decide)]
  have hc2 : isCont b2 = true := by
    unfold isCont
    exact decide_eq_true h2
  have hc3 : isCont b3 = true := by
    unfold isCont
    exact decide_eq_true h3
  simp only [hc2, hc3, not_true_eq_false, if_false, if_true]
  rw [if_neg (by decide)]
  rfl

/-- The encoding of a scalar value is valid UTF-8 of at most four bytes, and no
proper prefix of it is. -/
theorem encodeRune_valid {r : Nat} (hr : isScalar r) :
    encodeRune r ≠ [] ∧ (encodeRune r).length ≤ 4 ∧ Valid (encodeRune r) = true ∧
      ∀ n, 0 < n → n < (encodeRune r).length → Valid ((encodeRune r).take n) = false := by
  unfold isScalar at hr
  unfold encodeRune
  by_cases h1 : r < 0x80
  · rw [if_pos h1]
    refine ⟨by simp, by simp, Valid_ascii h1, ?_⟩
    intro n hn0 hn1
    simp only [List.length_cons, List.length_nil] at hn1
    omega
  · rw [if_neg h1]
    by_cases h2 : r < 0x800
    · rw [if_pos h2]
      refine ⟨by simp, by simp, Valid_two (by omega) (by omega), ?_⟩
      intro n hn0 hn1
      simp only [List.length_cons, List.length_nil] at hn1
      obtain rfl : n = 1 := by omega
      exact Valid_short (by omega) (leadInfo_two (by omega)) (by simp)
    · rw [if_neg h2]
      by_cases h3 : r < 0x10000
      · rw [if_pos h3]
        refine ⟨by simp, by simp, Valid_three (by omega) ?_ (by omega), ?_⟩
        · constructor
          · split <;> omega
          · split <;> omega
        · intro n hn0 hn1
          simp only [List.length_cons, List.length_nil] at hn1
          have hn : n = 1 ∨ n = 2 := by omega
          rcases hn with rfl | rfl
          · exact Valid_short (by omega) (leadInfo_three (by omega)) (by simp)
          · exact Valid_short (by omega) (leadInfo_three (by omega)) (by simp)
      · rw [if_neg h3]
        refine ⟨by simp, by simp, Valid_four (by omega) ?_ (by omega) (by omega), ?_⟩
        · constructor
          · split <;> omega
          · split <;> omega
        · intro n hn0 hn1
          simp only [List.length_cons, List.length_nil] at hn1
          have hn : n = 1 ∨ n = 2 ∨ n = 3 := by omega
          rcases hn with rfl | rfl | rfl
          · exact Valid_short (by omega) (leadInfo_four (by omega)) (by simp)
          · exact Valid_short (by omega) (leadInfo_four (by omega)) (by simp)
          · exact Valid_short (by omega) (leadInfo_four (by omega)) (by simp)

/-- The rune decoded from the encoding of a scalar value is that value, and its
size is the whole encoding. -/
theorem decode_encodeRune {r : Nat} (hr : isScalar r) :
    DecodeRuneInString (encodeRune r) = (r, (encodeRune r).length) := by
  unfold isScalar at hr
  unfold encodeRune
  by_cases h1 : r < 0x80
  · rw [if_pos h1]
    unfold DecodeRuneInString
    dsimp only
    rw [if_pos h1]
    rfl
  · rw [if_neg h1]
    by_cases h2 : r < 0x800
    · rw [if_pos h2]
      unfold DecodeRuneInString
      dsimp only
      rw [if_neg (by omega)]
      simp only [leadInfo_two (show 0xC2 ≤ 0xC0 + r / 64 ∧ 0xC0 + r / 64 ≤ 0xDF by omega),
        List.length_cons, List.length_nil]
      rw [if_neg (by omega), if_neg (by omega), if_pos (by omega)]
      congr 1
      omega
    · rw [if_neg h2]
      by_cases h3 : r < 0x10000
      · rw [if_pos h3]
        unfold DecodeRuneInString
        dsimp only
        rw [if_neg (by omega)]
        simp only [leadInfo_three (show 0xE0 ≤ 0xE0 + r / 4096 ∧ 0xE0 + r / 4096 ≤ 0xEF by omega),
          List.length_cons, List.length_nil]
        have hc : isCont (0x80 + r % 64) = true := by
          unfold isCont
          exact decide_eq_true (by omega)
        rw [if_neg (by omega), if_neg (by split <;> split <;> omega), if_neg (by omega)]
        simp only [hc, not_true_eq_false, if_false]
        rw [if_pos (by omega)]
        congr 1
        omega
      · rw [if_neg h3]
        unfold DecodeRuneInString
        dsimp only
        rw [if_neg (by omega)]
        simp only [leadInfo_four (show 0xF0 ≤ 0xF0 + r / 262144 ∧ 0xF0 + r / 262144 ≤ 0xF4 by omega),
          List.length_cons, List.length_nil]
        have hc2 : isCont (0x80 + r / 64 % 64) = true := by
          unfold isCont
          exact decide_eq_true (by omega)
        have hc3 : isCont (0x80 + r % 64) = true := by
          unfold isCont
          exact decide_eq_true (by omega)
        rw [if_neg (by omega), if_neg (by split <;> split <;> omega), if_neg (by omega)]
        simp only [hc2, hc3, not_true_eq_false, if_false]
        rw [if_neg (by omega)]
        congr 1
        omega

/-- A buffer that is a proper prefix of a fragment `e` (valid, at most four
bytes, no proper prefix valid) followed by the rest of `e`: the decoder hands
out `e` on its last byte and nothing before. -/
theorem decodeAll_fragment {e : Bytes} (hlen : e.length ≤ 4) (hv : Valid e = true)
    (hp : ∀ n, 0 < n → n < e.length → Valid (e.take n) = false) :
    ∀ (q p : Bytes), e = p ++ q → q ≠ [] → decodeAll p q = ([e], []) := by
  intro q
  induction q with
  | nil => intro p _ h; exact absurd rfl h
  | cons b q ih =>
    intro p he _
    cases q with
    | nil =>
      have hs : decodeStep p b = (some e, []) := by
        unfold decodeStep
        simp only
        rw [← he, if_pos hv]
      simp only [decodeAll, hs]
    | cons b2 q2 =>
      have he2 : e = (p ++ [b]) ++ (b2 :: q2) := by rw [he]; simp
      have hl : (p ++ [b]).length < e.length := by
        rw [he2]
        simp only [List.length_append, List.length_cons, List.length_nil]
        omega
      have htake : e.take (p ++ [b]).length = p ++ [b] := by
        rw [he2, List.take_left]
      have hinv : Valid (p ++ [b]) = false := by
        rw [← htake]
        exact hp _ (by simp) hl
      have hs : decodeStep p b = (none, p ++ [b]) := by
        unfold decodeStep
        simp only
        rw [if_neg (by rw [hinv]; decide), if_neg (by omega)]
      have := ih (p ++ [b]) he2 (by simp)
      simp only [decodeAll, hs] at this ⊢
      exact this

theorem decodeAll_append (xs ys : Bytes) :
    ∀ buf : Bytes, decodeAll buf (xs ++ ys) =
      ((decodeAll buf xs).1 ++ (decodeAll (decodeAll buf xs).2 ys).1,
        (decodeAll (decodeAll buf xs).2 ys).2) := by
  induction xs with
  | nil => intro buf; rfl
  | cons b xs ih =>
    intro buf
    show decodeAll buf (b :: (xs ++ ys)) = _
    simp only [decodeAll]
    cases hs : decodeStep buf b with
    | mk o rest =>
      cases o with
      | none => simp only [ih rest]
      | some frag => simp only [ih rest, List.cons_append]

/-- A proper prefix of a fragment is only accumulated. -/
theorem decodeAll_prefix {e : Bytes} (hlen : e.length ≤ 4)
    (hp : ∀ n, 0 < n → n < e.length → Valid (e.take n) = false) :
    ∀ (q p : Bytes), (p ++ q).length < e.length → p ++ q = e.take (p ++ q).length →
      decodeAll p q = ([], p ++ q) := by
  intro q
  induction q with
  | nil => intro p _ _; simp [decodeAll]
  | cons b q ih =>
    intro p hl he
    have e2 : p ++ b :: q = (p ++ [b]) ++ q := by simp
    have hl2 : (p ++ [b]).length ≤ (p ++ b :: q).length := by
      simp only [List.length_append, List.length_cons, List.length_nil]
      omega
    have htake : e.take (p ++ [b]).length = p ++ [b] := by
      have h1 : (e.take (p ++ b :: q).length).take (p ++ [b]).length = p ++ [b] := by
        rw [← he, e2, List.take_left]
      rw [List.take_take, Nat.min_eq_left hl2] at h1
      exact h1
    have hinv : Valid (p ++ [b]) = false := by
      rw [← htake]
      exact hp _ (by simp) (by omega)
    have hs : decodeStep p b = (none, p ++ [b]) := by
      unfold decodeStep
      simp only
      rw [if_neg (by rw [hinv]; decide), if_neg (by omega)]
    have := ih (p ++ [b]) (by rw [← e2]; exact hl) (by rw [← e2]; exact he)
    simp only [decodeAll, hs]
    rw [this, e2]

/-- The bytes of a fragment arriving on an empty decoder buffer are handed to
`processChar` as one fragment, on the last byte. -/
theorem feed_fragment {e : Bytes} (hlen : e.length ≤ 4) (hv : Valid e = true)
    (hp : ∀ n, 0 < n → n < e.length → Valid (e.take n) = false) :
    ∀ (q p : Bytes) (t : Terminal), e = p ++ q → q ≠ [] → t.utf8Buffer = p →
      feed t q = processChar { t with utf8Buffer := [] } e := by
  intro q
  induction q with
  | nil => intro p t _ h; exact absurd rfl h
  | cons b q ih =>
    intro p t he _ hu
    cases q with
    | nil =>
      have hs : decodeStep p b = (some e, []) := by
        unfold decodeStep
        simp only
        rw [← he, if_pos hv]
      simp only [feed, processByte_decodeStep, hu, hs]
      cases processChar { t with utf8Buffer := [] } e <;> rfl
    | cons b2 q2 =>
      have he2 : e = (p ++ [b]) ++ (b2 :: q2) := by rw [he]; simp
      have hl : (p ++ [b]).length < e.length := by
        rw [he2]
        simp only [List.length_append, List.length_cons, List.length_nil]
        omega
      have htake : e.take (p ++ [b]).length = p ++ [b] := by
        rw [he2, List.take_left]
      have hinv : Valid (p ++ [b]) = false := by
        rw [← htake]
        exact hp _ (by simp) hl
      have hs : decodeStep p b = (none, p ++ [b]) := by
        unfold decodeStep
        simp only
        rw [if_neg (by rw [hinv]; decide), if_neg (by omega)]
      have := ih (p ++ [b]) { t with utf8Buffer := p ++ [b] } he2 (by simp) rfl
      rw [feed, processByte_decodeStep, hu, hs]
      simp only [Option.some_bind]
      exact this

/-! ### What each operation leaves alone -/

theorem SameHistory.refl (t : Terminal) : SameHistory t t := ⟨rfl, rfl, rfl, rfl⟩

theorem SameHistory.trans {t t1 t2 : Terminal} (h1 : SameHistory t t1) (h2 : SameHistory t1 t2) :
    SameHistory t t2 := by
  unfold SameHistory at *
  obtain ⟨a1, a2, a3, a4⟩ := h1
  obtain ⟨b1, b2, b3, b4⟩ := h2
  exact ⟨b1.trans a1, b2.trans a2, b3.trans a3, b4.trans a4⟩

theorem setCursorPosition_same {t t1 : Terminal} {params : Bytes}
    (h : setCursorPosition t params = some t1) : SameHistory t t1 := by
  unfold setCursorPosition at h
  simp only [Option.bind_eq_some, Option.some.injEq] at h
  obtain ⟨p0, _, col, _, rfl⟩ := h
  exact ⟨rfl, rfl, rfl, rfl⟩

theorem clearScreen_same {t t1 : Terminal} {params : Bytes}
    (h : clearScreen t params = some t1) : SameHistory t t1 := by
  unfold clearScreen at h
  simp only at h
  split at h
  · simp only [Option.bind_eq_some, Option.some.injEq] at h
    obtain ⟨sb, _, rfl⟩ := h
    exact ⟨rfl, rfl, rfl, rfl⟩
  · split at h
    · simp only [Option.bind_eq_some, Option.some.injEq] at h
      obtain ⟨sb, _, rfl⟩ := h
      exact ⟨rfl, rfl, rfl, rfl⟩
    · split at h
      · simp only [Option.bind_eq_some, Option.some.injEq] at h
        obtain ⟨sb, _, rfl⟩ := h
        exact ⟨rfl, rfl, rfl, rfl⟩
      · simp only [Option.some.injEq] at h
        subst h
        exact ⟨rfl, rfl, rfl, rfl⟩

theorem clearLine_same {t t1 : Terminal} {params : Bytes}
    (h : clearLine t params = some t1) : SameHistory t t1 := by
  unfold clearLine at h
  simp only at h
  split at h
  · simp only [Option.bind_eq_some, Option.some.injEq] at h
    obtain ⟨sb, _, rfl⟩ := h
    exact ⟨rfl, rfl, rfl, rfl⟩
  · split at h
    · simp only [Option.bind_eq_some, Option.some.injEq] at h
      obtain ⟨sb, _, rfl⟩ := h
      exact ⟨rfl, rfl, rfl, rfl⟩
    · split at h
      · simp only [Option.bind_eq_some, Option.some.injEq] at h
        obtain ⟨sb, _, rfl⟩ := h
        exact ⟨rfl, rfl, rfl, rfl⟩
      · simp only [Option.some.injEq] at h
        subst h
        exact ⟨rfl, rfl, rfl, rfl⟩

theorem ite_same {c : Prop} [Decidable c] {t t1 a b : Terminal}
    (h : (if c then some a else some b) = some t1) (ha : SameHistory t a)
    (hb : SameHistory t b) : SameHistory t t1 := by
  split at h
  · simp only [Option.some.injEq] at h
    subst h
    exact ha
  · simp only [Option.some.injEq] at h
    subst h
    exact hb

theorem processEscapeSequence_same {t t1 : Terminal} {seq : Bytes}
    (h : processEscapeSequence t seq = some t1) : SameHistory t t1 := by
  unfold processEscapeSequence at h
  by_cases h1 : seq.length < 2
  · rw [if_pos h1] at h
    simp only [Option.some.injEq] at h
    subst h
    exact SameHistory.refl _
  · rw [if_neg h1] at h
    by_cases h2 : hasCsiPrefix seq = true
    · rw [if_pos h2] at h
      by_cases h3 : seq.length < 3
      · rw [if_pos h3] at h
        exact absurd h (by simp)
      · rw [if_neg h3] at h
        simp only [Option.bind_eq_some] at h
        obtain ⟨cmd, _, h⟩ := h
        by_cases c1 : cmd = 72 ∨ cmd = 102
        · rw [if_pos c1] at h
          exact setCursorPosition_same h
        · rw [if_neg c1] at h
          by_cases c2 : cmd = 65
          · rw [if_pos c2] at h
            exact ite_same h ⟨rfl, rfl, rfl, rfl⟩ (SameHistory.refl _)
          · rw [if_neg c2] at h
            by_cases c3 : cmd = 66
            · rw [if_pos c3] at h
              exact ite_same h ⟨rfl, rfl, rfl, rfl⟩ (SameHistory.refl _)
            · rw [if_neg c3] at h
              by_cases c4 : cmd = 67
              · rw [if_pos c4] at h
                exact ite_same h ⟨rfl, rfl, rfl, rfl⟩ (SameHistory.refl _)
              · rw [if_neg c4] at h
                by_cases c5 : cmd = 68
                · rw [if_pos c5] at h
                  exact ite_same h ⟨rfl, rfl, rfl, rfl⟩ (SameHistory.refl _)
                · rw [if_neg c5] at h
                  by_cases c6 : cmd = 74
                  · rw [if_pos c6] at h
                    exact clearScreen_same h
                  · rw [if_neg c6] at h
                    by_cases c7 : cmd = 75
                    · rw [if_pos c7] at h
                      exact clearLine_same h
                    · rw [if_neg c7] at h
                      simp only [Option.some.injEq] at h
                      subst h
                      exact SameHistory.refl _
    · rw [if_neg h2] at h
      simp only [Option.some.injEq] at h
      subst h
      exact SameHistory.refl _

theorem tabLoop_same (nextTab : Int) :
    ∀ (fuel : Nat) (t t1 : Terminal), tabLoop nextTab fuel t = some t1 → SameHistory t t1 := by
  intro fuel
  induction fuel with
  | zero =>
    intro t t1 h
    simp only [tabLoop, Option.some.injEq] at h
    subst h
    exact SameHistory.refl _
  | succ n ih =>
    intro t t1 h
    unfold tabLoop at h
    split at h
    · simp only [Option.bind_eq_some] at h
      obtain ⟨sb, _, h⟩ := h
      have := ih _ _ h
      exact this
    · simp only [Option.some.injEq] at h
      subst h
      exact SameHistory.refl _

theorem SameHistory.histStep {t t1 : Terminal} (h : SameHistory t t1) : HistStep t t1 :=
  ⟨h.1, h.2.1, Or.inl ⟨h.2.2.1, h.2.2.2⟩⟩

theorem handleBackspace_same {t t1 : Terminal} (h : handleBackspace t = some t1) :
    SameHistory t t1 := by
  unfold handleBackspace at h
  by_cases h1 : t.cursorX > 0
  · rw [if_pos h1] at h
    simp only at h
    by_cases h2 : t.cursorX - 1 ≥ 0 ∧ t.cursorX - 1 < t.screenWidth
    · rw [if_pos h2] at h
      simp only [Option.bind_eq_some] at h
      obtain ⟨c, _, h⟩ := h
      by_cases w2 : c.width = 2
      · rw [if_pos w2] at h
        simp only [Option.bind_eq_some, Option.some.injEq] at h
        obtain ⟨sb, _, sb1, _, rfl⟩ := h
        exact ⟨rfl, rfl, rfl, rfl⟩
      · rw [if_neg w2] at h
        by_cases w0 : c.width = 0
        · rw [if_pos w0] at h
          simp only [Option.bind_eq_some] at h
          obtain ⟨found, _, h⟩ := h
          cases found with
          | true =>
            simp only [if_true, Option.bind_eq_some, Option.some.injEq] at h
            obtain ⟨sb, _, sb1, _, rfl⟩ := h
            exact ⟨rfl, rfl, rfl, rfl⟩
          | false =>
            simp only [Bool.false_eq_true, if_false, Option.bind_eq_some, Option.some.injEq] at h
            obtain ⟨sb, _, rfl⟩ := h
            exact ⟨rfl, rfl, rfl, rfl⟩
        · rw [if_neg w0] at h
          simp only [Option.bind_eq_some, Option.some.injEq] at h
          obtain ⟨sb, _, rfl⟩ := h
          exact ⟨rfl, rfl, rfl, rfl⟩
    · rw [if_neg h2] at h
      simp only [Option.some.injEq] at h
      subst h
      exact SameHistory.refl _
  · rw [if_neg h1] at h
    by_cases h2 : t.cursorY > 0
    · rw [if_pos h2] at h
      simp only [Option.bind_eq_some] at h
      obtain ⟨t2, hscan, t3, h3, h⟩ := h
      obtain ⟨cx, rfl, _, _⟩ := scanBack_some _ _ _ hscan
      have s3 : SameHistory t t3 := by
        split at h3
        · simp only [Option.bind_eq_some] at h3
          obtain ⟨c, _, h3⟩ := h3
          exact ite_same h3 ⟨rfl, rfl, rfl, rfl⟩ ⟨rfl, rfl, rfl, rfl⟩
        · simp only [Option.some.injEq] at h3
          subst h3
          exact ⟨rfl, rfl, rfl, rfl⟩
      exact ite_same h (s3.trans ⟨rfl, rfl, rfl, rfl⟩) s3
    · rw [if_neg h2] at h
      simp only [Option.some.injEq] at h
      subst h
      exact SameHistory.refl _

theorem placeGlyph_same {t t1 : Terminal} {char : Bytes} {cw : Int}
    (h : placeGlyph t char cw = some t1) : SameHistory t t1 := by
  unfold placeGlyph at h
  split at h
  · simp only [Option.bind_eq_some, Option.some.injEq] at h
    obtain ⟨sb, _, sb1, _, rfl⟩ := h
    exact ⟨rfl, rfl, rfl, rfl⟩
  · simp only [Option.some.injEq] at h
    subst h
    exact SameHistory.refl _

/-- The bookkeeping of `scrollUp`, whenever it returns. -/
theorem scrollUp_step {t t1 : Terminal} (h : scrollUp t = some t1) :
    t1.utf8Buffer = t.utf8Buffer ∧ t1.maxHistory = t.maxHistory ∧
      t1.totalLines = (if t.totalLines ≥ t.maxHistory then t.totalLines else t.totalLines + 1) ∧
      t1.viewOffset = (if t.viewOffset > max 0 (t1.totalLines - 1) then max 0 (t1.totalLines - 1)
        else t.viewOffset) := by
  unfold scrollUp at h
  simp only [Option.bind_eq_some] at h
  obtain ⟨ta, ha, tb, hb, sb, _, sb1, _, h⟩ := h
  have e1 : ta.utf8Buffer = t.utf8Buffer ∧ ta.maxHistory = t.maxHistory ∧
      ta.totalLines = (if t.totalLines ≥ t.maxHistory then t.totalLines else t.totalLines + 1) ∧
      ta.viewOffset = t.viewOffset := by
    by_cases hf : t.totalLines ≥ t.maxHistory
    · rw [if_pos hf] at ha
      simp only [Option.bind_eq_some, Option.some.injEq] at ha
      obtain ⟨x, _, y, _, rfl⟩ := ha
      rw [if_pos hf]
      exact ⟨rfl, rfl, rfl, rfl⟩
    · rw [if_neg hf] at ha
      simp only [Option.some.injEq] at ha
      subst ha
      rw [if_neg hf]
      exact ⟨rfl, rfl, rfl, rfl⟩
  have e2 : SameHistory ta tb := by
    split at hb
    · simp only [Option.bind_eq_some, Option.some.injEq] at hb
      obtain ⟨x, _, rfl⟩ := hb
      exact ⟨rfl, rfl, rfl, rfl⟩
    · simp only [Option.some.injEq] at hb
      subst hb
      exact SameHistory.refl _
  obtain ⟨a1, a2, a3, a4⟩ := e1
  obtain ⟨b1, b2, b3, b4⟩ := e2
  split at h
  · rename_i hgt
    simp only [Option.some.injEq] at h
    subst h
    refine ⟨b1.trans a1, b2.trans a2, b3.trans a3, ?_⟩
    show max 0 (tb.totalLines - 1) = if t.viewOffset > max 0 (tb.totalLines - 1) then _ else _
    rw [if_pos (by rw [← a4, ← b4]; exact hgt)]
  · rename_i hgt
    simp only [Option.some.injEq] at h
    subst h
    refine ⟨b1.trans a1, b2.trans a2, b3.trans a3, ?_⟩
    show tb.viewOffset = if t.viewOffset > max 0 (tb.totalLines - 1) then _ else _
    rw [if_neg (by rw [← a4, ← b4]; exact hgt), b4, a4]

theorem lineFeed_step {t t1 : Terminal} (h : lineFeed t = some t1) : HistStep t t1 := by
  unfold lineFeed at h
  simp only at h
  split at h
  · obtain ⟨a1, a2, a3, a4⟩ := scrollUp_step h
    exact ⟨a1, a2, Or.inr ⟨a3, a4⟩⟩
  · simp only [Option.some.injEq] at h
    subst h
    exact ⟨rfl, rfl, Or.inl ⟨rfl, rfl⟩⟩

theorem HistStep.same {t t1 t2 : Terminal} (h1 : HistStep t t1) (h2 : SameHistory t1 t2) :
    HistStep t t2 := by
  unfold HistStep SameHistory at *
  obtain ⟨a1, a2, a3⟩ := h1
  obtain ⟨b1, b2, b3, b4⟩ := h2
  refine ⟨b1.trans a1, b2.trans a2, ?_⟩
  rw [b3, b4]
  exact a3

theorem writeChar_step {t t1 : Terminal} {char : Bytes} (h : writeChar t char = some t1) :
    HistStep t t1 := by
  unfold writeChar at h
  split at h
  · simp only [Option.bind_eq_some] at h
    obtain ⟨t0, hw, hp⟩ := h
    have h0 : HistStep t t0 := by
      unfold wrapLine at hw
      split at hw
      · exact lineFeed_step hw
      · simp only [Option.some.injEq] at hw
        subst hw
        exact (SameHistory.refl _).histStep
    exact h0.same (placeGlyph_same hp)
  · simp only [Option.some.injEq] at h
    subst h
    exact (SameHistory.refl _).histStep

theorem processChar_step {t t1 : Terminal} {char : Bytes} (h : processChar t char = some t1) :
    HistStep t t1 := by
  unfold processChar at h
  split at h
  · rename_i b
    by_cases he : t.inEscape = true
    · rw [if_pos he] at h
      simp only at h
      split at h
      · simp only [Option.bind_eq_some, Option.some.injEq] at h
        obtain ⟨t2, h2, rfl⟩ := h
        have := processEscapeSequence_same h2
        exact (SameHistory.trans (show SameHistory t _ from ⟨rfl, rfl, rfl, rfl⟩)
          (this.trans ⟨rfl, rfl, rfl, rfl⟩)).histStep
      · simp only [Option.some.injEq] at h
        subst h
        exact ⟨rfl, rfl, Or.inl ⟨rfl, rfl⟩⟩
    · rw [if_neg he] at h
      by_cases b1 : b = 27
      · rw [if_pos b1] at h
        simp only [Option.some.injEq] at h
        subst h
        exact ⟨rfl, rfl, Or.inl ⟨rfl, rfl⟩⟩
      · rw [if_neg b1] at h
        by_cases b2 : b = 10
        · rw [if_pos b2] at h
          exact lineFeed_step h
        · rw [if_neg b2] at h
          by_cases b3 : b = 8
          · rw [if_pos b3] at h
            exact (handleBackspace_same h).histStep
          · rw [if_neg b3] at h
            by_cases b4 : b = 13
            · rw [if_pos b4] at h
              simp only [Option.some.injEq] at h
              subst h
              exact ⟨rfl, rfl, Or.inl ⟨rfl, rfl⟩⟩
            · rw [if_neg b4] at h
              by_cases b5 : b = 9
              · rw [if_pos b5] at h
                exact (tabLoop_same _ _ _ _ h).histStep
              · rw [if_neg b5] at h
                exact writeChar_step h
  · exact writeChar_step h

theorem HistStep.viewOK {t t1 : Terminal} (h : HistStep t t1) (hv : ViewOK t) : ViewOK t1 := by
  unfold HistStep at h
  unfold ViewOK at *
  obtain ⟨_, hm, h⟩ := h
  rcases h with ⟨e1, e2⟩ | ⟨e1, e2⟩
  · rw [e1, e2, hm]
    exact hv
  · rw [hm]
    by_cases hf : t.totalLines ≥ t.maxHistory
    · rw [if_pos hf] at e1
      rw [e1] at e2 ⊢
      split at e2 <;> (rw [e2]; omega)
    · rw [if_neg hf] at e1
      rw [e1] at e2 ⊢
      split at e2 <;> (rw [e2]; omega)

theorem processByte_step {t t1 : Terminal} {b : Nat} (h : processByte t b = some t1) :
    t1.maxHistory = t.maxHistory ∧ (ViewOK t → ViewOK t1) := by
  rw [processByte_decodeStep] at h
  cases hs : decodeStep t.utf8Buffer b with
  | mk o rest =>
    rw [hs] at h
    cases o with
    | none =>
      simp only [Option.some.injEq] at h
      subst h
      exact ⟨rfl, fun hv => hv⟩
    | some frag =>
      have := processChar_step h
      exact ⟨this.2.1, fun hv => this.viewOK hv⟩

/-- `processChar` leaves the decoder buffer alone. -/
theorem processChar_utf8Buffer {t t1 : Terminal} {char : Bytes}
    (h : processChar t char = some t1) : t1.utf8Buffer = t.utf8Buffer :=
  (processChar_step h).1

/-- The bytes of the encodings of a list of scalar values, fed from an empty
decoder buffer, act as `processChar` on each encoding in turn. -/
theorem feed_encoded (rs : List Nat) (hrs : ∀ r ∈ rs, isScalar r) :
    ∀ t : Terminal, t.utf8Buffer = [] →
      feed t (rs.map encodeRune).flatten = feedChars t (rs.map encodeRune) := by
  induction rs with
  | nil => intro t _; rfl
  | cons r rs ih =>
    intro t hu
    obtain ⟨hne, hlen, hv, hp⟩ := encodeRune_valid (hrs r (List.mem_cons_self _ _))
    have hself : ({ t with utf8Buffer := [] } : Terminal) = t := by
      cases t; simp_all
    have h1 := feed_fragment hlen hv hp (encodeRune r) [] t rfl hne hu
    rw [hself] at h1
    show feed t (encodeRune r ++ (rs.map encodeRune).flatten) = _
    rw [feed_append, h1]
    show _ = (processChar t (encodeRune r)).bind (fun t1 => feedChars t1 (rs.map encodeRune))
    cases hc : processChar t (encodeRune r) with
    | none => rfl
    | some t1 =>
      simp only [Option.some_bind]
      exact ih (fun r hr => hrs r (List.mem_cons_of_mem _ hr)) t1
        (by rw [processChar_utf8Buffer hc, hu])

/-- C13: for every list of Unicode scalar values, the bytes of their UTF-8
encodings fed one at a time from an empty accumulation buffer make the decoder
hand out exactly the encodings of those values, one fragment per value and in
order, and leave the buffer empty; on every proper prefix of an encoding nothing
is handed out and the prefix is only accumulated; each fragment decodes to its
scalar value, which takes the whole fragment; and on the terminal the bytes act
as `processChar` on each fragment in turn. -/
theorem C13_utf8_roundtrip (rs : List Nat) (hrs : ∀ r ∈ rs, isScalar r) :
    decodeAll [] (rs.map encodeRune).flatten = (rs.map encodeRune, []) ∧
    (∀ r ∈ rs, ∀ n, n < (encodeRune r).length →
      decodeAll [] ((encodeRune r).take n) = ([], (encodeRune r).take n)) ∧
    (∀ r ∈ rs, DecodeRuneInString (encodeRune r) = (r, (encodeRune r).length)) ∧
    (∀ t : Terminal, t.utf8Buffer = [] →
      feed t (rs.map encodeRune).flatten = feedChars t (rs.map encodeRune)) := by
  refine ⟨?_, ?_, fun r hr => decode_encodeRune (hrs r hr), feed_encoded rs hrs⟩
  · induction rs with
    | nil => rfl
    | cons r rs ih =>
      obtain ⟨hne, hlen, hv, hp⟩ := encodeRune_valid (hrs r (List.mem_cons_self _ _))
      show decodeAll [] (encodeRune r ++ (rs.map encodeRune).flatten) = _
      rw [decodeAll_append, decodeAll_fragment hlen hv hp (encodeRune r) [] rfl hne]
      simp only [ih (fun r hr => hrs r (List.mem_cons_of_mem _ hr))]
      rfl
  · intro r hr n hn
    obtain ⟨hne, hlen, hv, hp⟩ := encodeRune_valid (hrs r hr)
    have hl : ((encodeRune r).take n).length = n := by
      rw [List.length_take]
      omega
    have := decodeAll_prefix hlen hp ((encodeRune r).take n) []
      (by rw [List.nil_append, hl]; exact hn) (by rw [List.nil_append, hl])
    rw [List.nil_append] at this
    exact this

theorem C13_utf8_roundtrip_witness :
    decodeAll [] ([0x41, 0xE9, 0x4E2D, 0x1F600].map encodeRune).flatten =
        ([0x41, 0xE9, 0x4E2D, 0x1F600].map encodeRune, []) ∧
    (∀ r ∈ [0x41, 0xE9, 0x4E2D, 0x1F600], ∀ n, n < (encodeRune r).length →
      decodeAll [] ((encodeRune r).take n) = ([], (encodeRune r).take n)) ∧
    (∀ r ∈ [0x41, 0xE9, 0x4E2D, 0x1F600],
      DecodeRuneInString (encodeRune r) = (r, (encodeRune r).length)) ∧
    (∀ t : Terminal, t.utf8Buffer = [] →
      feed t ([0x41, 0xE9, 0x4E2D, 0x1F600].map encodeRune).flatten =
        feedChars t ([0x41, 0xE9, 0x4E2D, 0x1F600].map encodeRune)) :=
  C13_utf8_roundtrip [0x41, 0xE9, 0x4E2D, 0x1F600] (by decide)

/-! # C14: absolute cursor position -/

/-- `strings.Split(p, ";")` is the first field followed by the split of what
comes after the first separator. -/
theorem split_eq (p : Bytes) :
    split 59 p = firstField p ::
      (match afterSep p with
        | none => []
        | some q => split 59 q) := by
  induction p with
  | nil => rfl
  | cons c cs ih =>
    by_cases hc : c = 59
    · simp only [split, firstField, afterSep, if_pos hc]
    · simp only [split, firstField, afterSep, if_neg hc]
      rw [ih]

theorem split_ne_nil (p : Bytes) : split 59 p ≠ [] := by
  rw [split_eq]
  exact List.cons_ne_nil _ _

/-- `setCursorPosition` in terms of the two fields. -/
theorem setCursorPosition_eq (t : Terminal) (p : Bytes) :
    setCursorPosition t p = some { t with
      cursorY := max 0 (min (t.screenHeight - 1) (wrap64 (rowParam p - 1)))
      cursorX := max 0 (min (t.screenWidth - 1) (wrap64 (colParam p - 1))) } := by
  unfold setCursorPosition rowParam colParam
  simp only
  rw [split_eq p]
  cases ha : afterSep p with
  | none =>
    simp only [idx?_cons, if_true, Option.some_bind, List.length_cons, List.length_nil]
    rw [if_neg (by omega)]
    rfl
  | some q =>
    have hq := split_eq q
    simp only [idx?_cons, if_true, Option.some_bind]
    rw [hq]
    simp only [List.length_cons, idx?_cons, if_true]
    rw [if_pos (by omega), if_neg (by decide)]
    simp only [show (1 : Int) - 1 = 0 from rfl, if_true, Option.some_bind]

theorem feed_cursorPosition (t : Terminal) (p : Bytes) (f : Nat) (hu : t.utf8Buffer = [])
    (he : t.inEscape = false) (hb : t.escapeBuffer = [])
    (hp : ∀ b ∈ p, b < 128 ∧ isLetter b = false) (hf : f = 72 ∨ f = 102) :
    feed t (27 :: 91 :: (p ++ [f])) = some { t with
      cursorY := max 0 (min (t.screenHeight - 1) (wrap64 (rowParam p - 1)))
      cursorX := max 0 (min (t.screenWidth - 1) (wrap64 (colParam p - 1))) } := by
  rw [feed_csi t p f hu he hb hp (by rcases hf with rfl | rfl <;> decide)]
  unfold finishEscape
  rw [processEscapeSequence_csi, if_pos hf, setCursorPosition_eq, Option.some_bind]
  congr 1
  cases t
  simp_all

/-- C14 (outside the overflow of `row - 1`): for a parameter string `p` of ASCII
bytes without letters, `ESC [ p H` and `ESC [ p f` fed in Normal state change
only the cursor: to row `clamp(r - 1, 0, rows - 1)` and column
`clamp(c - 1, 0, cols - 1)` where `r` and `c` are the values of the first and
second field (default 1, so column 0 without a second field), as long as
neither value is `-2^63`; for `1 <= r <= rows` and `1 <= c <= cols` the cursor
is `(r - 1, c - 1)`; and for every `p` the cursor ends inside the grid. -/
theorem C14_cursor_position (t : Terminal) (p : Bytes) (f : Nat) (hu : t.utf8Buffer = [])
    (he : t.inEscape = false) (hb : t.escapeBuffer = [])
    (hp : ∀ b ∈ p, b < 128 ∧ isLetter b = false) (hf : f = 72 ∨ f = 102) :
    (rowParam p ≠ -2 ^ 63 → colParam p ≠ -2 ^ 63 →
      feed t (27 :: 91 :: (p ++ [f])) = some { t with
        cursorY := max 0 (min (t.screenHeight - 1) (rowParam p - 1))
        cursorX := max 0 (min (t.screenWidth - 1) (colParam p - 1)) }) ∧
    (1 ≤ rowParam p → rowParam p ≤ t.screenHeight → 1 ≤ colParam p →
      colParam p ≤ t.screenWidth →
      feed t (27 :: 91 :: (p ++ [f])) =
        some { t with cursorY := rowParam p - 1, cursorX := colParam p - 1 }) ∧
    (1 ≤ t.screenHeight → 1 ≤ t.screenWidth →
      ∃ t1, feed t (27 :: 91 :: (p ++ [f])) = some t1 ∧
        (0 ≤ t1.cursorY ∧ t1.cursorY < t.screenHeight) ∧
        (0 ≤ t1.cursorX ∧ t1.cursorX < t.screenWidth) ∧
        t1.screenBuffer = t.screenBuffer) := by
  have hr : -2 ^ 63 ≤ rowParam p ∧ rowParam p < 2 ^ 63 :=
    parseNumber_range (firstField p) (by norm_num) (by norm_num)
  have hc : -2 ^ 63 ≤ colParam p ∧ colParam p < 2 ^ 63 := by
    unfold colParam
    split
    · constructor <;> norm_num
    · exact parseNumber_range _ (by norm_num) (by norm_num)
  have hfeed := feed_cursorPosition t p f hu he hb hp hf
  refine ⟨?_, ?_, ?_⟩
  · intro h1 h2
    rw [hfeed, wrap64_eq (x := rowParam p - 1) (by omega) (by omega),
      wrap64_eq (x := colParam p - 1) (by omega) (by omega)]
  · intro h1 h2 h3 h4
    rw [hfeed, wrap64_eq (x := rowParam p - 1) (by omega) (by omega),
      wrap64_eq (x := colParam p - 1) (by omega) (by omega)]
    congr 1
    rw [min_eq_right (by omega), max_eq_right (by omega), min_eq_right (by omega),
      max_eq_right (by omega)]
  · intro h1 h2
    refine ⟨_, hfeed, ?_, ?_, rfl⟩
    · show 0 ≤ max 0 (min (t.screenHeight - 1) _) ∧ max 0 (min (t.screenHeight - 1) _) < _
      omega
    · show 0 ≤ max 0 (min (t.screenWidth - 1) _) ∧ max 0 (min (t.screenWidth - 1) _) < _
      omega

theorem C14_cursor_position_witness :
    feed (NewTerminal 3 2) [27, 91, 50, 59, 51, 72] =
      some { NewTerminal 3 2 with cursorY := rowParam [50, 59, 51] - 1,
                                  cursorX := colParam [50, 59, 51] - 1 } :=
  (C14_cursor_position (NewTerminal 3 2) [50, 59, 51] 72 rfl rfl rfl (by decide)
    (Or.inl rfl)).2.1 (by decide) (by decide) (by decide) (by decide)

/-- C14 (refuted by the code at one parameter): the first field
`-9223372036854775808` is the number `-2^63`, for which `clamp(r - 1, 0, rows - 1)`
is row 0; `parseNumber(parts[0], 1) - 1` wraps around to `2^63 - 1` and
`ESC [ -9223372036854775808 H` puts the cursor on the last row (row 1 of a
3 x 2 grid). -/
theorem C14_min_int_row_overflows :
    rowParam [45, 57, 50, 50, 51, 51, 55, 50, 48, 51, 54, 56, 53, 52, 55, 55, 53, 56, 48, 56] =
        -2 ^ 63 ∧
      max (0 : Int) (min (2 - 1) (-2 ^ 63 - 1)) = 0 ∧
      (feed (NewTerminal 3 2) [27, 91, 45, 57, 50, 50, 51, 51, 55, 50, 48, 51, 54, 56, 53, 52,
          55, 55, 53, 56, 48, 56, 72]).map (fun t => (t.cursorY, t.cursorX)) = some (1, 0) := by
  refine ⟨by decide, by decide, ?_⟩
  rfl

/-! # C15: relative cursor moves -/

/-- `strconv.Atoi` on a non-empty string of decimal digits below `2^63`. -/
theorem Atoi_digits {ds : Bytes} (hne : ds ≠ []) (hd : ds.all isDigit = true)
    (hv : digitsValue ds < 2 ^ 63) : Atoi ds = some (digitsValue ds : Int) := by
  cases ds with
  | nil => exact absurd rfl hne
  | cons d rest =>
    have hd0 : isDigit d = true := by
      simp only [List.all_cons, Bool.and_eq_true] at hd
      exact hd.1
    have hr : 48 ≤ d ∧ d ≤ 57 := by
      unfold isDigit at hd0
      exact of_decide_eq_true hd0
    obtain ⟨h48, h57⟩ := hr
    interval_cases d <;>
      (unfold Atoi
       simp only [List.cons_ne_nil, if_false]
       rw [if_pos hd]
       simp only [Bool.false_eq_true, if_false]
       rw [if_pos hv])

/-- `parseNumber(params, 1)` on a decimal parameter. -/
theorem parseNumber_digits {ds : Bytes} (hd : ds.all isDigit = true)
    (hv : paramValue ds < 2 ^ 63) : parseNumber ds 1 = paramValue ds := by
  unfold parseNumber paramValue at *
  by_cases hne : ds = []
  · rw [if_pos hne, if_pos hne]
  · rw [if_neg hne] at hv
    rw [if_neg hne, if_neg hne, Atoi_digits hne hd (by exact_mod_cast hv)]

theorem digits_not_letters {ds : Bytes} (hd : ds.all isDigit = true) :
    ∀ b ∈ ds, b < 128 ∧ isLetter b = false := by
  intro b hb
  have h := List.all_eq_true.mp hd b hb
  unfold isDigit at h
  have hr : 48 ≤ b ∧ b ≤ 57 := of_decide_eq_true h
  refine ⟨by omega, ?_⟩
  unfold isLetter
  exact decide_eq_false (by omega)

/-- C15: for a parameter of decimal digits denoting `N >= 1` (an empty parameter
denoting 1) and a cursor `(row, col)` with non-negative coordinates and
`row + N`, `col + N` below `2^63`, fed in Normal state: `ESC [ N A` changes only
`cursorY`, to `max(0, row - N)`; `ESC [ N B` only `cursorY`, to
`min(rows - 1, row + N)`; `ESC [ N C` only `cursorX`, to `min(cols - 1, col + N)`;
`ESC [ N D` only `cursorX`, to `max(0, col - N)`. -/
theorem C15_relative_moves (t : Terminal) (ds : Bytes) (hu : t.utf8Buffer = [])
    (he : t.inEscape = false) (hb : t.escapeBuffer = [])
    (hd : ds.all isDigit = true) (hN : 1 ≤ paramValue ds)
    (hy : 0 ≤ t.cursorY) (hx : 0 ≤ t.cursorX)
    (hrow : t.cursorY + paramValue ds < 2 ^ 63) (hcol : t.cursorX + paramValue ds < 2 ^ 63) :
    feed t (27 :: 91 :: (ds ++ [65])) =
        some { t with cursorY := max 0 (t.cursorY - paramValue ds) } ∧
      feed t (27 :: 91 :: (ds ++ [66])) =
        some { t with cursorY := min (t.screenHeight - 1) (t.cursorY + paramValue ds) } ∧
      feed t (27 :: 91 :: (ds ++ [67])) =
        some { t with cursorX := min (t.screenWidth - 1) (t.cursorX + paramValue ds) } ∧
      feed t (27 :: 91 :: (ds ++ [68])) =
        some { t with cursorX := max 0 (t.cursorX - paramValue ds) } := by
  have hp := digits_not_letters hd
  have hn := parseNumber_digits hd (by omega)
  have hpos : parseNumber ds 1 > 0 := by rw [hn]; omega
  refine ⟨?_, ?_, ?_, ?_⟩
  · rw [feed_csi t ds 65 hu he hb hp (by decide)]
    unfold finishEscape
    rw [processEscapeSequence_csi, if_neg (by decide), if_pos rfl, if_pos hpos, Option.some_bind,
      hn]
    show some { t with cursorY := max 0 (wrap64 (t.cursorY - paramValue ds)),
                       escapeBuffer := [], inEscape := false } = _
    rw [wrap64_eq (by omega) (by omega)]
    congr 1
    cases t
    simp_all
  · rw [feed_csi t ds 66 hu he hb hp (by decide)]
    unfold finishEscape
    rw [processEscapeSequence_csi, if_neg (by decide), if_neg (by decide), if_pos rfl, if_pos hpos,
      Option.some_bind, hn]
    show some { t with cursorY := min (t.screenHeight - 1) (wrap64 (t.cursorY + paramValue ds)),
                       escapeBuffer := [], inEscape := false } = _
    rw [wrap64_eq (by omega) (by omega)]
    congr 1
    cases t
    simp_all
  · rw [feed_csi t ds 67 hu he hb hp (by decide)]
    unfold finishEscape
    rw [processEscapeSequence_csi, if_neg (by decide), if_neg (by decide), if_neg (by decide),
      if_pos rfl, if_pos hpos, Option.some_bind, hn]
    show some { t with cursorX := min (t.screenWidth - 1) (wrap64 (t.cursorX + paramValue ds)),
                       escapeBuffer := [], inEscape := false } = _
    rw [wrap64_eq (by omega) (by omega)]
    congr 1
    cases t
    simp_all
  · rw [feed_csi t ds 68 hu he hb hp (by decide)]
    unfold finishEscape
    rw [processEscapeSequence_csi, if_neg (by decide), if_neg (by decide), if_neg (by decide),
      if_neg (by decide), if_pos rfl, if_pos hpos, Option.some_bind, hn]
    show some { t with cursorX := max 0 (wrap64 (t.cursorX - paramValue ds)),
                       escapeBuffer := [], inEscape := false } = _
    rw [wrap64_eq (by omega) (by omega)]
    congr 1
    cases t
    simp_all

theorem C15_relative_moves_witness :
    feed { NewTerminal 5 4 with cursorX := 2, cursorY := 1 } (27 :: 91 :: ([50] ++ [65])) =
        some { NewTerminal 5 4 with cursorX := 2, cursorY := max 0 (1 - paramValue [50]) } ∧
      feed { NewTerminal 5 4 with cursorX := 2, cursorY := 1 } (27 :: 91 :: ([50] ++ [66])) =
        some { NewTerminal 5 4 with cursorX := 2,
                                    cursorY := min (4 - 1) (1 + paramValue [50]) } ∧
      feed { NewTerminal 5 4 with cursorX := 2, cursorY := 1 } (27 :: 91 :: ([50] ++ [67])) =
        some { NewTerminal 5 4 with cursorY := 1,
                                    cursorX := min (5 - 1) (2 + paramValue [50]) } ∧
      feed { NewTerminal 5 4 with cursorX := 2, cursorY := 1 } (27 :: 91 :: ([50] ++ [68])) =
        some { NewTerminal 5 4 with cursorY := 1, cursorX := max 0 (2 - paramValue [50]) } :=
  C15_relative_moves { NewTerminal 5 4 with cursorX := 2, cursorY := 1 } [50] rfl rfl rfl
    (by decide) (by decide) (by decide) (by decide) (by decide) (by decide)

/-! # C16: erase in line -/

/-- `clearLine` on a well-shaped grid with the cursor on a cell of the grid. -/
theorem clearLine_spec {t : Terminal} (hs : Shaped t.screenBuffer t.screenHeight t.screenWidth)
    (hy : 0 ≤ t.cursorY ∧ t.cursorY < t.screenHeight)
    (hx : 0 ≤ t.cursorX ∧ t.cursorX < t.screenWidth) (ps : Bytes) :
    ∃ sb, clearLine t ps = some { t with screenBuffer := sb } ∧
      (∀ y x, getCell sb y x =
        if y = t.cursorY ∧
            ((parseNumber ps 0 = 0 ∧ t.cursorX ≤ x ∧ x < t.screenWidth) ∨
              (parseNumber ps 0 = 1 ∧ 0 ≤ x ∧ x ≤ t.cursorX) ∨
              (parseNumber ps 0 = 2 ∧ 0 ≤ x ∧ x < t.screenWidth)) then some blank
        else getCell t.screenBuffer y x) ∧
      (parseNumber ps 0 ≠ 0 → parseNumber ps 0 ≠ 1 → parseNumber ps 0 ≠ 2 →
        sb = t.screenBuffer) := by
  unfold clearLine
  simp only
  by_cases h0 : parseNumber ps 0 = 0
  · rw [if_pos h0]
    obtain ⟨b1, hb1, _, hc⟩ := blankCells_spec hs hy.1 hy.2 hx.1 (le_refl t.screenWidth)
    refine ⟨b1, by rw [hb1]; rfl, ?_, fun h => absurd h0 h⟩
    intro y x
    rw [hc]
    by_cases hc1 : y = t.cursorY ∧ t.cursorX ≤ x ∧ x < t.screenWidth
    · rw [if_pos hc1, if_pos ⟨hc1.1, Or.inl ⟨h0, hc1.2⟩⟩]
    · rw [if_neg hc1, if_neg]
      rintro ⟨e, h | h | h⟩
      · exact hc1 ⟨e, h.2⟩
      · omega
      · omega
  · rw [if_neg h0]
    by_cases h1 : parseNumber ps 0 = 1
    · rw [if_pos h1]
      obtain ⟨b1, hb1, _, hc⟩ := blankCells_spec hs hy.1 hy.2 (le_refl 0)
        (show t.cursorX + 1 ≤ t.screenWidth by omega)
      refine ⟨b1, by rw [hb1]; rfl, ?_, fun _ h => absurd h1 h⟩
      intro y x
      rw [hc]
      by_cases hc1 : y = t.cursorY ∧ 0 ≤ x ∧ x < t.cursorX + 1
      · rw [if_pos hc1, if_pos ⟨hc1.1, Or.inr (Or.inl ⟨h1, hc1.2.1, by omega⟩)⟩]
      · rw [if_neg hc1, if_neg]
        rintro ⟨e, h | h | h⟩
        · omega
        · exact hc1 ⟨e, h.2.1, by omega⟩
        · omega
    · rw [if_neg h1]
      by_cases h2 : parseNumber ps 0 = 2
      · rw [if_pos h2]
        obtain ⟨b1, hb1, _, hc⟩ := blankCells_spec hs hy.1 hy.2 (le_refl 0)
          (le_refl t.screenWidth)
        refine ⟨b1, by rw [hb1]; rfl, ?_, fun _ _ h => absurd h2 h⟩
        intro y x
        rw [hc]
        by_cases hc1 : y = t.cursorY ∧ 0 ≤ x ∧ x < t.screenWidth
        · rw [if_pos hc1, if_pos ⟨hc1.1, Or.inr (Or.inr ⟨h2, hc1.2⟩)⟩]
        · rw [if_neg hc1, if_neg]
          rintro ⟨e, h | h | h⟩
          · omega
          · omega
          · exact hc1 ⟨e, h.2⟩
      · rw [if_neg h2]
        refine ⟨t.screenBuffer, by cases t; rfl, ?_, fun _ _ _ => rfl⟩
        intro y x
        rw [if_neg]
        rintro ⟨_, h | h | h⟩
        · exact h0 h.1
        · exact h1 h.1
        · exact h2 h.1

/-! # C17: line feed -/

theorem processByte_lineFeed {t : Terminal} (hu : t.utf8Buffer = []) (he : t.inEscape = false) :
    processByte t 10 = lineFeed t := by
  rw [processByte_ascii (by norm_num) hu]
  unfold processChar
  simp [he]

/-- C17: a line feed byte processed in Normal state on an allocated terminal
with the cursor on row `r`: below the last row only the cursor changes, to
`(r + 1, 0)`; on the last row one `scrollUp` runs, after which the cursor is at
`(rows - 1, 0)`, grid row `i < rows - 1` is the old row `i + 1`, the last row is
blank, and the newest stored history row (index `totalLines - 1` of the store,
with `totalLines` one more than before unless the store was full) is the old
grid row 0. -/
theorem C17_line_feed (t : Terminal) (ha : Allocated t) (hu : t.utf8Buffer = [])
    (he : t.inEscape = false) (hy : 0 ≤ t.cursorY ∧ t.cursorY < t.screenHeight) :
    (t.cursorY < t.screenHeight - 1 →
      processByte t 10 = some { t with cursorX := 0, cursorY := t.cursorY + 1 }) ∧
    (t.cursorY = t.screenHeight - 1 →
      ∃ t1 row0, processByte t 10 = some t1 ∧ t1.cursorX = 0 ∧
        t1.cursorY = t.screenHeight - 1 ∧
        (∀ i, 0 ≤ i → i < t.screenHeight - 1 →
          idx? t1.screenBuffer i = idx? t.screenBuffer (i + 1)) ∧
        idx? t1.screenBuffer (t.screenHeight - 1) = some (blankRow t.screenWidth) ∧
        t1.totalLines = min (t.totalLines + 1) t.maxHistory ∧
        idx? t.screenBuffer 0 = some row0 ∧
        idx? t1.totalBuffer (t1.totalLines - 1) = some row0) := by
  rw [processByte_lineFeed hu he]
  constructor
  · intro hlt
    exact lineFeed_noscroll (by omega)
  · intro hlast
    have ha0 : Allocated { t with cursorX := 0, cursorY := t.cursorY + 1 } := ha
    obtain ⟨t1, ht1, _, _, _, _, f4, f5, _, _, _, _, f10, _, hrows, hhist⟩ := scrollUp_spec ha0
    obtain ⟨row0, hrow0, _⟩ := ha.2.2.2.1.row_exists (y := 0) (le_refl 0) (by omega)
    refine ⟨t1, row0, by rw [lineFeed_scroll (by omega)]; exact ht1, f4, f5, ?_, ?_, f10, hrow0, ?_⟩
    · intro i hi0 hi1
      rw [hrows i, if_neg (by show ¬ (i = t.screenHeight - 1); omega), if_pos hi0]
    · rw [hrows, if_pos rfl]
    · rw [hhist, if_pos rfl]
      exact hrow0

theorem C17_line_feed_witness :
    processByte (newTerminalWith 2 2 2) 10 =
        some { newTerminalWith 2 2 2 with cursorX := 0, cursorY := 0 + 1 } ∧
    ∃ t1 row0, processByte { newTerminalWith 2 2 2 with
          screenBuffer := [[asciiCell 97, asciiCell 98], [asciiCell 99, blank]],
          cursorX := 1, cursorY := 1 } 10 = some t1 ∧ t1.cursorX = 0 ∧
      t1.cursorY = 2 - 1 ∧
      (∀ i, 0 ≤ i → i < 2 - 1 →
        idx? t1.screenBuffer i =
          idx? [[asciiCell 97, asciiCell 98], [asciiCell 99, blank]] (i + 1)) ∧
      idx? t1.screenBuffer (2 - 1) = some (blankRow 2) ∧
      t1.totalLines = min (0 + 1) 2 ∧
      idx? [[asciiCell 97, asciiCell 98], [asciiCell 99, blank]] 0 = some row0 ∧
      idx? t1.totalBuffer (t1.totalLines - 1) = some row0 :=
  ⟨(C17_line_feed (newTerminalWith 2 2 2) (by decide) rfl rfl (by decide)).1 (by decide),
    (C17_line_feed { newTerminalWith 2 2 2 with
        screenBuffer := [[asciiCell 97, asciiCell 98], [asciiCell 99, blank]],
        cursorX := 1, cursorY := 1 } (by decide) rfl rfl (by decide)).2 rfl⟩

/-! # C18: backspace at the start of a row -/

/-- The scan loop of `handleBackspace` stops on the last cell at or before the
cursor that is not vacant, or at `-1`. -/
theorem scanBack_spec :
    ∀ (fuel : Nat) (t : Terminal), Shaped t.screenBuffer t.screenHeight t.screenWidth →
      0 ≤ t.cursorY → t.cursorY < t.screenHeight → -1 ≤ t.cursorX →
      t.cursorX < t.screenWidth → t.cursorX + 1 < fuel →
      ∃ j, scanBack fuel t = some { t with cursorX := j } ∧ -1 ≤ j ∧ j ≤ t.cursorX ∧
        (∀ x, j < x → x ≤ t.cursorX →
          ∃ c, getCell t.screenBuffer t.cursorY x = some c ∧ Vacant c) ∧
        (0 ≤ j → ∃ c, getCell t.screenBuffer t.cursorY j = some c ∧ ¬ Vacant c) := by
  intro fuel
  induction fuel with
  | zero => intro t _ _ _ h1 _ h2; omega
  | succ n ih =>
    intro t hs hy0 hy1 hx0 hx1 hf
    have hself : ({ t with cursorX := t.cursorX } : Terminal) = t := by cases t; rfl
    unfold scanBack
    by_cases hge : t.cursorX ≥ 0
    · rw [if_pos hge]
      obtain ⟨c, hc⟩ := hs.getCell_exists hy0 hy1 hge hx1
      rw [hc, Option.some_bind]
      by_cases hv : c.char = [32] ∨ c.width = 0
      · rw [if_pos hv]
        obtain ⟨j, hj, j0, j1, hvac, hink⟩ := ih { t with cursorX := t.cursorX - 1 } hs hy0 hy1
          (by show -1 ≤ t.cursorX - 1; omega) (by show t.cursorX - 1 < t.screenWidth; omega)
          (by show t.cursorX - 1 + 1 < (n : Int); omega)
        refine ⟨j, hj, j0, by have : j ≤ t.cursorX - 1 := j1; omega, ?_, hink⟩
        intro x hx0' hx1'
        by_cases hxe : x = t.cursorX
        · exact ⟨c, by rw [hxe]; exact hc, hv⟩
        · exact hvac x hx0' (by show x ≤ t.cursorX - 1; omega)
      · rw [if_neg hv]
        refine ⟨t.cursorX, by rw [hself], hx0, le_refl _, ?_, fun _ => ⟨c, hc, hv⟩⟩
        intro x h1 h2
        omega
    · rw [if_neg hge]
      refine ⟨t.cursorX, by rw [hself], hx0, le_refl _, ?_, fun h => absurd h hge⟩
      intro x h1 h2
      omega

/-- C18 (as stated, refuted): on a 2 x 2 grid whose row 0 is `ab`, a backspace
with the cursor at (1,0) moves the cursor to (0,1); the position just past the
last non-blank cell of row 0, which is at column 1, is column 2. -/
theorem C18_full_row_clamps :
    getCell [[asciiCell 97, asciiCell 98], [blank, blank]] 0 1 = some (asciiCell 98) ∧
      processByte { newTerminalWith 2 2 2 with
          screenBuffer := [[asciiCell 97, asciiCell 98], [blank, blank]], cursorY := 1 } 8 =
        some { newTerminalWith 2 2 2 with
          screenBuffer := [[asciiCell 97, asciiCell 98], [blank, blank]],
          cursorY := 0, cursorX := 1 } := by
  constructor
  · decide
  · rfl

/-- C18 (amended): a backspace byte in Normal state with the cursor at column 0
of row `r > 0` of a well-shaped grid changes only the cursor: to row `r - 1`,
and to column `min(cols - 1, j + 1)`, or `min(cols - 1, j + 2)` when the cell is
a width-2 glyph, where `j` is the column of the last cell of row `r - 1` that is
neither blank nor a placeholder; to column 0 when that row has no such cell.
With the cursor at (0,0) the state is unchanged. -/
theorem C18_backspace_line_start (t : Terminal)
    (hs : Shaped t.screenBuffer t.screenHeight t.screenWidth) (hw : 1 ≤ t.screenWidth)
    (hu : t.utf8Buffer = []) (he : t.inEscape = false) (hx : t.cursorX = 0) :
    (0 < t.cursorY → t.cursorY < t.screenHeight →
      ∃ j, -1 ≤ j ∧ j < t.screenWidth ∧
        (∀ x, j < x → x < t.screenWidth →
          ∃ c, getCell t.screenBuffer (t.cursorY - 1) x = some c ∧ Vacant c) ∧
        (j = -1 → processByte t 8 = some { t with cursorY := t.cursorY - 1, cursorX := 0 }) ∧
        (0 ≤ j → ∃ c, getCell t.screenBuffer (t.cursorY - 1) j = some c ∧ ¬ Vacant c ∧
          processByte t 8 = some { t with
            cursorY := t.cursorY - 1
            cursorX := min (t.screenWidth - 1) (j + (if c.width = 2 then 2 else 1)) })) ∧
    (t.cursorY = 0 → processByte t 8 = some t) := by
  rw [processByte_backspace hu he]
  constructor
  · intro hy0 hy1
    obtain ⟨j, hj, j0, j1, hvac, hink⟩ := scanBack_spec (t.screenWidth.toNat + 1)
      { t with cursorY := t.cursorY - 1, cursorX := t.screenWidth - 1 } hs
      (by show 0 ≤ t.cursorY - 1; omega) (by show t.cursorY - 1 < t.screenHeight; omega)
      (by show -1 ≤ t.screenWidth - 1; omega) (by show t.screenWidth - 1 < t.screenWidth; omega)
      (by show t.screenWidth - 1 + 1 < ((t.screenWidth.toNat + 1 : Nat) : Int); omega)
    have j1' : j ≤ t.screenWidth - 1 := j1
    have hhb : handleBackspace t =
        ((if j ≥ 0 then
          (getCell t.screenBuffer (t.cursorY - 1) j).bind (fun c =>
            if c.width = 2 then
              some { t with cursorY := t.cursorY - 1, cursorX := j + 2 }
            else some { t with cursorY := t.cursorY - 1, cursorX := j + 1 })
        else some { t with cursorY := t.cursorY - 1, cursorX := 0 }).bind (fun t3 =>
          if t3.cursorX ≥ t3.screenWidth then some { t3 with cursorX := t3.screenWidth - 1 }
          else some t3)) := by
      unfold handleBackspace
      rw [if_neg (by omega), if_pos (by omega)]
      simp only
      rw [hj, Option.some_bind]
    refine ⟨j, j0, by omega, ?_, ?_, ?_⟩
    · intro x hx0 hx1
      exact hvac x hx0 (by show x ≤ t.screenWidth - 1; omega)
    · intro hneg
      rw [hhb, if_neg (by omega), Option.some_bind,
        if_neg (by show ¬ ((0 : Int) ≥ t.screenWidth); omega)]
    · intro hpos
      obtain ⟨c, hc, hnv⟩ := hink hpos
      have hc' : getCell t.screenBuffer (t.cursorY - 1) j = some c := hc
      refine ⟨c, hc', hnv, ?_⟩
      rw [hhb, if_pos hpos, hc', Option.some_bind]
      by_cases hw2 : c.width = 2
      · rw [if_pos hw2, if_pos hw2, Option.some_bind]
        by_cases hcl : j + 2 ≥ t.screenWidth
        · rw [if_pos (by exact hcl), min_eq_left (by omega)]
        · rw [if_neg (by exact hcl), min_eq_right (by omega)]
      · rw [if_neg hw2, if_neg hw2, Option.some_bind]
        by_cases hcl : j + 1 ≥ t.screenWidth
        · rw [if_pos (by exact hcl), min_eq_left (by omega)]
        · rw [if_neg (by exact hcl), min_eq_right (by omega)]
  · intro hy
    unfold handleBackspace
    rw [if_neg (by omega), if_neg (by omega)]

theorem C18_backspace_line_start_witness :
    (∃ j, -1 ≤ j ∧ j < 3 ∧
      (∀ x, j < x → x < 3 →
        ∃ c, getCell [[asciiCell 97, blank, blank], [blank, blank, blank]] (1 - 1) x = some c ∧
          Vacant c) ∧
      (j = -1 → processByte { newTerminalWith 2 3 2 with
            screenBuffer := [[asciiCell 97, blank, blank], [blank, blank, blank]],
            cursorY := 1 } 8 =
          some { newTerminalWith 2 3 2 with
            screenBuffer := [[asciiCell 97, blank, blank], [blank, blank, blank]],
            cursorY := 1 - 1, cursorX := 0 }) ∧
      (0 ≤ j →
        ∃ c, getCell [[asciiCell 97, blank, blank], [blank, blank, blank]] (1 - 1) j = some c ∧
          ¬ Vacant c ∧
          processByte { newTerminalWith 2 3 2 with
              screenBuffer := [[asciiCell 97, blank, blank], [blank, blank, blank]],
              cursorY := 1 } 8 =
            some { newTerminalWith 2 3 2 with
              screenBuffer := [[asciiCell 97, blank, blank], [blank, blank, blank]],
              cursorY := 1 - 1,
              cursorX := min (3 - 1) (j + (if c.width = 2 then 2 else 1)) })) ∧
    processByte (newTerminalWith 2 3 2) 8 = some (newTerminalWith 2 3 2) :=
  ⟨(C18_backspace_line_start { newTerminalWith 2 3 2 with
        screenBuffer := [[asciiCell 97, blank, blank], [blank, blank, blank]],
        cursorY := 1 } (by decide) (by decide) rfl rfl rfl).1 (by decide) (by decide),
    (C18_backspace_line_start (newTerminalWith 2 3 2) (by decide) (by decide) rfl rfl rfl).2 rfl⟩

/-! # C19: the rows shown by a scrolled view -/

/-- `updateDisplayBuffer` with a view offset other than 0 and a non-empty
history: grid row `y` becomes history row `s + y` when that row is stored and a
blank row otherwise, `s = max(0, totalLines - viewOffset - screenHeight)`. -/
theorem updateDisplayBuffer_spec {t : Terminal} (ha : Allocated t) (hv : t.viewOffset ≠ 0)
    (hT : t.totalLines ≠ 0) :
    ∃ sb, updateDisplayBuffer t = some { t with screenBuffer := sb } ∧
      Shaped sb t.screenHeight t.screenWidth ∧
      ∀ y, 0 ≤ y → y < t.screenHeight →
        idx? sb y =
          if max 0 (t.totalLines - t.viewOffset - t.screenHeight) + y < t.totalLines then
            idx? t.totalBuffer (max 0 (t.totalLines - t.viewOffset - t.screenHeight) + y)
          else some (blankRow t.screenWidth) := by
  obtain ⟨hw, hh, hm, hsb, htb, htl0, htl1⟩ := ha
  unfold updateDisplayBuffer
  rw [if_neg (by rintro (h | h); exact hv h; exact hT h)]
  simp only
  obtain ⟨sb, hsb1, hp, hrows⟩ := forRange_inv (fun y sb =>
      if max 0 (t.totalLines - t.viewOffset - t.screenHeight) + y ≥ 0 ∧
          max 0 (t.totalLines - t.viewOffset - t.screenHeight) + y < t.totalLines ∧
          max 0 (t.totalLines - t.viewOffset - t.screenHeight) + y < t.maxHistory then
        copyRow sb y t.totalBuffer (max 0 (t.totalLines - t.viewOffset - t.screenHeight) + y)
      else blankCells sb y 0 t.screenWidth)
    (fun k sb => Shaped sb t.screenHeight t.screenWidth ∧
      ∀ y, idx? sb y =
        if 0 ≤ y ∧ y < (k : Int) then
          (if max 0 (t.totalLines - t.viewOffset - t.screenHeight) + y < t.totalLines then
            idx? t.totalBuffer (max 0 (t.totalLines - t.viewOffset - t.screenHeight) + y)
          else some (blankRow t.screenWidth))
        else idx? t.screenBuffer y)
    0 t.screenHeight t.screenBuffer
    ⟨hsb, fun y => by rw [if_neg (by omega)]⟩ (by
      intro k hk sb hs
      obtain ⟨hs, hrows⟩ := hs
      beta_reduce
      by_cases hc : max 0 (t.totalLines - t.viewOffset - t.screenHeight) + (0 + (k : Int)) ≥ 0 ∧
          max 0 (t.totalLines - t.viewOffset - t.screenHeight) + (0 + (k : Int)) < t.totalLines ∧
          max 0 (t.totalLines - t.viewOffset - t.screenHeight) + (0 + (k : Int)) < t.maxHistory
      · rw [if_pos hc]
        obtain ⟨r, hr, hrl⟩ := htb.row_exists (y := max 0 (t.totalLines - t.viewOffset -
          t.screenHeight) + (0 + (k : Int))) hc.1 hc.2.2
        obtain ⟨b1, hb1, hs1, hi1⟩ := copyRow_spec hs (d := 0 + (k : Int)) (by omega) hk hr hrl
        refine ⟨b1, hb1, hs1, ?_⟩
        intro y
        rw [hi1, hrows]
        by_cases hy : y = 0 + (k : Int)
        · have e1 : 0 ≤ y ∧ y < ((k + 1 : Nat) : Int) := by push_cast; omega
          rw [if_pos hy, if_pos e1, hy, if_pos hc.2.1, hr]
        · rw [if_neg hy]
          by_cases hy2 : 0 ≤ y ∧ y < (k : Int)
          · have e1 : 0 ≤ y ∧ y < ((k + 1 : Nat) : Int) := by push_cast; omega
            rw [if_pos hy2, if_pos e1]
          · have e1 : ¬ (0 ≤ y ∧ y < ((k + 1 : Nat) : Int)) := by push_cast; omega
            rw [if_neg hy2, if_neg e1]
      · rw [if_neg hc]
        obtain ⟨b1, hb1, hs1, hi1⟩ := blankCells_row hs (y := 0 + (k : Int)) (by omega) hk
          (by omega)
        refine ⟨b1, hb1, hs1, ?_⟩
        intro y
        rw [hi1, hrows]
        by_cases hy : y = 0 + (k : Int)
        · have e1 : 0 ≤ y ∧ y < ((k + 1 : Nat) : Int) := by push_cast; omega
          have e2 : ¬ (max 0 (t.totalLines - t.viewOffset - t.screenHeight) + y <
              t.totalLines) := by
            rw [hy]
            intro h
            exact hc ⟨by omega, h, by omega⟩
          rw [if_pos hy, if_pos e1, if_neg e2]
        · rw [if_neg hy]
          by_cases hy2 : 0 ≤ y ∧ y < (k : Int)
          · have e1 : 0 ≤ y ∧ y < ((k + 1 : Nat) : Int) := by push_cast; omega
            rw [if_pos hy2, if_pos e1]
          · have e1 : ¬ (0 ≤ y ∧ y < ((k + 1 : Nat) : Int)) := by push_cast; omega
            rw [if_neg hy2, if_neg e1])
  refine ⟨sb, by rw [hsb1]; rfl, hp, ?_⟩
  intro y hy0 hy1
  have e1 : 0 ≤ y ∧ y < (((t.screenHeight - 0).toNat : Nat) : Int) := by omega
  rw [hrows, if_pos e1]

/-- C19: on an allocated terminal, when `ScrollView(delta)` settles on a view
offset `v > 0` other than the old one, the call succeeds and changes only the
view offset, to `v`, and the grid: row `y` of the grid is then stored history
row `s + y` when `s + y < totalLines` and a row of blanks otherwise, with
`s = max(0, totalLines - v - rows)`; the cursor, the history store and
`totalLines` are as before. -/
theorem C19_scrolled_view (t : Terminal) (delta : Int) (ha : Allocated t)
    (hne : newOffset t delta ≠ t.viewOffset) (hpos : 0 < newOffset t delta) :
    ∃ sb, ScrollView t delta =
        some { t with viewOffset := newOffset t delta, screenBuffer := sb } ∧
      ∀ y, 0 ≤ y → y < t.screenHeight →
        idx? sb y =
          if max 0 (t.totalLines - newOffset t delta - t.screenHeight) + y < t.totalLines then
            idx? t.totalBuffer (max 0 (t.totalLines - newOffset t delta - t.screenHeight) + y)
          else some (blankRow t.screenWidth) := by
  have hT : t.totalLines ≠ 0 := by
    intro h0
    unfold newOffset at hpos
    rw [h0] at hpos
    split at hpos
    · omega
    · split at hpos
      · omega
      · omega
  have ha1 : Allocated { t with viewOffset := newOffset t delta } := ha
  obtain ⟨sb, hsb, _, hrows⟩ := updateDisplayBuffer_spec ha1 (by show newOffset t delta ≠ 0; omega)
    hT
  refine ⟨sb, ?_, hrows⟩
  rw [ScrollView_eq, if_pos hne, hsb]

theorem C19_scrolled_view_witness :
    ∃ sb, ScrollView { newTerminalWith 3 2 2 with
            totalBuffer := [[asciiCell 97, blank], [asciiCell 98, blank], [blank, blank]],
            totalLines := 2 } 1 =
        some { newTerminalWith 3 2 2 with
            totalBuffer := [[asciiCell 97, blank], [asciiCell 98, blank], [blank, blank]],
            totalLines := 2,
            viewOffset := newOffset { newTerminalWith 3 2 2 with
              totalBuffer := [[asciiCell 97, blank], [asciiCell 98, blank], [blank, blank]],
              totalLines := 2 } 1,
            screenBuffer := sb } ∧
      ∀ y, 0 ≤ y → y < 2 →
        idx? sb y =
          if max 0 (2 - newOffset { newTerminalWith 3 2 2 with
              totalBuffer := [[asciiCell 97, blank], [asciiCell 98, blank], [blank, blank]],
              totalLines := 2 } 1 - 2) + y < 2 then
            idx? [[asciiCell 97, blank], [asciiCell 98, blank], [blank, blank]]
              (max 0 (2 - newOffset { newTerminalWith 3 2 2 with
                totalBuffer := [[asciiCell 97, blank], [asciiCell 98, blank], [blank, blank]],
                totalLines := 2 } 1 - 2) + y)
          else some (blankRow 2) :=
  C19_scrolled_view { newTerminalWith 3 2 2 with
      totalBuffer := [[asciiCell 97, blank], [asciiCell 98, blank], [blank, blank]],
      totalLines := 2 } 1 (by decide) (by decide) (by decide)

/-! # C20: the bounds of the view offset -/

theorem newOffset_range (t : Terminal) (delta : Int) :
    0 ≤ newOffset t delta ∧ newOffset t delta ≤ max 0 (t.totalLines - 1) := by
  unfold newOffset
  split
  · omega
  · split
    · omega
    · omega

theorem newOffset_clamp (t : Terminal) (delta : Int) (h0 : -2 ^ 63 ≤ t.viewOffset + delta)
    (h1 : t.viewOffset + delta < 2 ^ 63) :
    newOffset t delta = max 0 (min (max 0 (t.totalLines - 1)) (t.viewOffset + delta)) := by
  unfold newOffset
  rw [wrap64_eq h0 h1]
  split
  · omega
  · split
    · omega
    · omega

theorem updateDisplayBuffer_same {t t1 : Terminal} (h : updateDisplayBuffer t = some t1) :
    SameHistory t t1 := by
  unfold updateDisplayBuffer at h
  split at h
  · simp only [Option.some.injEq] at h
    subst h
    exact SameHistory.refl _
  · simp only [Option.bind_eq_some, Option.some.injEq] at h
    obtain ⟨sb, _, rfl⟩ := h
    exact ⟨rfl, rfl, rfl, rfl⟩

/-- Whenever `ScrollView` returns, it has changed the view offset to the offset
it settles on, and no other history field. -/
theorem ScrollView_step {t t1 : Terminal} {delta : Int} (h : ScrollView t delta = some t1) :
    t1.viewOffset = newOffset t delta ∧ t1.totalLines = t.totalLines ∧
      t1.maxHistory = t.maxHistory := by
  rw [ScrollView_eq] at h
  split at h
  · obtain ⟨_, a2, a3, a4⟩ := updateDisplayBuffer_same h
    exact ⟨a4, a3, a2⟩
  · simp only [Option.some.injEq] at h
    subst h
    exact ⟨rfl, rfl, rfl⟩

theorem ScrollView_total {t : Terminal} (ha : Allocated t) (delta : Int) :
    ∃ t1, ScrollView t delta = some t1 := by
  rw [ScrollView_eq]
  split
  · have ha1 : Allocated { t with viewOffset := newOffset t delta } := ha
    obtain ⟨sb, hsb, _⟩ := updateDisplayBuffer_total ha1
    exact ⟨_, hsb⟩
  · exact ⟨_, rfl⟩

theorem run_viewOK (es : List Event) :
    ∀ (t0 t : Terminal), ViewOK t0 → run t0 es = some t →
      ViewOK t ∧ t.maxHistory = t0.maxHistory := by
  induction es with
  | nil =>
    intro t0 t hv h
    simp only [run, Option.some.injEq] at h
    subst h
    exact ⟨hv, rfl⟩
  | cons e es ih =>
    intro t0 t hv h
    cases e with
    | byte b =>
      simp only [run, Option.bind_eq_some] at h
      obtain ⟨t1, h1, h2⟩ := h
      obtain ⟨hm, hstep⟩ := processByte_step h1
      obtain ⟨hv2, hm2⟩ := ih t1 t (hstep hv) h2
      exact ⟨hv2, hm2.trans hm⟩
    | scroll delta =>
      simp only [run, Option.bind_eq_some] at h
      obtain ⟨t1, h1, h2⟩ := h
      obtain ⟨e1, e2, e3⟩ := ScrollView_step h1
      have hv1 : ViewOK t1 := by
        unfold ViewOK at hv ⊢
        have := newOffset_range t0 delta
        rw [e1, e2, e3]
        exact ⟨this, hv.2⟩
      obtain ⟨hv2, hm2⟩ := ih t1 t hv1 h2
      exact ⟨hv2, hm2.trans e3⟩

set_option maxRecDepth 100000 in
/-- `ScrollView` adds in 64 bits: after `a LF b LF c LF` on a 2 x 2 grid and
`ScrollView(1)`, two rows are stored and the view offset is 1; a call
`ScrollView(9223372036854775807)`, which the key handler never makes (it passes
3 and -3), would wrap `viewOffset + delta` and settle on view offset 0, where
the clamp of the unbounded sum is 1. -/
theorem ScrollView_wraps_at_top :
    (run (NewTerminal 2 2) [Event.byte 97, Event.byte 10, Event.byte 98, Event.byte 10,
        Event.byte 99, Event.byte 10, Event.scroll 1]).bind (fun t =>
      (ScrollView t 9223372036854775807).map (fun t1 =>
        (t.totalLines, t.viewOffset, t1.viewOffset))) = some (2, 1, 0) ∧
      max (0 : Int) (min (max 0 (2 - 1)) (1 + 9223372036854775807)) = 1 := by
  constructor
  · rfl
  · decide

/-- C20: in every state reached from the initial state by bytes and
`ScrollView` calls in any order, `0 <= viewOffset <= max(0, totalLines - 1)` and
`0 <= totalLines <= maxHistory` (and `maxHistory` is still 1000); whenever
`ScrollView(delta)` returns from such a state, for a 64-bit `delta` whose sum
with the view offset is below `2^63` (every `delta <= 2^63 - 1000` is such a
one, the key handler's 3 and -3 among them), the view offset is
`clamp(viewOffset + delta, 0, max(0, totalLines - 1))` and `totalLines` is
unchanged; and `ScrollView` returns on every allocated terminal. -/
theorem C20_view_offset_bounds (cols rows : Int) (es : List Event) (t : Terminal)
    (hrun : run (NewTerminal cols rows) es = some t) :
    ((0 ≤ t.viewOffset ∧ t.viewOffset ≤ max 0 (t.totalLines - 1)) ∧
        0 ≤ t.totalLines ∧ t.totalLines ≤ t.maxHistory) ∧
      t.maxHistory = 1000 ∧
      (∀ delta t1, ScrollView t delta = some t1 → -2 ^ 63 ≤ delta →
        t.viewOffset + delta < 2 ^ 63 →
        t1.viewOffset = max 0 (min (max 0 (t.totalLines - 1)) (t.viewOffset + delta)) ∧
          t1.totalLines = t.totalLines) ∧
      (∀ delta t1, ScrollView t delta = some t1 → -2 ^ 63 ≤ delta → delta ≤ 2 ^ 63 - 1000 →
        t1.viewOffset = max 0 (min (max 0 (t.totalLines - 1)) (t.viewOffset + delta)) ∧
          t1.totalLines = t.totalLines) ∧
      (Allocated t → ∀ delta, ∃ t1, ScrollView t delta = some t1) := by
  have h0 : ViewOK (NewTerminal cols rows) := by
    unfold ViewOK
    show ((0 : Int) ≤ 0 ∧ (0 : Int) ≤ max 0 (0 - 1)) ∧ (0 : Int) ≤ 0 ∧ (0 : Int) ≤ 1000
    decide
  obtain ⟨hv, hm⟩ := run_viewOK es _ t h0 hrun
  have hm1 : t.maxHistory = 1000 := hm
  have key : ∀ delta t1, ScrollView t delta = some t1 → -2 ^ 63 ≤ delta →
      t.viewOffset + delta < 2 ^ 63 →
      t1.viewOffset = max 0 (min (max 0 (t.totalLines - 1)) (t.viewOffset + delta)) ∧
        t1.totalLines = t.totalLines := by
    intro delta t1 hs hd0 hd1
    obtain ⟨e1, e2, _⟩ := ScrollView_step hs
    have hv0 : 0 ≤ t.viewOffset := hv.1.1
    rw [e1, newOffset_clamp t delta (by omega) hd1]
    exact ⟨rfl, e2⟩
  refine ⟨hv, hm, key, ?_, fun ha delta => ScrollView_total ha delta⟩
  intro delta t1 hs hd0 hd1
  have hv1 := hv.1.2
  have hv2 := hv.2.2
  exact key delta t1 hs hd0 (by omega)

set_option maxRecDepth 100000 in
theorem C20_view_offset_bounds_witness :
    (((0 : Int) ≤ 1 ∧ (1 : Int) ≤ max 0 (2 - 1)) ∧ (0 : Int) ≤ 2 ∧ (2 : Int) ≤ 1000) ∧
      (1000 : Int) = 1000 ∧
      (∀ delta t1, ScrollView { NewTerminal 2 2 with
            screenBuffer := [[asciiCell 97, blank], [asciiCell 98, blank]],
            totalBuffer := [asciiCell 97, blank] :: [asciiCell 98, blank] :: blankRows 998 2,
            totalLines := 2, viewOffset := 1, cursorY := 1 } delta =
          some t1 → -2 ^ 63 ≤ delta → 1 + delta < 2 ^ 63 →
        t1.viewOffset = max 0 (min (max 0 (2 - 1)) (1 + delta)) ∧ t1.totalLines = 2) ∧
      (∀ delta t1, ScrollView { NewTerminal 2 2 with
            screenBuffer := [[asciiCell 97, blank], [asciiCell 98, blank]],
            totalBuffer := [asciiCell 97, blank] :: [asciiCell 98, blank] :: blankRows 998 2,
            totalLines := 2, viewOffset := 1, cursorY := 1 } delta =
          some t1 → -2 ^ 63 ≤ delta → delta ≤ 2 ^ 63 - 1000 →
        t1.viewOffset = max 0 (min (max 0 (2 - 1)) (1 + delta)) ∧ t1.totalLines = 2) ∧
      (Allocated { NewTerminal 2 2 with
            screenBuffer := [[asciiCell 97, blank], [asciiCell 98, blank]],
            totalBuffer := [asciiCell 97, blank] :: [asciiCell 98, blank] :: blankRows 998 2,
            totalLines := 2, viewOffset := 1, cursorY := 1 } →
        ∀ delta, ∃ t1, ScrollView { NewTerminal 2 2 with
            screenBuffer := [[asciiCell 97, blank], [asciiCell 98, blank]],
            totalBuffer := [asciiCell 97, blank] :: [asciiCell 98, blank] :: blankRows 998 2,
            totalLines := 2, viewOffset := 1, cursorY := 1 } delta =
          some t1) :=
  C20_view_offset_bounds 2 2
    [Event.byte 97, Event.byte 10, Event.byte 98, Event.byte 10, Event.byte 99, Event.byte 10,
      Event.scroll 1]
    { NewTerminal 2 2 with
      screenBuffer := [[asciiCell 97, blank], [asciiCell 98, blank]],
      totalBuffer := [asciiCell 97, blank] :: [asciiCell 98, blank] :: blankRows 998 2,
      totalLines := 2, viewOffset := 1, cursorY := 1 }
    rfl

/-! # C21: the escape parser -/

/-- `clearScreen` returns on a well-shaped grid with the cursor on a cell. -/
theorem clearScreen_total {t : Terminal} (hs : Shaped t.screenBuffer t.screenHeight t.screenWidth)
    (hy : 0 ≤ t.cursorY ∧ t.cursorY < t.screenHeight)
    (hx : 0 ≤ t.cursorX ∧ t.cursorX < t.screenWidth) (ps : Bytes) :
    ∃ t1, clearScreen t ps = some t1 := by
  unfold clearScreen
  simp only
  split
  · obtain ⟨sb, hsb, _⟩ := forRange_inv (fun y sb =>
        blankCells sb y (if y = t.cursorY then t.cursorX else 0) t.screenWidth)
      (fun _ sb => Shaped sb t.screenHeight t.screenWidth) t.cursorY t.screenHeight
      t.screenBuffer hs (by
        intro k hk sb hsk
        beta_reduce
        obtain ⟨b1, hb1, hs1, _⟩ := @blankCells_spec _ _ _ hsk (t.cursorY + (k : Int))
          (if t.cursorY + (k : Int) = t.cursorY then t.cursorX else 0) t.screenWidth
          (by omega) hk (by split <;> omega) (le_refl _)
        exact ⟨b1, hb1, hs1⟩)
    exact ⟨_, by rw [hsb]; rfl⟩
  · split
    · obtain ⟨sb, hsb, _⟩ := forRange_inv (fun y sb =>
          blankCells sb y 0 (if y = t.cursorY then t.cursorX + 1 else t.screenWidth))
        (fun _ sb => Shaped sb t.screenHeight t.screenWidth) 0 (t.cursorY + 1)
        t.screenBuffer hs (by
          intro k hk sb hsk
          beta_reduce
          obtain ⟨b1, hb1, hs1, _⟩ := @blankCells_spec _ _ _ hsk (0 + (k : Int)) 0
            (if 0 + (k : Int) = t.cursorY then t.cursorX + 1 else t.screenWidth)
            (by omega) (by omega) (le_refl _) (by split <;> omega)
          exact ⟨b1, hb1, hs1⟩)
      exact ⟨_, by rw [hsb]; rfl⟩
    · split
      · rw [blankAll_spec hs]
        exact ⟨_, rfl⟩
      · exact ⟨_, rfl⟩

/-- The dispatch of a CSI sequence returns on a well-shaped grid with the cursor
on a cell. -/
theorem processEscapeSequence_total {t : Terminal}
    (hs : Shaped t.screenBuffer t.screenHeight t.screenWidth)
    (hy : 0 ≤ t.cursorY ∧ t.cursorY < t.screenHeight)
    (hx : 0 ≤ t.cursorX ∧ t.cursorX < t.screenWidth) (ps : Bytes) (f : Nat) :
    ∃ t1, processEscapeSequence t (27 :: 91 :: (ps ++ [f])) = some t1 := by
  rw [processEscapeSequence_csi]
  split
  · exact ⟨_, setCursorPosition_eq t ps⟩
  · split
    · split <;> exact ⟨_, rfl⟩
    · split
      · split <;> exact ⟨_, rfl⟩
      · split
        · split <;> exact ⟨_, rfl⟩
        · split
          · split <;> exact ⟨_, rfl⟩
          · split
            · exact clearScreen_total hs hy hx ps
            · split
              · obtain ⟨sb, h, _⟩ := clearLine_spec hs hy hx ps
                exact ⟨_, h⟩
              · exact ⟨_, rfl⟩

/-- A fragment of more than one byte is ignored while an escape sequence is
being read. -/
theorem processChar_inEscape_fragment {t : Terminal} {c : Bytes} (he : t.inEscape = true)
    (hc : c.length ≠ 1) : processChar t c = some t := by
  unfold processChar
  split
  · simp at hc
  · unfold writeChar
    rw [if_neg]
    rw [he]
    simp

theorem feedChars_params (bs : Bytes) :
    ∀ (t : Terminal) (xs : Bytes), t.inEscape = true → t.escapeBuffer = 27 :: 91 :: xs →
      (∀ c ∈ bs, isLetter c = false) →
      feedChars t (bs.map (fun c => [c])) = some { t with escapeBuffer := t.escapeBuffer ++ bs } := by
  induction bs with
  | nil =>
    intro t xs _ _ _
    simp only [List.map_nil, feedChars, List.append_nil]
  | cons b bs ih =>
    intro t xs he hb hl
    have hb0 : isLetter b = false := hl b (List.mem_cons_self _ _)
    have h1 : processChar t [b] = some { t with escapeBuffer := t.escapeBuffer ++ [b] } := by
      rw [processChar_inEscape t b he,
        isEscapeComplete_csi _ b (xs ++ [b]) (by show t.escapeBuffer ++ [b] = _; rw [hb]; rfl),
        hb0]
      rfl
    simp only [List.map_cons, feedChars, h1, Option.some_bind]
    rw [ih { t with escapeBuffer := t.escapeBuffer ++ [b] } (xs ++ [b]) he
      (by show t.escapeBuffer ++ [b] = _; rw [hb]; rfl)
      (fun c hc => hl c (List.mem_cons_of_mem _ hc))]
    simp only [List.append_assoc, List.singleton_append]

theorem finishEscape_normal {t t1 : Terminal} {seq : Bytes} (h : finishEscape t seq = some t1) :
    t1.inEscape = false ∧ t1.escapeBuffer = [] := by
  unfold finishEscape at h
  simp only [Option.bind_eq_some, Option.some.injEq] at h
  obtain ⟨t2, _, rfl⟩ := h
  exact ⟨rfl, rfl⟩

/-- C21: in Normal state the fragment ESC puts the parser in escape state; with
the escape buffer holding only ESC, `[` is accumulated and any other byte
completes the sequence there (buffer length 2); after `ESC [`, every byte that is
not a letter is accumulated with nothing else changed, for any number of such
bytes, and a letter `A-Z`, `a-z` completes the sequence; a completed sequence
leaves the parser in Normal state with an empty escape buffer, and the
completing step returns on a well-shaped grid with the cursor on a cell (and
always for a sequence without `[`); a fragment of more than one byte changes
nothing in escape state; an ASCII byte on an empty decoder buffer is such a
one-byte fragment. -/
theorem C21_escape_states (t : Terminal) (xs : Bytes) (b : Nat) :
    (t.inEscape = false →
      processChar t [27] = some { t with inEscape := true, escapeBuffer := t.escapeBuffer ++ [27] }) ∧
    (t.inEscape = true → t.escapeBuffer = [27] →
      processChar t [91] = some { t with escapeBuffer := [27, 91] } ∧
      (b ≠ 91 → processChar t [b] = some { t with escapeBuffer := [], inEscape := false })) ∧
    (t.inEscape = true → t.escapeBuffer = 27 :: 91 :: xs →
      (isLetter b = false →
        processChar t [b] = some { t with escapeBuffer := t.escapeBuffer ++ [b] }) ∧
      (∀ bs : Bytes, (∀ c ∈ bs, isLetter c = false) →
        feedChars t (bs.map (fun c => [c])) =
          some { t with escapeBuffer := t.escapeBuffer ++ bs }) ∧
      (isLetter b = true →
        processChar t [b] = finishEscape t (t.escapeBuffer ++ [b]) ∧
        (∀ t1, processChar t [b] = some t1 → t1.inEscape = false ∧ t1.escapeBuffer = []) ∧
        (Shaped t.screenBuffer t.screenHeight t.screenWidth →
          0 ≤ t.cursorY ∧ t.cursorY < t.screenHeight →
          0 ≤ t.cursorX ∧ t.cursorX < t.screenWidth →
          ∃ t1, processChar t [b] = some t1))) ∧
    (t.inEscape = true → ∀ c : Bytes, c.length ≠ 1 → processChar t c = some t) ∧
    (b < 128 → t.utf8Buffer = [] → processByte t b = processChar t [b]) := by
  refine ⟨?_, ?_, ?_, fun he c hc => processChar_inEscape_fragment he hc,
    fun hb hu => processByte_ascii hb hu⟩
  · intro he
    unfold processChar
    simp [he]
  · intro he hb
    constructor
    · rw [processChar_inEscape t 91 he, hb]
      rfl
    · intro hne
      rw [processChar_inEscape t b he, hb]
      have hcomp : isEscapeComplete { t with escapeBuffer := [27] ++ [b] } b = true := by
        unfold isEscapeComplete
        simp only [List.singleton_append, List.length_cons, List.length_nil]
        rw [if_neg (by omega)]
        have hpre : hasCsiPrefix [27, b] = false := by
          unfold hasCsiPrefix
          split
          · rename_i heq
            simp only [List.cons.injEq] at heq
            exact absurd heq.2.1 hne
          · rfl
        rw [hpre]
        simp
      rw [if_pos hcomp]
      unfold finishEscape
      rw [processEscapeSequence_unhandled _ [27] b ?_ ?_]
      · rfl
      · intro hpre
        unfold hasCsiPrefix at hpre
        split at hpre
        · rename_i heq
          simp only [List.singleton_append, List.cons.injEq] at heq
          exact absurd heq.2.1 hne
        · exact absurd hpre (by decide)
      · left
        unfold hasCsiPrefix
        split
        · rename_i heq
          simp only [List.singleton_append, List.cons.injEq] at heq
          exact absurd heq.2.1 hne
        · rfl
  · intro he hb
    have hcsi : ∀ c, isEscapeComplete { t with escapeBuffer := t.escapeBuffer ++ [c] } c =
        isLetter c := fun c =>
      isEscapeComplete_csi _ c (xs ++ [c]) (by show t.escapeBuffer ++ [c] = _; rw [hb]; rfl)
    refine ⟨?_, fun bs hbs => feedChars_params bs t xs he hb hbs, ?_⟩
    · intro hl
      rw [processChar_inEscape t b he, hcsi, hl]
      rfl
    · intro hl
      have hproc : processChar t [b] = finishEscape t (t.escapeBuffer ++ [b]) := by
        rw [processChar_inEscape t b he, hcsi, hl]
        rfl
      refine ⟨hproc, ?_, ?_⟩
      · intro t1 h1
        rw [hproc] at h1
        exact finishEscape_normal h1
      · intro hs hy hx
        rw [hproc, hb]
        unfold finishEscape
        obtain ⟨t2, ht2⟩ := processEscapeSequence_total
          (t := { t with escapeBuffer := 27 :: 91 :: xs ++ [b] }) hs hy hx xs b
        have e : (27 :: 91 :: xs ++ [b] : Bytes) = 27 :: 91 :: (xs ++ [b]) := rfl
        rw [e] at ht2 ⊢
        rw [ht2]
        exact ⟨_, rfl⟩

theorem C21_escape_states_witness :
    processChar { newTerminalWith 2 3 2 with inEscape := true, escapeBuffer := [27] } [91] =
        some { newTerminalWith 2 3 2 with inEscape := true, escapeBuffer := [27, 91] } ∧
      processChar { newTerminalWith 2 3 2 with inEscape := true, escapeBuffer := [27] } [55] =
        some { newTerminalWith 2 3 2 with escapeBuffer := [], inEscape := false } ∧
      processChar { newTerminalWith 2 3 2 with inEscape := true, escapeBuffer := [27, 91] }
          [59] =
        some { newTerminalWith 2 3 2 with inEscape := true, escapeBuffer := [27, 91] ++ [59] } :=
  ⟨((C21_escape_states { newTerminalWith 2 3 2 with inEscape := true, escapeBuffer := [27] }
      [] 55).2.1 rfl rfl).1,
    ((C21_escape_states { newTerminalWith 2 3 2 with inEscape := true, escapeBuffer := [27] }
      [] 55).2.1 rfl rfl).2 (by decide),
    ((C21_escape_states { newTerminalWith 2 3 2 with inEscape := true, escapeBuffer := [27, 91] }
      [] 59).2.2.1 rfl rfl).1 rfl⟩

/-! # C23: cursor moves at the top of the integer range -/

/-- `ESC [ ps B` and `ESC [ ps C` fed in Normal state, in terms of the parameter
value. -/
theorem feed_cursor_down_right (t : Terminal) (ps : Bytes) (hu : t.utf8Buffer = [])
    (he : t.inEscape = false) (hb : t.escapeBuffer = [])
    (hp : ∀ b ∈ ps, b < 128 ∧ isLetter b = false) :
    feed t (27 :: 91 :: (ps ++ [66])) =
        some (if parseNumber ps 1 > 0 then
          { t with cursorY := min (t.screenHeight - 1) (wrap64 (t.cursorY + parseNumber ps 1)) }
          else t) ∧
      feed t (27 :: 91 :: (ps ++ [67])) =
        some (if parseNumber ps 1 > 0 then
          { t with cursorX := min (t.screenWidth - 1) (wrap64 (t.cursorX + parseNumber ps 1)) }
          else t) := by
  constructor
  · rw [feed_csi t ps 66 hu he hb hp (by decide)]
    unfold finishEscape
    rw [processEscapeSequence_csi, if_neg (by decide), if_neg (by decide), if_pos rfl]
    by_cases hn : parseNumber ps 1 > 0
    · rw [if_pos hn, if_pos hn, Option.some_bind]
      congr 1
      cases t
      simp_all
    · rw [if_neg hn, if_neg hn, Option.some_bind]
      congr 1
      cases t
      simp_all
  · rw [feed_csi t ps 67 hu he hb hp (by decide)]
    unfold finishEscape
    rw [processEscapeSequence_csi, if_neg (by decide), if_neg (by decide), if_neg (by decide),
      if_pos rfl]
    by_cases hn : parseNumber ps 1 > 0
    · rw [if_pos hn, if_pos hn, Option.some_bind]
      congr 1
      cases t
      simp_all
    · rw [if_neg hn, if_neg hn, Option.some_bind]
      congr 1
      cases t
      simp_all

/-- C23 (refuted by the code): on a 3 x 2 grid, after a line feed the cursor is
at row 1; `ESC [ 9223372036854775807 B` then leaves `cursorY = -2^63`, and after
one printable character (cursor at column 1) `ESC [ 9223372036854775807 C`
leaves `cursorX = -2^63`: `t.cursorY + n` wraps around before the `min`. -/
theorem C23_cursor_down_overflows :
    (feed (NewTerminal 3 2) [10]).map (fun t => (t.cursorY, t.cursorX)) = some (1, 0) ∧
      (feed (NewTerminal 3 2) [10, 27, 91, 57, 50, 50, 51, 51, 55, 50, 48, 51, 54, 56, 53, 52,
          55, 55, 53, 56, 48, 55, 66]).map (fun t => t.cursorY) = some (-2 ^ 63) ∧
      (feed (NewTerminal 3 2) [97, 27, 91, 57, 50, 50, 51, 51, 55, 50, 48, 51, 54, 56, 53, 52,
          55, 55, 53, 56, 48, 55, 67]).map (fun t => t.cursorX) = some (-2 ^ 63) := by
  refine ⟨rfl, ?_, ?_⟩
  · rfl
  · rfl

/-- C23 (outside the overflow): for a parameter string of ASCII bytes without
letters and a cursor on a cell of the grid, `ESC [ ps B` fed in Normal state
changes at most `cursorY` and leaves it in `[0, rows - 1]` whenever
`cursorY + N < 2^63`, and `ESC [ ps C` changes at most `cursorX` and leaves it in
`[0, cols - 1]` whenever `cursorX + N < 2^63`, `N` being `parseNumber(ps, 1)`. -/
theorem C23_down_right_in_range (t : Terminal) (ps : Bytes) (hu : t.utf8Buffer = [])
    (he : t.inEscape = false) (hb : t.escapeBuffer = [])
    (hp : ∀ b ∈ ps, b < 128 ∧ isLetter b = false)
    (hy : 0 ≤ t.cursorY ∧ t.cursorY < t.screenHeight)
    (hx : 0 ≤ t.cursorX ∧ t.cursorX < t.screenWidth) :
    (t.cursorY + parseNumber ps 1 < 2 ^ 63 →
      ∃ cy, feed t (27 :: 91 :: (ps ++ [66])) = some { t with cursorY := cy } ∧
        0 ≤ cy ∧ cy ≤ t.screenHeight - 1) ∧
    (t.cursorX + parseNumber ps 1 < 2 ^ 63 →
      ∃ cx, feed t (27 :: 91 :: (ps ++ [67])) = some { t with cursorX := cx } ∧
        0 ≤ cx ∧ cx ≤ t.screenWidth - 1) := by
  obtain ⟨hB, hC⟩ := feed_cursor_down_right t ps hu he hb hp
  constructor
  · intro hfit
    by_cases hn : parseNumber ps 1 > 0
    · rw [if_pos hn] at hB
      rw [wrap64_eq (by omega) hfit] at hB
      exact ⟨_, hB, by omega, by omega⟩
    · rw [if_neg hn] at hB
      exact ⟨t.cursorY, by rw [hB], hy.1, by omega⟩
  · intro hfit
    by_cases hn : parseNumber ps 1 > 0
    · rw [if_pos hn] at hC
      rw [wrap64_eq (by omega) hfit] at hC
      exact ⟨_, hC, by omega, by omega⟩
    · rw [if_neg hn] at hC
      exact ⟨t.cursorX, by rw [hC], hx.1, by omega⟩

theorem C23_down_right_in_range_witness :
    (∃ cy, feed { NewTerminal 3 2 with cursorY := 1, cursorX := 1 } (27 :: 91 :: ([57] ++ [66])) =
        some { NewTerminal 3 2 with cursorX := 1, cursorY := cy } ∧ 0 ≤ cy ∧ cy ≤ 2 - 1) ∧
      ∃ cx, feed { NewTerminal 3 2 with cursorY := 1, cursorX := 1 } (27 :: 91 :: ([57] ++ [67])) =
        some { NewTerminal 3 2 with cursorY := 1, cursorX := cx } ∧ 0 ≤ cx ∧ cx ≤ 3 - 1 :=
  ⟨(C23_down_right_in_range { NewTerminal 3 2 with cursorY := 1, cursorX := 1 } [57] rfl rfl rfl
      (by decide) (by decide) (by decide)).1 (by decide),
    (C23_down_right_in_range { NewTerminal 3 2 with cursorY := 1, cursorX := 1 } [57] rfl rfl rfl
      (by decide) (by decide) (by decide)).2 (by decide)⟩

/-! # C24: the size of the accumulation buffer -/

theorem decodeStep_length {buf : Bytes} (b : Nat) (h : buf.length ≤ 4) :
    (decodeStep buf b).2.length ≤ 4 := by
  unfold decodeStep
  simp only
  split
  · simp
  · split
    · rename_i hl
      cases hb : buf ++ [b] with
      | nil => simp
      | cons a rest =>
        have : (buf ++ [b]).length = rest.length + 1 := by rw [hb]; rfl
        simp only [List.length_append, List.length_cons, List.length_nil] at this
        show rest.length ≤ 4
        omega
    · rename_i hl
      show (buf ++ [b]).length ≤ 4
      omega

/-- The accumulation buffer after a call of `processByte` that returns is the
one its decoder leaves. -/
theorem processByte_buffer {t t1 : Terminal} {b : Nat} (h : processByte t b = some t1) :
    t1.utf8Buffer = (decodeStep t.utf8Buffer b).2 := by
  rw [processByte_decodeStep] at h
  cases hs : decodeStep t.utf8Buffer b with
  | mk o rest =>
    rw [hs] at h
    cases o with
    | none =>
      simp only [Option.some.injEq] at h
      subst h
      rfl
    | some frag => exact processChar_utf8Buffer h

theorem decodeAll_buffer (bs : Bytes) :
    ∀ buf : Bytes, buf.length ≤ 4 → (decodeAll buf bs).2.length ≤ 4 := by
  induction bs with
  | nil => intro buf h; exact h
  | cons b bs ih =>
    intro buf h
    have h1 := decodeStep_length b h
    simp only [decodeAll]
    cases hs : decodeStep buf b with
    | mk o rest =>
      rw [hs] at h1
      cases o with
      | none => exact ih rest h1
      | some frag => exact ih rest h1

theorem feed_buffer (bs : Bytes) :
    ∀ (t t1 : Terminal), feed t bs = some t1 →
      t1.utf8Buffer = (decodeAll t.utf8Buffer bs).2 := by
  induction bs with
  | nil =>
    intro t t1 h
    simp only [feed, Option.some.injEq] at h
    subst h
    rfl
  | cons b bs ih =>
    intro t t1 h
    simp only [feed, Option.bind_eq_some] at h
    obtain ⟨t2, h2, h3⟩ := h
    have e := processByte_buffer h2
    rw [ih t2 t1 h3, e]
    simp only [decodeAll]
    cases hs : decodeStep t.utf8Buffer b with
    | mk o rest =>
      cases o with
      | none => rfl
      | some frag => rfl

/-- C24: one call of `processByte` on a buffer of at most 4 bytes leaves a
buffer of at most 4 bytes, whatever the byte; hence after any bytes fed from an
empty buffer (every call ends such a sequence) the buffer of the state reached
is the one the decoder leaves and holds at most 4 bytes. -/
theorem C24_buffer_bound (t : Terminal) (bs : Bytes) (b : Nat) :
    (t.utf8Buffer.length ≤ 4 →
      (decodeStep t.utf8Buffer b).2.length ≤ 4 ∧
      ∀ t1, processByte t b = some t1 → t1.utf8Buffer.length ≤ 4) ∧
    (decodeAll [] bs).2.length ≤ 4 ∧
    (t.utf8Buffer = [] → ∀ t1, feed t bs = some t1 →
      t1.utf8Buffer = (decodeAll [] bs).2 ∧ t1.utf8Buffer.length ≤ 4) := by
  refine ⟨?_, decodeAll_buffer bs [] (by simp), ?_⟩
  · intro h
    refine ⟨decodeStep_length b h, ?_⟩
    intro t1 h1
    rw [processByte_buffer h1]
    exact decodeStep_length b h
  · intro hu t1 h1
    have e := feed_buffer bs t t1 h1
    rw [hu] at e
    rw [e]
    exact ⟨rfl, decodeAll_buffer bs [] (by simp)⟩

theorem C24_buffer_bound_witness :
    ((decodeStep [0xE4, 0x41, 0x42, 0x43] 0x44).2.length ≤ 4 ∧
      ∀ t1, processByte { NewTerminal 8 2 with utf8Buffer := [0xE4, 0x41, 0x42, 0x43] } 0x44 =
        some t1 → t1.utf8Buffer.length ≤ 4) ∧
    (decodeAll [] [0xE4, 0x41, 0x42, 0x43, 0x44]).2.length ≤ 4 :=
  ⟨(C24_buffer_bound { NewTerminal 8 2 with utf8Buffer := [0xE4, 0x41, 0x42, 0x43] }
      [0xE4, 0x41, 0x42, 0x43, 0x44] 0x44).1 (by decide),
    (C24_buffer_bound { NewTerminal 8 2 with utf8Buffer := [0xE4, 0x41, 0x42, 0x43] }
      [0xE4, 0x41, 0x42, 0x43, 0x44] 0x44).2.1⟩

/-! # C25: horizontal tab -/

/-- The loop of the tab case, with enough fuel for the cells up to the stop. -/
theorem tabLoop_spec (nextTab : Int) :
    ∀ (fuel : Nat) (t : Terminal), Shaped t.screenBuffer t.screenHeight t.screenWidth →
      0 ≤ t.cursorY → t.cursorY < t.screenHeight → 0 ≤ t.cursorX →
      min t.screenWidth nextTab - t.cursorX ≤ (fuel : Int) →
      ∃ sb, tabLoop nextTab fuel t =
          some { t with screenBuffer := sb,
                        cursorX := max t.cursorX (min t.screenWidth nextTab) } ∧
        Shaped sb t.screenHeight t.screenWidth ∧
        ∀ y x, getCell sb y x =
          if y = t.cursorY ∧ t.cursorX ≤ x ∧ x < min t.screenWidth nextTab then some blank
          else getCell t.screenBuffer y x := by
  intro fuel
  induction fuel with
  | zero =>
    intro t hs hy0 hy1 hx0 hf
    refine ⟨t.screenBuffer, ?_, hs, ?_⟩
    · unfold tabLoop
      rw [max_eq_left (by omega)]
    · intro y x
      rw [if_neg (by omega)]
  | succ n ih =>
    intro t hs hy0 hy1 hx0 hf
    unfold tabLoop
    by_cases hc : t.cursorX < nextTab ∧ t.cursorX < t.screenWidth
    · rw [if_pos hc]
      obtain ⟨sb0, hsb0⟩ := shaped_setCell_exists hs blank hy0 hy1 hx0 hc.2
      rw [hsb0, Option.some_bind]
      obtain ⟨sb, hsb, hsh, hcell⟩ := ih { t with screenBuffer := sb0, cursorX := t.cursorX + 1 }
        (shaped_setCell hs hsb0) hy0 hy1 (by show 0 ≤ t.cursorX + 1; omega)
        (by show min t.screenWidth nextTab - (t.cursorX + 1) ≤ (n : Int); push_cast at hf; omega)
      refine ⟨sb, ?_, hsh, ?_⟩
      · rw [hsb]
        congr 1
        show ({ t with screenBuffer := sb,
                       cursorX := max (t.cursorX + 1) (min t.screenWidth nextTab) } : Terminal) = _
        rw [max_eq_right (by omega), max_eq_right (by omega)]
      · intro y x
        rw [hcell, getCell_setCell hsb0]
        show (if y = t.cursorY ∧ t.cursorX + 1 ≤ x ∧ x < min t.screenWidth nextTab then _
          else _) = _
        by_cases h1 : y = t.cursorY ∧ t.cursorX + 1 ≤ x ∧ x < min t.screenWidth nextTab
        · have e : y = t.cursorY ∧ t.cursorX ≤ x ∧ x < min t.screenWidth nextTab := by omega
          rw [if_pos h1, if_pos e]
        · rw [if_neg h1]
          by_cases h2 : y = t.cursorY ∧ x = t.cursorX
          · have e : y = t.cursorY ∧ t.cursorX ≤ x ∧ x < min t.screenWidth nextTab := by omega
            rw [if_pos h2, if_pos e]
          · have e : ¬ (y = t.cursorY ∧ t.cursorX ≤ x ∧ x < min t.screenWidth nextTab) := by
              omega
            rw [if_neg h2, if_neg e]
    · rw [if_neg hc]
      refine ⟨t.screenBuffer, ?_, hs, ?_⟩
      · rw [max_eq_left (by omega)]
      · intro y x
        rw [if_neg (by omega)]

theorem processByte_tab {t : Terminal} (hu : t.utf8Buffer = []) (he : t.inEscape = false) :
    processByte t 9 = tabLoop ((t.cursorX.tdiv 8 + 1) * 8) 16 t := by
  rw [processByte_ascii (by norm_num) hu]
  unfold processChar
  simp [he]

/-- C25: a tab byte in Normal state with the cursor at `(r, c)`, `0 <= c <= cols`,
on a row of a well-shaped grid changes only the cursor column, to
`min(cols, (c / 8 + 1) * 8)`, and the cells `(r, c) ..` up to the one before the
new column, which become blank. -/
theorem C25_tab (t : Terminal) (hs : Shaped t.screenBuffer t.screenHeight t.screenWidth)
    (hu : t.utf8Buffer = []) (he : t.inEscape = false)
    (hy : 0 ≤ t.cursorY ∧ t.cursorY < t.screenHeight)
    (hx : 0 ≤ t.cursorX ∧ t.cursorX ≤ t.screenWidth) :
    ∃ sb, processByte t 9 =
        some { t with screenBuffer := sb,
                      cursorX := min t.screenWidth ((t.cursorX / 8 + 1) * 8) } ∧
      ∀ y x, getCell sb y x =
        if y = t.cursorY ∧ t.cursorX ≤ x ∧ x < min t.screenWidth ((t.cursorX / 8 + 1) * 8) then
          some blank
        else getCell t.screenBuffer y x := by
  have hdiv : t.cursorX.tdiv 8 = t.cursorX / 8 := Int.tdiv_eq_ediv hx.1 (by norm_num)
  obtain ⟨sb, hsb, _, hcell⟩ := tabLoop_spec ((t.cursorX / 8 + 1) * 8) 16 t hs hy.1 hy.2 hx.1
    (by push_cast; omega)
  refine ⟨sb, ?_, hcell⟩
  rw [processByte_tab hu he, hdiv, hsb, max_eq_right (by omega)]

theorem C25_tab_witness :
    ∃ sb, processByte { newTerminalWith 2 3 2 with
            screenBuffer := [[asciiCell 97, asciiCell 98, asciiCell 99], [blank, blank, blank]],
            cursorX := 1 } 9 =
        some { newTerminalWith 2 3 2 with screenBuffer := sb,
                                          cursorX := min 3 (((1 : Int) / 8 + 1) * 8) } ∧
      ∀ y x, getCell sb y x =
        if y = 0 ∧ 1 ≤ x ∧ x < min 3 (((1 : Int) / 8 + 1) * 8) then some blank
        else getCell [[asciiCell 97, asciiCell 98, asciiCell 99], [blank, blank, blank]] y x :=
  C25_tab { newTerminalWith 2 3 2 with
      screenBuffer := [[asciiCell 97, asciiCell 98, asciiCell 99], [blank, blank, blank]],
      cursorX := 1 } (by decide) rfl rfl (by decide) (by decide)

/-! ### Writing a printable fragment -/

theorem ite_two_or {c : Prop} [Decidable c] {x : Int} (h : x = 1 ∨ x = 2) :
    (if c then (2 : Int) else x) = 1 ∨ (if c then (2 : Int) else x) = 2 := by
  split
  · right; rfl
  · exact h

/-- The display width of a non-empty fragment is 1 or 2. -/
theorem getCharWidth_pos {char : Bytes} (h : char ≠ []) :
    getCharWidth char = 1 ∨ getCharWidth char = 2 := by
  unfold getCharWidth
  have hne : ¬ (char.length = 0) := by
    intro h0
    exact h (List.length_eq_zero.mp h0)
  rw [if_neg hne]
  simp only
  generalize (DecodeRuneInString char).1 = r
  repeat apply ite_two_or
  exact Or.inl rfl

/-- A printable fragment is not one of the bytes `processChar` handles itself. -/
theorem printable_not_control {char : Bytes} (hp : isPrintableChar char = true) :
    char ≠ [] ∧ ∀ b, char = [b] → 32 ≤ b ∧ b ≠ 127 := by
  constructor
  · rintro rfl
    exact absurd hp (by decide)
  · rintro b rfl
    unfold isPrintableChar at hp
    simp only at hp
    by_cases hb : b < 32 ∨ b = 127
    · rw [if_pos hb] at hp
      exact absurd hp (by decide)
    · omega

theorem processChar_write {t : Terminal} {char : Bytes} (he : t.inEscape = false)
    (hp : isPrintableChar char = true) :
    processChar t char =
      (wrapLine t (getCharWidth char)).bind (fun t1 => placeGlyph t1 char (getCharWidth char)) := by
  obtain ⟨hne, hb⟩ := printable_not_control hp
  have hwc : writeChar t char =
      (wrapLine t (getCharWidth char)).bind
        (fun t1 => placeGlyph t1 char (getCharWidth char)) := by
    unfold writeChar
    rw [if_pos ⟨fun h => by have := hb 0 h; omega, fun h => by have := hb 127 h; omega,
      fun h => by have := hb 8 h; omega, he, hp⟩]
  unfold processChar
  split
  · rename_i b
    have := hb b rfl
    rw [he]
    simp only [Bool.false_eq_true, if_false]
    rw [if_neg (by omega), if_neg (by omega), if_neg (by omega), if_neg (by omega),
      if_neg (by omega)]
    exact hwc
  · exact hwc

/-- The write of a printable fragment on an allocated terminal whose grid is
wide enough for it: after the wrap (if any) the glyph, and the placeholder of a
wide glyph, are written at the cursor, and the cursor moves on by the width. -/
theorem write_spec {t : Terminal} {char : Bytes} (ha : Allocated t)
    (hcols : getCharWidth char ≤ t.screenWidth)
    (hy : 0 ≤ t.cursorY ∧ t.cursorY < t.screenHeight)
    (hx : 0 ≤ t.cursorX ∧ t.cursorX ≤ t.screenWidth)
    (he : t.inEscape = false) (hp : isPrintableChar char = true) :
    ∃ t0 sb, processChar t char =
        some { t0 with screenBuffer := sb, cursorX := t0.cursorX + getCharWidth char } ∧
      Allocated t0 ∧ t0.screenWidth = t.screenWidth ∧ t0.screenHeight = t.screenHeight ∧
      (0 ≤ t0.cursorY ∧ t0.cursorY < t.screenHeight) ∧
      (0 ≤ t0.cursorX ∧ t0.cursorX + getCharWidth char ≤ t.screenWidth) ∧
      (t.cursorX + getCharWidth char ≤ t.screenWidth → t0 = t) ∧
      (t.screenWidth < t.cursorX + getCharWidth char → lineFeed t = some t0 ∧ t0.cursorX = 0 ∧
        t0.cursorY = min (t.cursorY + 1) (t.screenHeight - 1)) ∧
      Shaped sb t.screenHeight t.screenWidth ∧
      ∀ y x, getCell sb y x =
        if y = t0.cursorY ∧ x = t0.cursorX + 1 ∧ getCharWidth char = 2 then
          some { char := [], width := 0 }
        else if y = t0.cursorY ∧ x = t0.cursorX then
          some { char := char, width := getCharWidth char }
        else getCell t0.screenBuffer y x := by
  have hcw := getCharWidth_pos (printable_not_control hp).1
  have key : ∀ t0 : Terminal, wrapLine t (getCharWidth char) = some t0 → Allocated t0 →
      t0.screenWidth = t.screenWidth → t0.screenHeight = t.screenHeight →
      (0 ≤ t0.cursorY ∧ t0.cursorY < t.screenHeight) →
      (0 ≤ t0.cursorX ∧ t0.cursorX + getCharWidth char ≤ t.screenWidth) →
      ∃ sb, processChar t char =
          some { t0 with screenBuffer := sb, cursorX := t0.cursorX + getCharWidth char } ∧
        Shaped sb t.screenHeight t.screenWidth ∧
        ∀ y x, getCell sb y x =
          if y = t0.cursorY ∧ x = t0.cursorX + 1 ∧ getCharWidth char = 2 then
            some { char := [], width := 0 }
          else if y = t0.cursorY ∧ x = t0.cursorX then
            some { char := char, width := getCharWidth char }
          else getCell t0.screenBuffer y x := by
    intro t0 hwrap ha0 e1 e2 hy0 hx0
    obtain ⟨sb, hsb, hsh, hc⟩ := placeGlyph_spec (t := t0) ha0.2.2.2.1 hy0.1
      (by rw [e2]; exact hy0.2) hx0.1 (by rw [e1]; omega) char (getCharWidth char)
    refine ⟨sb, by rw [processChar_write he hp, hwrap]; exact hsb, by rw [← e1, ← e2]; exact hsh,
      ?_⟩
    intro y x
    rw [hc]
    by_cases h1 : y = t0.cursorY ∧ x = t0.cursorX + 1 ∧ getCharWidth char = 2
    · rw [if_pos h1, if_pos ⟨h1.1, h1.2.1, h1.2.2, by rw [e1]; omega⟩]
    · rw [if_neg h1, if_neg (fun h => h1 ⟨h.1, h.2.1, h.2.2.1⟩)]
  by_cases hfit : t.cursorX + getCharWidth char ≤ t.screenWidth
  · have hwrap : wrapLine t (getCharWidth char) = some t := by
      unfold wrapLine
      rw [if_neg (by omega)]
    obtain ⟨sb, h1, h2, h3⟩ := key t hwrap ha rfl rfl hy ⟨hx.1, hfit⟩
    exact ⟨t, sb, h1, ha, rfl, rfl, hy, ⟨hx.1, hfit⟩, fun _ => rfl,
      fun h => absurd hfit (by omega), h2, h3⟩
  · obtain ⟨t0, hlf, ha0, e1, e2, e3, e4, _, _⟩ := lineFeed_spec ha hy
    have hwrap : wrapLine t (getCharWidth char) = some t0 := by
      unfold wrapLine
      rw [if_pos (by omega)]
      exact hlf
    have hy0 : 0 ≤ t0.cursorY ∧ t0.cursorY < t.screenHeight := by rw [e4]; omega
    have hx0 : 0 ≤ t0.cursorX ∧ t0.cursorX + getCharWidth char ≤ t.screenWidth := by
      rw [e3]; omega
    obtain ⟨sb, h1, h2, h3⟩ := key t0 hwrap ha0 e1 e2 hy0 hx0
    exact ⟨t0, sb, h1, ha0, e1, e2, hy0, hx0, fun h => absurd h hfit,
      fun _ => ⟨hlf, e3, e4⟩, h2, h3⟩

/-! # C27: a write followed by a backspace -/

theorem processChar_backspace {t : Terminal} (he : t.inEscape = false) :
    processChar t [8] = handleBackspace t := by
  unfold processChar
  simp [he]

/-- A backspace with a cell that is neither wide nor a placeholder to the left
of the cursor blanks that cell and steps the cursor onto it. -/
theorem handleBackspace_narrow {t : Terminal} {c : Cell}
    (hs : Shaped t.screenBuffer t.screenHeight t.screenWidth) (hx : 0 < t.cursorX)
    (hc : getCell t.screenBuffer t.cursorY (t.cursorX - 1) = some c)
    (hw2 : c.width ≠ 2) (hw0 : c.width ≠ 0) :
    ∃ sb, setCell t.screenBuffer t.cursorY (t.cursorX - 1) blank = some sb ∧
      handleBackspace t = some { t with screenBuffer := sb, cursorX := t.cursorX - 1 } := by
  have hr := hs.getCell_range hc
  obtain ⟨sb, hsb⟩ := shaped_setCell_exists hs blank hr.1.1 hr.1.2 hr.2.1 hr.2.2
  refine ⟨sb, hsb, ?_⟩
  unfold handleBackspace
  rw [if_pos hx]
  simp only
  rw [if_pos ⟨hr.2.1, hr.2.2⟩, hc, Option.some_bind, if_neg hw2, if_neg hw0, hsb, Option.some_bind]

/-- A backspace with a placeholder to the left of the cursor and a wide glyph
before it blanks both cells and steps the cursor onto the glyph's cell. -/
theorem handleBackspace_wide {t : Terminal} {g p : Cell}
    (hs : Shaped t.screenBuffer t.screenHeight t.screenWidth)
    (hp : getCell t.screenBuffer t.cursorY (t.cursorX - 1) = some p) (hpw : p.width = 0)
    (hg : getCell t.screenBuffer t.cursorY (t.cursorX - 1 - 1) = some g) (hgw : g.width = 2) :
    ∃ sb sb1, setCell t.screenBuffer t.cursorY (t.cursorX - 1 - 1) blank = some sb ∧
      setCell sb t.cursorY (t.cursorX - 1) blank = some sb1 ∧
      handleBackspace t = some { t with screenBuffer := sb1, cursorX := t.cursorX - 1 - 1 } := by
  have hgr := hs.getCell_range hg
  have hpr := hs.getCell_range hp
  obtain ⟨sb, hsb⟩ := shaped_setCell_exists hs blank hgr.1.1 hgr.1.2 hgr.2.1 hgr.2.2
  obtain ⟨sb1, hsb1⟩ := shaped_setCell_exists (shaped_setCell hs hsb) blank hpr.1.1 hpr.1.2
    hpr.2.1 hpr.2.2
  refine ⟨sb, sb1, hsb, hsb1, ?_⟩
  unfold handleBackspace
  rw [if_pos (by omega)]
  simp only
  rw [if_pos ⟨hpr.2.1, hpr.2.2⟩, hp, Option.some_bind, if_neg (by rw [hpw]; decide),
    if_pos hpw, if_pos hgr.2.1, hg]
  simp only [Option.some_bind, hgw, decide_True, if_true, hsb, hsb1]

/-- C27: in Normal state, with the cursor on a cell (r,c) of the grid, a
printable fragment of display width w (1 or 2) with c + w <= cols and the w
cells from (r,c) blank is written at (r,c) with the cursor moving on by w, and a
backspace processed next gives back the state before the write: the grid, the
cursor and every other field. -/
theorem C27_write_then_backspace (t : Terminal) (char : Bytes)
    (hs : Shaped t.screenBuffer t.screenHeight t.screenWidth)
    (he : t.inEscape = false) (hp : isPrintableChar char = true)
    (hy : 0 ≤ t.cursorY ∧ t.cursorY < t.screenHeight)
    (hx : 0 ≤ t.cursorX ∧ t.cursorX + getCharWidth char ≤ t.screenWidth)
    (hb0 : getCell t.screenBuffer t.cursorY t.cursorX = some blank)
    (hb1 : getCharWidth char = 2 →
      getCell t.screenBuffer t.cursorY (t.cursorX + 1) = some blank) :
    (getCharWidth char = 1 ∨ getCharWidth char = 2) ∧
      ∃ t1, processChar t char = some t1 ∧
        t1.cursorY = t.cursorY ∧ t1.cursorX = t.cursorX + getCharWidth char ∧
        getCell t1.screenBuffer t.cursorY t.cursorX =
          some { char := char, width := getCharWidth char } ∧
        processChar t1 [8] = some t := by
  have hcw := getCharWidth_pos (printable_not_control hp).1
  refine ⟨hcw, ?_⟩
  have hwrap : wrapLine t (getCharWidth char) = some t := by
    unfold wrapLine
    rw [if_neg (by omega)]
  obtain ⟨sb, hsb, hsh, hc⟩ := placeGlyph_spec hs hy.1 hy.2 hx.1 (by omega) char
    (getCharWidth char)
  have hproc : processChar t char =
      some { t with screenBuffer := sb, cursorX := t.cursorX + getCharWidth char } := by
    rw [processChar_write he hp, hwrap]
    exact hsb
  have hcell : getCell sb t.cursorY t.cursorX =
      some { char := char, width := getCharWidth char } := by
    rw [hc, if_neg (by omega), if_pos ⟨rfl, rfl⟩]
  refine ⟨_, hproc, rfl, rfl, hcell, ?_⟩
  rw [processChar_backspace (by exact he)]
  rcases hcw with h1 | h2
  · -- a narrow glyph: the cell to the left of the cursor is the glyph
    have hc1 : getCell
        ({ t with screenBuffer := sb, cursorX := t.cursorX + getCharWidth char } : Terminal).screenBuffer
        ({ t with screenBuffer := sb, cursorX := t.cursorX + getCharWidth char } : Terminal).cursorY
        (({ t with screenBuffer := sb, cursorX := t.cursorX + getCharWidth char } : Terminal).cursorX
          - 1) = some { char := char, width := getCharWidth char } := by
      show getCell sb t.cursorY (t.cursorX + getCharWidth char - 1) = _
      rw [show t.cursorX + getCharWidth char - 1 = t.cursorX by omega]
      exact hcell
    obtain ⟨sb2, hsb2, hbs⟩ := handleBackspace_narrow
      (t := { t with screenBuffer := sb, cursorX := t.cursorX + getCharWidth char })
      hsh (by show 0 < t.cursorX + getCharWidth char; omega) hc1
      (by show getCharWidth char ≠ 2; omega) (by show getCharWidth char ≠ 0; omega)
    rw [hbs]
    have e : t.cursorX + getCharWidth char - 1 = t.cursorX := by omega
    have hsame : sb2 = t.screenBuffer := by
      apply Shaped.ext (shaped_setCell hsh hsb2) hs
      intro y x
      rw [getCell_setCell hsb2, hc]
      show (if y = t.cursorY ∧ x = t.cursorX + getCharWidth char - 1 then _ else _) = _
      rw [e]
      by_cases hyx : y = t.cursorY ∧ x = t.cursorX
      · rw [if_pos hyx, hyx.1, hyx.2, hb0]
      · rw [if_neg hyx, if_neg (by omega), if_neg hyx]
    show some ({ t with screenBuffer := sb2, cursorX := t.cursorX + getCharWidth char - 1 } :
      Terminal) = some t
    rw [hsame, e]
  · -- a wide glyph: the placeholder is to the left of the cursor, the glyph before it
    have e1 : t.cursorX + getCharWidth char - 1 = t.cursorX + 1 := by omega
    have e2 : t.cursorX + getCharWidth char - 1 - 1 = t.cursorX := by omega
    have hp1 : getCell
        ({ t with screenBuffer := sb, cursorX := t.cursorX + getCharWidth char } : Terminal).screenBuffer
        ({ t with screenBuffer := sb, cursorX := t.cursorX + getCharWidth char } : Terminal).cursorY
        (({ t with screenBuffer := sb, cursorX := t.cursorX + getCharWidth char } : Terminal).cursorX
          - 1) = some { char := [], width := 0 } := by
      show getCell sb t.cursorY (t.cursorX + getCharWidth char - 1) = _
      rw [e1, hc, if_pos ⟨rfl, rfl, h2, by omega⟩]
    have hg1 : getCell
        ({ t with screenBuffer := sb, cursorX := t.cursorX + getCharWidth char } : Terminal).screenBuffer
        ({ t with screenBuffer := sb, cursorX := t.cursorX + getCharWidth char } : Terminal).cursorY
        (({ t with screenBuffer := sb, cursorX := t.cursorX + getCharWidth char } : Terminal).cursorX
          - 1 - 1) = some { char := char, width := getCharWidth char } := by
      show getCell sb t.cursorY (t.cursorX + getCharWidth char - 1 - 1) = _
      rw [e2]
      exact hcell
    obtain ⟨sb2, sb3, hsb2, hsb3, hbs⟩ := handleBackspace_wide
      (t := { t with screenBuffer := sb, cursorX := t.cursorX + getCharWidth char })
      hsh hp1 rfl hg1 h2
    rw [hbs]
    have hsame : sb3 = t.screenBuffer := by
      apply Shaped.ext (shaped_setCell (shaped_setCell hsh hsb2) hsb3) hs
      intro y x
      rw [getCell_setCell hsb3, getCell_setCell hsb2, hc]
      show (if y = t.cursorY ∧ x = t.cursorX + getCharWidth char - 1 then _ else
        (if y = t.cursorY ∧ x = t.cursorX + getCharWidth char - 1 - 1 then _ else _)) = _
      rw [e2, e1]
      by_cases hyx1 : y = t.cursorY ∧ x = t.cursorX + 1
      · rw [if_pos hyx1, hyx1.1, hyx1.2, hb1 h2]
      · rw [if_neg hyx1]
        by_cases hyx : y = t.cursorY ∧ x = t.cursorX
        · rw [if_pos hyx, hyx.1, hyx.2, hb0]
        · rw [if_neg hyx, if_neg (fun h => hyx1 ⟨h.1, h.2.1⟩), if_neg hyx]
    show some ({ t with screenBuffer := sb3, cursorX := t.cursorX + getCharWidth char - 1 - 1 } :
      Terminal) = some t
    rw [hsame, e2]

theorem C27_write_then_backspace_witness :
    (getCharWidth [228, 184, 173] = 1 ∨ getCharWidth [228, 184, 173] = 2) ∧
      ∃ t1, processChar { newTerminalWith 2 3 2 with cursorX := 1, cursorY := 1 }
            [228, 184, 173] = some t1 ∧
        t1.cursorY = 1 ∧ t1.cursorX = 1 + getCharWidth [228, 184, 173] ∧
        getCell t1.screenBuffer 1 1 =
          some { char := [228, 184, 173], width := getCharWidth [228, 184, 173] } ∧
        processChar t1 [8] = some { newTerminalWith 2 3 2 with cursorX := 1, cursorY := 1 } :=
  C27_write_then_backspace { newTerminalWith 2 3 2 with cursorX := 1, cursorY := 1 }
    [228, 184, 173] (by decide) rfl (by decide) (by decide) (by decide) (by decide)
    (fun _ => by decide)

/-! # C26: fragments that are dropped, fragments that are written -/

/-- A fragment that `isPrintableChar` refuses and that is not one of the five
bytes `processChar` handles itself changes nothing in Normal state. -/
theorem processChar_drop {t : Terminal} {char : Bytes} (he : t.inEscape = false)
    (hp : isPrintableChar char = false)
    (hh : char ≠ [27] ∧ char ≠ [10] ∧ char ≠ [8] ∧ char ≠ [13] ∧ char ≠ [9]) :
    processChar t char = some t := by
  have hwc : writeChar t char = some t := by
    unfold writeChar
    rw [if_neg]
    intro h
    rw [hp] at h
    exact absurd h.2.2.2.2 (by decide)
  unfold processChar
  split
  · rename_i b
    rw [he]
    simp only [Bool.false_eq_true, if_false]
    rw [if_neg (fun h => hh.1 (by rw [h])), if_neg (fun h => hh.2.1 (by rw [h])),
      if_neg (fun h => hh.2.2.1 (by rw [h])), if_neg (fun h => hh.2.2.2.1 (by rw [h])),
      if_neg (fun h => hh.2.2.2.2 (by rw [h]))]
    exact hwc
  · exact hwc

/-- On a fragment of two bytes or more `isPrintableChar` looks at the first rune
only. -/
theorem isPrintableChar_long {char : Bytes} (h : 2 ≤ char.length) :
    isPrintableChar char =
      (if (DecodeRuneInString char).1 < 32 ∨
          (127 ≤ (DecodeRuneInString char).1 ∧ (DecodeRuneInString char).1 ≤ 159) then false
        else if (DecodeRuneInString char).1 = 0xFEFF ∨
            (0x200B ≤ (DecodeRuneInString char).1 ∧ (DecodeRuneInString char).1 ≤ 0x200F) ∨
            (0x2028 ≤ (DecodeRuneInString char).1 ∧ (DecodeRuneInString char).1 ≤ 0x2029) ∨
            (0xE000 ≤ (DecodeRuneInString char).1 ∧ (DecodeRuneInString char).1 ≤ 0xF8FF) then
          false
        else true) := by
  match char, h with
  | _ :: _ :: _, _ => rfl

theorem encodeRune_length {r : Nat} (h : 0x80 ≤ r) : 2 ≤ (encodeRune r).length := by
  unfold encodeRune
  rw [if_neg (by omega)]
  split
  · simp
  · split <;> simp

/-- The scalar values whose encoding `isPrintableChar` accepts: everything but
the C0 controls, U+007F to U+009F, the BOM, U+200B to U+200F, U+2028, U+2029 and
the private-use area U+E000 to U+F8FF. -/
theorem isPrintableChar_encodeRune {r : Nat} (hr : isScalar r) :
    isPrintableChar (encodeRune r) =
      decide (¬ (r < 32 ∨ (127 ≤ r ∧ r ≤ 159) ∨ r = 0xFEFF ∨ (0x200B ≤ r ∧ r ≤ 0x200F) ∨
        (0x2028 ≤ r ∧ r ≤ 0x2029) ∨ (0xE000 ≤ r ∧ r ≤ 0xF8FF))) := by
  by_cases h1 : r < 0x80
  · have e : encodeRune r = [r] := by
      unfold encodeRune
      rw [if_pos h1]
    rw [e]
    unfold isPrintableChar
    simp only
    by_cases hc : r < 32 ∨ r = 127
    · rw [if_pos hc]
      symm
      apply decide_eq_false
      omega
    · rw [if_neg hc]
      symm
      apply decide_eq_true
      omega
  · rw [isPrintableChar_long (encodeRune_length (by omega)), decode_encodeRune hr]
    simp only
    by_cases hc : r < 32 ∨ (127 ≤ r ∧ r ≤ 159)
    · rw [if_pos hc]
      symm
      apply decide_eq_false
      omega
    · rw [if_neg hc]
      by_cases hd : r = 0xFEFF ∨ (0x200B ≤ r ∧ r ≤ 0x200F) ∨ (0x2028 ≤ r ∧ r ≤ 0x2029) ∨
          (0xE000 ≤ r ∧ r ≤ 0xF8FF)
      · rw [if_pos hd]
        symm
        apply decide_eq_false
        omega
      · rw [if_neg hd]
        symm
        apply decide_eq_true
        omega

/-- The write of a printable fragment on an allocated terminal with the cursor
on a grid row: after the wrap, when the glyph does not fit, the cell under the
cursor holds the fragment with its display width, and the cursor moves on by
that width. -/
theorem write_cell {t : Terminal} {char : Bytes} (ha : Allocated t)
    (hy : 0 ≤ t.cursorY ∧ t.cursorY < t.screenHeight) (hx : 0 ≤ t.cursorX)
    (he : t.inEscape = false) (hp : isPrintableChar char = true) :
    ∃ t0 sb, processChar t char =
        some { t0 with screenBuffer := sb, cursorX := t0.cursorX + getCharWidth char } ∧
      (t.cursorX + getCharWidth char ≤ t.screenWidth → t0 = t) ∧
      (t.screenWidth < t.cursorX + getCharWidth char → lineFeed t = some t0) ∧
      getCell sb t0.cursorY t0.cursorX = some { char := char, width := getCharWidth char } := by
  have hcw := getCharWidth_pos (printable_not_control hp).1
  by_cases hfit : t.cursorX + getCharWidth char ≤ t.screenWidth
  · have hwrap : wrapLine t (getCharWidth char) = some t := by
      unfold wrapLine
      rw [if_neg (by omega)]
    obtain ⟨sb, hsb, _, hc⟩ := placeGlyph_spec ha.2.2.2.1 hy.1 hy.2 hx (by omega) char
      (getCharWidth char)
    refine ⟨t, sb, by rw [processChar_write he hp, hwrap]; exact hsb, fun _ => rfl,
      fun h => absurd hfit (by omega), ?_⟩
    rw [hc, if_neg (by omega), if_pos ⟨rfl, rfl⟩]
  · obtain ⟨t0, hlf, ha0, e1, e2, e3, e4, _, _⟩ := lineFeed_spec ha hy
    have hwrap : wrapLine t (getCharWidth char) = some t0 := by
      unfold wrapLine
      rw [if_pos (by omega)]
      exact hlf
    have h1 := ha.1
    obtain ⟨sb, hsb, _, hc⟩ := placeGlyph_spec ha0.2.2.2.1 (t := t0) (by omega) (by omega)
      (by omega) (by omega) char (getCharWidth char)
    refine ⟨t0, sb, by rw [processChar_write he hp, hwrap]; exact hsb, fun h => absurd h hfit,
      fun _ => hlf, ?_⟩
    rw [hc, if_neg (by omega), if_pos ⟨rfl, rfl⟩]

set_option maxRecDepth 100000 in
/-- C26 (refuted as stated): U+0085 is a scalar value outside every set the
claim lists as dropped (it is not below U+0020, not U+007F, not the BOM, not in
U+200B to U+200F, U+2028 to U+2029 or U+E000 to U+F8FF), yet its encoding
`C2 85` changes nothing: `isPrintableChar` refuses it, no cell is written, and
the state after the fragment (and after the two bytes) is the initial state. -/
theorem C26_c1_control_dropped :
    isScalar 0x85 ∧ encodeRune 0x85 = [0xC2, 0x85] ∧
      ¬ (0x85 < 32 ∨ 0x85 = 127 ∨ 0x85 = 0xFEFF ∨ (0x200B ≤ 0x85 ∧ 0x85 ≤ 0x200F) ∨
        (0x2028 ≤ 0x85 ∧ 0x85 ≤ 0x2029) ∨ (0xE000 ≤ 0x85 ∧ 0x85 ≤ 0xF8FF)) ∧
      isPrintableChar [0xC2, 0x85] = false ∧
      processChar (NewTerminal 3 2) [0xC2, 0x85] = some (NewTerminal 3 2) ∧
      feed (NewTerminal 3 2) [0xC2, 0x85] = some (NewTerminal 3 2) := by
  refine ⟨by decide, by decide, by decide, by decide, ?_, ?_⟩
  · rfl
  · rfl

/-- C26 (amended): in Normal state, for a scalar value `r` that is not LF, CR,
BS, TAB or ESC: (a) if `r` is a C0 control, one of U+007F to U+009F, the BOM
U+FEFF, one of U+200B to U+200F, U+2028, U+2029, or in the private-use area
U+E000 to U+F8FF, then processing its encoding returns the state unchanged (grid,
cursor, history store and every other field); (b) every other scalar value is
printable, has display width 1 or 2, and on an allocated terminal with the
cursor on a grid row it is written: after the wrap to the next line when the
glyph does not fit in the row, the cell under the cursor holds the encoding with
that width, and the cursor moves on by the width. -/
theorem C26_dropped_or_written (t : Terminal) (r : Nat) (hr : isScalar r)
    (he : t.inEscape = false)
    (hh : r ≠ 10 ∧ r ≠ 13 ∧ r ≠ 8 ∧ r ≠ 9 ∧ r ≠ 27) :
    ((r < 32 ∨ (127 ≤ r ∧ r ≤ 159) ∨ r = 0xFEFF ∨ (0x200B ≤ r ∧ r ≤ 0x200F) ∨
        (0x2028 ≤ r ∧ r ≤ 0x2029) ∨ (0xE000 ≤ r ∧ r ≤ 0xF8FF)) →
      isPrintableChar (encodeRune r) = false ∧ processChar t (encodeRune r) = some t) ∧
    (¬ (r < 32 ∨ (127 ≤ r ∧ r ≤ 159) ∨ r = 0xFEFF ∨ (0x200B ≤ r ∧ r ≤ 0x200F) ∨
        (0x2028 ≤ r ∧ r ≤ 0x2029) ∨ (0xE000 ≤ r ∧ r ≤ 0xF8FF)) →
      isPrintableChar (encodeRune r) = true ∧
      (getCharWidth (encodeRune r) = 1 ∨ getCharWidth (encodeRune r) = 2) ∧
      (Allocated t → 0 ≤ t.cursorY ∧ t.cursorY < t.screenHeight → 0 ≤ t.cursorX →
        ∃ t0 sb, processChar t (encodeRune r) =
            some { t0 with screenBuffer := sb,
                           cursorX := t0.cursorX + getCharWidth (encodeRune r) } ∧
          (t.cursorX + getCharWidth (encodeRune r) ≤ t.screenWidth → t0 = t) ∧
          (t.screenWidth < t.cursorX + getCharWidth (encodeRune r) → lineFeed t = some t0) ∧
          getCell sb t0.cursorY t0.cursorX =
            some { char := encodeRune r, width := getCharWidth (encodeRune r) })) := by
  have hpr := isPrintableChar_encodeRune hr
  constructor
  · intro hd
    have hp : isPrintableChar (encodeRune r) = false := by
      rw [hpr]
      apply decide_eq_false
      exact fun h => h hd
    refine ⟨hp, processChar_drop he hp ?_⟩
    have hsingle : ∀ b, encodeRune r = [b] → r = b := by
      intro b hb
      unfold encodeRune at hb
      split at hb
      · simp only [List.cons.injEq, and_true] at hb
        exact hb
      · split at hb
        · simp at hb
        · split at hb <;> simp at hb
    exact ⟨fun h => hh.2.2.2.2 (hsingle _ h), fun h => hh.1 (hsingle _ h),
      fun h => hh.2.2.1 (hsingle _ h), fun h => hh.2.1 (hsingle _ h),
      fun h => hh.2.2.2.1 (hsingle _ h)⟩
  · intro hd
    have hp : isPrintableChar (encodeRune r) = true := by
      rw [hpr]
      exact decide_eq_true hd
    exact ⟨hp, getCharWidth_pos (printable_not_control hp).1,
      fun ha hy hx => write_cell ha hy hx he hp⟩

theorem C26_dropped_or_written_witness :
    (isPrintableChar (encodeRune 0x85) = false ∧
      processChar { newTerminalWith 2 3 2 with cursorX := 2 } (encodeRune 0x85) =
        some { newTerminalWith 2 3 2 with cursorX := 2 }) ∧
    (getCharWidth (encodeRune 0x4E2D) = 1 ∨ getCharWidth (encodeRune 0x4E2D) = 2) ∧
    ∃ t0 sb, processChar { newTerminalWith 2 3 2 with cursorX := 2 } (encodeRune 0x4E2D) =
        some { t0 with screenBuffer := sb,
                       cursorX := t0.cursorX + getCharWidth (encodeRune 0x4E2D) } ∧
      ((2 : Int) + getCharWidth (encodeRune 0x4E2D) ≤ 3 →
        t0 = { newTerminalWith 2 3 2 with cursorX := 2 }) ∧
      ((3 : Int) < 2 + getCharWidth (encodeRune 0x4E2D) →
        lineFeed { newTerminalWith 2 3 2 with cursorX := 2 } = some t0) ∧
      getCell sb t0.cursorY t0.cursorX =
        some { char := encodeRune 0x4E2D, width := getCharWidth (encodeRune 0x4E2D) } :=
  ⟨(C26_dropped_or_written { newTerminalWith 2 3 2 with cursorX := 2 } 0x85 (by decide) rfl
      (by decide)).1 (by decide),
    ((C26_dropped_or_written { newTerminalWith 2 3 2 with cursorX := 2 } 0x4E2D (by decide) rfl
      (by decide)).2 (by decide)).2.1,
    ((C26_dropped_or_written { newTerminalWith 2 3 2 with cursorX := 2 } 0x4E2D (by decide) rfl
      (by decide)).2 (by decide)).2.2 (by decide) (by decide) (by decide)⟩

/-! # C22: placeholders and their wide glyphs -/

/-! ### No placeholder in column 0, whatever is fed -/

theorem setCell_nonneg {sb sb1 : List (List Cell)} {y x : Int} {c : Cell}
    (hs : setCell sb y x c = some sb1) : 0 ≤ x := by
  obtain ⟨row, row1, _, h1, _⟩ := setCell_eq_some.mp hs
  exact (setIdx?_eq_some.mp h1).1.1

/-- Storing a cell that is not a placeholder, or storing any cell off column 0,
keeps the rows free of a leading placeholder. -/
theorem noLead_setCell {sb sb1 : List (List Cell)} {y x : Int} {c : Cell}
    (hp : NoLeadingPlaceholder sb) (hs : setCell sb y x c = some sb1)
    (hc : c.width ≠ 0 ∨ x ≠ 0) : NoLeadingPlaceholder sb1 := by
  obtain ⟨row, row1, hr, h1, hb⟩ := setCell_eq_some.mp hs
  intro r hr1 c1 hc1
  rcases mem_setIdx? hb hr1 with hm | rfl
  · exact hp r hm c1 hc1
  · rw [idx?_setIdx? h1] at hc1
    by_cases hx : (0 : Int) = x
    · rw [if_pos hx] at hc1
      simp only [Option.some.injEq] at hc1
      subst hc1
      rcases hc with h | h
      · exact h
      · exact absurd hx.symm h
    · rw [if_neg hx] at hc1
      exact hp row (idx?_mem hr) c1 hc1

theorem noLead_blankCells {b b1 : List (List Cell)} {y lo hi : Int}
    (hb : blankCells b y lo hi = some b1) (hp : NoLeadingPlaceholder b) :
    NoLeadingPlaceholder b1 := by
  unfold blankCells forRange at hb
  exact forRangeAux_preserves _ NoLeadingPlaceholder
    (fun _ _ _ hp1 hf => noLead_setCell hp1 hf (Or.inl (by decide))) _ _ _ _ hp hb

theorem noLead_rowLoop {b b1 : List (List Cell)} {lo hi : Int}
    (f : Int → List (List Cell) → Option (List (List Cell)))
    (hf : ∀ y s1 s2, NoLeadingPlaceholder s1 → f y s1 = some s2 → NoLeadingPlaceholder s2)
    (hb : forRange lo hi f b = some b1) (hp : NoLeadingPlaceholder b) :
    NoLeadingPlaceholder b1 := by
  unfold forRange at hb
  exact forRangeAux_preserves f NoLeadingPlaceholder hf _ _ _ _ hp hb

/-- The first cell of a row after `copy` is the first cell of the source or of
the destination. -/
theorem idx?_copy_zero {dst src : List Cell} {c : Cell} (h : idx? (copy dst src) 0 = some c) :
    idx? src 0 = some c ∨ idx? dst 0 = some c := by
  cases src with
  | nil =>
    right
    simpa [copy] using h
  | cons a src1 =>
    cases dst with
    | nil => simp [copy, idx?] at h
    | cons d dst1 =>
      left
      simpa [copy, idx?] using h

theorem noLead_copyRow {b src b1 : List (List Cell)} {d s : Int}
    (hb : copyRow b d src s = some b1) (hp : NoLeadingPlaceholder b)
    (hsrc : NoLeadingPlaceholder src) : NoLeadingPlaceholder b1 := by
  obtain ⟨dst, r, hd, hr, hset⟩ := copyRow_eq_some.mp hb
  intro row hrow c hc
  rcases mem_setIdx? hset hrow with hm | rfl
  · exact hp row hm c hc
  · rcases idx?_copy_zero hc with h | h
    · exact hsrc r (idx?_mem hr) c h
    · exact hp dst (idx?_mem hd) c h

theorem ite_noLead {c : Prop} [Decidable c] {t1 a b : Terminal}
    (h : (if c then some a else some b) = some t1)
    (ha : NoLeadingPlaceholder a.screenBuffer) (hb : NoLeadingPlaceholder b.screenBuffer) :
    NoLeadingPlaceholder t1.screenBuffer := by
  split at h
  · simp only [Option.some.injEq] at h
    subst h
    exact ha
  · simp only [Option.some.injEq] at h
    subst h
    exact hb

theorem clearScreen_noLead {t t1 : Terminal} {params : Bytes}
    (h : clearScreen t params = some t1) (hp : NoLeadingPlaceholder t.screenBuffer) :
    NoLeadingPlaceholder t1.screenBuffer := by
  unfold clearScreen at h
  simp only at h
  split at h
  · simp only [Option.bind_eq_some, Option.some.injEq] at h
    obtain ⟨sb, hsb, rfl⟩ := h
    exact noLead_rowLoop _ (fun _ _ _ hp1 hf => noLead_blankCells hf hp1) hsb hp
  · split at h
    · simp only [Option.bind_eq_some, Option.some.injEq] at h
      obtain ⟨sb, hsb, rfl⟩ := h
      exact noLead_rowLoop _ (fun _ _ _ hp1 hf => noLead_blankCells hf hp1) hsb hp
    · split at h
      · simp only [Option.bind_eq_some, Option.some.injEq] at h
        obtain ⟨sb, hsb, rfl⟩ := h
        exact noLead_rowLoop _ (fun _ _ _ hp1 hf => noLead_blankCells hf hp1) hsb hp
      · simp only [Option.some.injEq] at h
        subst h
        exact hp

theorem clearLine_noLead {t t1 : Terminal} {params : Bytes}
    (h : clearLine t params = some t1) (hp : NoLeadingPlaceholder t.screenBuffer) :
    NoLeadingPlaceholder t1.screenBuffer := by
  unfold clearLine at h
  simp only at h
  split at h
  · simp only [Option.bind_eq_some, Option.some.injEq] at h
    obtain ⟨sb, hsb, rfl⟩ := h
    exact noLead_blankCells hsb hp
  · split at h
    · simp only [Option.bind_eq_some, Option.some.injEq] at h
      obtain ⟨sb, hsb, rfl⟩ := h
      exact noLead_blankCells hsb hp
    · split at h
      · simp only [Option.bind_eq_some, Option.some.injEq] at h
        obtain ⟨sb, hsb, rfl⟩ := h
        exact noLead_blankCells hsb hp
      · simp only [Option.some.injEq] at h
        subst h
        exact hp

theorem setCursorPosition_noLead {t t1 : Terminal} {params : Bytes}
    (h : setCursorPosition t params = some t1) (hp : NoLeadingPlaceholder t.screenBuffer) :
    NoLeadingPlaceholder t1.screenBuffer := by
  unfold setCursorPosition at h
  simp only [Option.bind_eq_some, Option.some.injEq] at h
  obtain ⟨p0, _, col, _, rfl⟩ := h
  exact hp

theorem processEscapeSequence_noLead {t t1 : Terminal} {seq : Bytes}
    (h : processEscapeSequence t seq = some t1) (hp : NoLeadingPlaceholder t.screenBuffer) :
    NoLeadingPlaceholder t1.screenBuffer := by
  unfold processEscapeSequence at h
  by_cases h1 : seq.length < 2
  · rw [if_pos h1] at h
    simp only [Option.some.injEq] at h
    subst h
    exact hp
  · rw [if_neg h1] at h
    by_cases h2 : hasCsiPrefix seq = true
    · rw [if_pos h2] at h
      by_cases h3 : seq.length < 3
      · rw [if_pos h3] at h
        exact absurd h (by simp)
      · rw [if_neg h3] at h
        simp only [Option.bind_eq_some] at h
        obtain ⟨cmd, _, h⟩ := h
        by_cases c1 : cmd = 72 ∨ cmd = 102
        · rw [if_pos c1] at h
          exact setCursorPosition_noLead h hp
        · rw [if_neg c1] at h
          by_cases c2 : cmd = 65
          · rw [if_pos c2] at h
            exact ite_noLead h hp hp
          · rw [if_neg c2] at h
            by_cases c3 : cmd = 66
            · rw [if_pos c3] at h
              exact ite_noLead h hp hp
            · rw [if_neg c3] at h
              by_cases c4 : cmd = 67
              · rw [if_pos c4] at h
                exact ite_noLead h hp hp
              · rw [if_neg c4] at h
                by_cases c5 : cmd = 68
                · rw [if_pos c5] at h
                  exact ite_noLead h hp hp
                · rw [if_neg c5] at h
                  by_cases c6 : cmd = 74
                  · rw [if_pos c6] at h
                    exact clearScreen_noLead h hp
                  · rw [if_neg c6] at h
                    by_cases c7 : cmd = 75
                    · rw [if_pos c7] at h
                      exact clearLine_noLead h hp
                    · rw [if_neg c7] at h
                      simp only [Option.some.injEq] at h
                      subst h
                      exact hp
    · rw [if_neg h2] at h
      simp only [Option.some.injEq] at h
      subst h
      exact hp

theorem tabLoop_noLead (nextTab : Int) :
    ∀ (fuel : Nat) (t t1 : Terminal), tabLoop nextTab fuel t = some t1 →
      NoLeadingPlaceholder t.screenBuffer → NoLeadingPlaceholder t1.screenBuffer := by
  intro fuel
  induction fuel with
  | zero =>
    intro t t1 h hp
    simp only [tabLoop, Option.some.injEq] at h
    subst h
    exact hp
  | succ n ih =>
    intro t t1 h hp
    unfold tabLoop at h
    split at h
    · simp only [Option.bind_eq_some] at h
      obtain ⟨sb, hsb, h⟩ := h
      have := ih _ _ h (noLead_setCell hp hsb (Or.inl (by decide)))
      exact this
    · simp only [Option.some.injEq] at h
      subst h
      exact hp

theorem handleBackspace_noLead {t t1 : Terminal} (h : handleBackspace t = some t1)
    (hp : NoLeadingPlaceholder t.screenBuffer) : NoLeadingPlaceholder t1.screenBuffer := by
  unfold handleBackspace at h
  by_cases h1 : t.cursorX > 0
  · rw [if_pos h1] at h
    simp only at h
    by_cases h2 : t.cursorX - 1 ≥ 0 ∧ t.cursorX - 1 < t.screenWidth
    · rw [if_pos h2] at h
      simp only [Option.bind_eq_some] at h
      obtain ⟨c, _, h⟩ := h
      by_cases w2 : c.width = 2
      · rw [if_pos w2] at h
        simp only [Option.bind_eq_some, Option.some.injEq] at h
        obtain ⟨sb, hsb, sb1, hsb1, rfl⟩ := h
        have hp1 := noLead_setCell hp hsb (Or.inl (by decide))
        show NoLeadingPlaceholder sb1
        split at hsb1
        · exact noLead_setCell hp1 hsb1 (Or.inl (by decide))
        · simp only [Option.some.injEq] at hsb1
          subst hsb1
          exact hp1
      · rw [if_neg w2] at h
        by_cases w0 : c.width = 0
        · rw [if_pos w0] at h
          simp only [Option.bind_eq_some] at h
          obtain ⟨found, _, h⟩ := h
          cases found with
          | true =>
            simp only [if_true, Option.bind_eq_some, Option.some.injEq] at h
            obtain ⟨sb, hsb, sb1, hsb1, rfl⟩ := h
            exact noLead_setCell (noLead_setCell hp hsb (Or.inl (by decide))) hsb1
              (Or.inl (by decide))
          | false =>
            simp only [Bool.false_eq_true, if_false, Option.bind_eq_some, Option.some.injEq] at h
            obtain ⟨sb, hsb, rfl⟩ := h
            exact noLead_setCell hp hsb (Or.inl (by decide))
        · rw [if_neg w0] at h
          simp only [Option.bind_eq_some, Option.some.injEq] at h
          obtain ⟨sb, hsb, rfl⟩ := h
          exact noLead_setCell hp hsb (Or.inl (by decide))
    · rw [if_neg h2] at h
      simp only [Option.some.injEq] at h
      subst h
      exact hp
  · rw [if_neg h1] at h
    by_cases h2 : t.cursorY > 0
    · rw [if_pos h2] at h
      simp only [Option.bind_eq_some] at h
      obtain ⟨t2, hscan, t3, h3, h⟩ := h
      obtain ⟨cx, rfl, _, _⟩ := scanBack_some _ _ _ hscan
      have s3 : NoLeadingPlaceholder t3.screenBuffer := by
        split at h3
        · simp only [Option.bind_eq_some] at h3
          obtain ⟨c, _, h3⟩ := h3
          exact ite_noLead h3 hp hp
        · simp only [Option.some.injEq] at h3
          subst h3
          exact hp
      exact ite_noLead h s3 s3
    · rw [if_neg h2] at h
      simp only [Option.some.injEq] at h
      subst h
      exact hp

/-- The write of a glyph of non-zero width keeps the rows free of a leading
placeholder: the placeholder of a wide glyph goes to the column after a column
of the grid. -/
theorem placeGlyph_noLead {t t1 : Terminal} {char : Bytes} {cw : Int}
    (h : placeGlyph t char cw = some t1) (hcw : cw ≠ 0)
    (hp : NoLeadingPlaceholder t.screenBuffer) : NoLeadingPlaceholder t1.screenBuffer := by
  unfold placeGlyph at h
  split at h
  · simp only [Option.bind_eq_some, Option.some.injEq] at h
    obtain ⟨sb, hsb, sb1, hsb1, rfl⟩ := h
    have hx := setCell_nonneg hsb
    have hp1 := noLead_setCell hp hsb (Or.inl hcw)
    show NoLeadingPlaceholder sb1
    split at hsb1
    · exact noLead_setCell hp1 hsb1 (Or.inr (by omega))
    · simp only [Option.some.injEq] at hsb1
      subst hsb1
      exact hp1
  · simp only [Option.some.injEq] at h
    subst h
    exact hp

theorem scrollUp_noLead {t t1 : Terminal} (h : scrollUp t = some t1)
    (hp : NoLeadingPlaceholder t.screenBuffer) : NoLeadingPlaceholder t1.screenBuffer := by
  unfold scrollUp at h
  simp only [Option.bind_eq_some] at h
  obtain ⟨ta, ha, tb, hb, sb, hshift, sb1, hblank, h⟩ := h
  have e1 : ta.screenBuffer = t.screenBuffer := by
    split at ha
    · simp only [Option.bind_eq_some, Option.some.injEq] at ha
      obtain ⟨x, _, y, _, rfl⟩ := ha
      rfl
    · simp only [Option.some.injEq] at ha
      subst ha
      rfl
  have e2 : tb.screenBuffer = ta.screenBuffer := by
    split at hb
    · simp only [Option.bind_eq_some, Option.some.injEq] at hb
      obtain ⟨x, _, rfl⟩ := hb
      rfl
    · simp only [Option.some.injEq] at hb
      subst hb
      rfl
  have hp1 : NoLeadingPlaceholder sb :=
    noLead_rowLoop _ (fun _ _ _ hp1 hf => noLead_copyRow hf hp1 hp1) hshift
      (by rw [e2, e1]; exact hp)
  have hp2 : NoLeadingPlaceholder sb1 := noLead_blankCells hblank hp1
  exact ite_noLead h hp2 hp2

theorem lineFeed_noLead {t t1 : Terminal} (h : lineFeed t = some t1)
    (hp : NoLeadingPlaceholder t.screenBuffer) : NoLeadingPlaceholder t1.screenBuffer := by
  unfold lineFeed at h
  simp only at h
  split at h
  · exact scrollUp_noLead h hp
  · simp only [Option.some.injEq] at h
    subst h
    exact hp

theorem writeChar_noLead {t t1 : Terminal} {char : Bytes} (h : writeChar t char = some t1)
    (hp : NoLeadingPlaceholder t.screenBuffer) : NoLeadingPlaceholder t1.screenBuffer := by
  unfold writeChar at h
  split at h
  · rename_i hc
    simp only [Option.bind_eq_some] at h
    obtain ⟨t0, hw, hg⟩ := h
    have h0 : NoLeadingPlaceholder t0.screenBuffer := by
      unfold wrapLine at hw
      split at hw
      · exact lineFeed_noLead hw hp
      · simp only [Option.some.injEq] at hw
        subst hw
        exact hp
    have hcw := getCharWidth_pos (printable_not_control hc.2.2.2.2).1
    exact placeGlyph_noLead hg (by omega) h0
  · simp only [Option.some.injEq] at h
    subst h
    exact hp

theorem processChar_noLead {t t1 : Terminal} {char : Bytes} (h : processChar t char = some t1)
    (hp : NoLeadingPlaceholder t.screenBuffer) : NoLeadingPlaceholder t1.screenBuffer := by
  unfold processChar at h
  split at h
  · rename_i b
    by_cases he : t.inEscape = true
    · rw [if_pos he] at h
      simp only at h
      split at h
      · simp only [Option.bind_eq_some, Option.some.injEq] at h
        obtain ⟨t2, h2, rfl⟩ := h
        have := processEscapeSequence_noLead h2 hp
        exact this
      · simp only [Option.some.injEq] at h
        subst h
        exact hp
    · rw [if_neg he] at h
      by_cases b1 : b = 27
      · rw [if_pos b1] at h
        simp only [Option.some.injEq] at h
        subst h
        exact hp
      · rw [if_neg b1] at h
        by_cases b2 : b = 10
        · rw [if_pos b2] at h
          exact lineFeed_noLead h hp
        · rw [if_neg b2] at h
          by_cases b3 : b = 8
          · rw [if_pos b3] at h
            exact handleBackspace_noLead h hp
          · rw [if_neg b3] at h
            by_cases b4 : b = 13
            · rw [if_pos b4] at h
              simp only [Option.some.injEq] at h
              subst h
              exact hp
            · rw [if_neg b4] at h
              by_cases b5 : b = 9
              · rw [if_pos b5] at h
                exact tabLoop_noLead _ _ _ _ h hp
              · rw [if_neg b5] at h
                exact writeChar_noLead h hp
  · exact writeChar_noLead h hp

theorem processByte_noLead {t t1 : Terminal} {b : Nat} (h : processByte t b = some t1)
    (hp : NoLeadingPlaceholder t.screenBuffer) : NoLeadingPlaceholder t1.screenBuffer := by
  rw [processByte_decodeStep] at h
  cases hs : decodeStep t.utf8Buffer b with
  | mk o rest =>
    rw [hs] at h
    cases o with
    | none =>
      simp only [Option.some.injEq] at h
      subst h
      exact hp
    | some frag => exact processChar_noLead h hp

/-- Whatever bytes are fed, and whenever the loop returns, no row of the grid
starts with a placeholder if none did before. -/
theorem feed_noLead (bs : Bytes) :
    ∀ t t1 : Terminal, feed t bs = some t1 → NoLeadingPlaceholder t.screenBuffer →
      NoLeadingPlaceholder t1.screenBuffer := by
  induction bs with
  | nil =>
    intro t t1 h hp
    simp only [feed, Option.some.injEq] at h
    subst h
    exact hp
  | cons b bs ih =>
    intro t t1 h hp
    simp only [feed, Option.bind_eq_some] at h
    obtain ⟨t0, h0, h⟩ := h
    exact ih t0 t1 h (processByte_noLead h0 hp)

theorem noLead_blankRows (n w : Int) : NoLeadingPlaceholder (blankRows n w) := by
  intro row hrow c hc
  unfold blankRows at hrow
  rw [List.eq_of_mem_replicate hrow] at hc
  rw [List.eq_of_mem_replicate (idx?_mem hc)]
  decide

/-- In a grid without a leading placeholder every cell of width 0 stands at
column 1 or further. -/
theorem NoLeadingPlaceholder.column {sb : List (List Cell)} (hp : NoLeadingPlaceholder sb)
    {y x : Int} {c : Cell} (hc : getCell sb y x = some c) (hw : c.width = 0) : 1 ≤ x := by
  obtain ⟨row, hrow, hcx⟩ := getCell_eq_some.mp hc
  have hx := (idx?_lt hcx).1
  by_contra hlt
  have hx0 : x = 0 := by omega
  rw [hx0] at hcx
  exact hp row (idx?_mem hrow) c hcx hw

/-! ### Loops that return -/

/-- Partial-correctness loop rule with a round counter. -/
theorem forRangeAux_some_inv {σ : Type} (f : Int → σ → Option σ) :
    ∀ (n : Nat) (P : Nat → σ → Prop) (lo : Int) (s s2 : σ), P 0 s →
      (∀ k : Nat, k < n → ∀ s1 s3, P k s1 → f (lo + k) s1 = some s3 → P (k + 1) s3) →
      forRangeAux f n lo s = some s2 → P n s2 := by
  intro n
  induction n with
  | zero =>
    intro P lo s s2 h0 _ h
    simp only [forRangeAux, Option.some.injEq] at h
    exact h ▸ h0
  | succ n ih =>
    intro P lo s s2 h0 hstep h
    simp only [forRangeAux, Option.bind_eq_some] at h
    obtain ⟨s1, hf, hr⟩ := h
    have hp1 : P 1 s1 := by
      have := hstep 0 (by omega) s s1 h0 (by simpa using hf)
      simpa using this
    refine ih (fun k => P (k + 1)) (lo + 1) s1 s2 hp1 ?_ hr
    intro k hk s3 s4 hp3 hf4
    refine hstep (k + 1) (by omega) s3 s4 hp3 ?_
    rw [← hf4]
    congr 1
    push_cast
    ring

/-- Whenever a blanking loop returns, cells `lo .. hi-1` of row `y` are blank and
every other cell is as before. -/
theorem blankCells_some {buf b1 : List (List Cell)} {y lo hi : Int}
    (h : blankCells buf y lo hi = some b1) (y1 x1 : Int) :
    getCell b1 y1 x1 =
      if y1 = y ∧ lo ≤ x1 ∧ x1 < hi then some blank else getCell buf y1 x1 := by
  unfold blankCells forRange at h
  have key := forRangeAux_some_inv (fun x b => setCell b y x blank) (hi - lo).toNat
    (fun k b => ∀ y1 x1, getCell b y1 x1 =
      if y1 = y ∧ lo ≤ x1 ∧ x1 < lo + (k : Int) then some blank else getCell buf y1 x1)
    lo buf b1 (by
      intro y1 x1
      rw [if_neg (by push_cast; omega)]) (by
      intro k _ s1 s3 hp hf y1 x1
      rw [getCell_setCell hf, hp]
      by_cases h1 : y1 = y ∧ x1 = lo + (k : Int)
      · rw [if_pos h1, if_pos (by push_cast; omega)]
      · rw [if_neg h1]
        by_cases h2 : y1 = y ∧ lo ≤ x1 ∧ x1 < lo + (k : Int)
        · rw [if_pos h2, if_pos (by push_cast; omega)]
        · rw [if_neg h2, if_neg (by push_cast; omega)]) h
  rw [key]
  by_cases hle : lo ≤ hi
  · have e : lo + (((hi - lo).toNat : Nat) : Int) = hi := by omega
    rw [e]
  · by_cases h1 : y1 = y ∧ lo ≤ x1 ∧ x1 < hi
    · omega
    · rw [if_neg h1, if_neg (by omega)]

/-- Whenever a loop over the rows `lo .. hi-1` that blanks cells `a y .. b y - 1`
of row `y` returns, those cells are blank and every other cell is as before. -/
theorem rowLoop_some {buf b1 : List (List Cell)} {lo hi : Int} (a b : Int → Int)
    (h : forRange lo hi (fun y sb => blankCells sb y (a y) (b y)) buf = some b1) (y1 x1 : Int) :
    getCell b1 y1 x1 =
      if lo ≤ y1 ∧ y1 < hi ∧ a y1 ≤ x1 ∧ x1 < b y1 then some blank else getCell buf y1 x1 := by
  unfold forRange at h
  have key := forRangeAux_some_inv (fun y sb => blankCells sb y (a y) (b y)) (hi - lo).toNat
    (fun k sb => ∀ y1 x1, getCell sb y1 x1 =
      if lo ≤ y1 ∧ y1 < lo + (k : Int) ∧ a y1 ≤ x1 ∧ x1 < b y1 then some blank
      else getCell buf y1 x1)
    lo buf b1 (by
      intro y1 x1
      rw [if_neg (by push_cast; omega)]) (by
      intro k _ s1 s3 hp hf y1 x1
      rw [blankCells_some hf, hp]
      by_cases h1 : y1 = lo + (k : Int) ∧ a (lo + (k : Int)) ≤ x1 ∧ x1 < b (lo + (k : Int))
      · rw [if_pos h1, if_pos ⟨by omega, by push_cast; omega, by rw [h1.1]; exact h1.2.1,
          by rw [h1.1]; exact h1.2.2⟩]
      · rw [if_neg h1]
        by_cases h2 : lo ≤ y1 ∧ y1 < lo + (k : Int) ∧ a y1 ≤ x1 ∧ x1 < b y1
        · rw [if_pos h2, if_pos ⟨h2.1, by push_cast; omega, h2.2.2⟩]
        · rw [if_neg h2, if_neg]
          rintro ⟨h3, h4, h5, h6⟩
          push_cast at h4
          by_cases h7 : y1 = lo + (k : Int)
          · apply h1
            refine ⟨h7, ?_, ?_⟩
            · rw [← h7]; exact h5
            · rw [← h7]; exact h6
          · exact h2 ⟨h3, by omega, h5, h6⟩) h
  rw [key]
  by_cases hle : lo ≤ hi
  · have e : lo + (((hi - lo).toNat : Nat) : Int) = hi := by omega
    rw [e]
  · by_cases h1 : lo ≤ y1 ∧ y1 < hi ∧ a y1 ≤ x1 ∧ x1 < b y1
    · omega
    · rw [if_neg h1, if_neg (by omega)]

/-! ### Blanking cells -/

/-- Blanking a set of cells that holds, with a wide glyph, its placeholder too
keeps every placeholder behind a wide glyph and every wide glyph well formed. -/
theorem tidy_blank {sb sb1 : List (List Cell)} (B : Int → Int → Prop)
    [∀ y x, Decidable (B y x)]
    (hd : ∀ y x, getCell sb1 y x = if B y x then some blank else getCell sb y x)
    (hcl : ∀ y x g c, B y (x - 1) → getCell sb y (x - 1) = some g → g.width = 2 →
      getCell sb y x = some c → c.width = 0 → B y x)
    (hp : Paired sb) (hw : WideCells sb) : Paired sb1 ∧ WideCells sb1 := by
  constructor
  · intro y x c hc hz
    rw [hd] at hc
    by_cases hb : B y x
    · rw [if_pos hb] at hc
      simp only [Option.some.injEq] at hc
      rw [← hc] at hz
      exact absurd hz (by decide)
    · rw [if_neg hb] at hc
      obtain ⟨g, hg1, hg2⟩ := hp y x c hc hz
      have hnb : ¬ B y (x - 1) := fun h => hb (hcl y x g c h hg1 hg2 hc hz)
      exact ⟨g, by rw [hd, if_neg hnb]; exact hg1, hg2⟩
  · intro y x c hc h2
    rw [hd] at hc
    by_cases hb : B y x
    · rw [if_pos hb] at hc
      simp only [Option.some.injEq] at hc
      rw [← hc] at h2
      exact absurd h2 (by decide)
    · rw [if_neg hb] at hc
      obtain ⟨h3, c1, hc1⟩ := hw y x c hc h2
      refine ⟨h3, ?_⟩
      rw [hd]
      by_cases hb1 : B y (x + 1)
      · rw [if_pos hb1]
        exact ⟨_, rfl⟩
      · rw [if_neg hb1]
        exact ⟨c1, hc1⟩

/-- After a blanking, no wide glyph or placeholder lies ahead of a position when
none of the cells left as they were does. -/
theorem ahead_blank {sb sb1 : List (List Cell)} (B : Int → Int → Prop)
    [∀ y x, Decidable (B y x)] {cy cx : Int}
    (hd : ∀ y x, getCell sb1 y x = if B y x then some blank else getCell sb y x)
    (hold : ∀ y x c, ¬ B y x → getCell sb y x = some c → (cy < y ∨ (y = cy ∧ cx ≤ x)) →
      c.width ≠ 2 ∧ ((cy < y ∨ cx < x) → c.width ≠ 0)) :
    Ahead sb1 cy cx := by
  intro y x c hc hr
  rw [hd] at hc
  by_cases hb : B y x
  · rw [if_pos hb] at hc
    simp only [Option.some.injEq] at hc
    rw [← hc]
    exact ⟨by decide, fun _ => by decide⟩
  · rw [if_neg hb] at hc
    exact hold y x c hb hc hr

/-! ### Each operation keeps the grid tidy -/

theorem lineFeed_tidy {w h m : Int} {t t1 : Terminal} (hi : Inv w h m t) (hg : Tidy t)
    (hc : lineFeed t = some t1) : Tidy t1 := by
  obtain ⟨rfl, rfl, rfl, ha, hcur⟩ := hi
  have hcy : t.cursorY < t.screenHeight := hcur.1.2
  obtain ⟨hp, hwc, hah⟩ := hg
  by_cases hlast : t.cursorY + 1 < t.screenHeight
  · rw [lineFeed_noscroll hlast] at hc
    simp only [Option.some.injEq] at hc
    subst hc
    refine ⟨hp, hwc, ?_⟩
    intro y x c hc hr
    have hr1 : t.cursorY + 1 < y ∨ (y = t.cursorY + 1 ∧ 0 ≤ x) := hr
    have := hah y x c hc (by omega)
    exact ⟨this.1, fun _ => this.2 (by omega)⟩
  · have ha0 : Allocated { t with cursorX := 0, cursorY := t.cursorY + 1 } := ha
    obtain ⟨t2, hs1, ha1, e1, e2, _, e4, e5, _, e7, _, _, _, _, hg, _⟩ := scrollUp_spec ha0
    rw [lineFeed_scroll (by omega), hs1] at hc
    simp only [Option.some.injEq] at hc
    subst hc
    have e4a : t2.cursorX = 0 := e4
    have e5a : t2.cursorY = t.screenHeight - 1 := e5
    have hga : ∀ y, idx? t2.screenBuffer y =
        if y = t.screenHeight - 1 then some (blankRow t.screenWidth)
        else if 0 ≤ y then idx? t.screenBuffer (y + 1) else none := hg
    have hcell : ∀ y x c, getCell t2.screenBuffer y x = some c →
        (y = t.screenHeight - 1 ∧ c = blank) ∨
          (y ≠ t.screenHeight - 1 ∧ 0 ≤ y ∧ getCell t.screenBuffer (y + 1) x = some c) := by
      intro y x c hc
      obtain ⟨row, hrow, hcx⟩ := getCell_eq_some.mp hc
      rw [hga] at hrow
      by_cases hy1 : y = t.screenHeight - 1
      · rw [if_pos hy1] at hrow
        simp only [Option.some.injEq] at hrow
        subst hrow
        left
        refine ⟨hy1, ?_⟩
        have := idx?_mem hcx
        unfold blankRow at this
        exact List.eq_of_mem_replicate this
      · rw [if_neg hy1] at hrow
        by_cases hy0 : 0 ≤ y
        · rw [if_pos hy0] at hrow
          right
          exact ⟨hy1, hy0, getCell_eq_some.mpr ⟨row, hrow, hcx⟩⟩
        · rw [if_neg hy0] at hrow
          exact absurd hrow (by simp)
    have hnew : ∀ y x, y ≠ t.screenHeight - 1 → 0 ≤ y →
        getCell t2.screenBuffer y x = getCell t.screenBuffer (y + 1) x := by
      intro y x hy1 hy0
      unfold getCell
      rw [hga, if_neg hy1, if_pos hy0]
    refine ⟨?_, ?_, ?_⟩
    · intro y x c hc hw0
      rcases hcell y x c hc with ⟨_, hb⟩ | ⟨hy1, hy0, hold⟩
      · rw [hb] at hw0
        exact absurd hw0 (by decide)
      · obtain ⟨g, hg1, hg2⟩ := hp (y + 1) x c hold hw0
        exact ⟨g, by rw [hnew y (x - 1) hy1 hy0]; exact hg1, hg2⟩
    · intro y x c hc hw2
      rcases hcell y x c hc with ⟨_, hb⟩ | ⟨hy1, hy0, hold⟩
      · rw [hb] at hw2
        exact absurd hw2 (by decide)
      · obtain ⟨h3, c1, hc1⟩ := hwc (y + 1) x c hold hw2
        exact ⟨h3, c1, by rw [hnew y (x + 1) hy1 hy0]; exact hc1⟩
    · intro y x c hc hr
      rcases hcell y x c hc with ⟨_, hb⟩ | ⟨hy1, hy0, hold⟩
      · rw [hb]
        exact ⟨by decide, fun _ => by decide⟩
      · rw [e5a, e4a] at hr
        have := hah (y + 1) x c hold (by omega)
        exact ⟨this.1, fun _ => this.2 (by omega)⟩

theorem placeGlyph_tidy {w h m : Int} {t t1 : Terminal} {char : Bytes} {cw : Int}
    (hi : Inv w h m t) (hg : Tidy t) (hcw : cw = 1 ∨ cw = 2) (hch : cw = 2 → char ≠ [32])
    (hfit : t.cursorX + cw ≤ w) (hc : placeGlyph t char cw = some t1) : Tidy t1 := by
  obtain ⟨rfl, rfl, rfl, ha, hcur⟩ := hi
  have hcx : 0 ≤ t.cursorX := hcur.2.1
  obtain ⟨hp, hwc, hah⟩ := hg
  obtain ⟨sb, hsb, _, hcell⟩ := placeGlyph_spec ha.2.2.2.1 hcur.1.1 hcur.1.2 hcur.2.1
    (by omega) char cw
  rw [hsb] at hc
  simp only [Option.some.injEq] at hc
  subst hc
  refine ⟨?_, ?_, ?_⟩
  · intro y x c hc hz
    rw [hcell] at hc
    by_cases c1 : y = t.cursorY ∧ x = t.cursorX + 1 ∧ cw = 2 ∧ t.cursorX + 1 < t.screenWidth
    · refine ⟨{ char := char, width := cw }, ?_, c1.2.2.1⟩
      show getCell sb y (x - 1) = _
      rw [hcell, if_neg (by omega), if_pos ⟨c1.1, by omega⟩]
    · rw [if_neg c1] at hc
      by_cases c2 : y = t.cursorY ∧ x = t.cursorX
      · rw [if_pos c2] at hc
        simp only [Option.some.injEq] at hc
        rw [← hc] at hz
        have hz : cw = 0 := hz
        omega
      · rw [if_neg c2] at hc
        obtain ⟨g, hg1, hg2⟩ := hp y x c hc hz
        have hnz := hah y x c hc
        refine ⟨g, ?_, hg2⟩
        show getCell sb y (x - 1) = _
        rw [hcell]
        by_cases d1 : y = t.cursorY ∧ x - 1 = t.cursorX + 1 ∧ cw = 2 ∧
            t.cursorX + 1 < t.screenWidth
        · exact absurd hz ((hnz (Or.inr ⟨d1.1, by omega⟩)).2 (Or.inr (by omega)))
        · rw [if_neg d1]
          by_cases d2 : y = t.cursorY ∧ x - 1 = t.cursorX
          · exact absurd hz ((hnz (Or.inr ⟨d2.1, by omega⟩)).2 (Or.inr (by omega)))
          · rw [if_neg d2]
            exact hg1
  · intro y x c hc h2
    have hnext : ∀ c1, getCell t.screenBuffer y (x + 1) = some c1 →
        ∃ c2, getCell sb y (x + 1) = some c2 := by
      intro c1 hc1
      rw [hcell]
      by_cases d1 : y = t.cursorY ∧ x + 1 = t.cursorX + 1 ∧ cw = 2 ∧
          t.cursorX + 1 < t.screenWidth
      · rw [if_pos d1]; exact ⟨_, rfl⟩
      · rw [if_neg d1]
        by_cases d2 : y = t.cursorY ∧ x + 1 = t.cursorX
        · rw [if_pos d2]; exact ⟨_, rfl⟩
        · rw [if_neg d2]; exact ⟨c1, hc1⟩
    rw [hcell] at hc
    by_cases c1 : y = t.cursorY ∧ x = t.cursorX + 1 ∧ cw = 2 ∧ t.cursorX + 1 < t.screenWidth
    · rw [if_pos c1] at hc
      simp only [Option.some.injEq] at hc
      rw [← hc] at h2
      exact absurd h2 (by decide)
    · rw [if_neg c1] at hc
      by_cases c2 : y = t.cursorY ∧ x = t.cursorX
      · rw [if_pos c2] at hc
        simp only [Option.some.injEq] at hc
        rw [← hc] at h2 ⊢
        have h2 : cw = 2 := h2
        refine ⟨hch h2, ?_⟩
        show ∃ c1, getCell sb y (x + 1) = some c1
        rw [hcell, if_pos ⟨c2.1, by omega, h2, by omega⟩]
        exact ⟨_, rfl⟩
      · rw [if_neg c2] at hc
        obtain ⟨h3, c1, hc1⟩ := hwc y x c hc h2
        exact ⟨h3, hnext c1 hc1⟩
  · intro y x c hc hr
    have hr : t.cursorY < y ∨ (y = t.cursorY ∧ t.cursorX + cw ≤ x) := hr
    have hc : getCell sb y x = some c := hc
    rw [hcell, if_neg (by omega), if_neg (by omega)] at hc
    have := hah y x c hc (by omega)
    refine ⟨this.1, fun h => this.2 ?_⟩
    have h : t.cursorY < y ∨ t.cursorX + cw < x := h
    omega

theorem writeChar_tidy {w h m : Int} {t t1 : Terminal} {char : Bytes}
    (hi : Inv w h m t) (hw : 2 ≤ w) (hg : Tidy t) (hc : writeChar t char = some t1) :
    Tidy t1 := by
  have hcur := inv_cursor hi
  have hwd : t.screenWidth = w := hi.1
  unfold writeChar at hc
  split at hc
  · rename_i hcond
    have hcw := getCharWidth_pos (printable_not_control hcond.2.2.2.2).1
    have hch : getCharWidth char = 2 → char ≠ [32] := by
      rintro h2 rfl
      rw [getCharWidth_ascii (by decide)] at h2
      exact absurd h2 (by decide)
    simp only [Option.bind_eq_some] at hc
    obtain ⟨t2, ht2, hc⟩ := hc
    unfold wrapLine at ht2
    split at ht2
    · obtain ⟨hi2, hx2⟩ := lineFeed_some hi ht2
      exact placeGlyph_tidy hi2 (lineFeed_tidy hi hg ht2) hcw hch (by omega) hc
    · simp only [Option.some.injEq] at ht2
      subst ht2
      exact placeGlyph_tidy hi hg hcw hch (by omega) hc
  · simp only [Option.some.injEq] at hc
    subst hc; exact hg

theorem tabLoop_tidy {w h m : Int} (nextTab : Int) :
    ∀ (fuel : Nat) (t t1 : Terminal), Inv w h m t → Tidy t →
      tabLoop nextTab fuel t = some t1 → Tidy t1 := by
  intro fuel
  induction fuel with
  | zero =>
    intro t t1 _ hg hc
    simp only [tabLoop, Option.some.injEq] at hc
    subst hc; exact hg
  | succ fuel ih =>
    intro t t1 hi hg hc
    have hcur := inv_cursor hi
    have hw : t.screenWidth = w := hi.1
    unfold tabLoop at hc
    split at hc
    · rename_i hcond
      rw [Option.bind_eq_some] at hc
      obtain ⟨sb, hsb, hc⟩ := hc
      refine ih _ t1 (inv_withGrid hi (shaped_setCell (inv_shaped hi) hsb) hcur.1 (by omega))
        ?_ hc
      obtain ⟨hp, hwc, hah⟩ := hg
      have hd : ∀ y x, getCell sb y x =
          if y = t.cursorY ∧ x = t.cursorX then some blank else getCell t.screenBuffer y x :=
        getCell_setCell hsb
      obtain ⟨h1, h2⟩ := tidy_blank (fun y x => y = t.cursorY ∧ x = t.cursorX) hd (by
        intro y x g c hb hg1 hg2 _ _
        exact absurd hg2 (hah y (x - 1) g hg1 (Or.inr ⟨hb.1, by omega⟩)).1) hp hwc
      refine ⟨h1, h2, ?_⟩
      refine ahead_blank (fun y x => y = t.cursorY ∧ x = t.cursorX) hd ?_
      intro y x c _ hc hr
      have hr : t.cursorY < y ∨ (y = t.cursorY ∧ t.cursorX + 1 ≤ x) := hr
      have := hah y x c hc (by omega)
      exact ⟨this.1, fun _ => this.2 (by omega)⟩
    · simp only [Option.some.injEq] at hc
      subst hc; exact hg

/-- Blanking the cell to the left of the cursor, when it is not a wide glyph,
and stepping the cursor onto it keeps the grid tidy. -/
theorem tidy_eraseLeft {t : Terminal} {sb : List (List Cell)} {c : Cell} (hg : Tidy t)
    (hc : getCell t.screenBuffer t.cursorY (t.cursorX - 1) = some c) (hw2 : ¬ c.width = 2)
    (hsb : setCell t.screenBuffer t.cursorY (t.cursorX - 1) blank = some sb) :
    Tidy { t with screenBuffer := sb, cursorX := t.cursorX - 1 } := by
  obtain ⟨hp, hwc, hah⟩ := hg
  have hd : ∀ y x, getCell sb y x =
      if y = t.cursorY ∧ x = t.cursorX - 1 then some blank else getCell t.screenBuffer y x :=
    getCell_setCell hsb
  obtain ⟨h1, h2⟩ := tidy_blank (fun y x => y = t.cursorY ∧ x = t.cursorX - 1) hd (by
    intro y x g c1 hb hg1 hg2 _ _
    rw [hb.1, hb.2, hc] at hg1
    simp only [Option.some.injEq] at hg1
    rw [hg1] at hw2
    exact absurd hg2 hw2) hp hwc
  refine ⟨h1, h2, ?_⟩
  refine ahead_blank (fun y x => y = t.cursorY ∧ x = t.cursorX - 1) hd ?_
  intro y x c1 hnb hc1 hr
  have hr : t.cursorY < y ∨ (y = t.cursorY ∧ t.cursorX - 1 ≤ x) := hr
  have hold := hah y x c1 hc1 (by omega)
  refine ⟨hold.1, fun _ => ?_⟩
  intro hz
  by_cases hx : t.cursorY < y ∨ t.cursorX < x
  · exact hold.2 hx hz
  · have hy : y = t.cursorY := by omega
    have hxe : x = t.cursorX := by omega
    obtain ⟨g, hg1, hg2⟩ := hp y x c1 hc1 hz
    rw [hy, hxe, hc] at hg1
    simp only [Option.some.injEq] at hg1
    rw [hg1] at hw2
    exact hw2 hg2

theorem handleBackspace_tidy {w h m : Int} {t t1 : Terminal} (hi : Inv w h m t) (hw : 2 ≤ w)
    (hg : Tidy t) (hc : handleBackspace t = some t1) : Tidy t1 := by
  obtain ⟨rfl, rfl, rfl, ha, hcur⟩ := hi
  have hs : Shaped t.screenBuffer t.screenHeight t.screenWidth := ha.2.2.2.1
  have hcy0 : 0 ≤ t.cursorY := hcur.1.1
  have hcy1 : t.cursorY < t.screenHeight := hcur.1.2
  have hcx0 : 0 ≤ t.cursorX := hcur.2.1
  have hcx1 : t.cursorX ≤ t.screenWidth := by
    have : t.cursorX ≤ max t.screenWidth 2 := hcur.2.2
    omega
  have hg0 := hg
  obtain ⟨hp, hwc, hah⟩ := hg
  unfold handleBackspace at hc
  by_cases hx : t.cursorX > 0
  · rw [if_pos hx] at hc
    simp only at hc
    rw [if_pos ⟨by omega, by omega⟩] at hc
    rw [Option.bind_eq_some] at hc
    obtain ⟨c, hcell, hc⟩ := hc
    by_cases w2 : c.width = 2
    · rw [if_pos w2] at hc
      simp only [Option.bind_eq_some] at hc
      obtain ⟨sb, hsb, sb1, hsb1, ht⟩ := hc
      simp only [Option.some.injEq] at ht
      subst ht
      have hd : ∀ y x, getCell sb1 y x =
          if y = t.cursorY ∧ (x = t.cursorX - 1 ∨ (x = t.cursorX ∧ t.cursorX < t.screenWidth))
          then some blank else getCell t.screenBuffer y x := by
        intro y x
        by_cases hlt : t.cursorX - 1 + 1 < t.screenWidth
        · rw [if_pos hlt] at hsb1
          rw [getCell_setCell hsb1, getCell_setCell hsb]
          by_cases d1 : y = t.cursorY ∧ x = t.cursorX - 1 + 1
          · rw [if_pos d1, if_pos ⟨d1.1, Or.inr ⟨by omega, by omega⟩⟩]
          · rw [if_neg d1]
            by_cases d2 : y = t.cursorY ∧ x = t.cursorX - 1
            · rw [if_pos d2, if_pos ⟨d2.1, Or.inl d2.2⟩]
            · rw [if_neg d2, if_neg (by omega)]
        · rw [if_neg hlt] at hsb1
          simp only [Option.some.injEq] at hsb1
          subst hsb1
          rw [getCell_setCell hsb]
          by_cases d2 : y = t.cursorY ∧ x = t.cursorX - 1
          · rw [if_pos d2, if_pos ⟨d2.1, Or.inl d2.2⟩]
          · rw [if_neg d2, if_neg (by omega)]
      obtain ⟨h1, h2⟩ := tidy_blank (fun y x => y = t.cursorY ∧
          (x = t.cursorX - 1 ∨ (x = t.cursorX ∧ t.cursorX < t.screenWidth))) hd (by
        intro y x g c1 hb hg1 hg2 hc1 _
        have hr := hs.getCell_range hc1
        refine ⟨hb.1, ?_⟩
        rcases hb.2 with hb1 | hb2
        · right; omega
        · exact absurd hg2 (hah y (x - 1) g hg1 (Or.inr ⟨hb.1, by omega⟩)).1) hp hwc
      refine ⟨h1, h2, ?_⟩
      refine ahead_blank (fun y x => y = t.cursorY ∧
          (x = t.cursorX - 1 ∨ (x = t.cursorX ∧ t.cursorX < t.screenWidth))) hd ?_
      intro y x c1 hnb hc1 hr
      have hr : t.cursorY < y ∨ (y = t.cursorY ∧ t.cursorX - 1 ≤ x) := hr
      have hrng := hs.getCell_range hc1
      have hold := hah y x c1 hc1 (by omega)
      exact ⟨hold.1, fun _ => hold.2 (by omega)⟩
    · rw [if_neg w2] at hc
      by_cases w0 : c.width = 0
      · rw [if_pos w0] at hc
        simp only [Option.bind_eq_some] at hc
        obtain ⟨found, hfound, hc⟩ := hc
        cases found with
        | true =>
          simp only [if_true, Option.bind_eq_some] at hc
          obtain ⟨sb, hsb, sb1, hsb1, ht⟩ := hc
          simp only [Option.some.injEq] at ht
          subst ht
          have hd : ∀ y x, getCell sb1 y x =
              if y = t.cursorY ∧ (x = t.cursorX - 1 - 1 ∨ x = t.cursorX - 1)
              then some blank else getCell t.screenBuffer y x := by
            intro y x
            rw [getCell_setCell hsb1, getCell_setCell hsb]
            by_cases d1 : y = t.cursorY ∧ x = t.cursorX - 1
            · rw [if_pos d1, if_pos ⟨d1.1, Or.inr d1.2⟩]
            · rw [if_neg d1]
              by_cases d2 : y = t.cursorY ∧ x = t.cursorX - 1 - 1
              · rw [if_pos d2, if_pos ⟨d2.1, Or.inl d2.2⟩]
              · rw [if_neg d2, if_neg (by omega)]
          obtain ⟨h1, h2⟩ := tidy_blank (fun y x => y = t.cursorY ∧
              (x = t.cursorX - 1 - 1 ∨ x = t.cursorX - 1)) hd (by
            intro y x g c1 hb hg1 hg2 hc1 _
            refine ⟨hb.1, ?_⟩
            rcases hb.2 with hb1 | hb2
            · right; omega
            · rw [hb.1, hb2, hcell] at hg1
              simp only [Option.some.injEq] at hg1
              rw [hg1] at w2
              exact absurd hg2 w2) hp hwc
          refine ⟨h1, h2, ?_⟩
          refine ahead_blank (fun y x => y = t.cursorY ∧
              (x = t.cursorX - 1 - 1 ∨ x = t.cursorX - 1)) hd ?_
          intro y x c1 hnb hc1 hr
          have hr : t.cursorY < y ∨ (y = t.cursorY ∧ t.cursorX - 1 - 1 ≤ x) := hr
          have hold := hah y x c1 hc1 (by omega)
          refine ⟨hold.1, fun _ => ?_⟩
          intro hz
          by_cases hx1 : t.cursorY < y ∨ t.cursorX < x
          · exact hold.2 hx1 hz
          · have hy : y = t.cursorY := by omega
            have hxe : x = t.cursorX := by omega
            obtain ⟨g, hg1, hg2⟩ := hp y x c1 hc1 hz
            rw [hy, hxe, hcell] at hg1
            simp only [Option.some.injEq] at hg1
            rw [hg1] at w2
            exact w2 hg2
        | false =>
          simp only [Bool.false_eq_true, if_false, Option.bind_eq_some] at hc
          obtain ⟨sb, hsb, ht⟩ := hc
          simp only [Option.some.injEq] at ht
          subst ht
          exact tidy_eraseLeft hg0 hcell w2 hsb
      · rw [if_neg w0] at hc
        simp only [Option.bind_eq_some] at hc
        obtain ⟨sb, hsb, ht⟩ := hc
        simp only [Option.some.injEq] at ht
        subst ht
        exact tidy_eraseLeft hg0 hcell w2 hsb
  · rw [if_neg hx] at hc
    have hx0 : t.cursorX = 0 := by omega
    by_cases hy : t.cursorY > 0
    · rw [if_pos hy] at hc
      obtain ⟨j, hj, j0, j1, hvac, hink⟩ :=
        scanBack_spec (t.screenWidth.toNat + 1)
          { t with cursorY := t.cursorY - 1, cursorX := t.screenWidth - 1 } hs
          (by show 0 ≤ t.cursorY - 1; omega) (by show t.cursorY - 1 < t.screenHeight; omega)
          (by show -1 ≤ t.screenWidth - 1; omega)
          (by show t.screenWidth - 1 < t.screenWidth; omega)
          (by show t.screenWidth - 1 + 1 < ((t.screenWidth.toNat + 1 : Nat) : Int); omega)
      have j1 : j ≤ t.screenWidth - 1 := j1
      have hvac : ∀ x, j < x → x ≤ t.screenWidth - 1 →
          ∃ c, getCell t.screenBuffer (t.cursorY - 1) x = some c ∧ Vacant c := hvac
      have hink : 0 ≤ j → ∃ c, getCell t.screenBuffer (t.cursorY - 1) j = some c ∧ ¬ Vacant c :=
        hink
      simp only at hc
      rw [hj, Option.some_bind] at hc
      have hres : ∃ cxf, t1 = { t with cursorY := t.cursorY - 1, cursorX := cxf } ∧
          ((j < 0 ∧ cxf = 0) ∨ (0 ≤ j ∧ ∃ c, getCell t.screenBuffer (t.cursorY - 1) j = some c ∧
            ((c.width = 2 ∧ cxf = min (j + 2) (t.screenWidth - 1)) ∨
              (c.width ≠ 2 ∧ cxf = min (j + 1) (t.screenWidth - 1))))) := by
        by_cases hge : j ≥ 0
        · obtain ⟨c, hcj, _⟩ := hink hge
          have hcj1 : getCell
              ({ t with cursorY := t.cursorY - 1, cursorX := j } : Terminal).screenBuffer
              ({ t with cursorY := t.cursorY - 1, cursorX := j } : Terminal).cursorY
              ({ t with cursorY := t.cursorY - 1, cursorX := j } : Terminal).cursorX = some c :=
            hcj
          rw [if_pos (by exact hge), hcj1, Option.some_bind] at hc
          by_cases hw2 : c.width = 2
          · rw [if_pos hw2, Option.some_bind] at hc
            by_cases hcl : j + 2 ≥ t.screenWidth
            · rw [if_pos (by exact hcl)] at hc
              simp only [Option.some.injEq] at hc
              exact ⟨t.screenWidth - 1, hc.symm, Or.inr ⟨hge, c, hcj, Or.inl ⟨hw2, by omega⟩⟩⟩
            · rw [if_neg (by exact hcl)] at hc
              simp only [Option.some.injEq] at hc
              exact ⟨j + 2, hc.symm, Or.inr ⟨hge, c, hcj, Or.inl ⟨hw2, by omega⟩⟩⟩
          · rw [if_neg hw2, Option.some_bind] at hc
            by_cases hcl : j + 1 ≥ t.screenWidth
            · rw [if_pos (by exact hcl)] at hc
              simp only [Option.some.injEq] at hc
              exact ⟨t.screenWidth - 1, hc.symm, Or.inr ⟨hge, c, hcj, Or.inr ⟨hw2, by omega⟩⟩⟩
            · rw [if_neg (by exact hcl)] at hc
              simp only [Option.some.injEq] at hc
              exact ⟨j + 1, hc.symm, Or.inr ⟨hge, c, hcj, Or.inr ⟨hw2, by omega⟩⟩⟩
        · rw [if_neg (by exact hge), Option.some_bind] at hc
          rw [if_neg (by show ¬ (0 : Int) ≥ t.screenWidth; omega)] at hc
          simp only [Option.some.injEq] at hc
          exact ⟨0, hc.symm, Or.inl ⟨by omega, rfl⟩⟩
      obtain ⟨cxf, rfl, hcxf⟩ := hres
      refine ⟨hp, hwc, ?_⟩
      intro y x c hcell hr
      have hr : t.cursorY - 1 < y ∨ (y = t.cursorY - 1 ∧ cxf ≤ x) := hr
      have hrng := hs.getCell_range hcell
      -- a vacant cell is not a wide glyph
      have hvw : ∀ y x c, getCell t.screenBuffer y x = some c → Vacant c → c.width ≠ 2 := by
        intro y x c hc1 hv h2
        rcases hv with hv | hv
        · exact (hwc y x c hc1 h2).1 hv
        · omega
      by_cases hrow : t.cursorY - 1 < y
      · -- rows from the old cursor row on
        have hold := hah y x c hcell (by omega)
        refine ⟨hold.1, fun _ => ?_⟩
        intro hz
        by_cases hx1 : t.cursorY < y ∨ t.cursorX < x
        · exact hold.2 hx1 hz
        · obtain ⟨g, hg1, _⟩ := hp y x c hcell hz
          have := hs.getCell_range hg1
          omega
      · have hy1 : y = t.cursorY - 1 := by omega
        have hxc : cxf ≤ x := by omega
        subst hy1
        by_cases hjx : j < x
        · obtain ⟨c1, hc1, hv1⟩ := hvac x hjx (by omega)
          rw [hcell] at hc1
          simp only [Option.some.injEq] at hc1
          subst hc1
          refine ⟨hvw _ _ _ hcell hv1, fun hlt => ?_⟩
          have hlt : t.cursorY - 1 < t.cursorY - 1 ∨ cxf < x := hlt
          intro hz
          obtain ⟨g, hg1, hg2⟩ := hp _ x c hcell hz
          by_cases hjx1 : j < x - 1
          · obtain ⟨c2, hc2, hv2⟩ := hvac (x - 1) hjx1 (by omega)
            rw [hg1] at hc2
            simp only [Option.some.injEq] at hc2
            subst hc2
            exact hvw _ _ _ hg1 hv2 hg2
          · have hje : j = x - 1 := by omega
            rcases hcxf with ⟨hneg, _⟩ | ⟨_, c3, hc3, hcase⟩
            · omega
            · rw [hje, hg1] at hc3
              simp only [Option.some.injEq] at hc3
              subst hc3
              rcases hcase with ⟨_, he⟩ | ⟨hn2, _⟩
              · omega
              · exact hn2 hg2
        · -- the cursor was clamped onto the last cell of the row
          have hxw : x = t.screenWidth - 1 := by
            rcases hcxf with ⟨hneg, _⟩ | ⟨_, _, _, hcase⟩
            · omega
            · rcases hcase with ⟨_, he⟩ | ⟨_, he⟩ <;> omega
          refine ⟨fun h2 => ?_, fun hlt => ?_⟩
          · obtain ⟨_, c1, hc1⟩ := hwc _ x c hcell h2
            have := hs.getCell_range hc1
            omega
          · have hlt : t.cursorY - 1 < t.cursorY - 1 ∨ cxf < x := hlt
            rcases hcxf with ⟨hneg, _⟩ | ⟨_, _, _, hcase⟩
            · omega
            · rcases hcase with ⟨_, he⟩ | ⟨_, he⟩ <;> omega
    · rw [if_neg hy] at hc
      simp only [Option.some.injEq] at hc
      subst hc; exact hg0

theorem clearLine_tidy {w h m : Int} {t t1 : Terminal} {params : Bytes}
    (hi : Inv w h m t) (hg : Tidy t) (hc : clearLine t params = some t1) : Tidy t1 := by
  obtain ⟨rfl, rfl, rfl, ha, hcur⟩ := hi
  have hs : Shaped t.screenBuffer t.screenHeight t.screenWidth := ha.2.2.2.1
  obtain ⟨hp, hwc, hah⟩ := hg
  unfold clearLine at hc
  simp only at hc
  generalize parseNumber params 0 = n at hc
  by_cases n0 : n = 0
  · rw [if_pos n0, Option.bind_eq_some] at hc
    obtain ⟨sb, hsb, ht⟩ := hc
    simp only [Option.some.injEq] at ht
    subst ht
    have hd := blankCells_some hsb
    obtain ⟨h1, h2⟩ := tidy_blank
      (fun y x => y = t.cursorY ∧ t.cursorX ≤ x ∧ x < t.screenWidth) hd (by
        intro y x g c1 hb _ _ hc1 _
        have hr := hs.getCell_range hc1
        exact ⟨hb.1, by omega, hr.2.2⟩) hp hwc
    exact ⟨h1, h2, ahead_blank _ hd (fun y x c _ hc1 hr => hah y x c hc1 hr)⟩
  rw [if_neg n0] at hc
  by_cases n1 : n = 1
  · rw [if_pos n1, Option.bind_eq_some] at hc
    obtain ⟨sb, hsb, ht⟩ := hc
    simp only [Option.some.injEq] at ht
    subst ht
    have hd := blankCells_some hsb
    obtain ⟨h1, h2⟩ := tidy_blank
      (fun y x => y = t.cursorY ∧ 0 ≤ x ∧ x < t.cursorX + 1) hd (by
        intro y x g c1 hb hg1 hg2 _ _
        refine ⟨hb.1, by omega, ?_⟩
        by_contra hge
        exact absurd hg2 (hah y (x - 1) g hg1 (Or.inr ⟨hb.1, by omega⟩)).1) hp hwc
    exact ⟨h1, h2, ahead_blank _ hd (fun y x c _ hc1 hr => hah y x c hc1 hr)⟩
  rw [if_neg n1] at hc
  by_cases n2 : n = 2
  · rw [if_pos n2, Option.bind_eq_some] at hc
    obtain ⟨sb, hsb, ht⟩ := hc
    simp only [Option.some.injEq] at ht
    subst ht
    have hd := blankCells_some hsb
    obtain ⟨h1, h2⟩ := tidy_blank
      (fun y x => y = t.cursorY ∧ 0 ≤ x ∧ x < t.screenWidth) hd (by
        intro y x g c1 hb _ _ hc1 _
        have hr := hs.getCell_range hc1
        exact ⟨hb.1, by omega, hr.2.2⟩) hp hwc
    exact ⟨h1, h2, ahead_blank _ hd (fun y x c _ hc1 hr => hah y x c hc1 hr)⟩
  rw [if_neg n2] at hc
  simp only [Option.some.injEq] at hc
  subst hc
  exact ⟨hp, hwc, hah⟩

theorem clearScreen_tidy {w h m : Int} {t t1 : Terminal} {params : Bytes}
    (hi : Inv w h m t) (hg : Tidy t) (hc : clearScreen t params = some t1) : Tidy t1 := by
  obtain ⟨rfl, rfl, rfl, ha, hcur⟩ := hi
  have hs : Shaped t.screenBuffer t.screenHeight t.screenWidth := ha.2.2.2.1
  obtain ⟨hp, hwc, hah⟩ := hg
  unfold clearScreen at hc
  simp only at hc
  generalize parseNumber params 0 = n at hc
  by_cases n0 : n = 0
  · rw [if_pos n0, Option.bind_eq_some] at hc
    obtain ⟨sb, hsb, ht⟩ := hc
    simp only [Option.some.injEq] at ht
    subst ht
    have hd : ∀ y x, getCell sb y x =
        if t.cursorY ≤ y ∧ y < t.screenHeight ∧
            (if y = t.cursorY then t.cursorX else 0) ≤ x ∧ x < t.screenWidth
        then some blank else getCell t.screenBuffer y x :=
      rowLoop_some (fun y => if y = t.cursorY then t.cursorX else 0) (fun _ => t.screenWidth) hsb
    obtain ⟨h1, h2⟩ := tidy_blank
      (fun y x => t.cursorY ≤ y ∧ y < t.screenHeight ∧
        (if y = t.cursorY then t.cursorX else 0) ≤ x ∧ x < t.screenWidth) hd (by
        intro y x g c1 hb _ _ hc1 _
        have hr := hs.getCell_range hc1
        have hb3 := hb.2.2.1
        exact ⟨hb.1, hb.2.1, by omega, hr.2.2⟩) hp hwc
    exact ⟨h1, h2, ahead_blank _ hd (fun y x c _ hc1 hr => hah y x c hc1 hr)⟩
  rw [if_neg n0] at hc
  by_cases n1 : n = 1
  · rw [if_pos n1, Option.bind_eq_some] at hc
    obtain ⟨sb, hsb, ht⟩ := hc
    simp only [Option.some.injEq] at ht
    subst ht
    have hd : ∀ y x, getCell sb y x =
        if 0 ≤ y ∧ y < t.cursorY + 1 ∧ 0 ≤ x ∧
            x < (if y = t.cursorY then t.cursorX + 1 else t.screenWidth)
        then some blank else getCell t.screenBuffer y x :=
      rowLoop_some (fun _ => 0) (fun y => if y = t.cursorY then t.cursorX + 1 else t.screenWidth)
        hsb
    obtain ⟨h1, h2⟩ := tidy_blank
      (fun y x => 0 ≤ y ∧ y < t.cursorY + 1 ∧ 0 ≤ x ∧
        x < (if y = t.cursorY then t.cursorX + 1 else t.screenWidth)) hd (by
        intro y x g c1 hb hg1 hg2 hc1 _
        have hr := hs.getCell_range hc1
        have hb4 := hb.2.2.2
        refine ⟨hb.1, hb.2.1, by omega, ?_⟩
        by_cases hy : y = t.cursorY
        · rw [if_pos hy] at hb4 ⊢
          by_contra hge
          exact absurd hg2 (hah y (x - 1) g hg1 (Or.inr ⟨hy, by omega⟩)).1
        · rw [if_neg hy]
          exact hr.2.2) hp hwc
    exact ⟨h1, h2, ahead_blank _ hd (fun y x c _ hc1 hr => hah y x c hc1 hr)⟩
  rw [if_neg n1] at hc
  by_cases n2 : n = 2
  · rw [if_pos n2, Option.bind_eq_some] at hc
    obtain ⟨sb, hsb, ht⟩ := hc
    simp only [Option.some.injEq] at ht
    subst ht
    have hd : ∀ y x, getCell sb y x =
        if 0 ≤ y ∧ y < t.screenHeight ∧ 0 ≤ x ∧ x < t.screenWidth
        then some blank else getCell t.screenBuffer y x :=
      rowLoop_some (fun _ => 0) (fun _ => t.screenWidth) hsb
    obtain ⟨h1, h2⟩ := tidy_blank
      (fun y x => 0 ≤ y ∧ y < t.screenHeight ∧ 0 ≤ x ∧ x < t.screenWidth) hd (by
        intro y x g c1 hb _ _ hc1 _
        have hr := hs.getCell_range hc1
        exact ⟨hr.1.1, hr.1.2, hr.2.1, hr.2.2⟩) hp hwc
    refine ⟨h1, h2, ahead_blank _ hd ?_⟩
    intro y x c hnb hc1 _
    have hr := hs.getCell_range hc1
    exact absurd ⟨hr.1.1, hr.1.2, hr.2.1, hr.2.2⟩ hnb
  rw [if_neg n2] at hc
  simp only [Option.some.injEq] at hc
  subst hc
  exact ⟨hp, hwc, hah⟩

theorem wrap64_range (x : Int) : -2 ^ 63 ≤ wrap64 x ∧ wrap64 x < 2 ^ 63 := by
  unfold wrap64
  omega

/-- A move of the cursor alone that does not set it back keeps the grid tidy. -/
theorem tidy_moveForward {w h m : Int} {t : Terminal} {cx cy : Int} (hi : Inv w h m t)
    (hg : Tidy t)
    (hnb : cursorBefore { t with cursorX := cx, cursorY := cy } t = false) :
    Tidy { t with cursorX := cx, cursorY := cy } := by
  obtain ⟨rfl, rfl, rfl, ha, hcur⟩ := hi
  have hs : Shaped t.screenBuffer t.screenHeight t.screenWidth := ha.2.2.2.1
  obtain ⟨hp, hwc, hah⟩ := hg
  have hnb1 : ¬ (cy < t.cursorY ∨ (cy = t.cursorY ∧ cx < min t.cursorX (t.screenWidth - 1))) := by
    unfold cursorBefore at hnb
    simpa using hnb
  refine ⟨hp, hwc, ?_⟩
  intro y x c hc hr
  have hr : cy < y ∨ (y = cy ∧ cx ≤ x) := hr
  have hrng := hs.getCell_range hc
  by_cases hold : t.cursorY < y ∨ (y = t.cursorY ∧ t.cursorX ≤ x)
  · have := hah y x c hc hold
    refine ⟨this.1, fun hlt => this.2 ?_⟩
    have hlt : cy < y ∨ cx < x := hlt
    omega
  · have hxw : x = t.screenWidth - 1 := by omega
    refine ⟨fun h2 => ?_, fun hlt => ?_⟩
    · obtain ⟨_, c1, hc1⟩ := hwc y x c hc h2
      have := hs.getCell_range hc1
      omega
    · have hlt : cy < y ∨ cx < x := hlt
      omega

/-- An escape sequence whose cursor move, if it makes one, does not set the
cursor back keeps the invariant of the read loop and the grid tidy. -/
theorem processEscapeSequence_tidy {w h m : Int} {t t1 : Terminal} {seq : Bytes}
    (hi : Inv w h m t) (hw : 2 ≤ w) (hg : Tidy t)
    (hc : processEscapeSequence t seq = some t1)
    (hfw : ∀ cmd, idx? seq (seq.length - 1) = some cmd →
      (cmd = 72 ∨ cmd = 102 ∨ (65 ≤ cmd ∧ cmd ≤ 68)) → cursorBefore t1 t = false) :
    Inv w h m t1 ∧ Tidy t1 := by
  have hcur := inv_cursor hi
  have hd := inv_dims hi
  have hwd : t.screenWidth = w := hi.1
  have hh : t.screenHeight = h := hi.2.1
  have hn := parseNumber_range ((seq.drop 2).take (seq.length - 3)) (d := 1)
    (by norm_num) (by norm_num)
  unfold processEscapeSequence at hc
  by_cases h1 : seq.length < 2
  · rw [if_pos h1] at hc
    simp only [Option.some.injEq] at hc; subst hc; exact ⟨hi, hg⟩
  rw [if_neg h1] at hc
  by_cases h2 : hasCsiPrefix seq = true
  swap
  · rw [if_neg h2] at hc
    simp only [Option.some.injEq] at hc; subst hc; exact ⟨hi, hg⟩
  rw [if_pos h2] at hc
  by_cases h3 : seq.length < 3
  · rw [if_pos h3] at hc
    exact absurd hc (by simp)
  rw [if_neg h3] at hc
  simp only [Option.bind_eq_some] at hc
  obtain ⟨cmd, hcmd, hc⟩ := hc
  have hfw := hfw cmd hcmd
  generalize parseNumber ((seq.drop 2).take (seq.length - 3)) 1 = n at hc hn
  -- a move of the cursor alone
  have hmove : ∀ cx cy, t1 = { t with cursorX := cx, cursorY := cy } →
      (cmd = 72 ∨ cmd = 102 ∨ (65 ≤ cmd ∧ cmd ≤ 68)) →
      (cursorBefore { t with cursorX := cx, cursorY := cy } t = false →
        (0 ≤ cy ∧ cy < h) ∧ 0 ≤ cx ∧ cx ≤ max w 2) → Inv w h m t1 ∧ Tidy t1 := by
    intro cx cy ht hcm hrange
    subst ht
    have hnb := hfw hcm
    exact ⟨inv_withCursor hi (hrange hnb).1 (hrange hnb).2, tidy_moveForward hi hg hnb⟩
  have hnb_iff : ∀ cx cy, cursorBefore { t with cursorX := cx, cursorY := cy } t = false →
      ¬ (cy < t.cursorY ∨ (cy = t.cursorY ∧ cx < min t.cursorX (t.screenWidth - 1))) := by
    intro cx cy hnb
    unfold cursorBefore at hnb
    simpa using hnb
  by_cases c1 : cmd = 72 ∨ cmd = 102
  · rw [if_pos c1] at hc
    have hi1 := setCursorPosition_some hi hc
    unfold setCursorPosition at hc
    simp only [Option.bind_eq_some] at hc
    obtain ⟨p0, _, col, _, ht⟩ := hc
    simp only [Option.some.injEq] at ht
    refine hmove _ _ ht.symm (by omega) (fun _ => ?_)
    rw [hh, hwd]
    omega
  rw [if_neg c1] at hc
  by_cases c2 : cmd = 65
  · rw [if_pos c2] at hc
    by_cases hpos : n > 0
    · rw [if_pos hpos] at hc
      simp only [Option.some.injEq] at hc
      have hwr := wrap64_range (t.cursorY - n)
      refine hmove t.cursorX _ hc.symm (by omega) (fun _ => ⟨?_, hcur.2⟩)
      by_cases hsmall : t.cursorY < 2 ^ 63
      · have e : wrap64 (t.cursorY - n) = t.cursorY - n := wrap64_eq (by omega) (by omega)
        rw [e]; omega
      · omega
    · rw [if_neg hpos] at hc
      simp only [Option.some.injEq] at hc; subst hc; exact ⟨hi, hg⟩
  rw [if_neg c2] at hc
  by_cases c3 : cmd = 66
  · rw [if_pos c3] at hc
    by_cases hpos : n > 0
    · rw [if_pos hpos] at hc
      simp only [Option.some.injEq] at hc
      refine hmove t.cursorX _ hc.symm (by omega) (fun hnb => ⟨?_, hcur.2⟩)
      have := hnb_iff _ _ hnb
      rw [hh] at this ⊢
      omega
    · rw [if_neg hpos] at hc
      simp only [Option.some.injEq] at hc; subst hc; exact ⟨hi, hg⟩
  rw [if_neg c3] at hc
  by_cases c4 : cmd = 67
  · rw [if_pos c4] at hc
    by_cases hpos : n > 0
    · rw [if_pos hpos] at hc
      simp only [Option.some.injEq] at hc
      refine hmove _ t.cursorY hc.symm (by omega) (fun hnb => ⟨hcur.1, ?_⟩)
      have := hnb_iff _ _ hnb
      rw [hwd] at this ⊢
      omega
    · rw [if_neg hpos] at hc
      simp only [Option.some.injEq] at hc; subst hc; exact ⟨hi, hg⟩
  rw [if_neg c4] at hc
  by_cases c5 : cmd = 68
  · rw [if_pos c5] at hc
    by_cases hpos : n > 0
    · rw [if_pos hpos] at hc
      simp only [Option.some.injEq] at hc
      have hwr := wrap64_range (t.cursorX - n)
      refine hmove _ t.cursorY hc.symm (by omega) (fun _ => ⟨hcur.1, ?_⟩)
      by_cases hsmall : t.cursorX < 2 ^ 63
      · have e : wrap64 (t.cursorX - n) = t.cursorX - n := wrap64_eq (by omega) (by omega)
        rw [e]; omega
      · omega
    · rw [if_neg hpos] at hc
      simp only [Option.some.injEq] at hc; subst hc; exact ⟨hi, hg⟩
  rw [if_neg c5] at hc
  by_cases c6 : cmd = 74
  · rw [if_pos c6] at hc
    exact ⟨clearScreen_some hi hc, clearScreen_tidy hi hg hc⟩
  rw [if_neg c6] at hc
  by_cases c7 : cmd = 75
  · rw [if_pos c7] at hc
    exact ⟨clearLine_some hi hc, clearLine_tidy hi hg hc⟩
  rw [if_neg c7] at hc
  simp only [Option.some.injEq] at hc; subst hc; exact ⟨hi, hg⟩

theorem idx?_last {α : Type} (xs : List α) (b : α) :
    idx? (xs ++ [b]) ((xs ++ [b]).length - 1) = some b := by
  have e : (((xs ++ [b]).length : Int) - 1) = xs.length := by
    simp
  rw [e, idx?_append, if_neg (by omega)]
  simp [idx?]

/-- A fragment that does not set the cursor back keeps the invariant of the read
loop and the grid tidy. -/
theorem processChar_tidy {w h m : Int} {t t1 : Terminal} {char : Bytes}
    (hi : Inv w h m t) (hw : 2 ≤ w) (hg : Tidy t)
    (hc : processChar t char = some t1) (hfw : movesBack t char = false) :
    Inv w h m t1 ∧ Tidy t1 := by
  have hcur := inv_cursor hi
  have hc0 := hc
  unfold processChar at hc
  split at hc
  · rename_i b
    have hfw1 : (if t.inEscape then decide (b = 72 ∨ b = 102 ∨ (65 ≤ b ∧ b ≤ 68))
        else decide (b = 13)) = true → cursorBefore t1 t = false := by
      intro hcmd
      unfold movesBack at hfw
      simp only [hcmd, hc0, Bool.true_and] at hfw
      exact hfw
    by_cases he : t.inEscape = true
    · rw [if_pos he] at hc
      simp only at hc
      split at hc
      · rw [Option.bind_eq_some] at hc
        obtain ⟨t2, ht2, hc⟩ := hc
        simp only [Option.some.injEq] at hc
        subst hc
        have hi0 : Inv w h m { t with escapeBuffer := t.escapeBuffer ++ [b] } := hi
        have hg0 : Tidy { t with escapeBuffer := t.escapeBuffer ++ [b] } := hg
        have := processEscapeSequence_tidy hi0 hw hg0 ht2 (by
          intro cmd hcmd hlist
          have hcmd : idx? (t.escapeBuffer ++ [b]) ((t.escapeBuffer ++ [b]).length - 1) =
              some cmd := hcmd
          rw [idx?_last] at hcmd
          simp only [Option.some.injEq] at hcmd
          subst hcmd
          have := hfw1 (by rw [if_pos he]; exact decide_eq_true hlist)
          exact this)
        exact this
      · simp only [Option.some.injEq] at hc
        subst hc; exact ⟨hi, hg⟩
    · rw [if_neg he] at hc
      by_cases b1 : b = 27
      · rw [if_pos b1] at hc
        simp only [Option.some.injEq] at hc
        subst hc; exact ⟨hi, hg⟩
      rw [if_neg b1] at hc
      by_cases b2 : b = 10
      · rw [if_pos b2] at hc
        exact ⟨(lineFeed_some hi hc).1, lineFeed_tidy hi hg hc⟩
      rw [if_neg b2] at hc
      by_cases b3 : b = 8
      · rw [if_pos b3] at hc
        exact ⟨handleBackspace_some hi hc, handleBackspace_tidy hi hw hg hc⟩
      rw [if_neg b3] at hc
      by_cases b4 : b = 13
      · rw [if_pos b4] at hc
        simp only [Option.some.injEq] at hc
        have hnb := hfw1 (by rw [if_neg he]; exact decide_eq_true b4)
        subst hc
        exact ⟨inv_withCursor hi hcur.1 ⟨le_refl 0, by omega⟩,
          @tidy_moveForward _ _ _ t 0 t.cursorY hi hg hnb⟩
      rw [if_neg b4] at hc
      by_cases b5 : b = 9
      · rw [if_pos b5] at hc
        exact ⟨tabLoop_some _ _ _ _ hi hc, tabLoop_tidy _ _ _ _ hi hg hc⟩
      rw [if_neg b5] at hc
      exact ⟨writeChar_some hi hc, writeChar_tidy hi hw hg hc⟩
  · exact ⟨writeChar_some hi hc, writeChar_tidy hi hw hg hc⟩

theorem processByte_tidy {w h m : Int} {t t1 : Terminal} {b : Nat}
    (hi : Inv w h m t) (hw : 2 ≤ w) (hg : Tidy t) (hc : processByte t b = some t1)
    (hfw : (match decodeStep t.utf8Buffer b with
      | (some frag, rest) => !(movesBack { t with utf8Buffer := rest } frag)
      | (none, _) => true) = true) :
    Inv w h m t1 ∧ Tidy t1 := by
  rw [processByte_decodeStep] at hc
  cases hd : decodeStep t.utf8Buffer b with
  | mk frag rest =>
    rw [hd] at hc hfw
    cases frag with
    | some frag =>
      simp only [Bool.not_eq_true'] at hfw
      have hi1 : Inv w h m { t with utf8Buffer := rest } := hi
      have hg1 : Tidy { t with utf8Buffer := rest } := hg
      exact processChar_tidy hi1 hw hg1 hc hfw
    | none =>
      simp only [Option.some.injEq] at hc
      subst hc
      exact ⟨hi, hg⟩

theorem feed_tidy {w h m : Int} (hw : 2 ≤ w) (bs : Bytes) :
    ∀ (t t1 : Terminal), Inv w h m t → Tidy t → forwardOnly t bs = true →
      feed t bs = some t1 → Inv w h m t1 ∧ Tidy t1 := by
  induction bs with
  | nil =>
    intro t t1 hi hg _ hc
    simp only [feed, Option.some.injEq] at hc
    subst hc; exact ⟨hi, hg⟩
  | cons b bs ih =>
    intro t t1 hi hg hfw hc
    simp only [feed, Option.bind_eq_some] at hc
    obtain ⟨t2, ht2, hc⟩ := hc
    simp only [forwardOnly, ht2, Bool.and_eq_true] at hfw
    obtain ⟨hi2, hg2⟩ := processByte_tidy hi hw hg ht2 hfw.1
    exact ih t2 t1 hi2 hg2 hfw.2 hc

theorem tidy_NewTerminal (cols rows : Int) : Tidy (NewTerminal cols rows) := by
  have hblank : ∀ y x c, getCell (NewTerminal cols rows).screenBuffer y x = some c →
      c = blank := by
    intro y x c h
    obtain ⟨row, hrow, hcx⟩ := getCell_eq_some.mp h
    have h1 : row ∈ blankRows rows cols := idx?_mem hrow
    unfold blankRows at h1
    have h2 := List.eq_of_mem_replicate h1
    rw [h2] at hcx
    exact List.eq_of_mem_replicate (idx?_mem hcx)
  refine ⟨?_, ?_, ?_⟩
  · intro y x c h hz
    rw [hblank y x c h] at hz
    exact absurd hz (by decide)
  · intro y x c h hz
    rw [hblank y x c h] at hz
    exact absurd hz (by decide)
  · intro y x c h _
    rw [hblank y x c h]
    exact ⟨by decide, fun _ => by decide⟩

theorem inv_NewTerminal {cols rows : Int} (hc : 1 ≤ cols) (hr : 1 ≤ rows) :
    Inv cols rows 1000 (NewTerminal cols rows) :=
  ⟨rfl, rfl, rfl, allocated_newTerminalWith (by norm_num) hc hr,
    ⟨⟨le_refl 0, by show (0 : Int) < rows; omega⟩, le_refl 0,
      by show (0 : Int) ≤ max cols 2; omega⟩⟩

/-! ### The claim -/

set_option maxRecDepth 100000 in
/-- C22 (refuted as stated): on a 3 x 2 grid the bytes `E4 B8 AD` (a wide
glyph), a carriage return and `a` leave `a` with width 1 in cell (0,0) and the
placeholder of the overwritten glyph, width 0, in cell (0,1): a placeholder
standing after a width-1 cell, in a state reached by `processByte` alone.  The
same two cells are left when, in place of the carriage return, the cursor is
set back onto the glyph by `ESC [ H`, `ESC [ f`, `ESC [ 2 D`, a line feed and
`ESC [ A`, or by cursor-right or cursor-down sequences whose sum with the cursor
passes `2^63`; each of these runs has a step that sets the cursor back. -/
theorem C22_overwritten_glyph_orphans_placeholder :
    ((feed (NewTerminal 3 2) [0xE4, 0xB8, 0xAD, 13, 97]).map
        (fun t => (getCell t.screenBuffer 0 0, getCell t.screenBuffer 0 1)) =
      some (some { char := [97], width := 1 }, some { char := [], width := 0 }) ∧
    ∀ t, feed (NewTerminal 3 2) [0xE4, 0xB8, 0xAD, 13, 97] = some t →
      ¬ (∀ y x c, getCell t.screenBuffer y x = some c → c.width = 0 →
        ∃ g, getCell t.screenBuffer y (x - 1) = some g ∧ g.width = 2)) ∧
    ∀ bs ∈ [[0xE4, 0xB8, 0xAD, 13, 97],
        [0xE4, 0xB8, 0xAD, 27, 91, 72, 97],
        [0xE4, 0xB8, 0xAD, 27, 91, 102, 97],
        [0xE4, 0xB8, 0xAD, 27, 91, 50, 68, 97],
        [0xE4, 0xB8, 0xAD, 10, 27, 91, 65, 97],
        0xE4 :: 0xB8 :: 0xAD :: 27 :: 91 ::
          ([57, 50, 50, 51, 51, 55, 50, 48, 51, 54, 56, 53, 52, 55, 55, 53, 56, 48, 55] ++
            67 :: 27 :: 91 ::
          ([57, 50, 50, 51, 51, 55, 50, 48, 51, 54, 56, 53, 52, 55, 55, 53, 56, 48, 55] ++
            [67, 97])),
        0xE4 :: 0xB8 :: 0xAD :: 10 :: 27 :: 91 ::
          ([57, 50, 50, 51, 51, 55, 50, 48, 51, 54, 56, 53, 52, 55, 55, 53, 56, 48, 55] ++
            66 :: 27 :: 91 ::
          ([57, 50, 50, 51, 51, 55, 50, 48, 51, 54, 56, 53, 52, 55, 55, 53, 56, 48, 55] ++
            [66, 27, 91, 66, 97]))],
      (feed (NewTerminal 3 2) bs).map
          (fun t => (getCell t.screenBuffer 0 0, getCell t.screenBuffer 0 1)) =
        some (some { char := [97], width := 1 }, some { char := [], width := 0 }) ∧
      forwardOnly (NewTerminal 3 2) bs = false := by
  have hev : (feed (NewTerminal 3 2) [0xE4, 0xB8, 0xAD, 13, 97]).map
        (fun t => (getCell t.screenBuffer 0 0, getCell t.screenBuffer 0 1)) =
      some (some { char := [97], width := 1 }, some { char := [], width := 0 }) := by
    rfl
  refine ⟨⟨hev, ?_⟩, ?_⟩
  · intro t ht hp
    rw [ht] at hev
    simp only [Option.map_some', Option.some.injEq, Prod.mk.injEq] at hev
    obtain ⟨g, hg1, hg2⟩ := hp 0 1 _ hev.2 rfl
    rw [show (1 : Int) - 1 = 0 by norm_num, hev.1] at hg1
    simp only [Option.some.injEq] at hg1
    rw [← hg1] at hg2
    exact absurd hg2 (by decide)
  · intro bs hbs
    simp only [List.mem_cons, List.mem_singleton, List.not_mem_nil, or_false] at hbs
    rcases hbs with rfl | rfl | rfl | rfl | rfl | rfl | rfl
    · exact ⟨rfl, rfl⟩
    · exact ⟨rfl, rfl⟩
    · exact ⟨rfl, rfl⟩
    · exact ⟨rfl, rfl⟩
    · exact ⟨rfl, rfl⟩
    · exact ⟨rfl, rfl⟩
    · exact ⟨rfl, rfl⟩

/-- C22 (amended): (a) in every state reached from the initial state by feeding
bytes through `processByte`, whatever the bytes and the grid size, every cell of
width 0 stands at column 1 or further: a placeholder never stands at column 0;
(b) on a grid of at least two columns and one row, in every state reached from
the initial state by feeding bytes none of which sets the cursor back (a
carriage return, or the final byte of a cursor sequence `A`, `B`, `C`, `D`, `H`
or `f`, after which the cursor stands before the place it stood at), every cell
of width 0 is immediately preceded in its row by a cell of width 2.  Printable
text, line feeds, tabs, backspaces, erase sequences, sequences without a
handler, and the cursor sequences and carriage returns that do not set the
cursor back are all allowed. -/
theorem C22_placeholder_pairing (cols rows : Int) :
    (∀ (bs : Bytes) (t : Terminal), feed (NewTerminal cols rows) bs = some t →
      ∀ y x c, getCell t.screenBuffer y x = some c → c.width = 0 → 1 ≤ x) ∧
    (2 ≤ cols → 1 ≤ rows → ∀ (bs : Bytes) (t : Terminal),
      forwardOnly (NewTerminal cols rows) bs = true →
      feed (NewTerminal cols rows) bs = some t →
      ∀ y x c, getCell t.screenBuffer y x = some c → c.width = 0 →
        ∃ g, getCell t.screenBuffer y (x - 1) = some g ∧ g.width = 2) := by
  constructor
  · intro bs t h y x c hc hw
    exact (feed_noLead bs _ t h (noLead_blankRows rows cols)).column hc hw
  · intro hcols hrows bs t hfw hrun
    exact (feed_tidy hcols bs _ t (inv_NewTerminal (by omega) hrows)
      (tidy_NewTerminal cols rows) hfw hrun).2.1

set_option maxRecDepth 100000 in
theorem C22_placeholder_pairing_witness :
    forwardOnly (NewTerminal 6 2)
        [0xE4, 0xB8, 0xAD, 27, 91, 53, 109, 97, 8, 9, 10, 13, 0xE4, 0xB8, 0xAD, 27, 91, 75,
          27, 91, 49, 67, 27, 91, 48, 65, 98] = true ∧
      ∃ t, feed (NewTerminal 6 2)
          [0xE4, 0xB8, 0xAD, 27, 91, 53, 109, 97, 8, 9, 10, 13, 0xE4, 0xB8, 0xAD, 27, 91, 75,
            27, 91, 49, 67, 27, 91, 48, 65, 98] = some t ∧
        (getCell t.screenBuffer 0 1, getCell t.screenBuffer 1 1, getCell t.screenBuffer 1 3) =
          (some { char := [], width := 0 }, some { char := [], width := 0 },
            some { char := [98], width := 1 }) ∧
        ∀ y x c, getCell t.screenBuffer y x = some c → c.width = 0 →
          ∃ g, getCell t.screenBuffer y (x - 1) = some g ∧ g.width = 2 := by
  have hfw : forwardOnly (NewTerminal 6 2)
      [0xE4, 0xB8, 0xAD, 27, 91, 53, 109, 97, 8, 9, 10, 13, 0xE4, 0xB8, 0xAD, 27, 91, 75,
        27, 91, 49, 67, 27, 91, 48, 65, 98] = true := by rfl
  have hev : (feed (NewTerminal 6 2)
      [0xE4, 0xB8, 0xAD, 27, 91, 53, 109, 97, 8, 9, 10, 13, 0xE4, 0xB8, 0xAD, 27, 91, 75,
        27, 91, 49, 67, 27, 91, 48, 65, 98]).map (fun t =>
          (getCell t.screenBuffer 0 1, getCell t.screenBuffer 1 1, getCell t.screenBuffer 1 3)) =
      some (some { char := [], width := 0 }, some { char := [], width := 0 },
        some { char := [98], width := 1 }) := by rfl
  refine ⟨hfw, ?_⟩
  cases hrun : feed (NewTerminal 6 2)
      [0xE4, 0xB8, 0xAD, 27, 91, 53, 109, 97, 8, 9, 10, 13, 0xE4, 0xB8, 0xAD, 27, 91, 75,
        27, 91, 49, 67, 27, 91, 48, 65, 98] with
  | none =>
    rw [hrun] at hev
    exact absurd hev (by simp)
  | some t =>
    rw [hrun] at hev
    simp only [Option.map_some', Option.some.injEq] at hev
    exact ⟨t, rfl, hev,
      (C22_placeholder_pairing 6 2).2 (by decide) (by decide) _ t hfw hrun⟩

/-! # C16: erase in line, by the value of the parameter -/

/-- `parseNumber(params, 0)` on a decimal parameter below `2^63` is the number
the digits denote (0 for the empty parameter). -/
theorem parseNumber_digits_zero {ds : Bytes} (hd : ds.all isDigit = true)
    (hv : digitsValue ds < 2 ^ 63) : parseNumber ds 0 = (digitsValue ds : Int) := by
  unfold parseNumber
  by_cases hne : ds = []
  · rw [if_pos hne, hne]
    rfl
  · rw [if_neg hne, Atoi_digits hne hd hv]

set_option maxRecDepth 100000 in
/-- C16 (refuted by the code above the integer range): the parameter
`99999999999999999999` is a number other than 0, 1 and 2, yet `ESC [ ... K` with
it erases from the cursor to the end of the line: after `a b CR` on a 3 x 2 grid
cell (0,0) holds `a`, and after the sequence it is blank. `strconv.Atoi` fails
on the number with a range error and `parseNumber` returns the default 0. -/
theorem C16_overflowing_parameter_erases :
    digitsValue (List.replicate 20 57) = 99999999999999999999 ∧
      (feed (NewTerminal 3 2) [97, 98, 13]).map
          (fun t => (t.cursorX, t.cursorY, getCell t.screenBuffer 0 0)) =
        some (0, 0, some (asciiCell 97)) ∧
      (feed (NewTerminal 3 2) ([97, 98, 13] ++ 27 :: 91 :: (List.replicate 20 57 ++ [75]))).map
          (fun t => (t.cursorX, t.cursorY, getCell t.screenBuffer 0 0,
            getCell t.screenBuffer 0 1)) =
        some (0, 0, some blank, some blank) := by
  refine ⟨by decide, ?_, ?_⟩
  · rfl
  · rfl

/-- C16: with the cursor on the cell `(r, c)` of a well-shaped grid, `ESC [ ds K`
fed in Normal state, for a parameter `ds` of decimal digits (possibly none)
denoting a number `n` below `2^63`, changes only grid cells: cells
`(r, c) .. (r, cols - 1)` become blank for `n = 0` (also for the empty
parameter), cells `(r, 0) .. (r, c)` for `n = 1`, the whole row `r` for `n = 2`,
and every other cell is as before; for any other `n` the whole state is as
before. -/
theorem C16_erase_in_line (t : Terminal) (ds : Bytes)
    (hs : Shaped t.screenBuffer t.screenHeight t.screenWidth)
    (hy : 0 ≤ t.cursorY ∧ t.cursorY < t.screenHeight)
    (hx : 0 ≤ t.cursorX ∧ t.cursorX < t.screenWidth)
    (hu : t.utf8Buffer = []) (he : t.inEscape = false) (hb : t.escapeBuffer = [])
    (hd : ds.all isDigit = true) (hv : digitsValue ds < 2 ^ 63) :
    (∃ sb, feed t (27 :: 91 :: (ds ++ [75])) = some { t with screenBuffer := sb } ∧
      (∀ y x, getCell sb y x =
        if y = t.cursorY ∧
            ((digitsValue ds = 0 ∧ t.cursorX ≤ x ∧ x < t.screenWidth) ∨
              (digitsValue ds = 1 ∧ 0 ≤ x ∧ x ≤ t.cursorX) ∨
              (digitsValue ds = 2 ∧ 0 ≤ x ∧ x < t.screenWidth)) then some blank
        else getCell t.screenBuffer y x) ∧
      (3 ≤ digitsValue ds → feed t (27 :: 91 :: (ds ++ [75])) = some t)) ∧
    digitsValue [] = 0 ∧ digitsValue [48] = 0 ∧ digitsValue [49] = 1 ∧ digitsValue [50] = 2 := by
  refine ⟨?_, by decide, by decide, by decide, by decide⟩
  have hpn := parseNumber_digits_zero hd hv
  obtain ⟨sb, hcl, hc, hsame⟩ := clearLine_spec
    (t := { t with inEscape := true, escapeBuffer := 27 :: 91 :: (ds ++ [75]) }) hs hy hx ds
  have hfeed : feed t (27 :: 91 :: (ds ++ [75])) = some { t with screenBuffer := sb } := by
    rw [feed_csi t ds 75 hu he hb (digits_not_letters hd) (by decide)]
    unfold finishEscape
    rw [processEscapeSequence_csi, if_neg (by decide), if_neg (by decide), if_neg (by decide),
      if_neg (by decide), if_neg (by decide), if_neg (by decide), if_pos rfl, hcl,
      Option.some_bind]
    congr 1
    cases t
    simp_all
  refine ⟨sb, hfeed, ?_, ?_⟩
  · intro y x
    rw [hc, hpn]
    have e0 : ((digitsValue ds : Int) = 0) ↔ digitsValue ds = 0 := by omega
    have e1 : ((digitsValue ds : Int) = 1) ↔ digitsValue ds = 1 := by omega
    have e2 : ((digitsValue ds : Int) = 2) ↔ digitsValue ds = 2 := by omega
    simp only [e0, e1, e2]
  · intro h3
    rw [hfeed]
    have e := hsame (by rw [hpn]; omega) (by rw [hpn]; omega) (by rw [hpn]; omega)
    have e2 : sb = t.screenBuffer := e
    rw [e2]

theorem C16_erase_in_line_witness :
    (∃ sb, feed { newTerminalWith 2 3 2 with
            screenBuffer := [[asciiCell 97, asciiCell 98, asciiCell 99], [blank, blank, blank]],
            cursorX := 1 } (27 :: 91 :: ([49] ++ [75])) =
        some { newTerminalWith 2 3 2 with screenBuffer := sb, cursorX := 1 } ∧
      (∀ y x, getCell sb y x =
        if y = 0 ∧
            ((digitsValue [49] = 0 ∧ 1 ≤ x ∧ x < 3) ∨
              (digitsValue [49] = 1 ∧ 0 ≤ x ∧ x ≤ 1) ∨
              (digitsValue [49] = 2 ∧ 0 ≤ x ∧ x < 3)) then some blank
        else getCell [[asciiCell 97, asciiCell 98, asciiCell 99], [blank, blank, blank]] y x) ∧
      (3 ≤ digitsValue [49] →
        feed { newTerminalWith 2 3 2 with
            screenBuffer := [[asciiCell 97, asciiCell 98, asciiCell 99], [blank, blank, blank]],
            cursorX := 1 } (27 :: 91 :: ([49] ++ [75])) =
          some { newTerminalWith 2 3 2 with
            screenBuffer := [[asciiCell 97, asciiCell 98, asciiCell 99], [blank, blank, blank]],
            cursorX := 1 })) ∧
    digitsValue [] = 0 ∧ digitsValue [48] = 0 ∧ digitsValue [49] = 1 ∧ digitsValue [50] = 2 :=
  C16_erase_in_line { newTerminalWith 2 3 2 with
      screenBuffer := [[asciiCell 97, asciiCell 98, asciiCell 99], [blank, blank, blank]],
      cursorX := 1 } [49] (by decide) (by decide) (by decide) rfl rfl rfl (by decide) (by decide)

/-! # C5: the round trip of the view, with its result -/

/-- C5: from a state with view offset 0, (a) when the view cannot move
(`delta = 0`, or at most one history row is stored) `ScrollView(delta)` followed
by `ScrollView(-delta)` returns the very same state, so every grid cell is
identical; (b) for `0 < delta < 2^63` on an allocated terminal with two stored
rows or more, both calls succeed and the state afterwards is the state before
except for the grid, which holds what the first call drew and the second call
did not redraw: row `y` is stored history row `s + y` when `s + y < totalLines`
and a row of blanks otherwise, `s = max(0, totalLines - v - rows)` for the offset
`v = min(delta, totalLines - 1)` the first call settled on; (c) for a negative
`delta` the first call changes nothing and the round trip is `ScrollView(-delta)`
from the state before. -/
theorem C5_scroll_roundtrip (t : Terminal) (delta : Int) (hv : t.viewOffset = 0) :
    ((delta = 0 ∨ t.totalLines ≤ 1) →
      (ScrollView t delta).bind (fun t1 => ScrollView t1 (-delta)) = some t) ∧
    (Allocated t → 0 < delta → delta < 2 ^ 63 → 2 ≤ t.totalLines →
      ∃ sb, (ScrollView t delta).bind (fun t1 => ScrollView t1 (-delta)) =
          some { t with screenBuffer := sb } ∧
        ∀ y, 0 ≤ y → y < t.screenHeight →
          idx? sb y =
            if max 0 (t.totalLines - min delta (t.totalLines - 1) - t.screenHeight) + y <
                t.totalLines then
              idx? t.totalBuffer
                (max 0 (t.totalLines - min delta (t.totalLines - 1) - t.screenHeight) + y)
            else some (blankRow t.screenWidth)) ∧
    (-2 ^ 63 ≤ delta → delta < 0 →
      (ScrollView t delta).bind (fun t1 => ScrollView t1 (-delta)) = ScrollView t (-delta)) := by
  have hself : ({ t with viewOffset := 0 } : Terminal) = t := by
    cases t; simp_all
  refine ⟨?_, ?_, ?_⟩
  · intro hd
    have key : ∀ d : Int, (d = 0 ∨ t.totalLines ≤ 1) → ScrollView t d = some t := by
      intro d hd
      unfold ScrollView
      simp only [hv, zero_add]
      by_cases h1 : wrap64 d < 0
      · rw [if_pos h1, hself]
        simp [hv]
      · rw [if_neg h1]
        by_cases h2 : wrap64 d > max 0 (t.totalLines - 1)
        · rw [if_pos h2]
          rcases hd with hd | hd
          · subst hd
            have : wrap64 0 = 0 := by decide
            rw [this] at h2
            omega
          · have hm : max 0 (t.totalLines - 1) = 0 := by omega
            rw [hm, hself]
            simp [hv]
        · rw [if_neg h2]
          have hz : wrap64 d = 0 := by
            rcases hd with hd | hd
            · subst hd; decide
            · omega
          rw [hz, hself]
          simp [hv]
    rw [key delta hd, Option.some_bind]
    exact key (-delta) (by rcases hd with hd | hd; · left; omega
                           · right; exact hd)
  · intro ha h0 h1 hT
    have hw : wrap64 (t.viewOffset + delta) = delta := by
      rw [hv, zero_add]; exact wrap64_eq (by omega) h1
    have hn1 : newOffset t delta = min delta (t.totalLines - 1) := by
      unfold newOffset
      rw [hw, if_neg (by omega)]
      split <;> omega
    have ha1 : Allocated { t with viewOffset := min delta (t.totalLines - 1) } := ha
    obtain ⟨sb, hsb, _, hrows⟩ := updateDisplayBuffer_spec ha1
      (by show min delta (t.totalLines - 1) ≠ 0; omega) (by show t.totalLines ≠ 0; omega)
    have hsv : ScrollView t delta =
        some { t with viewOffset := min delta (t.totalLines - 1), screenBuffer := sb } := by
      rw [ScrollView_eq, hn1, if_pos (by rw [hv]; omega), hsb]
    have hn2 : newOffset { t with viewOffset := min delta (t.totalLines - 1)
                                  screenBuffer := sb } (-delta) = 0 := by
      unfold newOffset
      have hw2 : wrap64 (min delta (t.totalLines - 1) + -delta) =
          min delta (t.totalLines - 1) - delta := by
        rw [← sub_eq_add_neg]; exact wrap64_eq (by omega) (by omega)
      simp only [hw2]
      split
      · rfl
      · rw [if_neg (by omega)]
        omega
    refine ⟨sb, ?_, hrows⟩
    rw [hsv, Option.some_bind, ScrollView_eq, hn2,
      if_pos (by show (0 : Int) ≠ min delta (t.totalLines - 1); omega)]
    have hres : ({ t with viewOffset := 0, screenBuffer := sb } : Terminal) =
        { t with screenBuffer := sb } := by
      cases t; simp_all
    show updateDisplayBuffer { t with viewOffset := 0, screenBuffer := sb } = _
    rw [hres]
    unfold updateDisplayBuffer
    rw [if_pos (Or.inl hv)]
  · intro h0 h1
    have hn : newOffset t delta = 0 := by
      unfold newOffset
      rw [hv, zero_add, wrap64_eq h0 (by omega), if_pos h1]
    have hfirst : ScrollView t delta = some t := by
      rw [ScrollView_eq, hn, if_neg (by rw [hv]; exact not_not.mpr rfl), hself]
    rw [hfirst, Option.some_bind]

theorem C5_scroll_roundtrip_witness :
    ∃ sb, (ScrollView { newTerminalWith 3 2 2 with
            screenBuffer := [[asciiCell 99, blank], [blank, blank]],
            totalBuffer := [[asciiCell 97, blank], [asciiCell 98, blank], [blank, blank]],
            totalLines := 2 } 1).bind (fun t1 => ScrollView t1 (-1)) =
        some { newTerminalWith 3 2 2 with
            screenBuffer := sb,
            totalBuffer := [[asciiCell 97, blank], [asciiCell 98, blank], [blank, blank]],
            totalLines := 2 } ∧
      ∀ y, 0 ≤ y → y < 2 →
        idx? sb y =
          if max 0 (2 - min 1 (2 - 1) - 2) + y < 2 then
            idx? [[asciiCell 97, blank], [asciiCell 98, blank], [blank, blank]]
              (max 0 (2 - min 1 (2 - 1) - 2) + y)
          else some (blankRow 2) :=
  (C5_scroll_roundtrip { newTerminalWith 3 2 2 with
      screenBuffer := [[asciiCell 99, blank], [blank, blank]],
      totalBuffer := [[asciiCell 97, blank], [asciiCell 98, blank], [blank, blank]],
      totalLines := 2 } 1 rfl).2.1 (by decide) (by decide) (by decide) (by decide)

end VTerm
